import Mathlib

/-! # tgafunc_Cpp: a shallow embedding of the TGA codec

The definitions below follow `src/tgafunc_cpp.cpp` function by function.

Modelling conventions.

* A byte is a natural number below 256; buffers, files and color maps are lists of bytes.
* `uint8_t` / `uint16_t` / `size_t` values are naturals, reduced modulo `2^8`, `2^16`, `2^64`
  at the places where the C++ code converts or wraps; `int` values are integers, wrapped to
  32 bits (two's complement) where the code does `int` arithmetic that can leave the range.
* A function returns `none` when the C++ execution leaves defined behaviour: a `memcpy` or a
  stream read that touches bytes outside the vector it points into, or an exception thrown by
  a `std::vector` constructor or `resize`.  Every `some` result is a normal return.
* `std::ifstream` is a byte list with a read position and a fail flag.  A `read` that asks for
  more bytes than remain delivers what is left and sets the flag; once the flag is set every
  later `read` delivers nothing.  Whether `seekg` beyond the end of the file fails is a property
  of the platform, so it is a parameter (`strict`) and the theorems hold for both choices.
* `std::ofstream` is the list of bytes the device has taken, the bytes held in the stream
  buffer, the room left on the device and a fail flag.  How many bytes a `write` passes to the
  device during the call is a property of the library, so it is a parameter (`flush`) and the
  theorems hold for every choice; a `write` sets the flag only when the device does not take
  what the call passes to it, and `close` passes on what is still buffered.
* The host is little-endian (the code reads the 16-bit header fields by `read(&field, 2)`).
-/

namespace tga

/-! ## Enumerations and plain data (tgafunc_cpp.h, tgafunc_cpp.cpp lines 8-46) -/

/-- Error code list (`enum class tga_error`). -/
inductive tga_error
  | TGA_NO_ERROR
  | TGA_ERROR_OUT_OF_MEMORY
  | TGA_ERROR_FILE_CANNOT_READ
  | TGA_ERROR_FILE_CANNOT_WRITE
  | TGA_ERROR_NO_DATA
  | TGA_ERROR_UNSUPPORTED_COLOR_MAP_TYPE
  | TGA_ERROR_UNSUPPORTED_IMAGE_TYPE
  | TGA_ERROR_UNSUPPORTED_PIXEL_FORMAT
  | TGA_ERROR_INVALID_IMAGE_DIMENSIONS
  | TGA_ERROR_COLOR_MAP_INDEX_FAILED
  deriving DecidableEq, Repr

open tga_error

/-- Image pixel format (`enum class tga_pixel_format : uint8_t`): the underlying byte, so
that values outside the five enumerators (such as `static_cast<tga_pixel_format>(100)`)
exist, as they do in C++. -/
abbrev tga_pixel_format := Nat

abbrev TGA_PIXEL_BW8 : tga_pixel_format := 0
abbrev TGA_PIXEL_BW16 : tga_pixel_format := 1
abbrev TGA_PIXEL_RGB555 : tga_pixel_format := 2
abbrev TGA_PIXEL_RGB24 : tga_pixel_format := 3
abbrev TGA_PIXEL_ARGB32 : tga_pixel_format := 4

abbrev TGA_MAX_IMAGE_DIMENSIONS : Int := 65535

abbrev TGA_TYPE_NO_DATA : Nat := 0
abbrev TGA_TYPE_COLOR_MAPPED : Nat := 1
abbrev TGA_TYPE_TRUE_COLOR : Nat := 2
abbrev TGA_TYPE_GRAYSCALE : Nat := 3
abbrev TGA_TYPE_RLE_COLOR_MAPPED : Nat := 9
abbrev TGA_TYPE_RLE_TRUE_COLOR : Nat := 10
abbrev TGA_TYPE_RLE_GRAYSCALE : Nat := 11

abbrev HEADER_SIZE : Nat := 18

/-- The record `struct tga_info`. -/
structure tga_info where
  width : Nat
  height : Nat
  pixel_format : tga_pixel_format
  deriving DecidableEq, Repr

/-- The record `struct tga_header`. -/
structure tga_header where
  id_length : Nat
  map_type : Nat
  image_type : Nat
  map_first_entry : Nat
  map_length : Nat
  map_entry_size : Nat
  image_x_origin : Nat
  image_y_origin : Nat
  image_width : Nat
  image_height : Nat
  pixel_depth : Nat
  image_descriptor : Nat
  deriving DecidableEq, Repr

/-- The record `struct color_map`. -/
structure color_map where
  first_index : Nat
  entry_count : Nat
  bytes_per_entry : Nat
  pixels : List Nat
  deriving DecidableEq, Repr

/-- The data members of `class Image`. -/
structure Image where
  data : List Nat
  img_info : tga_info
  err : tga_error
  deriving DecidableEq, Repr

/-! ## Memory and streams -/

/-- Reading `n` bytes at offset `off` of a vector (the source side of a `memcpy`). -/
def mem_read (buf : List Nat) (off n : Nat) : Option (List Nat) :=
  if off + n ≤ buf.length then some ((buf.drop off).take n) else none

/-- Writing the bytes `src` at offset `off` of a vector (the destination side of a `memcpy`,
or the buffer a stream `read` fills). -/
def mem_write (buf : List Nat) (off : Nat) (src : List Nat) : Option (List Nat) :=
  if off + src.length ≤ buf.length then
    some (buf.take off ++ src ++ buf.drop (off + src.length))
  else none

/-- The call `std::vector<uint8_t>::resize(n)`: keeps the first `n` bytes, zero-fills growth. -/
def vector_resize (v : List Nat) (n : Nat) : List Nat :=
  v.take n ++ List.replicate (n - v.length) 0

/-- State of a `std::ifstream` opened on a file. -/
structure ifstream where
  bytes : List Nat
  pos : Nat
  failbit : Bool
  deriving DecidableEq, Repr

/-- The call `stream.read(buf, n)`: the bytes delivered (their number is `gcount()`) and the
stream afterwards. -/
def ifstream.read (s : ifstream) (n : Nat) : List Nat × ifstream :=
  if s.failbit then ([], s)
  else
    let got := (s.bytes.drop s.pos).take n
    if got.length = n then (got, { s with pos := s.pos + n })
    else (got, { s with pos := s.pos + got.length, failbit := true })

/-- The call `stream.seekg(off, std::ios::cur)`; `strict` says whether the platform refuses
to position beyond the end of the file. -/
def ifstream.seekg (strict : Bool) (s : ifstream) (off : Nat) : ifstream :=
  if s.failbit then s
  else if strict && decide (s.bytes.length < s.pos + off) then { s with failbit := true }
  else { s with pos := s.pos + off }

/-- State of a `std::ofstream`: the bytes the device has taken, the bytes held in the stream
buffer, the room left on the device, and the fail flag. -/
structure ofstream where
  written : List Nat
  pending : List Nat
  room : Nat
  failbit : Bool
  deriving DecidableEq, Repr

/-- The call `stream.write(src, n)`.  The library decides, from the number `p` of buffered
bytes and the length `n` of the request, how many of the buffered bytes followed by the
requested ones it passes to the device during the call (`flush p n` of them; the rest stays
buffered): `flush p n = 0` is a request that is only buffered, `flush p n = p + n` one that
goes to the device at once.  The call sets the fail flag only when the device does not take
what is passed to it. -/
def ofstream.write (flush : Nat → Nat → Nat) (s : ofstream) (src : List Nat) : ofstream :=
  if s.failbit then s
  else
    let out := (s.pending ++ src).take (flush s.pending.length src.length)
    if out.length ≤ s.room then
      { written := s.written ++ out,
        pending := (s.pending ++ src).drop (flush s.pending.length src.length),
        room := s.room - out.length, failbit := false }
    else { written := s.written ++ out.take s.room, pending := [], room := 0, failbit := true }

/-- The call `stream.close()`: the buffered bytes go to the device, and the fail flag is set
when the device does not take them. -/
def ofstream.close (s : ofstream) : ofstream :=
  if s.pending.length ≤ s.room then
    { s with written := s.written ++ s.pending, pending := [],
             room := s.room - s.pending.length }
  else { written := s.written ++ s.pending.take s.room, pending := [], room := 0,
         failbit := true }

/-- First byte of what a `read` delivered, as a `uint8_t` field. -/
def le8 (got : List Nat) : Nat := got.getD 0 0

/-- Two bytes that a `read` delivered, as a little-endian `uint16_t` field. -/
def le16 (got : List Nat) : Nat := got.getD 0 0 + 256 * got.getD 1 0

/-! ## Utilities (tgafunc_cpp.cpp lines 48-161) -/

def IS_SUPPORTED_IMAGE_TYPE (header : tga_header) : Bool :=
  header.image_type == TGA_TYPE_COLOR_MAPPED ||
  header.image_type == TGA_TYPE_TRUE_COLOR ||
  header.image_type == TGA_TYPE_GRAYSCALE ||
  header.image_type == TGA_TYPE_RLE_COLOR_MAPPED ||
  header.image_type == TGA_TYPE_RLE_TRUE_COLOR ||
  header.image_type == TGA_TYPE_RLE_GRAYSCALE

def IS_COLOR_MAPPED (header : tga_header) : Bool :=
  header.image_type == TGA_TYPE_COLOR_MAPPED ||
  header.image_type == TGA_TYPE_RLE_COLOR_MAPPED

def IS_TRUE_COLOR (header : tga_header) : Bool :=
  header.image_type == TGA_TYPE_TRUE_COLOR ||
  header.image_type == TGA_TYPE_RLE_TRUE_COLOR

def IS_GRAYSCALE (header : tga_header) : Bool :=
  header.image_type == TGA_TYPE_GRAYSCALE ||
  header.image_type == TGA_TYPE_RLE_GRAYSCALE

def IS_RLE (header : tga_header) : Bool :=
  header.image_type == TGA_TYPE_RLE_COLOR_MAPPED ||
  header.image_type == TGA_TYPE_RLE_TRUE_COLOR ||
  header.image_type == TGA_TYPE_RLE_GRAYSCALE

/-- The expression `((bit_count)-1) / 8 + 1` on an `int`: C division truncates toward zero. -/
def BITS_TO_BYTES (bit_count : Int) : Int := Int.tdiv (bit_count - 1) 8 + 1

def check_dimensions (width height : Int) : Bool :=
  !(decide (width ≤ 0) || decide (width > TGA_MAX_IMAGE_DIMENSIONS) || decide (height ≤ 0) ||
    decide (height > TGA_MAX_IMAGE_DIMENSIONS))

def pixel_format_to_pixel_size (format : tga_pixel_format) : Int :=
  if format = TGA_PIXEL_BW8 then 1
  else if format = TGA_PIXEL_BW16 ∨ format = TGA_PIXEL_RGB555 then 2
  else if format = TGA_PIXEL_RGB24 then 3
  else if format = TGA_PIXEL_ARGB32 then 4
  else -1

/-- The function `set_pixel_format(format, header)`: the first component is the value of the
reference parameter `format` after the call, the second the returned flag. -/
def set_pixel_format (format : tga_pixel_format) (header : tga_header) :
    tga_pixel_format × Bool :=
  if IS_COLOR_MAPPED header then
    if header.pixel_depth = 8 then
      if header.map_entry_size = 15 ∨ header.map_entry_size = 16 then (TGA_PIXEL_RGB555, true)
      else if header.map_entry_size = 24 then (TGA_PIXEL_RGB24, true)
      else if header.map_entry_size = 32 then (TGA_PIXEL_ARGB32, true)
      else (format, false)
    else (format, false)
  else if IS_TRUE_COLOR header then
    if header.pixel_depth = 16 then (TGA_PIXEL_RGB555, true)
    else if header.pixel_depth = 24 then (TGA_PIXEL_RGB24, true)
    else if header.pixel_depth = 32 then (TGA_PIXEL_ARGB32, true)
    else (format, false)
  else if IS_GRAYSCALE header then
    if header.pixel_depth = 8 then (TGA_PIXEL_BW8, true)
    else if header.pixel_depth = 16 then (TGA_PIXEL_BW16, true)
    else (format, false)
  else (format, false)

/-- The function `pixel_to_map_index(pixel_ptr)`, with `pixel_ptr = mem + off`. -/
def pixel_to_map_index (mem : List Nat) (off : Nat) : Option Nat :=
  (mem_read mem off 1).map le8

/-- The function `try_get_color_from_map(dest, index, map)`, with `dest = mem + off`: the
returned flag and the memory `dest` points into after the call.  `index -= first_index` is
done in `uint16_t`; in the test that follows `index` is promoted to `int`. -/
def try_get_color_from_map (mem : List Nat) (off : Nat) (index : Nat) (map : color_map) :
    Option (Bool × List Nat) :=
  let index : Nat := (((index : Int) - (map.first_index : Int)) % 65536).toNat
  if (index : Int) < 0 ∧ (index : Int) ≥ (map.entry_count : Int) then some (false, mem)
  else
    match mem_read map.pixels (map.bytes_per_entry * index) map.bytes_per_entry with
    | none => none
    | some entry =>
      match mem_write mem off entry with
      | none => none
      | some mem1 => some (true, mem1)

/-! ## Data decoders (tgafunc_cpp.cpp lines 163-266)

`data` is the vector the pointer `data` points into and `off` the distance of the pointer from
its start; the result is the returned error code, the vector and the stream after the call.
`pixel_count` is at most `65535 * 65535`, so the `size_t` products do not wrap. -/

/-- The `for` loop of the color-mapped branch of `decode_data` (lines 172-185). -/
def decode_data_mapped (pixel_size : Nat) (map : color_map) :
    Nat → List Nat → Nat → ifstream → Option (tga_error × List Nat × ifstream)
  | 0, data, _, stream => some (TGA_NO_ERROR, data, stream)
  | pixel_count + 1, data, off, stream =>
    let r := stream.read pixel_size
    match mem_write data off r.1 with
    | none => none
    | some data1 =>
      if r.1.length ≠ pixel_size then some (TGA_ERROR_FILE_CANNOT_READ, data1, r.2)
      else
        match pixel_to_map_index data1 off with
        | none => none
        | some index =>
          match try_get_color_from_map data1 off index map with
          | none => none
          | some (false, data2) => some (TGA_ERROR_COLOR_MAP_INDEX_FAILED, data2, r.2)
          | some (true, data2) =>
            decode_data_mapped pixel_size map pixel_count data2 (off + map.bytes_per_entry) r.2

def decode_data (data : List Nat) (info : tga_info) (pixel_size : Nat)
    (is_color_mapped : Bool) (map : color_map) (stream : ifstream) :
    Option (tga_error × List Nat × ifstream) :=
  let pixel_count := info.width * info.height
  if is_color_mapped then decode_data_mapped pixel_size map pixel_count data 0 stream
  else
    let data_size := pixel_count * pixel_size
    let r := stream.read data_size
    match mem_write data 0 r.1 with
    | none => none
    | some data1 =>
      if r.1.length ≠ data_size then some (TGA_ERROR_FILE_CANNOT_READ, data1, r.2)
      else some (TGA_NO_ERROR, data1, r.2)

/-- Lines 213-238 of `decode_data_rle`, run when `packet_count == 0`: reads the packet header
and, for a run-length packet, the pixel value.  The result is either the error the loop
breaks with, or the new `is_run_length_packet`, `packet_count` and `pixel_buffer`. -/
def decode_data_rle_packet (pixel_size : Nat) (is_color_mapped : Bool) (map : color_map)
    (pixel_buffer : List Nat) (stream : ifstream) :
    Option (Except tga_error (Bool × Nat × List Nat) × ifstream) :=
  let r := stream.read 1
  if r.1.length ≠ 1 then some (.error TGA_ERROR_FILE_CANNOT_READ, r.2)
  else
    let repetition_count_field := le8 r.1
    let is_run_length_packet := (repetition_count_field &&& 0x80) != 0
    let packet_count := (repetition_count_field &&& 0x7F) + 1
    if is_run_length_packet then
      let r2 := r.2.read pixel_size
      match mem_write pixel_buffer 0 r2.1 with
      | none => none
      | some pixel_buffer1 =>
        if r2.1.length ≠ pixel_size then some (.error TGA_ERROR_FILE_CANNOT_READ, r2.2)
        else if is_color_mapped then
          match pixel_to_map_index pixel_buffer1 0 with
          | none => none
          | some index =>
            match try_get_color_from_map pixel_buffer1 0 index map with
            | none => none
            | some (false, _) => some (.error TGA_ERROR_COLOR_MAP_INDEX_FAILED, r2.2)
            | some (true, pixel_buffer2) =>
              some (.ok (true, packet_count, pixel_buffer2), r2.2)
        else some (.ok (true, packet_count, pixel_buffer1), r2.2)
    else some (.ok (false, packet_count, pixel_buffer), r.2)

/-- Lines 241-259 of `decode_data_rle`: stores one pixel at `data + off`.  The first component
is `error_code` after the step (the loop breaks unless it is `TGA_NO_ERROR`). -/
def decode_data_rle_pixel (pixel_size data_element_size : Nat) (is_color_mapped : Bool)
    (map : color_map) (is_run_length_packet : Bool) (pixel_buffer data : List Nat) (off : Nat)
    (stream : ifstream) : Option (tga_error × List Nat × ifstream) :=
  if is_run_length_packet then
    match mem_read pixel_buffer 0 data_element_size with
    | none => none
    | some pixel =>
      match mem_write data off pixel with
      | none => none
      | some data1 => some (TGA_NO_ERROR, data1, stream)
  else
    let r := stream.read pixel_size
    match mem_write data off r.1 with
    | none => none
    | some data1 =>
      if r.1.length ≠ pixel_size then some (TGA_ERROR_FILE_CANNOT_READ, data1, r.2)
      else if is_color_mapped then
        match pixel_to_map_index data1 off with
        | none => none
        | some index =>
          match try_get_color_from_map data1 off index map with
          | none => none
          | some (false, data2) => some (TGA_ERROR_COLOR_MAP_INDEX_FAILED, data2, r.2)
          | some (true, data2) => some (TGA_NO_ERROR, data2, r.2)
      else some (TGA_NO_ERROR, data1, r.2)

/-- The `for` loop of `decode_data_rle` (lines 211-263); `--packet_count` is a `uint8_t`
decrement. -/
def decode_data_rle_loop (pixel_size data_element_size : Nat) (is_color_mapped : Bool)
    (map : color_map) :
    Nat → Bool → Nat → List Nat → List Nat → Nat → ifstream →
      Option (tga_error × List Nat × ifstream)
  | 0, _, _, _, data, _, stream => some (TGA_NO_ERROR, data, stream)
  | pixel_count + 1, is_run_length_packet, packet_count, pixel_buffer, data, off, stream =>
    match (if packet_count = 0 then
        decode_data_rle_packet pixel_size is_color_mapped map pixel_buffer stream
      else some (.ok (is_run_length_packet, packet_count, pixel_buffer), stream)) with
    | none => none
    | some (.error e, stream1) => some (e, data, stream1)
    | some (.ok (is_run_length_packet1, packet_count1, pixel_buffer1), stream1) =>
      match decode_data_rle_pixel pixel_size data_element_size is_color_mapped map
          is_run_length_packet1 pixel_buffer1 data off stream1 with
      | none => none
      | some (e, data1, stream2) =>
        if e ≠ TGA_NO_ERROR then some (e, data1, stream2)
        else
          decode_data_rle_loop pixel_size data_element_size is_color_mapped map pixel_count
            is_run_length_packet1 ((packet_count1 + 255) % 256) pixel_buffer1 data1
            (off + data_element_size) stream2

def decode_data_rle (data : List Nat) (info : tga_info) (pixel_size : Nat)
    (is_color_mapped : Bool) (map : color_map) (stream : ifstream) :
    Option (tga_error × List Nat × ifstream) :=
  let pixel_count := info.width * info.height
  let pixel_buffer :=
    List.replicate (if is_color_mapped then map.bytes_per_entry else pixel_size) 0
  let data_element_size := (pixel_format_to_pixel_size info.pixel_format % 256).toNat
  decode_data_rle_loop pixel_size data_element_size is_color_mapped map pixel_count false 0
    pixel_buffer data 0 stream

/-! ## Encoder (tgafunc_cpp.cpp lines 268-300) -/

/-- The 18 header bytes that `save_image` builds (lines 270-288). -/
def save_image_header (info : tga_info) : List Nat :=
  let pixel_size := pixel_format_to_pixel_size info.pixel_format
  let header := List.replicate HEADER_SIZE 0
  let header :=
    if info.pixel_format = TGA_PIXEL_BW8 ∨ info.pixel_format = TGA_PIXEL_BW16 then
      header.set 2 TGA_TYPE_GRAYSCALE
    else header.set 2 TGA_TYPE_TRUE_COLOR
  let header := header.set 12 (info.width &&& 0xFF)
  let header := header.set 13 ((info.width >>> 8) &&& 0xFF)
  let header := header.set 14 (info.height &&& 0xFF)
  let header := header.set 15 ((info.height >>> 8) &&& 0xFF)
  let header := header.set 16 ((pixel_size * 8) % 256).toNat
  if info.pixel_format = TGA_PIXEL_ARGB32 then header.set 17 0x28 else header.set 17 0x20

/-- The function `save_image(data, info, stream)`; `data_size` is a `size_t` product. -/
def save_image (flush : Nat → Nat → Nat) (data : List Nat) (info : tga_info)
    (stream : ofstream) : Option (tga_error × ofstream) :=
  let pixel_size := pixel_format_to_pixel_size info.pixel_format
  let stream1 := stream.write flush (save_image_header info)
  if stream1.failbit then some (TGA_ERROR_FILE_CANNOT_WRITE, stream1)
  else
    let data_size := ((((info.width * info.height : Nat) : Int) * pixel_size) % 2 ^ 64).toNat
    match mem_read data 0 data_size with
    | none => none
    | some pixels =>
      let stream2 := stream1.write flush pixels
      if stream2.failbit then some (TGA_ERROR_FILE_CANNOT_WRITE, stream2)
      else some (TGA_NO_ERROR, stream2)

/-! ## tga::Image (tgafunc_cpp.cpp lines 303-543) -/

/-- Largest size a `std::vector<uint8_t>` accepts (`max_size()`, `PTRDIFF_MAX`). -/
abbrev vector_max_size : Nat := 2 ^ 63 - 1

/-- Result of an `int` operation, wrapped to 32 bits two's complement. -/
def wrap_int (z : Int) : Int := (z + 2 ^ 31) % 2 ^ 32 - 2 ^ 31

/-- The constructor `Image::Image(int width, int height, tga_pixel_format format)`.  After an
unsupported format the code does not return: it goes on to `data.resize` with the `size_t`
value of `width * height * -1`, and `resize` throws when that exceeds `max_size()`. -/
def Image.create (width height : Int) (format : tga_pixel_format) : Option Image :=
  let img_info : tga_info :=
    { width := (width % 65536).toNat, height := (height % 65536).toNat, pixel_format := format }
  if !check_dimensions width height then
    some { data := [], img_info := img_info, err := TGA_ERROR_INVALID_IMAGE_DIMENSIONS }
  else
    let pixel_size := pixel_format_to_pixel_size format
    let size := ((width * height * pixel_size) % 2 ^ 64).toNat
    if size > vector_max_size then none
    else some { data := vector_resize [] size, img_info := img_info, err := TGA_NO_ERROR }

/-- The function `Image::get_pixel(x, y)`: the distance of the returned pointer from
`data.data()`, computed in `int`. -/
def Image.get_pixel (img : Image) (x y : Int) : Int :=
  let x := if x < 0 then 0 else if x ≥ (img.img_info.width : Int) then
    (img.img_info.width : Int) - 1 else x
  let y := if y < 0 then 0 else if y ≥ (img.img_info.height : Int) then
    (img.img_info.height : Int) - 1 else y
  let pixel_size := pixel_format_to_pixel_size img.img_info.pixel_format
  wrap_int (wrap_int (wrap_int (y * (img.img_info.width : Int)) + x) * pixel_size)

/-- The three `memcpy` calls that swap the pixels at `data.data() + p1` and
`data.data() + p2` (lines 481-483 and 500-502). -/
def swap_pixels (data : List Nat) (p1 p2 : Int) (pixel_size : Nat) : Option (List Nat) :=
  if p1 < 0 ∨ p2 < 0 then none
  else
    match mem_read data p1.toNat pixel_size with
    | none => none
    | some temp =>
      match mem_read data p2.toNat pixel_size with
      | none => none
      | some pixel2 =>
        match mem_write data p1.toNat pixel2 with
        | none => none
        | some data1 => mem_write data1 p2.toNat temp

/-- The function `Image::flip_h()`; `std::vector<uint8_t> temp(pixel_size)` throws for a
negative `pixel_size`. -/
def Image.flip_h (img : Image) : Option Image :=
  if img.data.isEmpty then some img
  else
    let pixel_size := pixel_format_to_pixel_size img.img_info.pixel_format
    if pixel_size < 0 then none
    else
      let flip_num := img.img_info.width / 2
      ((List.range flip_num).foldlM (fun data (i : Nat) =>
        (List.range img.img_info.height).foldlM (fun data (j : Nat) =>
          swap_pixels data (img.get_pixel i j)
            (img.get_pixel ((img.img_info.width : Int) - 1 - i) j) pixel_size.toNat) data)
        img.data).map (fun data => { img with data := data })

/-- The function `Image::flip_v()`. -/
def Image.flip_v (img : Image) : Option Image :=
  if img.data.isEmpty then some img
  else
    let pixel_size := pixel_format_to_pixel_size img.img_info.pixel_format
    if pixel_size < 0 then none
    else
      let flip_num := img.img_info.height / 2
      ((List.range flip_num).foldlM (fun data (i : Nat) =>
        (List.range img.img_info.width).foldlM (fun data (j : Nat) =>
          swap_pixels data (img.get_pixel j i)
            (img.get_pixel j ((img.img_info.height : Int) - 1 - i)) pixel_size.toNat) data)
        img.data).map (fun data => { img with data := data })

/-- The twelve header reads of `Image::load` (lines 336-347). -/
def read_header (inFile : ifstream) : tga_header × ifstream :=
  let r0 := inFile.read 1
  let r1 := r0.2.read 1
  let r2 := r1.2.read 1
  let r3 := r2.2.read 2
  let r4 := r3.2.read 2
  let r5 := r4.2.read 1
  let r6 := r5.2.read 2
  let r7 := r6.2.read 2
  let r8 := r7.2.read 2
  let r9 := r8.2.read 2
  let r10 := r9.2.read 1
  let r11 := r10.2.read 1
  ({ id_length := le8 r0.1, map_type := le8 r1.1, image_type := le8 r2.1,
     map_first_entry := le16 r3.1, map_length := le16 r4.1, map_entry_size := le8 r5.1,
     image_x_origin := le16 r6.1, image_y_origin := le16 r7.1, image_width := le16 r8.1,
     image_height := le16 r9.1, pixel_depth := le8 r10.1, image_descriptor := le8 r11.1 },
   r11.2)

/-- Lines 391-414 of `Image::load`, the color map field: the color map the decoders are
given (the default-constructed one unless the image is color-mapped) and the stream, or no
color map when the block ends in `TGA_ERROR_FILE_CANNOT_READ`. -/
def load_color_map (strict : Bool) (header : tga_header) (inFile : ifstream) :
    Option (Option color_map × ifstream) :=
  let is_color_mapped := IS_COLOR_MAPPED header
  let map_size := ((header.map_length : Int) * BITS_TO_BYTES header.map_entry_size).toNat
  let empty_map : color_map :=
    { first_index := 0, entry_count := 0, bytes_per_entry := 0, pixels := [] }
  if is_color_mapped then
    let r := inFile.read map_size
    match mem_write (vector_resize [] map_size) 0 r.1 with
    | none => none
    | some pixels =>
      if r.1.length ≠ map_size then some (none, r.2)
      else
        some (some { first_index := header.map_first_entry,
                     entry_count := header.map_length,
                     bytes_per_entry := (BITS_TO_BYTES header.map_entry_size % 256).toNat,
                     pixels := pixels }, r.2)
  else if header.map_type = 1 then
    let inFile1 := inFile.seekg strict map_size
    if inFile1.failbit then some (none, inFile1) else some (some empty_map, inFile1)
  else some (some empty_map, inFile)

/-- Lines 433-441 of `Image::load`: the flips that bring the origin to the upper left. -/
def Image.load_flips (img : Image) (image_descriptor : Nat) : Option Image :=
  let b_flip_h := (image_descriptor &&& 0x10) != 0
  let b_flip_v := !((image_descriptor &&& 0x20) != 0)
  match (if b_flip_h then img.flip_h else some img) with
  | none => none
  | some img1 => if b_flip_v then img1.flip_v else some img1

/-- Lines 416-427 of `Image::load`: `data.resize` and the call of the decoder.  The header
fields are 16-bit and the pixel size is at most 4, so `resize` cannot exceed `max_size()`. -/
def Image.load_decode (img : Image) (header : tga_header) (color_map : color_map)
    (inFile : ifstream) : Option (tga_error × List Nat × ifstream) :=
  let data := vector_resize img.data
    (header.image_width * header.image_height *
      (pixel_format_to_pixel_size img.img_info.pixel_format).toNat)
  let pixel_size := (BITS_TO_BYTES header.pixel_depth % 256).toNat
  if IS_RLE header then
    decode_data_rle data img.img_info pixel_size (IS_COLOR_MAPPED header) color_map inFile
  else decode_data data img.img_info pixel_size (IS_COLOR_MAPPED header) color_map inFile

/-- Lines 386-444 of `Image::load`: color map, decoding and flips, for a header that passed
the checks.  `img` already carries the new `img_info`. -/
def Image.load_body (strict : Bool) (img : Image) (header : tga_header) (inFile : ifstream) :
    Option (Image × Bool × ifstream) :=
  match load_color_map strict header inFile with
  | none => none
  | some (none, inFile1) => some ({ img with err := TGA_ERROR_FILE_CANNOT_READ }, false, inFile1)
  | some (some color_map, inFile1) =>
    match img.load_decode header color_map inFile1 with
    | none => none
    | some (e, data1, inFile2) =>
      let img1 : Image := { data := data1, img_info := img.img_info, err := e }
      if e ≠ TGA_NO_ERROR then some (img1, false, inFile2)
      else
        match img1.load_flips header.image_descriptor with
        | none => none
        | some img2 => some (img2, true, inFile2)

/-- Lines 353-384 of `Image::load`: the checks on the header that was read, the new
`img_info` and the skip of the ID field. -/
def Image.load_checks (strict : Bool) (img : Image) (header : tga_header) (inFile : ifstream) :
    Option (Image × Bool × ifstream) :=
  if header.map_type > 1 then
    some ({ img with err := TGA_ERROR_UNSUPPORTED_COLOR_MAP_TYPE }, false, inFile)
  else if header.image_type = TGA_TYPE_NO_DATA then
    some ({ img with err := TGA_ERROR_NO_DATA }, false, inFile)
  else if !IS_SUPPORTED_IMAGE_TYPE header then
    some ({ img with err := TGA_ERROR_UNSUPPORTED_IMAGE_TYPE }, false, inFile)
  else if header.image_width ≤ 0 ∨ header.image_height ≤ 0 then
    some ({ img with err := TGA_ERROR_INVALID_IMAGE_DIMENSIONS }, false, inFile)
  else
    let pf := set_pixel_format img.img_info.pixel_format header
    if !pf.2 then
      some ({ img with img_info := { img.img_info with pixel_format := pf.1 },
                       err := TGA_ERROR_UNSUPPORTED_PIXEL_FORMAT }, false, inFile)
    else
      let img1 : Image :=
        { img with img_info := { width := header.image_width, height := header.image_height,
                                 pixel_format := pf.1 } }
      let inFile1 := inFile.seekg strict header.id_length
      if inFile1.failbit then
        some ({ img1 with err := TGA_ERROR_FILE_CANNOT_READ }, false, inFile1)
      else Image.load_body strict img1 header inFile1

/-- The function `Image::load` once the file is open: the image, the returned flag and the
stream when the function returns. -/
def Image.load_stream (strict : Bool) (img : Image) (inFile : ifstream) :
    Option (Image × Bool × ifstream) :=
  let hr := read_header inFile
  if hr.2.failbit then some ({ img with err := TGA_ERROR_FILE_CANNOT_READ }, false, hr.2)
  else Image.load_checks strict img hr.1 hr.2

/-- The function `Image::load(filepath)`; `file` is the content of the file at `filepath`,
`none` when it cannot be opened. -/
def Image.load (strict : Bool) (img : Image) (file : Option (List Nat)) :
    Option (Image × Bool) :=
  match file with
  | none => some ({ img with err := TGA_ERROR_FILE_CANNOT_READ }, false)
  | some bytes =>
    (Image.load_stream strict img { bytes := bytes, pos := 0, failbit := false }).map
      (fun r => (r.1, r.2.1))

/-- The function `Image::save(filepath)`; `room` is what the device accepts, `none` when the
file cannot be opened for writing.  The third component is the content of the file at
`filepath` that the call leaves behind, `none` when it leaves no file (never opened, or
removed after a failed write).  The state of the stream after `close` is not tested. -/
def Image.save (flush : Nat → Nat → Nat) (img : Image) (room : Option Nat) :
    Option (Image × Bool × Option (List Nat)) :=
  if img.data.isEmpty then some ({ img with err := TGA_ERROR_NO_DATA }, false, none)
  else
    match room with
    | none => some ({ img with err := TGA_ERROR_FILE_CANNOT_WRITE }, false, none)
    | some room =>
      match save_image flush img.data img.img_info
          { written := [], pending := [], room := room, failbit := false } with
      | none => none
      | some (e, outFile) =>
        let outFile1 := outFile.close
        some ({ img with err := e }, true,
          if e ≠ TGA_NO_ERROR then none else some outFile1.written)

/-- The accessor `Image::last_error()` (line 507). -/
def Image.last_error (img : Image) : tga_error := img.err

/-- The accessor `Image::get_width()`. -/
def Image.get_width (img : Image) : Nat := img.img_info.width

/-- The accessor `Image::get_height()`. -/
def Image.get_height (img : Image) : Nat := img.img_info.height

/-- The accessor `Image::get_pixel_format()`. -/
def Image.get_pixel_format (img : Image) : tga_pixel_format := img.img_info.pixel_format

/-- The accessor `Image::get_pixel_size()`: the `int` that `pixel_format_to_pixel_size`
returns, converted to `uint8_t`. -/
def Image.get_pixel_size (img : Image) : Nat :=
  (pixel_format_to_pixel_size img.img_info.pixel_format % 256).toNat

/-- The constructor `Image::Image(std::string_view filepath)` (line 323).  When it calls
`load` the vector is empty and `err` is `TGA_NO_ERROR`; `img_info` has no initialiser, so
its value at that point is a parameter. -/
def Image.from_file (strict : Bool) (img_info : tga_info) (file : Option (List Nat)) :
    Option Image :=
  (Image.load strict { data := [], img_info := img_info, err := TGA_NO_ERROR } file).map
    (fun r => r.1)

/-! ## Reference definitions, worded as the specification words them -/

/-- The header fields at the offsets section 4.1 of the specification lists, 16-bit fields
little-endian. -/
def parse_header (bytes : List Nat) : tga_header :=
  { id_length := bytes.getD 0 0, map_type := bytes.getD 1 0, image_type := bytes.getD 2 0,
    map_first_entry := bytes.getD 3 0 + 256 * bytes.getD 4 0,
    map_length := bytes.getD 5 0 + 256 * bytes.getD 6 0,
    map_entry_size := bytes.getD 7 0,
    image_x_origin := bytes.getD 8 0 + 256 * bytes.getD 9 0,
    image_y_origin := bytes.getD 10 0 + 256 * bytes.getD 11 0,
    image_width := bytes.getD 12 0 + 256 * bytes.getD 13 0,
    image_height := bytes.getD 14 0 + 256 * bytes.getD 15 0,
    pixel_depth := bytes.getD 16 0, image_descriptor := bytes.getD 17 0 }

/-- The table of the pixel format resolver (section 4.2 of the specification): the format
for an image type, pixel depth and color-map entry size, `none` for a rejected combination. -/
def resolver_table (image_type pixel_depth map_entry_size : Nat) : Option tga_pixel_format :=
  if image_type = 1 ∨ image_type = 9 then
    if pixel_depth = 8 then
      if map_entry_size = 15 ∨ map_entry_size = 16 then some TGA_PIXEL_RGB555
      else if map_entry_size = 24 then some TGA_PIXEL_RGB24
      else if map_entry_size = 32 then some TGA_PIXEL_ARGB32
      else none
    else none
  else if image_type = 2 ∨ image_type = 10 then
    if pixel_depth = 16 then some TGA_PIXEL_RGB555
    else if pixel_depth = 24 then some TGA_PIXEL_RGB24
    else if pixel_depth = 32 then some TGA_PIXEL_ARGB32
    else none
  else if image_type = 3 ∨ image_type = 11 then
    if pixel_depth = 8 then some TGA_PIXEL_BW8
    else if pixel_depth = 16 then some TGA_PIXEL_BW16
    else none
  else none

/-- The decision list of the header checks, in the order the specification gives them:
the error of the first check that applies, `none` when the header is accepted. -/
def header_verdict (bytes : List Nat) : Option tga_error :=
  let header := parse_header bytes
  if bytes.length < 18 then some TGA_ERROR_FILE_CANNOT_READ
  else if header.map_type > 1 then some TGA_ERROR_UNSUPPORTED_COLOR_MAP_TYPE
  else if header.image_type = 0 then some TGA_ERROR_NO_DATA
  else if header.image_type ∉ [1, 2, 3, 9, 10, 11] then some TGA_ERROR_UNSUPPORTED_IMAGE_TYPE
  else if header.image_width = 0 ∨ header.image_height = 0 then
    some TGA_ERROR_INVALID_IMAGE_DIMENSIONS
  else if resolver_table header.image_type header.pixel_depth header.map_entry_size = none then
    some TGA_ERROR_UNSUPPORTED_PIXEL_FORMAT
  else none

/-- The 18 header bytes the specification prescribes for the encoder (section 4.6). -/
def encoder_header (info : tga_info) : List Nat :=
  [0, 0, if info.pixel_format = TGA_PIXEL_BW8 ∨ info.pixel_format = TGA_PIXEL_BW16 then 3 else 2,
   0, 0, 0, 0, 0, 0, 0, 0, 0,
   info.width % 256, info.width / 256, info.height % 256, info.height / 256,
   8 * (pixel_format_to_pixel_size info.pixel_format).toNat,
   if info.pixel_format = TGA_PIXEL_ARGB32 then 0x28 else 0x20]

/-- The bytes a stored pixel becomes in the output buffer (sections 4.3 and 4.4 of the
specification): the pixel itself, or for a color-mapped image the `bytes_per_entry` bytes of
the color-map entry at its first byte minus `first_index` (taken as a 16-bit unsigned
value); `none` when that entry lies outside the color map. -/
def stored_pixel_output (is_color_mapped : Bool) (map : color_map) (pixel : List Nat) :
    Option (List Nat) :=
  if is_color_mapped then
    mem_read map.pixels
      (map.bytes_per_entry * (((pixel.getD 0 0 : Int) - (map.first_index : Int)) % 65536).toNat)
      map.bytes_per_entry
  else some pixel

/-- A stream in good state whose unread bytes are `tail`. -/
def stream_at (s : ifstream) (tail : List Nat) : Prop :=
  s.failbit = false ∧ s.bytes.drop s.pos = tail

/-- The stream after `n` more bytes were read. -/
def ifstream.advance (s : ifstream) (n : Nat) : ifstream := { s with pos := s.pos + n }

/-- The output bytes of a sequence of stored pixels, in order; `none` when one of them has
no output. -/
def stored_pixels_output (is_color_mapped : Bool) (map : color_map) :
    List (List Nat) → Option (List Nat)
  | [] => some []
  | pixel :: rest =>
    match stored_pixel_output is_color_mapped map pixel with
    | none => none
    | some out =>
      match stored_pixels_output is_color_mapped map rest with
      | none => none
      | some outs => some (out ++ outs)

/-- Entry `j` of a color map: its `bytes_per_entry` bytes, entries in ascending order. -/
def color_map_entry (map : color_map) (j : Nat) : List Nat :=
  (map.pixels.drop (j * map.bytes_per_entry)).take map.bytes_per_entry

/-- A run-length-encoding packet (section 4.4 of the specification): a run-length packet
holds one pixel value standing for `count` copies, a raw packet holds literal pixel values. -/
inductive rle_packet
  | run (count : Nat) (pixel : List Nat)
  | raw (pixels : List (List Nat))
  deriving DecidableEq, Repr

/-- The number `N` of pixels a packet stands for. -/
def rle_packet.count : rle_packet → Nat
  | .run count _ => count
  | .raw pixels => pixels.length

/-- The bytes of a packet: the header byte, whose high bit marks a run-length packet and
whose low 7 bits hold `N - 1`, then the pixel value or the `N` literal pixel values. -/
def rle_packet.encode : rle_packet → List Nat
  | .run count pixel => (0x80 + (count - 1)) :: pixel
  | .raw pixels => (pixels.length - 1) :: pixels.flatten

/-- The pixels a packet stands for. -/
def rle_packet.expand : rle_packet → List (List Nat)
  | .run count pixel => List.replicate count pixel
  | .raw pixels => pixels

/-- A packet is well formed for a pixel size: `N` ranges over 1..128 and every pixel value
has `pixel_size` bytes. -/
def rle_packet.wf (pixel_size : Nat) : rle_packet → Bool
  | .run count pixel => decide (1 ≤ count) && decide (count ≤ 128) && (pixel.length == pixel_size)
  | .raw pixels =>
    decide (1 ≤ pixels.length) && decide (pixels.length ≤ 128) &&
      pixels.all (fun pixel => pixel.length == pixel_size)

/-- Size in bytes of the color map that `load` computes from a header (`map_size`). -/
def header_map_size (header : tga_header) : Nat :=
  ((header.map_length : Int) * BITS_TO_BYTES header.map_entry_size).toNat

/-- Number of bytes between the ID field and the image data that `load` reads or skips: the
color map when the image is color-mapped or the header announces a color map. -/
def color_map_block (header : tga_header) : Nat :=
  if IS_COLOR_MAPPED header = true ∨ header.map_type = 1 then header_map_size header else 0

/-- The color map `load` hands to the decoders when the color map block starts at offset
`pos` of the file `bytes`. -/
def file_color_map (header : tga_header) (bytes : List Nat) (pos : Nat) : color_map :=
  if IS_COLOR_MAPPED header = true then
    { first_index := header.map_first_entry, entry_count := header.map_length,
      bytes_per_entry := (BITS_TO_BYTES header.map_entry_size % 256).toNat,
      pixels := (bytes.drop pos).take (header_map_size header) }
  else { first_index := 0, entry_count := 0, bytes_per_entry := 0, pixels := [] }

/-- The `img_info` that `load` sets for an accepted header. -/
def header_info (img : Image) (header : tga_header) : tga_info :=
  { width := header.image_width, height := header.image_height,
    pixel_format :=
      (resolver_table header.image_type header.pixel_depth header.map_entry_size).getD
        img.img_info.pixel_format }

/-- Offset of the image data in a file whose header is `header`. -/
def data_offset (header : tga_header) : Nat :=
  18 + header.id_length + color_map_block header

/-- What `load` returns once the decoder has returned error code and buffer: `false` with
the error, or the flipped image with `true` (lines 429-443). -/
def load_finish (info : tga_info) (image_descriptor : Nat) :
    Option (tga_error × List Nat) → Option (Image × Bool)
  | none => none
  | some (e, data1) =>
    if e ≠ TGA_NO_ERROR then some (⟨data1, info, e⟩, false)
    else (Image.load_flips ⟨data1, info, e⟩ image_descriptor).map (fun i => (i, true))

/-- The stream opened on the first `n` bytes of a file, at the same position. -/
def ifstream.truncate (s : ifstream) (n : Nat) : ifstream := { s with bytes := s.bytes.take n }

/-- The header passes the checks of `load` (lines 353-374). -/
def header_passes (img : Image) (header : tga_header) : Prop :=
  ¬ header.map_type > 1 ∧ header.image_type ≠ TGA_TYPE_NO_DATA ∧
    IS_SUPPORTED_IMAGE_TYPE header = true ∧
    ¬ (header.image_width ≤ 0 ∨ header.image_height ≤ 0) ∧
    (set_pixel_format img.img_info.pixel_format header).2 = true

/-- The image with the `img_info` that `load` sets once the header has passed (lines
371-377). -/
def Image.with_header (img : Image) (header : tga_header) : Image :=
  { img with img_info :=
      { width := header.image_width, height := header.image_height,
        pixel_format := (set_pixel_format img.img_info.pixel_format header).1 } }

/-- The pixel at column `x` and row `y` of a row-major buffer: `pixel_size` bytes from byte
`(y * width + x) * pixel_size` on. -/
def pixel_at (data : List Nat) (width pixel_size x y : Nat) : List Nat :=
  (data.drop ((y * width + x) * pixel_size)).take pixel_size

/-- The pixel that sits at index `k` once the pixels at indices `a` and `b` were swapped. -/
def swap_idx (a b k : Nat) : Nat := if k = b then a else if k = a then b else k

/-- The pixel that sits at index `k` once the steps `σ 0`, ..., `σ (n - 1)` were done in
this order, each step `σ i` putting at index `k` the pixel that was at index `σ i k`. -/
def comp_perm (σ : Nat → Nat → Nat) : Nat → Nat → Nat
  | 0, k => k
  | n + 1, k => comp_perm σ n (σ n k)

/-- The decoded buffer before the flips: what lines 353-431 of `Image::load` leave in `data`
when the header passes the checks and the decoder ends with `TGA_NO_ERROR`. -/
def Image.load_stored (strict : Bool) (img : Image) (bytes : List Nat) : Option (List Nat) :=
  let header := parse_header bytes
  let inFile : ifstream := { bytes := bytes, pos := 18, failbit := false }
  match load_color_map strict header (inFile.seekg strict header.id_length) with
  | some (some color_map, inFile1) =>
    match (img.with_header header).load_decode header color_map inFile1 with
    | some (e, data, _) => if e = TGA_NO_ERROR then some data else none
    | none => none
  | _ => none

/-- What the decoder call of `load` (lines 419-427) returns for a file, error code and buffer;
`none` when `load` returns before it reaches that call (lines 325-414: short header, rejected
header, ID field or color map that cannot be read). -/
def Image.load_decoded (strict : Bool) (img : Image) (bytes : List Nat) :
    Option (tga_error × List Nat) :=
  let header := parse_header bytes
  if bytes.length < 18 ∨ header.map_type > 1 ∨ header.image_type = TGA_TYPE_NO_DATA ∨
      IS_SUPPORTED_IMAGE_TYPE header = false ∨
      (header.image_width ≤ 0 ∨ header.image_height ≤ 0) ∨
      (set_pixel_format img.img_info.pixel_format header).2 = false then none
  else
    let inFile1 := ifstream.seekg strict ⟨bytes, 18, false⟩ header.id_length
    if inFile1.failbit then none
    else
      match load_color_map strict header inFile1 with
      | some (some color_map, inFile2) =>
        ((img.with_header header).load_decode header color_map inFile2).map
          (fun r => (r.1, r.2.1))
      | _ => none

/-- The buffer-length invariant of an image: the buffer is empty, or it has `width * height *
pixel_size` bytes for the width, height and pixel size the image reports. -/
def buffer_invariant (img : Image) : Prop :=
  img.data = [] ∨ img.data.length = img.get_width * img.get_height * img.get_pixel_size

/-- The header of the file is accepted and `load` returns before it calls the decoder: the ID
field or the color map cannot be read (lines 381-384 and 400-412). -/
def fails_before_decoder (strict : Bool) (img : Image) (file : Option (List Nat)) : Prop :=
  ∃ bytes, file = some bytes ∧ 18 ≤ bytes.length ∧ header_passes img (parse_header bytes) ∧
    Image.load_decoded strict img bytes = none

/-- The images a sequence of operations leaves: the two constructors, then `load`, `flip_h` and
`flip_v` in any order, each on the image the operation before it left.  With `any_reload =
false` the sequence has no `load` that fails between the header checks and the decoder. -/
inductive reached (any_reload : Bool) : Image → Prop
  | create (width height : Int) (format : tga_pixel_format) (img : Image) :
      Image.create width height format = some img → reached any_reload img
  | from_file (strict : Bool) (img_info : tga_info) (file : Option (List Nat)) (img : Image) :
      Image.from_file strict img_info file = some img → reached any_reload img
  | load (strict : Bool) (img : Image) (file : Option (List Nat)) (img' : Image) (ok : Bool) :
      reached any_reload img → Image.load strict img file = some (img', ok) →
      (any_reload = true ∨ ¬ fails_before_decoder strict img file) → reached any_reload img'
  | flip_h (img img' : Image) :
      reached any_reload img → img.flip_h = some img' → reached any_reload img'
  | flip_v (img img' : Image) :
      reached any_reload img → img.flip_v = some img' → reached any_reload img'

/-- The lookup of the index byte `b` reads outside the color map: the `bytes_per_entry` bytes
at entry `b - first_index` (a `uint16_t` difference) are not all inside `pixels`. -/
def color_map.leaves (map : color_map) (b : Nat) : Prop :=
  mem_read map.pixels
    (map.bytes_per_entry * (((b : Int) - (map.first_index : Int)) % 65536).toNat)
    map.bytes_per_entry = none

/-- The run of a decoder on the stream `s` stops at the lookup of the index byte at position
`p`: the lookup of that byte reads outside the color map, the run on the stream cut after
the byte has no result, and the run on the stream cut before the byte returns (it finds the
stream too short). -/
def stops_at_lookup {α : Type} (run : ifstream → Option α) (map : color_map) (s : ifstream) :
    Prop :=
  ∃ p, s.pos ≤ p ∧ p < s.bytes.length ∧ map.leaves (s.bytes.getD p 0) ∧
    run (s.truncate (p + 1)) = none ∧ ∃ r, run (s.truncate p) = some r

/-- The color map as the machine addresses it: the vector followed by the bytes `heap` that
lie behind it in memory. -/
def color_map.followed_by (map : color_map) (heap : List Nat) : color_map :=
  { first_index := map.first_index, entry_count := map.entry_count,
    bytes_per_entry := map.bytes_per_entry, pixels := map.pixels ++ heap }

/-! ## Streams and the header reads -/

theorem read_of_le (bytes : List Nat) (pos n : Nat) (h : pos + n ≤ bytes.length) :
    ifstream.read ⟨bytes, pos, false⟩ n = ((bytes.drop pos).take n, ⟨bytes, pos + n, false⟩) := by
  have hl : ((bytes.drop pos).take n).length = n := by simp; omega
  simp only [ifstream.read, Bool.false_eq_true, if_false, hl, if_true]

theorem read_of_failbit (s : ifstream) (n : Nat) (h : s.failbit = true) :
    s.read n = ([], s) := by
  simp [ifstream.read, h]

theorem read_good {s : ifstream} {n : Nat} (hn : 0 < n) (h : (s.read n).2.failbit = false) :
    s.failbit = false ∧ s.pos + n ≤ s.bytes.length ∧ (s.read n).2.pos = s.pos + n ∧
      (s.read n).2.bytes = s.bytes := by
  have hlen : ((s.bytes.drop s.pos).take n).length = n ↔ s.pos + n ≤ s.bytes.length := by
    simp; omega
  unfold ifstream.read at h ⊢
  cases hf : s.failbit
  · simp only [hf, Bool.false_eq_true, if_false] at h ⊢
    by_cases hl : ((s.bytes.drop s.pos).take n).length = n
    · rw [if_pos hl] at h ⊢
      exact ⟨trivial, hlen.1 hl, rfl, rfl⟩
    · rw [if_neg hl] at h
      simp at h
  · simp [hf] at h

theorem le8_take_drop (l : List Nat) (k : Nat) : le8 ((l.drop k).take 1) = l.getD k 0 := by
  simp [le8, List.getD_eq_getElem?_getD, List.getElem?_take, List.getElem?_drop]

theorem le16_take_drop (l : List Nat) (k : Nat) :
    le16 ((l.drop k).take 2) = l.getD k 0 + 256 * l.getD (k + 1) 0 := by
  simp [le16, List.getD_eq_getElem?_getD, List.getElem?_take, List.getElem?_drop]

theorem read_header_full (bytes : List Nat) (h : 18 ≤ bytes.length) :
    read_header ⟨bytes, 0, false⟩ = (parse_header bytes, ⟨bytes, 18, false⟩) := by
  simp (disch := omega) only [read_header, read_of_le, le8_take_drop, le16_take_drop, parse_header]

theorem read_header_short (bytes : List Nat) (h : bytes.length < 18) :
    (read_header ⟨bytes, 0, false⟩).2.failbit = true := by
  by_contra hf
  have h11 := Bool.eq_false_of_not_eq_true hf
  simp only [read_header] at h11
  obtain ⟨h10, p11, q11, b11⟩ := read_good (by decide) h11
  obtain ⟨h9, p10, q10, b10⟩ := read_good (by decide) h10
  obtain ⟨h8, p9, q9, b9⟩ := read_good (by decide) h9
  obtain ⟨h7, p8, q8, b8⟩ := read_good (by decide) h8
  obtain ⟨h6, p7, q7, b7⟩ := read_good (by decide) h7
  obtain ⟨h5, p6, q6, b6⟩ := read_good (by decide) h6
  obtain ⟨h4, p5, q5, b5⟩ := read_good (by decide) h5
  obtain ⟨h3, p4, q4, b4⟩ := read_good (by decide) h4
  obtain ⟨h2, p3, q3, b3⟩ := read_good (by decide) h3
  obtain ⟨h1, p2, q2, b2⟩ := read_good (by decide) h2
  obtain ⟨h0, p1, q1, b1⟩ := read_good (by decide) h1
  obtain ⟨_, p0, q0, b0⟩ := read_good (by decide) h0
  simp only [b10, b9, b8, b7, b6, b5, b4, b3, b2, b1, b0] at p11
  simp only at q0
  omega

/-! ## C4: the pixel format resolver -/

theorem set_pixel_format_eq_table (format : tga_pixel_format) (header : tga_header)
    (ht : header.image_type ∈ [1, 2, 3, 9, 10, 11]) :
    set_pixel_format format header =
      match resolver_table header.image_type header.pixel_depth header.map_entry_size with
      | some f => (f, true)
      | none => (format, false) := by
  simp only [List.mem_cons, List.mem_singleton, List.not_mem_nil, or_false] at ht
  rcases ht with h | h | h | h | h | h <;>
    simp only [set_pixel_format, resolver_table, IS_COLOR_MAPPED, IS_TRUE_COLOR, IS_GRAYSCALE, h] <;>
    simp <;> split_ifs <;> simp_all

/-! ## The stages of `Image::load` keep `img_info` -/

theorem flip_h_info {img img' : Image} (h : img.flip_h = some img') :
    img'.img_info = img.img_info ∧ img'.err = img.err := by
  unfold Image.flip_h at h
  by_cases h1 : img.data.isEmpty = true
  · rw [if_pos h1] at h
    cases h
    exact ⟨rfl, rfl⟩
  · rw [if_neg h1] at h
    by_cases h2 : pixel_format_to_pixel_size img.img_info.pixel_format < 0
    · simp [h2] at h
    · simp only [h2, if_false, Option.map_eq_some'] at h
      obtain ⟨d, _, rfl⟩ := h
      exact ⟨rfl, rfl⟩

theorem flip_v_info {img img' : Image} (h : img.flip_v = some img') :
    img'.img_info = img.img_info ∧ img'.err = img.err := by
  unfold Image.flip_v at h
  by_cases h1 : img.data.isEmpty = true
  · rw [if_pos h1] at h
    cases h
    exact ⟨rfl, rfl⟩
  · rw [if_neg h1] at h
    by_cases h2 : pixel_format_to_pixel_size img.img_info.pixel_format < 0
    · simp [h2] at h
    · simp only [h2, if_false, Option.map_eq_some'] at h
      obtain ⟨d, _, rfl⟩ := h
      exact ⟨rfl, rfl⟩

theorem load_flips_info {img img' : Image} {d : Nat} (h : img.load_flips d = some img') :
    img'.img_info = img.img_info ∧ img'.err = img.err := by
  unfold Image.load_flips at h
  simp only at h
  have key : ∀ (b : Bool) (f : Image → Option Image) (i i' : Image),
      (∀ j j', f j = some j' → j'.img_info = j.img_info ∧ j'.err = j.err) →
      (if b = true then f i else some i) = some i' → i'.img_info = i.img_info ∧ i'.err = i.err := by
    intro b f i i' hf hi
    cases b
    · simp at hi; subst hi; exact ⟨rfl, rfl⟩
    · simp at hi; exact hf _ _ hi
  cases h1 : (if ((d &&& 0x10) != 0) = true then img.flip_h else some img) with
  | none => rw [h1] at h; simp at h
  | some img1 =>
    rw [h1] at h
    simp only at h
    have a1 := key _ _ _ _ (fun j j' => flip_h_info) h1
    have a2 := key _ _ _ _ (fun j j' => flip_v_info) h
    exact ⟨a2.1.trans a1.1, a2.2.trans a1.2⟩

theorem load_body_info {strict : Bool} {img img' : Image} {header : tga_header}
    {s s' : ifstream} {ok : Bool} (h : Image.load_body strict img header s = some (img', ok, s')) :
    img'.img_info = img.img_info := by
  unfold Image.load_body at h
  cases hm : load_color_map strict header s with
  | none => simp [hm] at h
  | some p =>
    obtain ⟨m, s1⟩ := p
    cases m with
    | none => simp [hm] at h; rw [← h.1]
    | some cm =>
      simp only [hm] at h
      cases hd : img.load_decode header cm s1 with
      | none => simp [hd] at h
      | some q =>
        obtain ⟨e, data1, s2⟩ := q
        simp only [hd] at h
        by_cases he : e = TGA_NO_ERROR
        · subst he
          simp only [ne_eq, not_true_eq_false, if_false] at h
          cases hf : Image.load_flips { data := data1, img_info := img.img_info, err := TGA_NO_ERROR }
              header.image_descriptor with
          | none => simp [hf] at h
          | some img2 =>
            simp [hf] at h
            rw [← h.1]
            exact (load_flips_info hf).1
        · simp [he] at h
          rw [← h.1]

/-! ## The header checks of `Image::load` -/

theorem load_eq_checks (strict : Bool) (img : Image) (bytes : List Nat)
    (h : 18 ≤ bytes.length) :
    Image.load strict img (some bytes) =
      (Image.load_checks strict img (parse_header bytes) ⟨bytes, 18, false⟩).map
        (fun r => (r.1, r.2.1)) := by
  simp only [Image.load, Image.load_stream, read_header_full bytes h]
  rfl

theorem load_short (strict : Bool) (img : Image) (bytes : List Nat) (h : bytes.length < 18) :
    Image.load strict img (some bytes) =
      some ({ img with err := TGA_ERROR_FILE_CANNOT_READ }, false) := by
  simp only [Image.load, Image.load_stream, read_header_short bytes h]
  rfl

theorem supported_iff (header : tga_header) :
    IS_SUPPORTED_IMAGE_TYPE header = true ↔ header.image_type ∈ [1, 2, 3, 9, 10, 11] := by
  simp only [IS_SUPPORTED_IMAGE_TYPE, Bool.or_eq_true, beq_iff_eq, List.mem_cons,
    List.mem_singleton, List.not_mem_nil, or_false, TGA_TYPE_COLOR_MAPPED, TGA_TYPE_TRUE_COLOR,
    TGA_TYPE_GRAYSCALE, TGA_TYPE_RLE_COLOR_MAPPED, TGA_TYPE_RLE_TRUE_COLOR,
    TGA_TYPE_RLE_GRAYSCALE]
  tauto

theorem set_pixel_format_snd (format : tga_pixel_format) (header : tga_header)
    (ht : header.image_type ∈ [1, 2, 3, 9, 10, 11]) :
    (set_pixel_format format header).2 = false ↔
      resolver_table header.image_type header.pixel_depth header.map_entry_size = none := by
  rw [set_pixel_format_eq_table format header ht]
  cases resolver_table header.image_type header.pixel_depth header.map_entry_size <;> simp

theorem set_pixel_format_fst (format : tga_pixel_format) (header : tga_header)
    (ht : header.image_type ∈ [1, 2, 3, 9, 10, 11]) :
    (set_pixel_format format header).1 =
      (resolver_table header.image_type header.pixel_depth header.map_entry_size).getD format := by
  rw [set_pixel_format_eq_table format header ht]
  cases resolver_table header.image_type header.pixel_depth header.map_entry_size <;> simp

theorem load_checks_eq (strict : Bool) (img : Image) (bytes : List Nat) (h : 18 ≤ bytes.length) :
    (Image.load_checks strict img (parse_header bytes) ⟨bytes, 18, false⟩).map
        (fun r => (r.1, r.2.1)) =
      match header_verdict bytes with
      | some e => some ({ img with err := e }, false)
      | none =>
        let header := parse_header bytes
        let img1 : Image :=
          { img with img_info :=
              { width := bytes.getD 12 0 + 256 * bytes.getD 13 0,
                height := bytes.getD 14 0 + 256 * bytes.getD 15 0,
                pixel_format :=
                  (resolver_table header.image_type header.pixel_depth
                    header.map_entry_size).getD img.img_info.pixel_format } }
        let inFile1 := ifstream.seekg strict ⟨bytes, 18, false⟩ header.id_length
        (if inFile1.failbit then
            some ({ img1 with err := TGA_ERROR_FILE_CANNOT_READ }, false, inFile1)
          else Image.load_body strict img1 header inFile1).map (fun r => (r.1, r.2.1)) := by
  unfold Image.load_checks header_verdict
  simp only [not_lt.mpr h, if_false]
  by_cases h1 : (parse_header bytes).map_type > 1
  · simp only [h1, if_true]; rfl
  simp only [h1, if_false]
  by_cases h2 : (parse_header bytes).image_type = 0
  · simp only [h2, TGA_TYPE_NO_DATA, if_true]; rfl
  simp only [h2, TGA_TYPE_NO_DATA, if_false]
  by_cases h3 : (parse_header bytes).image_type ∈ [1, 2, 3, 9, 10, 11]
  · have h3' := (supported_iff _).2 h3
    simp only [h3', h3, Bool.not_true, Bool.false_eq_true, not_true_eq_false, if_false]
    by_cases h4 : (parse_header bytes).image_width = 0 ∨ (parse_header bytes).image_height = 0
    · have h4' : (parse_header bytes).image_width ≤ 0 ∨ (parse_header bytes).image_height ≤ 0 := by
        omega
      simp only [h4, h4', if_true]; rfl
    · have h4' : ¬((parse_header bytes).image_width ≤ 0 ∨ (parse_header bytes).image_height ≤ 0) := by
        omega
      simp only [h4, h4', if_false]
      by_cases h5 : resolver_table (parse_header bytes).image_type (parse_header bytes).pixel_depth
          (parse_header bytes).map_entry_size = none
      · have h5' := (set_pixel_format_snd img.img_info.pixel_format _ h3).2 h5
        have h5'' := set_pixel_format_fst img.img_info.pixel_format _ h3
        rw [h5] at h5''
        simp only [h5, h5', h5'', Bool.not_false, if_true, Option.getD_none]
        rfl
      · have h5' : (set_pixel_format img.img_info.pixel_format (parse_header bytes)).2 = true := by
          cases hb : (set_pixel_format img.img_info.pixel_format (parse_header bytes)).2
          · exact absurd ((set_pixel_format_snd _ _ h3).1 hb) h5
          · rfl
        have h5'' := set_pixel_format_fst img.img_info.pixel_format _ h3
        simp only [h5, h5', h5'', Bool.not_true, Bool.false_eq_true, if_false]
        rfl
  · have h3' : IS_SUPPORTED_IMAGE_TYPE (parse_header bytes) = false := by
      cases hb : IS_SUPPORTED_IMAGE_TYPE (parse_header bytes)
      · rfl
      · exact absurd ((supported_iff _).1 hb) h3
    simp only [h3', h3, Bool.not_false, not_false_eq_true, if_true]; rfl

/-- C4. For image types 1, 2, 3, 9, 10, 11 the resolver `set_pixel_format` returns exactly
what the table of the specification says: the tabulated format with `true`, or `false` with
the format parameter left as it was for every combination the table rejects; and a file
whose header is otherwise valid but carries a rejected combination makes `load` return
`false` with `TGA_ERROR_UNSUPPORTED_PIXEL_FORMAT`, the image otherwise untouched. -/
theorem C4_pixel_format_resolver (format : tga_pixel_format) (header : tga_header)
    (ht : header.image_type ∈ [1, 2, 3, 9, 10, 11]) :
    (set_pixel_format format header =
      match resolver_table header.image_type header.pixel_depth header.map_entry_size with
      | some f => (f, true)
      | none => (format, false)) ∧
    (resolver_table header.image_type header.pixel_depth header.map_entry_size = none →
      ∀ (strict : Bool) (img : Image) (bytes : List Nat), 18 ≤ bytes.length →
        parse_header bytes = header → header.map_type ≤ 1 → header.image_width ≠ 0 →
        header.image_height ≠ 0 →
        Image.load strict img (some bytes) =
          some ({ img with err := TGA_ERROR_UNSUPPORTED_PIXEL_FORMAT }, false)) := by
  refine ⟨set_pixel_format_eq_table format header ht, ?_⟩
  intro hnone strict img bytes hlen hp hm hw hh
  subst hp
  rw [load_eq_checks strict img bytes hlen, load_checks_eq strict img bytes hlen]
  have ht0 : (parse_header bytes).image_type ≠ 0 := by
    intro h0
    rw [h0] at ht
    simp at ht
  have hv : header_verdict bytes = some TGA_ERROR_UNSUPPORTED_PIXEL_FORMAT := by
    unfold header_verdict
    simp only [not_lt.mpr hlen, if_false, not_lt.mpr hm, ht0, ht, not_true_eq_false, hw, hh,
      or_self, hnone, if_true]
  rw [hv]

/-- C4, at the color-mapped header with 8-bit indices and 17-bit map entries. -/
theorem C4_pixel_format_resolver_witness :
    (1 : Nat) ∈ [1, 2, 3, 9, 10, 11] ∧
    set_pixel_format TGA_PIXEL_RGB24
      { id_length := 0, map_type := 1, image_type := 1, map_first_entry := 0, map_length := 1,
        map_entry_size := 17, image_x_origin := 0, image_y_origin := 0, image_width := 1,
        image_height := 1, pixel_depth := 8, image_descriptor := 0 } =
      (TGA_PIXEL_RGB24, false) :=
  ⟨by decide,
   (C4_pixel_format_resolver TGA_PIXEL_RGB24
      { id_length := 0, map_type := 1, image_type := 1, map_first_entry := 0, map_length := 1,
        map_entry_size := 17, image_x_origin := 0, image_y_origin := 0, image_width := 1,
        image_height := 1, pixel_depth := 8, image_descriptor := 0 } (by decide)).1⟩

/-- C8. The header checks of `load` form the decision list of the specification: a stream
shorter than 18 bytes gives `TGA_ERROR_FILE_CANNOT_READ`, otherwise the first check that
applies (color map type, no data, image type, zero dimension, pixel format) gives its
error and `load` returns `false` with the image otherwise untouched; when no check applies
`load` continues with the ID field, color map and data, on an image whose width and height
are the little-endian values of bytes 12..13 and 14..15 and whose format is the resolved
one, and whatever it then returns carries that width, height and format. -/
theorem C8_header_decision_list (strict : Bool) (img : Image) (bytes : List Nat) :
    (Image.load strict img (some bytes) =
      match header_verdict bytes with
      | some e => some ({ img with err := e }, false)
      | none =>
        let header := parse_header bytes
        let img1 : Image :=
          { img with img_info :=
              { width := bytes.getD 12 0 + 256 * bytes.getD 13 0,
                height := bytes.getD 14 0 + 256 * bytes.getD 15 0,
                pixel_format :=
                  (resolver_table header.image_type header.pixel_depth
                    header.map_entry_size).getD img.img_info.pixel_format } }
        let inFile1 := ifstream.seekg strict ⟨bytes, 18, false⟩ header.id_length
        (if inFile1.failbit then
            some ({ img1 with err := TGA_ERROR_FILE_CANNOT_READ }, false, inFile1)
          else Image.load_body strict img1 header inFile1).map (fun r => (r.1, r.2.1))) ∧
    (header_verdict bytes = none → ∀ (img' : Image) (ok : Bool),
      Image.load strict img (some bytes) = some (img', ok) →
        img'.img_info.width = bytes.getD 12 0 + 256 * bytes.getD 13 0 ∧
        img'.img_info.height = bytes.getD 14 0 + 256 * bytes.getD 15 0 ∧
        resolver_table (bytes.getD 2 0) (bytes.getD 16 0) (bytes.getD 7 0) =
          some img'.img_info.pixel_format) := by
  have first : Image.load strict img (some bytes) =
      match header_verdict bytes with
      | some e => some ({ img with err := e }, false)
      | none =>
        let header := parse_header bytes
        let img1 : Image :=
          { img with img_info :=
              { width := bytes.getD 12 0 + 256 * bytes.getD 13 0,
                height := bytes.getD 14 0 + 256 * bytes.getD 15 0,
                pixel_format :=
                  (resolver_table header.image_type header.pixel_depth
                    header.map_entry_size).getD img.img_info.pixel_format } }
        let inFile1 := ifstream.seekg strict ⟨bytes, 18, false⟩ header.id_length
        (if inFile1.failbit then
            some ({ img1 with err := TGA_ERROR_FILE_CANNOT_READ }, false, inFile1)
          else Image.load_body strict img1 header inFile1).map (fun r => (r.1, r.2.1)) := by
    by_cases hlen : 18 ≤ bytes.length
    · rw [load_eq_checks strict img bytes hlen, load_checks_eq strict img bytes hlen]
    · have hv : header_verdict bytes = some TGA_ERROR_FILE_CANNOT_READ := by
        unfold header_verdict
        simp only [not_le.mp hlen, if_true]
      rw [hv]
      exact load_short strict img bytes (not_le.mp hlen)
  refine ⟨first, ?_⟩
  intro hv img' ok hload
  rw [first, hv] at hload
  have hres : resolver_table (bytes.getD 2 0) (bytes.getD 16 0) (bytes.getD 7 0) ≠ none := by
    intro hnone
    unfold header_verdict at hv
    simp only [parse_header, hnone, if_true] at hv
    split_ifs at hv
  obtain ⟨f, hf⟩ := Option.ne_none_iff_exists'.mp hres
  simp only [Option.map_eq_some'] at hload
  obtain ⟨r, hr, hr2⟩ := hload
  have hfmt : (resolver_table (parse_header bytes).image_type (parse_header bytes).pixel_depth
      (parse_header bytes).map_entry_size) = some f := hf
  rw [hfmt] at hr
  simp only [Option.getD_some] at hr
  have hinfo : r.1.img_info =
      ⟨bytes.getD 12 0 + 256 * bytes.getD 13 0, bytes.getD 14 0 + 256 * bytes.getD 15 0, f⟩ := by
    split_ifs at hr
    · cases hr; rfl
    · obtain ⟨i, o, s'⟩ := r
      exact load_body_info hr
  have hi : img' = r.1 := by cases hr2; rfl
  rw [hi, hinfo, hf]
  exact ⟨rfl, rfl, rfl⟩

/-- C8, at a bottom-up 2 x 2 grayscale file. -/
theorem C8_header_decision_list_witness :
    header_verdict [0, 0, 3, 0, 0, 0, 0, 0, 0, 0, 0, 0, 2, 0, 2, 0, 8, 0, 1, 2, 3, 4] = none ∧
    (∀ (img' : Image) (ok : Bool),
      Image.load false ⟨[], ⟨0, 0, 0⟩, TGA_NO_ERROR⟩
          (some [0, 0, 3, 0, 0, 0, 0, 0, 0, 0, 0, 0, 2, 0, 2, 0, 8, 0, 1, 2, 3, 4]) =
        some (img', ok) →
      img'.img_info.width = 2 ∧ img'.img_info.height = 2 ∧
        some TGA_PIXEL_BW8 = some img'.img_info.pixel_format) :=
  ⟨by decide,
   (C8_header_decision_list false ⟨[], ⟨0, 0, 0⟩, TGA_NO_ERROR⟩
      [0, 0, 3, 0, 0, 0, 0, 0, 0, 0, 0, 0, 2, 0, 2, 0, 8, 0, 1, 2, 3, 4]).2 (by decide)⟩

/-! ## The encoder -/

theorem pixel_size_cases {format : tga_pixel_format} (h : format ≤ 4) :
    pixel_format_to_pixel_size format = 1 ∨ pixel_format_to_pixel_size format = 2 ∨
      pixel_format_to_pixel_size format = 3 ∨ pixel_format_to_pixel_size format = 4 := by
  interval_cases format <;> simp [pixel_format_to_pixel_size]

theorem land_255 (x : Nat) : x &&& 0xFF = x % 256 :=
  Nat.and_pow_two_sub_one_eq_mod x 8

theorem save_image_header_eq (info : tga_info) (hf : info.pixel_format ≤ 4)
    (hw : info.width < 65536) (hh : info.height < 65536) :
    save_image_header info = encoder_header info := by
  have hw' : info.width / 256 % 256 = info.width / 256 := Nat.mod_eq_of_lt (by omega)
  have hh' : info.height / 256 % 256 = info.height / 256 := Nat.mod_eq_of_lt (by omega)
  have h8 : ∀ x : Nat, x >>> 8 = x / 256 := fun x => by
    rw [Nat.shiftRight_eq_div_pow]
  unfold save_image_header encoder_header
  simp only [land_255, h8, hw', hh']
  generalize info.width % 256 = a
  generalize info.width / 256 = b
  generalize info.height % 256 = c
  generalize info.height / 256 = d
  generalize hfm : info.pixel_format = f at *
  interval_cases f <;> simp [pixel_format_to_pixel_size, List.replicate]

theorem mem_read_all (data : List Nat) : mem_read data 0 data.length = some data := by
  simp [mem_read]

theorem toNat_pixel_size_cases {format : tga_pixel_format} (h : format ≤ 4) :
    (pixel_format_to_pixel_size format = 1 ∧ (pixel_format_to_pixel_size format).toNat = 1) ∨
    (pixel_format_to_pixel_size format = 2 ∧ (pixel_format_to_pixel_size format).toNat = 2) ∨
    (pixel_format_to_pixel_size format = 3 ∧ (pixel_format_to_pixel_size format).toNat = 3) ∨
    (pixel_format_to_pixel_size format = 4 ∧ (pixel_format_to_pixel_size format).toNat = 4) := by
  interval_cases format <;> simp [pixel_format_to_pixel_size]

theorem wrap64_small (k : Nat) (h : k < 2 ^ 64) : ((k : Int) % 2 ^ 64).toNat = k := by
  have h2 : ((k : Int)) < 2 ^ 64 := by exact_mod_cast h
  rw [Int.emod_eq_of_lt (Int.natCast_nonneg k) h2]
  simp

theorem data_size_eq (info : tga_info) (hf : info.pixel_format ≤ 4)
    (hw : info.width < 65536) (hh : info.height < 65536) :
    ((((info.width * info.height : Nat) : Int) *
        pixel_format_to_pixel_size info.pixel_format) % 2 ^ 64).toNat =
      info.width * info.height * (pixel_format_to_pixel_size info.pixel_format).toNat := by
  have hwh : info.width * info.height < 4294967296 := by
    have hw' : info.width ≤ 65535 := by omega
    have hh' : info.height ≤ 65535 := by omega
    have h1 := Nat.mul_le_mul hw' hh'
    omega
  generalize info.width * info.height = n at hwh
  have hp : pixel_format_to_pixel_size info.pixel_format =
      ((pixel_format_to_pixel_size info.pixel_format).toNat : Int) := by
    rcases toNat_pixel_size_cases hf with h | h | h | h <;> rw [h.2, h.1] <;> rfl
  have hlt : n * (pixel_format_to_pixel_size info.pixel_format).toNat < 2 ^ 64 := by
    have h4 : (pixel_format_to_pixel_size info.pixel_format).toNat ≤ 4 := by
      rcases toNat_pixel_size_cases hf with h | h | h | h <;> rw [h.2] <;> decide
    have := Nat.mul_le_mul (Nat.le_of_lt hwh) h4
    have e : (2 : Nat) ^ 64 = 18446744073709551616 := by norm_num
    rw [e]
    omega
  rw [hp, ← Nat.cast_mul]
  simp only [Int.toNat_ofNat]
  exact wrap64_small _ hlt

theorem write_fits (flush : Nat → Nat → Nat) (s : ofstream) (src : List Nat)
    (hf : s.failbit = false) (hroom : s.pending.length + src.length ≤ s.room) :
    (s.write flush src).failbit = false ∧
    (s.write flush src).written ++ (s.write flush src).pending =
      s.written ++ (s.pending ++ src) ∧
    (s.write flush src).pending.length ≤ (s.write flush src).room ∧
    (s.write flush src).room - (s.write flush src).pending.length =
      s.room - (s.pending.length + src.length) := by
  unfold ofstream.write
  rw [hf]
  simp only [Bool.false_eq_true, if_false]
  have hl : ((s.pending ++ src).take (flush s.pending.length src.length)).length ≤ s.room := by
    rw [List.length_take, List.length_append]
    omega
  rw [if_pos hl]
  refine ⟨rfl, ?_, ?_, ?_⟩
  · simp only [List.append_assoc, List.take_append_drop]
  · simp only [List.length_drop, List.length_take, List.length_append]
    omega
  · simp only [List.length_drop, List.length_take, List.length_append]
    omega

theorem write_unbuffered (s : ofstream) (src : List Nat) (hf : s.failbit = false)
    (hp : s.pending = []) (hroom : src.length ≤ s.room) :
    s.write (fun p n => p + n) src =
      ⟨s.written ++ src, [], s.room - src.length, false⟩ := by
  unfold ofstream.write
  rw [hf, hp]
  simp only [Bool.false_eq_true, if_false, List.nil_append, List.length_nil, Nat.zero_add,
    List.take_length, List.drop_length]
  rw [if_pos hroom]

theorem close_fits (s : ofstream) (h : s.pending.length ≤ s.room) :
    s.close.written = s.written ++ s.pending ∧ s.close.failbit = s.failbit ∧
      s.close.pending = [] := by
  unfold ofstream.close
  rw [if_pos h]
  exact ⟨rfl, rfl, rfl⟩

theorem save_image_ok (flush : Nat → Nat → Nat) (data : List Nat) (info : tga_info) (room : Nat)
    (hf : info.pixel_format ≤ 4) (hw : info.width < 65536) (hh : info.height < 65536)
    (hlen : data.length =
      info.width * info.height * (pixel_format_to_pixel_size info.pixel_format).toNat)
    (hroom : 18 + data.length ≤ room) :
    ∃ t : ofstream, save_image flush data info ⟨[], [], room, false⟩ = some (TGA_NO_ERROR, t) ∧
      t.failbit = false ∧ t.written ++ t.pending = encoder_header info ++ data ∧
      t.pending.length ≤ t.room := by
  have h18 : (encoder_header info).length = 18 := rfl
  obtain ⟨a1, a2, a3, a4⟩ := write_fits flush ⟨[], [], room, false⟩ (encoder_header info) rfl
    (by simp only [List.length_nil, h18]; omega)
  simp only [List.nil_append, List.length_nil, Nat.zero_add, h18] at a2 a4
  generalize hs1 : ofstream.write flush ⟨[], [], room, false⟩ (encoder_header info) = s1 at *
  have hl1 : s1.written.length + s1.pending.length = 18 := by
    rw [← List.length_append, a2, h18]
  obtain ⟨b1, b2, b3, b4⟩ := write_fits flush s1 data a1 (by omega)
  unfold save_image
  simp only [save_image_header_eq info hf hw hh, data_size_eq info hf hw hh]
  rw [← hlen, mem_read_all, hs1]
  simp only [a1, Bool.false_eq_true, if_false, b1]
  refine ⟨_, rfl, b1, ?_, b3⟩
  rw [b2, ← List.append_assoc, a2]

theorem save_image_unbuffered (data : List Nat) (info : tga_info) (room : Nat)
    (hf : info.pixel_format ≤ 4) (hw : info.width < 65536) (hh : info.height < 65536)
    (hlen : data.length =
      info.width * info.height * (pixel_format_to_pixel_size info.pixel_format).toNat)
    (hroom : 18 + data.length ≤ room) :
    save_image (fun p n => p + n) data info ⟨[], [], room, false⟩ =
      some (TGA_NO_ERROR,
        ⟨encoder_header info ++ data, [], room - (18 + data.length), false⟩) := by
  have h18 : (encoder_header info).length = 18 := rfl
  unfold save_image
  simp only [save_image_header_eq info hf hw hh, data_size_eq info hf hw hh]
  rw [← hlen, mem_read_all]
  rw [write_unbuffered ⟨[], [], room, false⟩ (encoder_header info) rfl rfl
    (by show (encoder_header info).length ≤ room; rw [h18]; omega)]
  simp only [Bool.false_eq_true, if_false]
  rw [write_unbuffered _ data rfl rfl (by show data.length ≤ room - (encoder_header info).length; rw [h18]; omega)]
  simp only [Bool.false_eq_true, if_false, List.nil_append, h18]
  congr 3
  omega

/-! ## Raw decoding inside `Image::load` -/

theorem vector_resize_length (v : List Nat) (n : Nat) : (vector_resize v n).length = n := by
  simp [vector_resize]
  omega

theorem mem_write_zero (data src : List Nat) (h : src.length ≤ data.length) :
    mem_write data 0 src = some (src ++ data.drop src.length) := by
  simp [mem_write, h]

theorem load_color_map_absent (strict : Bool) (header : tga_header) (s : ifstream)
    (h1 : IS_COLOR_MAPPED header = false) (h2 : header.map_type ≠ 1) :
    load_color_map strict header s =
      some (some { first_index := 0, entry_count := 0, bytes_per_entry := 0, pixels := [] }, s) := by
  simp [load_color_map, h1, h2]

theorem decode_data_raw (data : List Nat) (info : tga_info) (pixel_size : Nat) (map : color_map)
    (bytes : List Nat) (pos : Nat)
    (h1 : pos + info.width * info.height * pixel_size ≤ bytes.length)
    (h2 : info.width * info.height * pixel_size ≤ data.length) :
    decode_data data info pixel_size false map ⟨bytes, pos, false⟩ =
      some (TGA_NO_ERROR,
        (bytes.drop pos).take (info.width * info.height * pixel_size) ++
          data.drop (info.width * info.height * pixel_size),
        ⟨bytes, pos + info.width * info.height * pixel_size, false⟩) := by
  unfold decode_data
  simp only [Bool.false_eq_true, if_false, read_of_le bytes pos _ h1]
  have hl : ((bytes.drop pos).take (info.width * info.height * pixel_size)).length =
      info.width * info.height * pixel_size := by
    simp; omega
  rw [mem_write_zero _ _ (by rw [hl]; exact h2)]
  simp only [hl, ne_eq, not_true_eq_false, if_false]

theorem load_flips_top_left (img : Image) (d : Nat) (h1 : d &&& 0x10 = 0) (h2 : d &&& 0x20 ≠ 0) :
    img.load_flips d = some img := by
  simp [Image.load_flips, h1, h2]

theorem parse_encoder_header (info : tga_info) (data : List Nat) :
    parse_header (encoder_header info ++ data) =
      { id_length := 0, map_type := 0,
        image_type :=
          if info.pixel_format = TGA_PIXEL_BW8 ∨ info.pixel_format = TGA_PIXEL_BW16 then 3 else 2,
        map_first_entry := 0, map_length := 0, map_entry_size := 0, image_x_origin := 0,
        image_y_origin := 0, image_width := info.width, image_height := info.height,
        pixel_depth := 8 * (pixel_format_to_pixel_size info.pixel_format).toNat,
        image_descriptor := if info.pixel_format = TGA_PIXEL_ARGB32 then 0x28 else 0x20 } := by
  simp only [parse_header, encoder_header, List.cons_append, List.getD_cons_zero,
    List.getD_cons_succ, Nat.mul_zero, Nat.add_zero, Nat.mod_add_div]

/-- Decoding stage of `load` for an uncompressed image without color map. -/
theorem load_decode_raw (img : Image) (header : tga_header) (map : color_map)
    (bytes : List Nat) (pos : Nat)
    (hcm : IS_COLOR_MAPPED header = false) (hrle : IS_RLE header = false)
    (hw : header.image_width = img.img_info.width)
    (hh : header.image_height = img.img_info.height)
    (hps : (BITS_TO_BYTES header.pixel_depth % 256).toNat =
      (pixel_format_to_pixel_size img.img_info.pixel_format).toNat)
    (hlen : pos + img.img_info.width * img.img_info.height *
      (pixel_format_to_pixel_size img.img_info.pixel_format).toNat ≤ bytes.length) :
    img.load_decode header map ⟨bytes, pos, false⟩ =
      some (TGA_NO_ERROR,
        (bytes.drop pos).take (img.img_info.width * img.img_info.height *
          (pixel_format_to_pixel_size img.img_info.pixel_format).toNat),
        ⟨bytes, pos + img.img_info.width * img.img_info.height *
          (pixel_format_to_pixel_size img.img_info.pixel_format).toNat, false⟩) := by
  unfold Image.load_decode
  simp only [hcm, hrle, Bool.false_eq_true, if_false, hps, hw, hh]
  rw [decode_data_raw _ _ _ _ _ _ hlen (by rw [vector_resize_length])]
  have hrest : ∀ n, (vector_resize img.data n).drop n = [] := fun n => by
    rw [List.drop_eq_nil_iff, vector_resize_length]
  rw [hrest, List.append_nil]

theorem encoder_header_facts (f : tga_pixel_format) (hf : f ≤ 4) (hd : tga_header)
    (h1 : hd.image_type = if f = TGA_PIXEL_BW8 ∨ f = TGA_PIXEL_BW16 then 3 else 2)
    (h2 : hd.pixel_depth = 8 * (pixel_format_to_pixel_size f).toNat)
    (h3 : hd.image_descriptor = if f = TGA_PIXEL_ARGB32 then 0x28 else 0x20) :
    IS_COLOR_MAPPED hd = false ∧ IS_RLE hd = false ∧
      (BITS_TO_BYTES hd.pixel_depth % 256).toNat = (pixel_format_to_pixel_size f).toNat ∧
      hd.image_descriptor &&& 0x10 = 0 ∧ hd.image_descriptor &&& 0x20 ≠ 0 ∧
      hd.image_type ∈ [1, 2, 3, 9, 10, 11] ∧
      resolver_table hd.image_type hd.pixel_depth hd.map_entry_size = some f := by
  simp only [IS_COLOR_MAPPED, IS_RLE, h1, h2, h3]
  interval_cases f <;> simp [pixel_format_to_pixel_size, BITS_TO_BYTES, resolver_table] <;> decide

theorem seekg_of_le (strict : Bool) (bytes : List Nat) (pos off : Nat)
    (h : pos + off ≤ bytes.length) :
    ifstream.seekg strict ⟨bytes, pos, false⟩ off = ⟨bytes, pos + off, false⟩ := by
  have h' : ¬ bytes.length < pos + off := by omega
  simp [ifstream.seekg, h']

theorem load_encoder_output (strict : Bool) (img0 : Image) (info : tga_info) (data : List Nat)
    (hf : info.pixel_format ≤ 4) (hw1 : 1 ≤ info.width) (hw : info.width < 65536)
    (hh1 : 1 ≤ info.height) (hh : info.height < 65536)
    (hlen : data.length =
      info.width * info.height * (pixel_format_to_pixel_size info.pixel_format).toNat) :
    Image.load strict img0 (some (encoder_header info ++ data)) =
      some (⟨data, info, TGA_NO_ERROR⟩, true) := by
  have hl18 : (encoder_header info).length = 18 := rfl
  have h18 : 18 ≤ (encoder_header info ++ data).length := by
    rw [List.length_append, hl18]; omega
  have hp := parse_encoder_header info data
  obtain ⟨f1, f2, f3, f4, f5, f6, f7⟩ := encoder_header_facts info.pixel_format hf
    (parse_header (encoder_header info ++ data)) (by rw [hp]) (by rw [hp]) (by rw [hp])
  have hpw : (parse_header (encoder_header info ++ data)).image_width = info.width := by rw [hp]
  have hph : (parse_header (encoder_header info ++ data)).image_height = info.height := by
    rw [hp]
  have hpm : (parse_header (encoder_header info ++ data)).map_type = 0 := by rw [hp]
  have hpi : (parse_header (encoder_header info ++ data)).id_length = 0 := by rw [hp]
  have ht0 : (parse_header (encoder_header info ++ data)).image_type ≠ 0 := by
    intro h0
    rw [h0] at f6
    simp at f6
  have hv : header_verdict (encoder_header info ++ data) = none := by
    unfold header_verdict
    have hw0 : info.width ≠ 0 := by omega
    have hh0 : info.height ≠ 0 := by omega
    simp only [not_lt.mpr h18, if_false, hpm, ht0, f6, not_true_eq_false, hpw, hph, hw0, hh0,
      or_self, f7, gt_iff_lt, Nat.not_lt_zero]
    simp
  rw [load_eq_checks _ _ _ h18, load_checks_eq _ _ _ h18, hv]
  have hwd : (encoder_header info ++ data).getD 12 0 + 256 * (encoder_header info ++ data).getD 13 0
      = info.width := hpw
  have hhd : (encoder_header info ++ data).getD 14 0 + 256 * (encoder_header info ++ data).getD 15 0
      = info.height := hph
  simp only [hwd, hhd, f7, Option.getD_some, hpi]
  rw [seekg_of_le strict _ _ _ (by omega)]
  simp only [Bool.false_eq_true, if_false, Nat.add_zero]
  unfold Image.load_body
  rw [load_color_map_absent strict _ _ f1 (by rw [hpm]; decide)]
  simp only []
  rw [load_decode_raw _ _ _ _ _ f1 f2 hpw hph f3
    (by simp only [List.length_append, hl18, hlen]; exact Nat.le_refl _)]
  simp only [ne_eq, not_true_eq_false, if_false, ← hlen]
  have hdrop : ((encoder_header info ++ data).drop 18).take data.length = data := by
    rw [List.drop_append_of_le_length (by rw [hl18])]
    have : (encoder_header info).drop 18 = [] := by
      rw [List.drop_eq_nil_iff]; rw [hl18]
    rw [this]
    simp
  rw [hdrop, load_flips_top_left _ _ f4 f5]
  rfl

/-- C10. For an image in one of the five formats whose buffer has `width * height *
pixel_size` bytes, `save_image` on a fresh stream with enough room returns `TGA_NO_ERROR`
and has emitted exactly the 18 header bytes the specification prescribes (all zero except
byte 2, the little-endian width and height in bytes 12..15, `8 * pixel_size` in byte 16 and
the descriptor in byte 17) followed by the pixel buffer unchanged: `18 + width * height *
pixel_size` bytes in all.  This holds however the stream buffers: the bytes the device has
taken followed by the buffered ones are these bytes, and so is the file after `close`; on a
stream that passes every request on at once they are what the device has taken. -/
theorem C10_encoder_output (flush : Nat → Nat → Nat) (data : List Nat) (info : tga_info)
    (room : Nat)
    (hf : info.pixel_format ∈
      [TGA_PIXEL_BW8, TGA_PIXEL_BW16, TGA_PIXEL_RGB555, TGA_PIXEL_RGB24, TGA_PIXEL_ARGB32])
    (hw : info.width < 65536) (hh : info.height < 65536)
    (hlen : data.length =
      info.width * info.height * (pixel_format_to_pixel_size info.pixel_format).toNat)
    (hroom : 18 + data.length ≤ room) :
    (∃ t : ofstream,
      save_image flush data info ⟨[], [], room, false⟩ = some (TGA_NO_ERROR, t) ∧
      t.failbit = false ∧ t.close.failbit = false ∧
      t.written ++ t.pending =
        [0, 0,
          if info.pixel_format = TGA_PIXEL_BW8 ∨ info.pixel_format = TGA_PIXEL_BW16 then 3
          else 2,
          0, 0, 0, 0, 0, 0, 0, 0, 0,
          info.width % 256, info.width / 256, info.height % 256, info.height / 256,
          8 * (pixel_format_to_pixel_size info.pixel_format).toNat,
          if info.pixel_format = TGA_PIXEL_ARGB32 then 0x28 else 0x20] ++ data ∧
      t.close.written = t.written ++ t.pending) ∧
    save_image (fun p n => p + n) data info ⟨[], [], room, false⟩ =
      some (TGA_NO_ERROR,
        ⟨[0, 0,
          if info.pixel_format = TGA_PIXEL_BW8 ∨ info.pixel_format = TGA_PIXEL_BW16 then 3
          else 2,
          0, 0, 0, 0, 0, 0, 0, 0, 0,
          info.width % 256, info.width / 256, info.height % 256, info.height / 256,
          8 * (pixel_format_to_pixel_size info.pixel_format).toNat,
          if info.pixel_format = TGA_PIXEL_ARGB32 then 0x28 else 0x20] ++ data,
         [], room - (18 + data.length), false⟩) ∧
    (encoder_header info ++ data).length =
      18 + info.width * info.height * (pixel_format_to_pixel_size info.pixel_format).toNat := by
  have hf4 : info.pixel_format ≤ 4 := by
    simp only [List.mem_cons, List.mem_singleton, List.not_mem_nil, or_false] at hf
    rcases hf with h | h | h | h | h <;> rw [h] <;> decide
  have h18 : (encoder_header info).length = 18 := rfl
  refine ⟨?_, save_image_unbuffered data info room hf4 hw hh hlen hroom, ?_⟩
  · obtain ⟨t, h1, h2, h3, h4⟩ := save_image_ok flush data info room hf4 hw hh hlen hroom
    obtain ⟨c1, c2, _⟩ := close_fits t h4
    exact ⟨t, h1, h2, by rw [c2, h2], h3, c1⟩
  · rw [List.length_append, h18, hlen]

/-- C10, at a 2 x 1 image in `TGA_PIXEL_ARGB32`, on a stream that only buffers and on one
that passes every request on at once. -/
theorem C10_encoder_output_witness :
    (∃ t : ofstream,
      save_image (fun _ _ => 0) [1, 2, 3, 4, 5, 6, 7, 8] ⟨2, 1, TGA_PIXEL_ARGB32⟩
        ⟨[], [], 26, false⟩ = some (TGA_NO_ERROR, t) ∧
      t.failbit = false ∧ t.close.failbit = false ∧
      t.written ++ t.pending =
        [0, 0, 2, 0, 0, 0, 0, 0, 0, 0, 0, 0, 2, 0, 1, 0, 32, 0x28, 1, 2, 3, 4, 5, 6, 7, 8] ∧
      t.close.written = t.written ++ t.pending) ∧
    save_image (fun p n => p + n) [1, 2, 3, 4, 5, 6, 7, 8] ⟨2, 1, TGA_PIXEL_ARGB32⟩
        ⟨[], [], 26, false⟩ =
      some (TGA_NO_ERROR,
        ⟨[0, 0, 2, 0, 0, 0, 0, 0, 0, 0, 0, 0, 2, 0, 1, 0, 32, 0x28, 1, 2, 3, 4, 5, 6, 7, 8],
         [], 0, false⟩) :=
  ⟨(C10_encoder_output (fun _ _ => 0) [1, 2, 3, 4, 5, 6, 7, 8] ⟨2, 1, TGA_PIXEL_ARGB32⟩ 26
      (by decide) (by decide) (by decide) (by decide) (by decide)).1,
    (C10_encoder_output (fun _ _ => 0) [1, 2, 3, 4, 5, 6, 7, 8] ⟨2, 1, TGA_PIXEL_ARGB32⟩ 26
      (by decide) (by decide) (by decide) (by decide) (by decide)).2.1⟩

/-- C1. An image with width and height in [1, 65535], one of the five formats and a buffer
of exactly `width * height * pixel_size` bytes is saved (on a device with room for the file,
however the stream buffers) with `TGA_NO_ERROR`, and loading the file that `save` leaves,
into any image object, returns `true` with `TGA_NO_ERROR`, the same width, height and
format, and the identical pixel bytes. -/
theorem C1_save_load_round_trip (flush : Nat → Nat → Nat) (strict : Bool) (img img0 : Image)
    (room : Nat)
    (hw : 1 ≤ img.img_info.width ∧ img.img_info.width ≤ 65535)
    (hh : 1 ≤ img.img_info.height ∧ img.img_info.height ≤ 65535)
    (hf : img.img_info.pixel_format ∈
      [TGA_PIXEL_BW8, TGA_PIXEL_BW16, TGA_PIXEL_RGB555, TGA_PIXEL_RGB24, TGA_PIXEL_ARGB32])
    (hlen : img.data.length = img.img_info.width * img.img_info.height *
      (pixel_format_to_pixel_size img.img_info.pixel_format).toNat)
    (hroom : 18 + img.data.length ≤ room) :
    ∃ file : List Nat,
      img.save flush (some room) = some ({ img with err := TGA_NO_ERROR }, true, some file) ∧
      Image.load strict img0 (some file) =
        some (⟨img.data, img.img_info, TGA_NO_ERROR⟩, true) := by
  have hf4 : img.img_info.pixel_format ≤ 4 := by
    simp only [List.mem_cons, List.mem_singleton, List.not_mem_nil, or_false] at hf
    rcases hf with h | h | h | h | h <;> rw [h] <;> decide
  refine ⟨encoder_header img.img_info ++ img.data, ?_,
    load_encoder_output strict img0 img.img_info img.data hf4 hw.1 (by omega) hh.1 (by omega)
      hlen⟩
  have hpos : 0 < img.data.length := by
    rw [hlen]
    have hp : 0 < (pixel_format_to_pixel_size img.img_info.pixel_format).toNat := by
      rcases toNat_pixel_size_cases hf4 with h | h | h | h <;> rw [h.2] <;> decide
    exact Nat.mul_pos (Nat.mul_pos hw.1 hh.1) hp
  have hne : img.data.isEmpty = false := by
    cases hd : img.data with
    | nil => rw [hd] at hpos; simp at hpos
    | cons a l => rfl
  obtain ⟨t, h1, h2, h3, h4⟩ :=
    save_image_ok flush img.data img.img_info room hf4 (by omega) (by omega) hlen hroom
  obtain ⟨c1, _, _⟩ := close_fits t h4
  unfold Image.save
  rw [hne]
  simp only [Bool.false_eq_true, if_false]
  rw [h1]
  simp only [ne_eq, not_true_eq_false, if_false, c1, h3]

/-- C1, at the blank 4 x 4 image in `TGA_PIXEL_RGB24` of the specification's scenario, on a
stream that passes a request of 1024 bytes or more to the device at once and buffers
shorter ones. -/
theorem C1_save_load_round_trip_witness :
    ∃ file : List Nat,
      Image.save (fun p n => if 1024 ≤ n then p + n else 0)
          ⟨List.replicate 48 0, ⟨4, 4, TGA_PIXEL_RGB24⟩, TGA_NO_ERROR⟩ (some 66) =
        some (⟨List.replicate 48 0, ⟨4, 4, TGA_PIXEL_RGB24⟩, TGA_NO_ERROR⟩, true, some file) ∧
      Image.load false ⟨[], ⟨0, 0, 0⟩, TGA_NO_ERROR⟩ (some file) =
        some (⟨List.replicate 48 0, ⟨4, 4, TGA_PIXEL_RGB24⟩, TGA_NO_ERROR⟩, true) :=
  C1_save_load_round_trip (fun p n => if 1024 ≤ n then p + n else 0) false
    ⟨List.replicate 48 0, ⟨4, 4, TGA_PIXEL_RGB24⟩, TGA_NO_ERROR⟩
    ⟨[], ⟨0, 0, 0⟩, TGA_NO_ERROR⟩ 66 (by decide) (by decide) (by decide) (by decide) (by decide)

/-! ## Stored pixels, the color map and the raw decoder -/

theorem read_of_avail (bytes : List Nat) (pos n : Nat) (h : n ≤ bytes.length - pos) :
    ifstream.read ⟨bytes, pos, false⟩ n = ((bytes.drop pos).take n, ⟨bytes, pos + n, false⟩) := by
  have hl : ((bytes.drop pos).take n).length = n := by simp; omega
  simp only [ifstream.read, Bool.false_eq_true, if_false, hl, if_true]

theorem read_front {s : ifstream} {front rest : List Nat} (h : stream_at s (front ++ rest)) :
    s.read front.length = (front, s.advance front.length) ∧
      stream_at (s.advance front.length) rest := by
  obtain ⟨bytes, pos, fb⟩ := s
  obtain ⟨hf, hd⟩ := h
  simp only at hf hd
  subst hf
  have hlen : front.length ≤ bytes.length - pos := by
    have := congrArg List.length hd
    simp at this
    omega
  refine ⟨?_, rfl, ?_⟩
  · rw [read_of_avail bytes pos _ hlen, hd]
    simp [ifstream.advance]
  · show bytes.drop (pos + front.length) = rest
    rw [← List.drop_drop, hd]
    simp

theorem mem_write_append (done todo out : List Nat) (h : out.length ≤ todo.length) :
    mem_write (done ++ todo) done.length out = some (done ++ out ++ todo.drop out.length) := by
  have h1 : done.length + out.length ≤ (done ++ todo).length := by simp; omega
  simp only [mem_write, h1, if_true]
  congr 2
  · simp
  · rw [List.drop_append_eq_append_drop]
    simp

theorem mem_read_append (done todo : List Nat) (n : Nat) (h : n ≤ todo.length) :
    mem_read (done ++ todo) done.length n = some (todo.take n) := by
  have h1 : done.length + n ≤ (done ++ todo).length := by simp; omega
  simp only [mem_read, h1, if_true]
  simp

theorem mem_read_length {buf out : List Nat} {off n : Nat} (h : mem_read buf off n = some out) :
    out.length = n := by
  unfold mem_read at h
  split_ifs at h with h1
  cases h
  simp
  omega

theorem try_get_color_from_map_eq (mem : List Nat) (off index : Nat) (map : color_map) :
    try_get_color_from_map mem off index map =
      match mem_read map.pixels
          (map.bytes_per_entry * (((index : Int) - (map.first_index : Int)) % 65536).toNat)
          map.bytes_per_entry with
      | none => none
      | some entry =>
        match mem_write mem off entry with
        | none => none
        | some mem1 => some (true, mem1) := by
  unfold try_get_color_from_map
  have hdead : ∀ n : Nat, ¬ ((n : Int) < 0 ∧ (n : Int) ≥ (map.entry_count : Int)) := by
    intro n h
    have := Int.natCast_nonneg n
    omega
  simp only [hdead, if_false]

theorem pixel_to_map_index_append (done px tail : List Nat) (h : 1 ≤ px.length) :
    pixel_to_map_index (done ++ (px ++ tail)) done.length = some (px.getD 0 0) := by
  unfold pixel_to_map_index
  rw [mem_read_append done (px ++ tail) 1 (by simp; omega)]
  cases px with
  | nil => simp at h
  | cons a l => simp [le8]

theorem drop_append_drop (px todo : List Nat) (n : Nat) (h : px.length ≤ n) :
    (px ++ todo.drop px.length).drop n = todo.drop n := by
  rw [List.drop_append_eq_append_drop, List.drop_eq_nil_iff.mpr h, List.nil_append,
    List.drop_drop]
  congr 1
  omega

/-- One pixel read from the stream into the buffer and, for a color-mapped image, replaced by
its color-map entry: the common step of the raw decoder and of raw RLE packets. -/
theorem store_pixel_step (pixel_size des : Nat) (cm : Bool) (map : color_map)
    (done todo px rest : List Nat) (s : ifstream)
    (hs : stream_at s (px ++ rest)) (hpx : px.length = pixel_size) (h1 : 1 ≤ pixel_size)
    (h2 : pixel_size ≤ des) (hcm : cm = true → map.bytes_per_entry = des)
    (hncm : cm = false → pixel_size = des) (hroom : des ≤ todo.length) :
    (s.read pixel_size = (px, s.advance pixel_size) ∧ stream_at (s.advance pixel_size) rest) ∧
    mem_write (done ++ todo) done.length px = some (done ++ (px ++ todo.drop px.length)) ∧
    (cm = false → stored_pixel_output cm map px = some px ∧
      done ++ (px ++ todo.drop px.length) = (done ++ px) ++ todo.drop des) ∧
    (cm = true →
      pixel_to_map_index (done ++ (px ++ todo.drop px.length)) done.length =
        some (px.getD 0 0) ∧
      try_get_color_from_map (done ++ (px ++ todo.drop px.length)) done.length (px.getD 0 0) map =
        match stored_pixel_output cm map px with
        | none => none
        | some out => some (true, (done ++ out) ++ todo.drop des)) := by
  have hr := read_front hs
  rw [hpx] at hr
  refine ⟨hr, ?_, ?_, ?_⟩
  · rw [mem_write_append done todo px (by omega), List.append_assoc]
  · intro hc
    have := hncm hc
    subst hc
    refine ⟨rfl, ?_⟩
    rw [List.append_assoc, hpx, this]
  · intro hc
    have hb := hcm hc
    subst hc
    refine ⟨pixel_to_map_index_append done px _ (by omega), ?_⟩
    rw [try_get_color_from_map_eq]
    simp only [stored_pixel_output, if_true]
    cases hm : mem_read map.pixels
        (map.bytes_per_entry *
          ((((px.getD 0 0 : Nat) : Int) - (map.first_index : Int)) % 65536).toNat)
        map.bytes_per_entry with
    | none => rfl
    | some entry =>
      have hel := mem_read_length hm
      simp only []
      rw [mem_write_append done _ entry (by simp; omega)]
      simp only []
      rw [hel, hb, drop_append_drop px todo des (by omega), List.append_assoc]

theorem stored_pixel_output_length {cm : Bool} {map : color_map} {px out : List Nat} {des : Nat}
    (hcm : cm = true → map.bytes_per_entry = des) (hncm : cm = false → px.length = des)
    (h : stored_pixel_output cm map px = some out) : out.length = des := by
  unfold stored_pixel_output at h
  cases cm with
  | false =>
    simp at h
    rw [← h]
    exact hncm rfl
  | true =>
    simp only [if_true] at h
    rw [mem_read_length h]
    exact hcm rfl

theorem advance_advance (s : ifstream) (a b : Nat) : (s.advance a).advance b = s.advance (a + b) := by
  simp [ifstream.advance, Nat.add_assoc]

theorem decode_data_mapped_pixels (pixel_size : Nat) (map : color_map) (h1 : 1 ≤ pixel_size)
    (h2 : pixel_size ≤ map.bytes_per_entry) (pxs : List (List Nat)) :
    ∀ (done todo rest : List Nat) (s : ifstream), stream_at s (pxs.flatten ++ rest) →
      (∀ px ∈ pxs, px.length = pixel_size) → pxs.length * map.bytes_per_entry ≤ todo.length →
      decode_data_mapped pixel_size map pxs.length (done ++ todo) done.length s =
        match stored_pixels_output true map pxs with
        | none => none
        | some outs =>
          some (TGA_NO_ERROR, (done ++ outs) ++ todo.drop (pxs.length * map.bytes_per_entry),
            s.advance (pxs.length * pixel_size)) := by
  induction pxs with
  | nil =>
    intro done todo rest s _ _ _
    simp [decode_data_mapped, stored_pixels_output, ifstream.advance]
  | cons px pxs ih =>
    intro done todo rest s hs hpx hroom
    have hpxl : px.length = pixel_size := hpx px (List.mem_cons_self _ _)
    simp only [List.flatten_cons, List.append_assoc] at hs
    simp only [List.length_cons, Nat.succ_mul] at hroom ⊢
    obtain ⟨⟨hr, hs1⟩, hw, _, hc⟩ := store_pixel_step pixel_size map.bytes_per_entry true map done
      todo px (pxs.flatten ++ rest) s hs hpxl h1 h2 (fun _ => rfl)
      (fun h => by cases h) (by omega)
    obtain ⟨hidx, hget⟩ := hc rfl
    rw [hpxl] at hw hidx hget
    simp only [decode_data_mapped, stored_pixels_output, hr, hw, hpxl, ne_eq, not_true_eq_false,
      if_false, hidx, hget]
    cases hout : stored_pixel_output true map px with
    | none => rfl
    | some out =>
      have hol : out.length = map.bytes_per_entry :=
        stored_pixel_output_length (fun _ => rfl) (fun h => by cases h) hout
      simp only []
      have hoff : done.length + map.bytes_per_entry = (done ++ out).length := by
        rw [List.length_append, hol]
      rw [hoff, ih (done ++ out) (todo.drop map.bytes_per_entry) rest _ hs1
        (fun p hp => hpx p (List.mem_cons_of_mem _ hp)) (by rw [List.length_drop]; omega)]
      cases stored_pixels_output true map pxs with
      | none => rfl
      | some outs =>
        simp only [List.drop_drop, advance_advance, List.append_assoc]
        rw [Nat.add_comm (pxs.length * map.bytes_per_entry), Nat.add_comm pixel_size]

/-! ## C7: raw decoding of color-mapped images -/

theorem flatten_singletons (l : List Nat) : (l.map (fun i => [i])).flatten = l := by
  induction l with
  | nil => rfl
  | cons a l ih => simp [ih]

theorem stored_pixel_output_in_range (map : color_map) (i : Nat)
    (hmap : map.pixels.length = map.entry_count * map.bytes_per_entry)
    (h1 : map.first_index ≤ i) (h2 : i < map.first_index + map.entry_count) (h3 : i < 256) :
    stored_pixel_output true map [i] = some (color_map_entry map (i - map.first_index)) := by
  have hj : ((((([i] : List Nat).getD 0 0 : Nat) : Int) - (map.first_index : Int)) % 65536).toNat =
      i - map.first_index := by
    simp only [List.getD_cons_zero]
    omega
  have hle : map.bytes_per_entry * (i - map.first_index) + map.bytes_per_entry ≤
      map.pixels.length := by
    rw [hmap]
    have : (i - map.first_index) + 1 ≤ map.entry_count := by omega
    calc map.bytes_per_entry * (i - map.first_index) + map.bytes_per_entry
        = (i - map.first_index + 1) * map.bytes_per_entry := by ring
      _ ≤ map.entry_count * map.bytes_per_entry := Nat.mul_le_mul_right _ this
  simp only [stored_pixel_output, if_true, hj, mem_read, hle, color_map_entry, Nat.mul_comm]

theorem stored_pixels_output_in_range (map : color_map) (indices : List Nat)
    (hmap : map.pixels.length = map.entry_count * map.bytes_per_entry)
    (h : ∀ i ∈ indices, map.first_index ≤ i ∧ i < map.first_index + map.entry_count ∧ i < 256) :
    stored_pixels_output true map (indices.map (fun i => [i])) =
      some (indices.flatMap (fun i => color_map_entry map (i - map.first_index))) := by
  induction indices with
  | nil => rfl
  | cons a l ih =>
    obtain ⟨h1, h2, h3⟩ := h a (List.mem_cons_self _ _)
    simp only [List.map_cons, stored_pixels_output, stored_pixel_output_in_range map a hmap h1 h2 h3,
      ih (fun i hi => h i (List.mem_cons_of_mem _ hi)), List.flatMap_cons]

theorem flatMap_chunk {α : Type} (f : α → List Nat) (n : Nat) (l : List α) (hf : ∀ a ∈ l, (f a).length = n) :
    (l.flatMap f).length = l.length * n ∧
    ∀ (k : Nat) (hk : k < l.length), ((l.flatMap f).drop (k * n)).take n = f l[k] := by
  induction l with
  | nil => exact ⟨by simp, fun k hk => absurd hk (by simp)⟩
  | cons a l ih =>
    obtain ⟨ih1, ih2⟩ := ih (fun b hb => hf b (List.mem_cons_of_mem _ hb))
    have ha := hf a (List.mem_cons_self _ _)
    constructor
    · simp only [List.flatMap_cons, List.length_append, ha, ih1, List.length_cons]
      ring
    · intro k hk
      cases k with
      | zero =>
        simp only [List.flatMap_cons, Nat.zero_mul, List.drop_zero, List.getElem_cons_zero]
        rw [List.take_append_of_le_length (by omega), List.take_of_length_le (by omega)]
      | succ k =>
        simp only [List.flatMap_cons, List.getElem_cons_succ]
        have hk' : k < l.length := by simpa using hk
        rw [← ih2 k hk', List.drop_append_eq_append_drop, List.drop_eq_nil_iff.mpr, List.nil_append]
        · congr 2
          rw [ha]
          have : (k + 1) * n = k * n + n := by ring
          omega
        · rw [ha]
          have : (k + 1) * n = k * n + n := by ring
          omega

theorem decode_data_mapped_indices (data : List Nat) (info : tga_info) (map : color_map)
    (indices rest : List Nat) (s : ifstream) (hs : stream_at s (indices ++ rest))
    (hn : indices.length = info.width * info.height) (hbpe : 1 ≤ map.bytes_per_entry)
    (hdata : info.width * info.height * map.bytes_per_entry ≤ data.length) :
    decode_data data info 1 true map s =
      match stored_pixels_output true map (indices.map (fun i => [i])) with
      | none => none
      | some outs =>
        some (TGA_NO_ERROR, outs ++ data.drop (info.width * info.height * map.bytes_per_entry),
          s.advance (info.width * info.height)) := by
  have h := decode_data_mapped_pixels 1 map (Nat.le_refl 1) hbpe (indices.map (fun i => [i]))
    [] data rest s (by rw [flatten_singletons]; exact hs) (by simp)
    (by rw [List.length_map, hn]; exact hdata)
  simp only [List.length_map, hn, List.nil_append, List.length_nil, Nat.mul_one] at h
  simp only [decode_data, if_true]
  exact h

/-- C7. Raw decoding of a color-mapped image (8-bit indices, so `pixel_size` is 1) whose
indices all lie in `[first_index, first_index + entry_count)`: `decode_data` returns
`TGA_NO_ERROR` after reading one byte per pixel, the output has `pixel_size(format)` bytes
per pixel, and pixel `k`, at byte offset `k * pixel_size(format)`, is the color-map entry
`indices[k] - first_index`; an index equal to `first_index` gives entry 0. -/
theorem C7_color_mapped_raw_decoding (data : List Nat) (info : tga_info) (map : color_map)
    (indices rest : List Nat) (s : ifstream)
    (hs : stream_at s (indices ++ rest))
    (hn : indices.length = info.width * info.height)
    (hmap : map.pixels.length = map.entry_count * map.bytes_per_entry)
    (hsize : (map.bytes_per_entry : Int) = pixel_format_to_pixel_size info.pixel_format)
    (hdata : data.length = info.width * info.height * map.bytes_per_entry)
    (hidx : ∀ i ∈ indices,
      map.first_index ≤ i ∧ i < map.first_index + map.entry_count ∧ i < 256) :
    ∃ out : List Nat,
      decode_data data info 1 true map s =
        some (TGA_NO_ERROR, out, s.advance indices.length) ∧
      out.length =
        indices.length * (pixel_format_to_pixel_size info.pixel_format).toNat ∧
      ∀ (k : Nat) (hk : k < indices.length),
        (out.drop (k * (pixel_format_to_pixel_size info.pixel_format).toNat)).take
            (pixel_format_to_pixel_size info.pixel_format).toNat =
          color_map_entry map (indices[k] - map.first_index) ∧
        (indices[k] = map.first_index →
          (out.drop (k * (pixel_format_to_pixel_size info.pixel_format).toNat)).take
              (pixel_format_to_pixel_size info.pixel_format).toNat =
            map.pixels.take map.bytes_per_entry) := by
  have hps : (pixel_format_to_pixel_size info.pixel_format).toNat = map.bytes_per_entry := by
    rw [← hsize]
    simp
  have hbpe : 1 ≤ map.bytes_per_entry := by
    have : pixel_format_to_pixel_size info.pixel_format ≠ 0 := by
      unfold pixel_format_to_pixel_size
      split_ifs <;> decide
    rw [← hsize] at this
    have h0 : map.bytes_per_entry ≠ 0 := fun h => this (by rw [h]; rfl)
    omega
  rw [hps]
  have hdec := decode_data_mapped_indices data info map indices rest s hs hn hbpe
    (by rw [hdata])
  rw [stored_pixels_output_in_range map indices hmap hidx] at hdec
  simp only [] at hdec
  have hchunk := flatMap_chunk (fun i => color_map_entry map (i - map.first_index))
    map.bytes_per_entry indices (fun i hi => by
      obtain ⟨h1, h2, _⟩ := hidx i hi
      simp only [color_map_entry, List.length_take, List.length_drop, hmap]
      have : (i - map.first_index + 1) * map.bytes_per_entry ≤
          map.entry_count * map.bytes_per_entry := Nat.mul_le_mul_right _ (by omega)
      have e : (i - map.first_index + 1) * map.bytes_per_entry =
          (i - map.first_index) * map.bytes_per_entry + map.bytes_per_entry := by ring
      omega)
  have hrest : data.drop (info.width * info.height * map.bytes_per_entry) = [] := by
    rw [List.drop_eq_nil_iff, hdata]
  rw [hrest, List.append_nil, ← hn] at hdec
  refine ⟨_, hdec, hchunk.1, ?_⟩
  intro k hk
  refine ⟨hchunk.2 k hk, ?_⟩
  intro h0
  rw [hchunk.2 k hk, h0]
  simp [color_map_entry]

/-- C7, at a 2 x 1 image with a two-entry 24-bit color map whose first index is 1. -/
theorem C7_color_mapped_raw_decoding_witness :
    ∃ out : List Nat,
      decode_data [0, 0, 0, 0, 0, 0] ⟨2, 1, TGA_PIXEL_RGB24⟩ 1 true
          ⟨1, 2, 3, [10, 11, 12, 20, 21, 22]⟩ ⟨[2, 1], 0, false⟩ =
        some (TGA_NO_ERROR, out, ifstream.advance ⟨[2, 1], 0, false⟩ 2) ∧
      out.length = 2 * 3 ∧
      ∀ (k : Nat) (hk : k < 2),
        (out.drop (k * 3)).take 3 =
          color_map_entry ⟨1, 2, 3, [10, 11, 12, 20, 21, 22]⟩ ([2, 1][k] - 1) ∧
        ([2, 1][k] = 1 → (out.drop (k * 3)).take 3 = [10, 11, 12]) :=
  C7_color_mapped_raw_decoding [0, 0, 0, 0, 0, 0] ⟨2, 1, TGA_PIXEL_RGB24⟩
    ⟨1, 2, 3, [10, 11, 12, 20, 21, 22]⟩ [2, 1] [] ⟨[2, 1], 0, false⟩ ⟨rfl, rfl⟩ (by decide)
    (by decide) (by decide) (by decide) (by decide)

/-! ## C6: the range test of the color-map lookup -/

/-- C6 (defect of the code). The range test of `try_get_color_from_map` can never be true,
so the lookup never returns `false`: at the index one past the end of the color map, and at
an index below `first_index`, it goes on to copy from outside the color map that `load`
built (no defined result) where the claim wants `TGA_ERROR_COLOR_MAP_INDEX_FAILED`, and
`load` of a file with such an index does not report that error; on a color map whose
vector holds more bytes than its entries the lookup returns `true` for the index one past
the end. -/
theorem C6_lookup_never_fails :
    (∀ (mem : List Nat) (off index : Nat) (map : color_map) (mem1 : List Nat),
      try_get_color_from_map mem off index map ≠ some (false, mem1)) ∧
    try_get_color_from_map [0, 0, 0] 0 3 ⟨1, 2, 3, [10, 11, 12, 20, 21, 22]⟩ = none ∧
    try_get_color_from_map [0, 0, 0] 0 0 ⟨1, 2, 3, [10, 11, 12, 20, 21, 22]⟩ = none ∧
    try_get_color_from_map [0] 0 1 ⟨0, 1, 1, [7, 9]⟩ = some (true, [9]) ∧
    Image.load false ⟨[], ⟨0, 0, 0⟩, TGA_NO_ERROR⟩
      (some [0, 1, 1, 1, 0, 2, 0, 24, 0, 0, 0, 0, 2, 0, 1, 0, 8, 0x20,
             10, 11, 12, 20, 21, 22, 1, 3]) = none := by
  refine ⟨?_, by decide, by decide, by decide, by decide⟩
  intro mem off index map mem1 h
  rw [try_get_color_from_map_eq] at h
  split at h
  · cases h
  · split at h
    · cases h
    · cases h

/-! ## Run-length packets -/

theorem packet_header_run (n : Nat) (h1 : 1 ≤ n) (h2 : n ≤ 128) :
    ((0x80 + (n - 1)) &&& 0x80 != 0) = true ∧ ((0x80 + (n - 1)) &&& 0x7F) + 1 = n := by
  interval_cases n <;> decide

theorem packet_header_raw (n : Nat) (h1 : 1 ≤ n) (h2 : n ≤ 128) :
    ((n - 1) &&& 0x80 != 0) = false ∧ ((n - 1) &&& 0x7F) + 1 = n := by
  interval_cases n <;> decide

theorem rle_loop_zero (pixel_size des : Nat) (cm : Bool) (map : color_map) (b : Bool) (pc : Nat)
    (pbuf data : List Nat) (off : Nat) (s : ifstream) :
    decode_data_rle_loop pixel_size des cm map 0 b pc pbuf data off s =
      some (TGA_NO_ERROR, data, s) := rfl

theorem rle_loop_pixel (pixel_size des : Nat) (cm : Bool) (map : color_map) (c : Nat) (b : Bool)
    (pc : Nat) (pbuf data : List Nat) (off : Nat) (s : ifstream) (hpc : pc ≠ 0) :
    decode_data_rle_loop pixel_size des cm map (c + 1) b pc pbuf data off s =
      match decode_data_rle_pixel pixel_size des cm map b pbuf data off s with
      | none => none
      | some (e, data1, s1) =>
        if e ≠ TGA_NO_ERROR then some (e, data1, s1)
        else decode_data_rle_loop pixel_size des cm map c b ((pc + 255) % 256) pbuf data1
          (off + des) s1 := by
  simp only [decode_data_rle_loop, hpc, if_false]

theorem rle_loop_packet (pixel_size des : Nat) (cm : Bool) (map : color_map) (c : Nat) (b : Bool)
    (pbuf data : List Nat) (off : Nat) (s : ifstream) :
    decode_data_rle_loop pixel_size des cm map (c + 1) b 0 pbuf data off s =
      match decode_data_rle_packet pixel_size cm map pbuf s with
      | none => none
      | some (.error e, s1) => some (e, data, s1)
      | some (.ok (b1, pc1, pbuf1), s1) =>
        if pc1 = 0 then
          match decode_data_rle_pixel pixel_size des cm map b1 pbuf1 data off s1 with
          | none => none
          | some (e, data1, s2) =>
            if e ≠ TGA_NO_ERROR then some (e, data1, s2)
            else decode_data_rle_loop pixel_size des cm map c b1 255 pbuf1 data1 (off + des) s2
        else decode_data_rle_loop pixel_size des cm map (c + 1) b1 pc1 pbuf1 data off s1 := by
  simp only [decode_data_rle_loop, if_true]
  cases hp : decode_data_rle_packet pixel_size cm map pbuf s with
  | none => rfl
  | some r =>
    obtain ⟨x, s1⟩ := r
    cases x with
    | error e => rfl
    | ok t =>
      obtain ⟨b1, pc1, pbuf1⟩ := t
      simp only []
      by_cases h0 : pc1 = 0
      · subst h0
        simp
      · simp only [h0, if_false]

theorem rle_packet_run (pixel_size des : Nat) (cm : Bool) (map : color_map)
    (pbuf px rest : List Nat) (n : Nat) (s : ifstream)
    (hs : stream_at s ((rle_packet.run n px).encode ++ rest))
    (hn1 : 1 ≤ n) (hn2 : n ≤ 128) (hpx : px.length = pixel_size) (h1 : 1 ≤ pixel_size)
    (h2 : pixel_size ≤ des) (hcm : cm = true → map.bytes_per_entry = des)
    (hncm : cm = false → pixel_size = des) (hpb : pbuf.length = des) :
    decode_data_rle_packet pixel_size cm map pbuf s =
      match stored_pixel_output cm map px with
      | none => none
      | some out => some (.ok (true, n, out), s.advance (1 + pixel_size)) := by
  have hs' : stream_at s ([0x80 + (n - 1)] ++ (px ++ rest)) := hs
  obtain ⟨hr, hs1⟩ := read_front hs'
  simp only [List.length_singleton] at hr hs1
  obtain ⟨⟨hr2, _⟩, hw, hc0, hc1⟩ := store_pixel_step pixel_size des cm map [] pbuf px rest
    (s.advance 1) hs1 hpx h1 h2 hcm hncm (by omega)
  simp only [List.nil_append, List.length_nil] at hw hc0 hc1
  obtain ⟨hb, hcount⟩ := packet_header_run n hn1 hn2
  have hdrop : pbuf.drop des = [] := by rw [List.drop_eq_nil_iff, hpb]
  unfold decode_data_rle_packet
  simp only [hr, List.length_singleton, ne_eq, not_true_eq_false, if_false, le8,
    List.getD_cons_zero, hb, hcount, if_true, hr2, hw, hpx, advance_advance]
  cases cm with
  | false =>
    obtain ⟨ho, he⟩ := hc0 rfl
    rw [hdrop, List.append_nil] at he
    simp only [Bool.false_eq_true, if_false, ho]
    rw [← hpx, he]
  | true =>
    obtain ⟨hi, hg⟩ := hc1 rfl
    rw [hpx] at hi hg
    simp only [if_true, hi, hg]
    cases stored_pixel_output true map px with
    | none => rfl
    | some out => simp only [hdrop, List.append_nil]

theorem rle_packet_raw (pixel_size : Nat) (cm : Bool) (map : color_map)
    (pbuf rest : List Nat) (pxs : List (List Nat)) (s : ifstream)
    (hs : stream_at s ((rle_packet.raw pxs).encode ++ rest))
    (hn1 : 1 ≤ pxs.length) (hn2 : pxs.length ≤ 128) :
    decode_data_rle_packet pixel_size cm map pbuf s =
        some (.ok (false, pxs.length, pbuf), s.advance 1) ∧
      stream_at (s.advance 1) (pxs.flatten ++ rest) := by
  have hs' : stream_at s ([pxs.length - 1] ++ (pxs.flatten ++ rest)) := hs
  obtain ⟨hr, hs1⟩ := read_front hs'
  simp only [List.length_singleton] at hr hs1
  obtain ⟨hb, hcount⟩ := packet_header_raw pxs.length hn1 hn2
  refine ⟨?_, hs1⟩
  unfold decode_data_rle_packet
  simp only [hr, List.length_singleton, ne_eq, not_true_eq_false, if_false, le8,
    List.getD_cons_zero, hb, hcount, Bool.false_eq_true]

theorem rle_pixel_run (pixel_size des : Nat) (cm : Bool) (map : color_map)
    (out done todo : List Nat) (s : ifstream) (hol : out.length = des)
    (hroom : des ≤ todo.length) :
    decode_data_rle_pixel pixel_size des cm map true out (done ++ todo) done.length s =
      some (TGA_NO_ERROR, (done ++ out) ++ todo.drop des, s) := by
  have hread : mem_read out 0 des = some out := by
    rw [← hol]; exact mem_read_all out
  unfold decode_data_rle_pixel
  simp only [if_true, hread]
  rw [mem_write_append done todo out (by omega), hol]

theorem rle_run_phase (pixel_size des : Nat) (cm : Bool) (map : color_map) (out : List Nat)
    (hol : out.length = des) :
    ∀ (k count : Nat) (done todo : List Nat) (s : ifstream), k ≤ 128 →
      count * des ≤ todo.length →
      decode_data_rle_loop pixel_size des cm map count true k out (done ++ todo) done.length s =
        if count ≤ k then
          some (TGA_NO_ERROR,
            (done ++ (List.replicate count out).flatten) ++ todo.drop (count * des), s)
        else
          decode_data_rle_loop pixel_size des cm map (count - k) true 0 out
            ((done ++ (List.replicate k out).flatten) ++ todo.drop (k * des))
            (done.length + k * des) s := by
  intro k
  induction k with
  | zero =>
    intro count done todo s _ _
    cases count with
    | zero => simp [rle_loop_zero]
    | succ c => simp
  | succ k ih =>
    intro count done todo s hk hroom
    cases count with
    | zero => simp [rle_loop_zero]
    | succ c =>
      have hdes : des ≤ todo.length := by
        have : (c + 1) * des = c * des + des := by ring
        omega
      rw [rle_loop_pixel _ _ _ _ _ _ _ _ _ _ _ (Nat.succ_ne_zero k),
        rle_pixel_run pixel_size des cm map out done todo s hol hdes]
      have hpc : (k + 1 + 255) % 256 = k := by omega
      have hoff : done.length + des = (done ++ out).length := by
        rw [List.length_append, hol]
      simp only [ne_eq, not_true_eq_false, if_false, hpc]
      rw [hoff, ih c (done ++ out) (todo.drop des) s (by omega)
        (by rw [List.length_drop]; have : (c + 1) * des = c * des + des := by ring
            omega)]
      have e1 : ∀ m, (done ++ out ++ (List.replicate m out).flatten) =
          done ++ (List.replicate (m + 1) out).flatten := by
        intro m
        rw [List.replicate_succ, List.flatten_cons, List.append_assoc]
      have e2 : ∀ m, (todo.drop des).drop (m * des) = todo.drop ((m + 1) * des) := by
        intro m
        rw [List.drop_drop]
        congr 1
        ring
      have e3 : (done ++ out).length + k * des = done.length + (k + 1) * des := by
        rw [List.length_append, hol]; ring
      simp only [e1, e2, e3, Nat.add_le_add_iff_right, Nat.add_sub_add_right]

theorem advance_zero (s : ifstream) : s.advance 0 = s := by
  cases s; rfl

theorem rle_pixel_raw (pixel_size des : Nat) (cm : Bool) (map : color_map)
    (pbuf done todo px rest : List Nat) (s : ifstream)
    (hs : stream_at s (px ++ rest)) (hpx : px.length = pixel_size) (h1 : 1 ≤ pixel_size)
    (h2 : pixel_size ≤ des) (hcm : cm = true → map.bytes_per_entry = des)
    (hncm : cm = false → pixel_size = des) (hroom : des ≤ todo.length) :
    decode_data_rle_pixel pixel_size des cm map false pbuf (done ++ todo) done.length s =
      match stored_pixel_output cm map px with
      | none => none
      | some out => some (TGA_NO_ERROR, (done ++ out) ++ todo.drop des, s.advance pixel_size) := by
  obtain ⟨⟨hr, _⟩, hw, hc0, hc1⟩ := store_pixel_step pixel_size des cm map done todo px rest s hs
    hpx h1 h2 hcm hncm hroom
  unfold decode_data_rle_pixel
  simp only [Bool.false_eq_true, if_false, hr, hw, hpx, ne_eq, not_true_eq_false]
  cases cm with
  | false =>
    obtain ⟨ho, he⟩ := hc0 rfl
    simp only [Bool.false_eq_true, if_false, ho]
    rw [← he, hpx]
  | true =>
    obtain ⟨hi, hg⟩ := hc1 rfl
    rw [hpx] at hi hg
    simp only [if_true, hi, hg]
    cases stored_pixel_output true map px with
    | none => rfl
    | some out => rfl

theorem rle_raw_phase (pixel_size des : Nat) (cm : Bool) (map : color_map) (pbuf : List Nat)
    (h1 : 1 ≤ pixel_size) (h2 : pixel_size ≤ des) (hcm : cm = true → map.bytes_per_entry = des)
    (hncm : cm = false → pixel_size = des) (pxs : List (List Nat)) :
    ∀ (count : Nat) (done todo rest : List Nat) (s : ifstream),
      stream_at s (pxs.flatten ++ rest) → (∀ px ∈ pxs, px.length = pixel_size) →
      pxs.length ≤ 128 → count * des ≤ todo.length →
      decode_data_rle_loop pixel_size des cm map count false pxs.length pbuf (done ++ todo)
          done.length s =
        match stored_pixels_output cm map (pxs.take count) with
        | none => none
        | some outs =>
          if count ≤ pxs.length then
            some (TGA_NO_ERROR, (done ++ outs) ++ todo.drop (count * des),
              s.advance (count * pixel_size))
          else
            decode_data_rle_loop pixel_size des cm map (count - pxs.length) false 0 pbuf
              ((done ++ outs) ++ todo.drop (pxs.length * des))
              (done.length + pxs.length * des) (s.advance (pxs.length * pixel_size)) := by
  induction pxs with
  | nil =>
    intro count done todo rest s _ _ _ _
    cases count with
    | zero => simp [rle_loop_zero, stored_pixels_output, advance_zero]
    | succ c => simp [stored_pixels_output, advance_zero]
  | cons px pxs ih =>
    intro count done todo rest s hs hpx hlen hroom
    cases count with
    | zero => simp [rle_loop_zero, stored_pixels_output, advance_zero]
    | succ c =>
      have hpxl : px.length = pixel_size := hpx px (List.mem_cons_self _ _)
      have hdes : des ≤ todo.length := by
        have : (c + 1) * des = c * des + des := by ring
        omega
      simp only [List.flatten_cons, List.append_assoc] at hs
      simp only [List.length_cons] at hlen
      rw [List.length_cons, rle_loop_pixel _ _ _ _ _ _ _ _ _ _ _ (Nat.succ_ne_zero _),
        rle_pixel_raw pixel_size des cm map pbuf done todo px (pxs.flatten ++ rest) s hs hpxl
          h1 h2 hcm hncm hdes]
      simp only [List.take_succ_cons, stored_pixels_output]
      cases hout : stored_pixel_output cm map px with
      | none => rfl
      | some out =>
        have hol : out.length = des :=
          stored_pixel_output_length hcm (fun h => by rw [hpxl]; exact hncm h) hout
        have hpc : (pxs.length + 1 + 255) % 256 = pxs.length := by omega
        have hoff : done.length + des = (done ++ out).length := by
          rw [List.length_append, hol]
        have hs1 : stream_at (s.advance pixel_size) (pxs.flatten ++ rest) := by
          have := (read_front hs).2
          rwa [hpxl] at this
        simp only [ne_eq, not_true_eq_false, if_false, hpc]
        rw [hoff, ih c (done ++ out) (todo.drop des) rest _ hs1
          (fun p hp => hpx p (List.mem_cons_of_mem _ hp)) (by omega)
          (by rw [List.length_drop]; have : (c + 1) * des = c * des + des := by ring
              omega)]
        cases stored_pixels_output cm map (pxs.take c) with
        | none => rfl
        | some outs =>
          have e2 : ∀ m, (todo.drop des).drop (m * des) = todo.drop ((m + 1) * des) := by
            intro m
            rw [List.drop_drop]
            congr 1
            ring
          have e3 : (done ++ out).length + pxs.length * des =
              done.length + (pxs.length + 1) * des := by
            rw [List.length_append, hol]; ring
          have e4 : ∀ m, pixel_size + m * pixel_size = (m + 1) * pixel_size := by
            intro m; ring
          simp only [e2, e3, e4, advance_advance, List.append_assoc,
            Nat.add_le_add_iff_right, Nat.add_sub_add_right]

theorem stored_pixels_output_append (cm : Bool) (map : color_map) (a b : List (List Nat)) :
    stored_pixels_output cm map (a ++ b) =
      match stored_pixels_output cm map a with
      | none => none
      | some x =>
        match stored_pixels_output cm map b with
        | none => none
        | some y => some (x ++ y) := by
  induction a with
  | nil =>
    simp only [List.nil_append, stored_pixels_output]
    cases stored_pixels_output cm map b <;> rfl
  | cons px a ih =>
    rw [List.cons_append]
    simp only [stored_pixels_output]
    rw [ih]
    cases stored_pixel_output cm map px with
    | none => rfl
    | some out =>
      cases stored_pixels_output cm map a with
      | none => rfl
      | some x =>
        cases stored_pixels_output cm map b with
        | none => rfl
        | some y => simp

theorem stored_pixels_output_replicate (cm : Bool) (map : color_map) (px out : List Nat)
    (h : stored_pixel_output cm map px = some out) (m : Nat) :
    stored_pixels_output cm map (List.replicate m px) =
      some (List.replicate m out).flatten := by
  induction m with
  | zero => rfl
  | succ m ih => simp only [List.replicate_succ, stored_pixels_output, h, ih, List.flatten_cons]

theorem stored_pixels_output_length (cm : Bool) (map : color_map) (des : Nat)
    (hcm : cm = true → map.bytes_per_entry = des) (pxs : List (List Nat)) :
    ∀ (outs : List Nat), (∀ px ∈ pxs, cm = false → px.length = des) →
      stored_pixels_output cm map pxs = some outs → outs.length = pxs.length * des := by
  induction pxs with
  | nil =>
    intro outs _ h
    simp only [stored_pixels_output] at h
    cases h
    simp
  | cons px pxs ih =>
    intro outs hpx h
    simp only [stored_pixels_output] at h
    cases ho : stored_pixel_output cm map px with
    | none => rw [ho] at h; cases h
    | some out =>
      rw [ho] at h
      cases hos : stored_pixels_output cm map pxs with
      | none => rw [hos] at h; cases h
      | some outs' =>
        rw [hos] at h
        cases h
        have l1 := stored_pixel_output_length hcm (hpx px (List.mem_cons_self _ _)) ho
        have l2 := ih outs' (fun p hp => hpx p (List.mem_cons_of_mem _ hp)) hos
        rw [List.length_append, l1, l2, List.length_cons]
        ring

theorem flatten_length_of_chunks (pxs : List (List Nat)) (n : Nat)
    (h : ∀ px ∈ pxs, px.length = n) : pxs.flatten.length = pxs.length * n := by
  induction pxs with
  | nil => simp
  | cons px pxs ih =>
    rw [List.flatten_cons, List.length_append, h px (List.mem_cons_self _ _),
      ih (fun p hp => h p (List.mem_cons_of_mem _ hp)), List.length_cons]
    ring

theorem replicate_flatten_length (out : List Nat) (m : Nat) :
    (List.replicate m out).flatten.length = m * out.length := by
  rw [flatten_length_of_chunks _ out.length (fun p hp => by rw [List.eq_of_mem_replicate hp]),
    List.length_replicate]

theorem rle_packet_wf_run {pixel_size n : Nat} {px : List Nat}
    (h : (rle_packet.run n px).wf pixel_size = true) :
    1 ≤ n ∧ n ≤ 128 ∧ px.length = pixel_size := by
  simpa [rle_packet.wf, and_assoc] using h

theorem rle_packet_wf_raw {pixel_size : Nat} {pxs : List (List Nat)}
    (h : (rle_packet.raw pxs).wf pixel_size = true) :
    1 ≤ pxs.length ∧ pxs.length ≤ 128 ∧ ∀ px ∈ pxs, px.length = pixel_size := by
  simpa [rle_packet.wf, and_assoc] using h

theorem sub_mul_room (a n des L : Nat) (h : a * des ≤ L) : (a - n) * des ≤ L - n * des := by
  rw [Nat.sub_mul]
  exact Nat.sub_le_sub_right h _

theorem add_sub_mul (a n des : Nat) (h : n ≤ a) : n * des + (a - n) * des = a * des := by
  rw [← Nat.add_mul, Nat.add_sub_cancel' h]

theorem rle_packets (pixel_size des : Nat) (cm : Bool) (map : color_map)
    (h1 : 1 ≤ pixel_size) (h2 : pixel_size ≤ des) (hcm : cm = true → map.bytes_per_entry = des)
    (hncm : cm = false → pixel_size = des) (packets : List rle_packet) :
    ∀ (count : Nat) (b : Bool) (pbuf done todo rest : List Nat) (s : ifstream),
      stream_at s (packets.flatMap rle_packet.encode ++ rest) →
      (∀ p ∈ packets, p.wf pixel_size = true) →
      count ≤ (packets.flatMap rle_packet.expand).length →
      count * des ≤ todo.length → pbuf.length = des →
      (decode_data_rle_loop pixel_size des cm map count b 0 pbuf (done ++ todo) done.length s).map
          (fun r => (r.1, r.2.1)) =
        match stored_pixels_output cm map ((packets.flatMap rle_packet.expand).take count) with
        | none => none
        | some outs => some (TGA_NO_ERROR, (done ++ outs) ++ todo.drop (count * des)) := by
  induction packets with
  | nil =>
    intro count b pbuf done todo rest s _ _ hc _ _
    simp only [List.flatMap_nil, List.length_nil, Nat.le_zero] at hc
    subst hc
    simp [rle_loop_zero, stored_pixels_output]
  | cons p ps ih =>
    intro count b pbuf done todo rest s hs hwf hc hroom hpb
    cases count with
    | zero => simp [rle_loop_zero, stored_pixels_output]
    | succ c =>
      have hwfp := hwf p (List.mem_cons_self _ _)
      have hwfps : ∀ q ∈ ps, q.wf pixel_size = true := fun q hq => hwf q (List.mem_cons_of_mem _ hq)
      simp only [List.flatMap_cons, List.append_assoc] at hs
      simp only [List.flatMap_cons, List.length_append] at hc
      rw [rle_loop_packet, List.flatMap_cons]
      cases p with
      | run n px =>
        obtain ⟨hn1, hn2, hpx⟩ := rle_packet_wf_run hwfp
        rw [rle_packet_run pixel_size des cm map pbuf px _ n s hs hn1 hn2 hpx h1 h2 hcm hncm hpb]
        have hs1 : stream_at (s.advance (1 + pixel_size)) (ps.flatMap rle_packet.encode ++ rest) := by
          have := (read_front hs).2
          simpa [rle_packet.encode, hpx, Nat.add_comm] using this
        simp only [rle_packet.expand] at hc ⊢
        cases hout : stored_pixel_output cm map px with
        | none =>
          obtain ⟨m, rfl⟩ : ∃ m, n = m + 1 := ⟨n - 1, by omega⟩
          simp [List.replicate_succ, stored_pixels_output, hout]
        | some out =>
          have hol : out.length = des :=
            stored_pixel_output_length hcm (fun h => by rw [hpx]; exact hncm h) hout
          have hn0 : n ≠ 0 := by omega
          simp only [hn0, if_false]
          rw [rle_run_phase pixel_size des cm map out hol n (c + 1) done todo _ hn2 hroom]
          by_cases hle : c + 1 ≤ n
          · simp only [hle, if_true, Option.map_some']
            rw [List.take_append_of_le_length (by rw [List.length_replicate]; exact hle),
              List.take_replicate, Nat.min_eq_left hle,
              stored_pixels_output_replicate cm map px out hout]
          · simp only [hle, if_false]
            have hlen : (done ++ (List.replicate n out).flatten).length = done.length + n * des := by
              rw [List.length_append, replicate_flatten_length, hol]
            rw [← hlen, ih (c + 1 - n) true out _ _ rest _ hs1 hwfps
              (by simp only [List.length_replicate] at hc; omega)
              (by rw [List.length_drop]; exact sub_mul_room _ _ _ _ hroom) hol]
            have ht : (List.replicate n px ++ ps.flatMap rle_packet.expand).take (c + 1) =
                List.replicate n px ++ (ps.flatMap rle_packet.expand).take (c + 1 - n) := by
              have hl : (List.replicate n px).length ≤ c + 1 := by
                rw [List.length_replicate]; omega
              rw [List.take_append_eq_append_take, List.take_of_length_le hl,
                List.length_replicate]
            rw [ht, stored_pixels_output_append,
              stored_pixels_output_replicate cm map px out hout]
            cases stored_pixels_output cm map
                (List.take (c + 1 - n) (ps.flatMap rle_packet.expand)) with
            | none => rfl
            | some outs =>
              simp only [List.drop_drop, List.append_assoc]
              rw [add_sub_mul _ _ _ (by omega)]
      | raw pxs =>
        obtain ⟨hn1, hn2, hpx⟩ := rle_packet_wf_raw hwfp
        obtain ⟨hpk, hs1⟩ := rle_packet_raw pixel_size cm map pbuf _ pxs s hs hn1 hn2
        rw [hpk]
        have hn0 : pxs.length ≠ 0 := by omega
        simp only [hn0, if_false]
        rw [rle_raw_phase pixel_size des cm map pbuf h1 h2 hcm hncm pxs (c + 1) done todo _ _ hs1
          hpx hn2 hroom]
        simp only [rle_packet.expand] at hc ⊢
        by_cases hle : c + 1 ≤ pxs.length
        · rw [List.take_append_of_le_length hle]
          cases stored_pixels_output cm map (pxs.take (c + 1)) with
          | none => rfl
          | some outs => simp only [hle, if_true, Option.map_some']
        · have ht : (pxs ++ ps.flatMap rle_packet.expand).take (c + 1) =
              pxs ++ (ps.flatMap rle_packet.expand).take (c + 1 - pxs.length) := by
            have hl : pxs.length ≤ c + 1 := by omega
            rw [List.take_append_eq_append_take, List.take_of_length_le hl]
          have htk : pxs.take (c + 1) = pxs := List.take_of_length_le (by omega)
          rw [ht, stored_pixels_output_append, htk]
          cases hos : stored_pixels_output cm map pxs with
          | none => rfl
          | some outs =>
            have hol := stored_pixels_output_length cm map des hcm pxs outs
              (fun p hp h => by rw [hpx p hp]; exact hncm h) hos
            have hs2 : stream_at ((s.advance 1).advance (pxs.length * pixel_size))
                (ps.flatMap rle_packet.encode ++ rest) := by
              have := (read_front hs1).2
              rwa [flatten_length_of_chunks pxs pixel_size hpx] at this
            have hlen : (done ++ outs).length = done.length + pxs.length * des := by
              rw [List.length_append, hol]
            simp only [hle, if_false]
            rw [← hlen, ih (c + 1 - pxs.length) false pbuf _ _ rest _ hs2 hwfps (by omega)
              (by rw [List.length_drop]; exact sub_mul_room _ _ _ _ hroom) hpb]
            cases stored_pixels_output cm map
                (List.take (c + 1 - pxs.length) (ps.flatMap rle_packet.expand)) with
            | none => rfl
            | some outs' =>
              simp only [List.drop_drop, List.append_assoc]
              rw [add_sub_mul _ _ _ (by omega)]

/-! ## C2: run-length expansion -/

theorem stored_pixels_output_plain (map : color_map) (pxs : List (List Nat)) :
    stored_pixels_output false map pxs = some pxs.flatten := by
  induction pxs with
  | nil => rfl
  | cons px pxs ih => simp [stored_pixels_output, stored_pixel_output, ih]

theorem canonical_size_pos {format : tga_pixel_format} {n : Nat}
    (h : (n : Int) = pixel_format_to_pixel_size format) :
    1 ≤ n ∧ n ≤ 4 ∧ (pixel_format_to_pixel_size format % 256).toNat = n ∧
      (pixel_format_to_pixel_size format).toNat = n := by
  unfold pixel_format_to_pixel_size at h ⊢
  split_ifs at h ⊢ <;> omega

/-- C2. For a data stream that is a sequence of well-formed packets (header byte `h` with
`N = (h & 0x7F) + 1` and the high bit selecting a run-length or a raw packet) of an image
without color map, `decode_data_rle` returns `TGA_NO_ERROR` and leaves in the buffer exactly
the first `width * height` pixels of the concatenated expansion of the packets; packets are
not tied to rows, and the expansion may be longer than `width * height` pixels. -/
theorem C2_rle_expansion (data : List Nat) (info : tga_info) (pixel_size : Nat)
    (map : color_map) (packets : List rle_packet) (rest : List Nat) (s : ifstream)
    (hs : stream_at s (packets.flatMap rle_packet.encode ++ rest))
    (hwf : ∀ p ∈ packets, p.wf pixel_size = true)
    (hsize : (pixel_size : Int) = pixel_format_to_pixel_size info.pixel_format)
    (hcount : info.width * info.height ≤ (packets.flatMap rle_packet.expand).length)
    (hdata : data.length = info.width * info.height * pixel_size) :
    ∃ s1 : ifstream,
      decode_data_rle data info pixel_size false map s =
        some (TGA_NO_ERROR,
          ((packets.flatMap rle_packet.expand).take (info.width * info.height)).flatten, s1) := by
  obtain ⟨h1, _, hdes, _⟩ := canonical_size_pos hsize
  have h := rle_packets pixel_size pixel_size false map h1 (Nat.le_refl _)
    (fun h => by cases h) (fun _ => rfl) packets (info.width * info.height) false
    (List.replicate pixel_size 0) [] data rest s hs hwf hcount (by rw [hdata])
    (List.length_replicate _ _)
  rw [stored_pixels_output_plain] at h
  have hrest : data.drop (info.width * info.height * pixel_size) = [] := by
    rw [List.drop_eq_nil_iff, hdata]
  simp only [List.nil_append, List.length_nil, hrest, List.append_nil] at h
  unfold decode_data_rle
  simp only [Bool.false_eq_true, if_false, hdes]
  cases hd : decode_data_rle_loop pixel_size pixel_size false map (info.width * info.height)
      false 0 (List.replicate pixel_size 0) data 0 s with
  | none => rw [hd] at h; cases h
  | some r =>
    obtain ⟨e, d, s1⟩ := r
    rw [hd] at h
    simp only [Option.map_some', Option.some.injEq, Prod.mk.injEq] at h
    exact ⟨s1, by rw [h.1, h.2]⟩

/-- C2, at a 2 x 2 grayscale image stored as a run of three pixels (crossing the row
boundary) and a raw packet of two pixels (one more than the image holds). -/
theorem C2_rle_expansion_witness :
    ∃ s1 : ifstream,
      decode_data_rle [0, 0, 0, 0] ⟨2, 2, TGA_PIXEL_BW8⟩ 1 false ⟨0, 0, 0, []⟩
          ⟨[0x82, 7, 0x01, 9, 5], 0, false⟩ =
        some (TGA_NO_ERROR,
          ((([rle_packet.run 3 [7], rle_packet.raw [[9], [5]]]).flatMap
            rle_packet.expand).take (2 * 2)).flatten, s1) :=
  C2_rle_expansion [0, 0, 0, 0] ⟨2, 2, TGA_PIXEL_BW8⟩ 1 ⟨0, 0, 0, []⟩
    [rle_packet.run 3 [7], rle_packet.raw [[9], [5]]] [] ⟨[0x82, 7, 0x01, 9, 5], 0, false⟩
    ⟨rfl, rfl⟩ (by decide) (by decide) (by decide) (by decide)

/-! ## Complete files: load up to the decoder -/

theorem load_color_map_full (strict : Bool) (header : tga_header) (bytes : List Nat) (pos : Nat)
    (hlen : pos + color_map_block header ≤ bytes.length) :
    load_color_map strict header ⟨bytes, pos, false⟩ =
      some (some (file_color_map header bytes pos),
        ⟨bytes, pos + color_map_block header, false⟩) := by
  unfold load_color_map color_map_block file_color_map at *
  by_cases hcm : IS_COLOR_MAPPED header = true
  · simp only [hcm, true_or, if_true] at hlen ⊢
    have hr := read_of_le bytes pos (header_map_size header) hlen
    unfold header_map_size at hr hlen ⊢
    simp only [hr]
    have hl : ((bytes.drop pos).take
        ((header.map_length : Int) * BITS_TO_BYTES header.map_entry_size).toNat).length =
        ((header.map_length : Int) * BITS_TO_BYTES header.map_entry_size).toNat := by
      simp; omega
    rw [mem_write_zero _ _ (by rw [hl, vector_resize_length])]
    simp only [hl, ne_eq, not_true_eq_false, if_false]
    have hd : ∀ n, (vector_resize [] n).drop n = [] := fun n => by
      rw [List.drop_eq_nil_iff, vector_resize_length]
    rw [hd, List.append_nil]
  · simp only [hcm, false_or, Bool.false_eq_true, if_false] at hlen ⊢
    by_cases hmt : header.map_type = 1
    · simp only [hmt, if_true] at hlen ⊢
      unfold header_map_size at hlen ⊢
      rw [seekg_of_le strict bytes pos _ hlen]
      simp
    · simp only [hmt, if_false, Nat.add_zero]

theorem header_verdict_none {bytes : List Nat} (h : header_verdict bytes = none) :
    18 ≤ bytes.length ∧ (parse_header bytes).map_type ≤ 1 ∧
      (parse_header bytes).image_type ∈ [1, 2, 3, 9, 10, 11] ∧
      (parse_header bytes).image_width ≠ 0 ∧ (parse_header bytes).image_height ≠ 0 ∧
      ∃ f, resolver_table (parse_header bytes).image_type (parse_header bytes).pixel_depth
        (parse_header bytes).map_entry_size = some f := by
  unfold header_verdict at h
  simp only at h
  split_ifs at h with h1 h2 h3 h4 h5 h6
  refine ⟨by omega, by omega, h4, fun h0 => h5 (Or.inl h0), fun h0 => h5 (Or.inr h0),
    Option.ne_none_iff_exists'.mp h6⟩

theorem load_complete (strict : Bool) (img : Image) (bytes : List Nat)
    (hv : header_verdict bytes = none)
    (hlen : data_offset (parse_header bytes) ≤ bytes.length) :
    Image.load strict img (some bytes) =
      load_finish (header_info img (parse_header bytes)) (parse_header bytes).image_descriptor
        ((Image.load_decode { img with img_info := header_info img (parse_header bytes) }
          (parse_header bytes)
          (file_color_map (parse_header bytes) bytes (18 + (parse_header bytes).id_length))
          ⟨bytes, data_offset (parse_header bytes), false⟩).map (fun r => (r.1, r.2.1))) := by
  obtain ⟨h18, _, _, _, _, _⟩ := header_verdict_none hv
  unfold data_offset at hlen ⊢
  rw [load_eq_checks strict img bytes h18, load_checks_eq strict img bytes h18, hv]
  simp only []
  rw [seekg_of_le strict bytes 18 _ (by omega)]
  simp only [Bool.false_eq_true, if_false]
  unfold Image.load_body
  rw [load_color_map_full strict _ bytes _ (by omega)]
  simp only [Nat.add_assoc]
  have hinfo : header_info img (parse_header bytes) =
      ⟨bytes.getD 12 0 + 256 * bytes.getD 13 0, bytes.getD 14 0 + 256 * bytes.getD 15 0,
        (resolver_table (parse_header bytes).image_type (parse_header bytes).pixel_depth
          (parse_header bytes).map_entry_size).getD img.img_info.pixel_format⟩ := rfl
  rw [← hinfo]
  cases hd : Image.load_decode ⟨img.data, header_info img (parse_header bytes), img.err⟩
      (parse_header bytes)
      (file_color_map (parse_header bytes) bytes (18 + (parse_header bytes).id_length))
      ⟨bytes, 18 + ((parse_header bytes).id_length + color_map_block (parse_header bytes)), false⟩ with
  | none => rfl
  | some r =>
    obtain ⟨e, data1, s2⟩ := r
    simp only [Option.map_some', load_finish]
    by_cases he : e = TGA_NO_ERROR
    · subst he
      simp only [ne_eq, not_true_eq_false, if_false]
      cases Image.load_flips ⟨data1, header_info img (parse_header bytes), TGA_NO_ERROR⟩
        (parse_header bytes).image_descriptor <;> rfl
    · simp only [ne_eq, he, not_false_eq_true, if_true, Option.map_some']

/-! ## C3: run-length and raw decoding agree -/

theorem parse_header_append (hdr rest : List Nat) (h : hdr.length = 18) :
    parse_header (hdr ++ rest) = parse_header hdr := by
  iterate 18 (rcases hdr with _ | ⟨_, hdr⟩; · simp at h)
  rfl

theorem parse_header_set_type (hdr rest : List Nat) (t : Nat) (h : hdr.length = 18) :
    parse_header (hdr.set 2 t ++ rest) = { parse_header hdr with image_type := t } := by
  iterate 18 (rcases hdr with _ | ⟨_, hdr⟩; · simp at h)
  rfl

/-- Sizes that go with an accepted header: the stored pixel size, and for a color-mapped
image the size of a color-map entry, against the pixel size of the resolved format. -/
theorem accepted_sizes {t d m : Nat} {f : tga_pixel_format}
    (h : resolver_table t d m = some f) :
    1 ≤ (BITS_TO_BYTES d % 256).toNat ∧
      (pixel_format_to_pixel_size f % 256).toNat = (pixel_format_to_pixel_size f).toNat ∧
      1 ≤ (pixel_format_to_pixel_size f).toNat ∧
      ((t = 1 ∨ t = 9) → (BITS_TO_BYTES d % 256).toNat = 1 ∧
        (BITS_TO_BYTES m % 256).toNat = (pixel_format_to_pixel_size f).toNat) ∧
      (¬(t = 1 ∨ t = 9) →
        (BITS_TO_BYTES d % 256).toNat = (pixel_format_to_pixel_size f).toNat) := by
  unfold resolver_table at h
  split_ifs at h with h1 h2 h3 h4 h5 h6 h7 h8 h9 h10 h11 h12 <;> cases h <;>
    simp_all [BITS_TO_BYTES, pixel_format_to_pixel_size] <;> try decide
  rcases h3 with h3 | h3 <;> subst h3 <;> decide

theorem decode_data_raw_at (data : List Nat) (info : tga_info) (pixel_size : Nat)
    (map : color_map) (s : ifstream) (front rest : List Nat)
    (hs : stream_at s (front ++ rest))
    (hfront : front.length = info.width * info.height * pixel_size)
    (hroom : info.width * info.height * pixel_size ≤ data.length) :
    decode_data data info pixel_size false map s =
      some (TGA_NO_ERROR, front ++ data.drop (info.width * info.height * pixel_size),
        s.advance (info.width * info.height * pixel_size)) := by
  obtain ⟨hr, _⟩ := read_front hs
  rw [hfront] at hr
  unfold decode_data
  simp only [Bool.false_eq_true, if_false, hr]
  rw [mem_write_zero _ _ (by rw [hfront]; exact hroom)]
  simp only [hfront, ne_eq, not_true_eq_false, if_false]

theorem expand_pixel_length {pixel_size : Nat} {packets : List rle_packet}
    (hwf : ∀ p ∈ packets, p.wf pixel_size = true) :
    ∀ px ∈ packets.flatMap rle_packet.expand, px.length = pixel_size := by
  intro px hpx
  rw [List.mem_flatMap] at hpx
  obtain ⟨p, hp, hpx⟩ := hpx
  cases p with
  | run n q =>
    obtain ⟨_, _, hq⟩ := rle_packet_wf_run (hwf _ hp)
    simp only [rle_packet.expand] at hpx
    rw [List.eq_of_mem_replicate hpx]
    exact hq
  | raw pxs =>
    obtain ⟨_, _, hq⟩ := rle_packet_wf_raw (hwf _ hp)
    exact hq px hpx

/-- The decoders agree: on a stream of packets `decode_data_rle` leaves the error code and
buffer that `decode_data` leaves on the uncompressed pixels the packets stand for. -/
theorem decode_rle_eq_raw (data : List Nat) (info : tga_info) (pixel_size : Nat) (cm : Bool)
    (map : color_map) (packets : List rle_packet) (tail : List Nat) (sR sU : ifstream)
    (hsR : stream_at sR (packets.flatMap rle_packet.encode ++ tail))
    (hsU : stream_at sU ((packets.flatMap rle_packet.expand).flatten ++ tail))
    (hwf : ∀ p ∈ packets, p.wf pixel_size = true)
    (hcount : (packets.flatMap rle_packet.expand).length = info.width * info.height)
    (h1 : 1 ≤ pixel_size)
    (hdes : (pixel_format_to_pixel_size info.pixel_format % 256).toNat =
      (pixel_format_to_pixel_size info.pixel_format).toNat)
    (hcm : cm = true → pixel_size ≤ map.bytes_per_entry ∧
      map.bytes_per_entry = (pixel_format_to_pixel_size info.pixel_format).toNat)
    (hncm : cm = false → pixel_size = (pixel_format_to_pixel_size info.pixel_format).toNat)
    (hdata : data.length = info.width * info.height *
      (pixel_format_to_pixel_size info.pixel_format).toNat) :
    (decode_data_rle data info pixel_size cm map sR).map (fun r => (r.1, r.2.1)) =
      (decode_data data info pixel_size cm map sU).map (fun r => (r.1, r.2.1)) := by
  have hpxl := expand_pixel_length hwf
  have hle : pixel_size ≤ (pixel_format_to_pixel_size info.pixel_format).toNat := by
    cases cm with
    | false => exact Nat.le_of_eq (hncm rfl)
    | true => obtain ⟨a, b⟩ := hcm rfl; omega
  have hpb : (List.replicate (if cm = true then map.bytes_per_entry else pixel_size) 0).length =
      (pixel_format_to_pixel_size info.pixel_format).toNat := by
    rw [List.length_replicate]
    cases cm with
    | false => exact hncm rfl
    | true => exact (hcm rfl).2
  have hR := rle_packets pixel_size (pixel_format_to_pixel_size info.pixel_format).toNat cm map
    h1 hle (fun h => (hcm h).2) hncm packets (info.width * info.height) false
    (List.replicate (if cm = true then map.bytes_per_entry else pixel_size) 0) [] data tail sR
    hsR hwf (by rw [hcount]) (by rw [hdata]) hpb
  have htake : (packets.flatMap rle_packet.expand).take (info.width * info.height) =
      packets.flatMap rle_packet.expand := List.take_of_length_le (by rw [hcount])
  rw [htake] at hR
  simp only [List.nil_append, List.length_nil] at hR
  unfold decode_data_rle
  simp only [hdes]
  rw [hR]
  cases cm with
  | false =>
    have hps := hncm rfl
    have hfl : (packets.flatMap rle_packet.expand).flatten.length =
        info.width * info.height * pixel_size := by
      rw [flatten_length_of_chunks _ pixel_size hpxl, hcount]
    rw [decode_data_raw_at data info pixel_size map sU _ tail hsU hfl (by rw [hdata, hps]),
      stored_pixels_output_plain, ← hps]
    rfl
  | true =>
    obtain ⟨hb1, hb2⟩ := hcm rfl
    have hU := decode_data_mapped_pixels pixel_size map h1 hb1 (packets.flatMap rle_packet.expand)
      [] data tail sU hsU hpxl (by rw [hcount, hdata, hb2])
    simp only [List.nil_append, List.length_nil, hcount] at hU
    simp only [decode_data, if_true]
    rw [hU, hb2]
    cases stored_pixels_output true map (packets.flatMap rle_packet.expand) <;> rfl

theorem header_verdict_eq (b : List Nat) :
    header_verdict b =
      if b.length < 18 then some TGA_ERROR_FILE_CANNOT_READ
      else if (parse_header b).map_type > 1 then some TGA_ERROR_UNSUPPORTED_COLOR_MAP_TYPE
      else if (parse_header b).image_type = 0 then some TGA_ERROR_NO_DATA
      else if (parse_header b).image_type ∉ [1, 2, 3, 9, 10, 11] then
        some TGA_ERROR_UNSUPPORTED_IMAGE_TYPE
      else if (parse_header b).image_width = 0 ∨ (parse_header b).image_height = 0 then
        some TGA_ERROR_INVALID_IMAGE_DIMENSIONS
      else if resolver_table (parse_header b).image_type (parse_header b).pixel_depth
          (parse_header b).map_entry_size = none then
        some TGA_ERROR_UNSUPPORTED_PIXEL_FORMAT
      else none := rfl

theorem header_verdict_congr (b b' : List Nat) (h1 : 18 ≤ b.length) (h2 : 18 ≤ b'.length)
    (hp : parse_header b = parse_header b') : header_verdict b = header_verdict b' := by
  rw [header_verdict_eq, header_verdict_eq, hp]
  simp only [not_lt.mpr h1, not_lt.mpr h2]

theorem resolver_table_rle (t d m : Nat) (ht : t ∈ [1, 2, 3]) :
    resolver_table (t + 8) d m = resolver_table t d m := by
  simp only [List.mem_cons, List.mem_singleton, List.not_mem_nil, or_false] at ht
  rcases ht with h | h | h <;> subst h <;> simp [resolver_table]

theorem drop_block (hdr mid rest : List Nat) (k : Nat) (hk : k ≤ mid.length) :
    (hdr ++ mid ++ rest).drop (hdr.length + k) = mid.drop k ++ rest := by
  rw [List.append_assoc, ← List.drop_drop, List.drop_left, List.drop_append_of_le_length hk]

theorem file_color_map_block (header header' : tga_header) (hdr hdr' mid rest rest' : List Nat)
    (hl : hdr.length = 18) (hl' : hdr'.length = 18)
    (hc : IS_COLOR_MAPPED header' = IS_COLOR_MAPPED header)
    (h1 : header'.map_first_entry = header.map_first_entry)
    (h2 : header'.map_length = header.map_length)
    (h3 : header'.map_entry_size = header.map_entry_size)
    (h4 : header'.id_length = header.id_length)
    (h5 : header'.map_type = header.map_type)
    (hmid : mid.length = header.id_length + color_map_block header) :
    file_color_map header' (hdr' ++ mid ++ rest') (18 + header'.id_length) =
      file_color_map header (hdr ++ mid ++ rest) (18 + header.id_length) ∧
    color_map_block header' = color_map_block header := by
  have hms : header_map_size header' = header_map_size header := by
    unfold header_map_size
    rw [h2, h3]
  have hb : color_map_block header' = color_map_block header := by
    unfold color_map_block
    rw [hc, h5, hms]
  refine ⟨?_, hb⟩
  unfold file_color_map
  rw [hc, h1, h2, h3, h4, hms]
  by_cases hcm : IS_COLOR_MAPPED header = true
  · simp only [hcm, if_true]
    have hblock : color_map_block header = header_map_size header := by
      unfold color_map_block
      simp [hcm]
    rw [hblock] at hmid
    have e1 := drop_block hdr mid rest header.id_length (by omega)
    have e2 := drop_block hdr' mid rest' header.id_length (by omega)
    rw [hl] at e1
    rw [hl'] at e2
    rw [e1, e2, List.take_append_of_le_length (by rw [List.length_drop]; omega),
      List.take_append_of_le_length (by rw [List.length_drop]; omega)]
  · simp only [hcm, if_false, Bool.false_eq_true]

/-- The two loads are the same computation result: `load` of the file of type `t + 8` that
carries well-formed packets and `load` of the file of type `t` that carries the pixels they
stand for either both have no defined result or both return the same flag and image. -/
theorem load_rle_eq_raw (strict : Bool) (img : Image) (hdr mid tail : List Nat)
    (packets : List rle_packet)
    (hl : hdr.length = 18)
    (ht : hdr.getD 2 0 ∈ [1, 2, 3])
    (hv : header_verdict hdr = none)
    (hmid : mid.length = (parse_header hdr).id_length + color_map_block (parse_header hdr))
    (hwf : ∀ p ∈ packets, p.wf (BITS_TO_BYTES (hdr.getD 16 0) % 256).toNat = true)
    (hcount : (packets.flatMap rle_packet.expand).length =
      (parse_header hdr).image_width * (parse_header hdr).image_height) :
    Image.load strict img
        (some (hdr.set 2 (hdr.getD 2 0 + 8) ++ mid ++ packets.flatMap rle_packet.encode ++ tail)) =
      Image.load strict img
        (some (hdr ++ mid ++ (packets.flatMap rle_packet.expand).flatten ++ tail)) := by
  obtain ⟨_, hmt, hty, hw0, hh0, f, hres⟩ := header_verdict_none hv
  have htU : (parse_header hdr).image_type = hdr.getD 2 0 := rfl
  have hdU : (parse_header hdr).pixel_depth = hdr.getD 16 0 := rfl
  have hl' : (hdr.set 2 (hdr.getD 2 0 + 8)).length = 18 := by rw [List.length_set, hl]
  -- the two parsed headers
  have hpU : parse_header (hdr ++ mid ++ (packets.flatMap rle_packet.expand).flatten ++ tail) =
      parse_header hdr := by
    rw [List.append_assoc, List.append_assoc]
    exact parse_header_append hdr _ hl
  have hpR : parse_header
      (hdr.set 2 (hdr.getD 2 0 + 8) ++ mid ++ packets.flatMap rle_packet.encode ++ tail) =
      { parse_header hdr with image_type := hdr.getD 2 0 + 8 } := by
    rw [List.append_assoc, List.append_assoc]
    exact parse_header_set_type hdr _ _ hl
  generalize hR : ({ parse_header hdr with image_type := hdr.getD 2 0 + 8 } : tga_header) = pR at hpR
  have hR1 : pR.image_type = hdr.getD 2 0 + 8 := by rw [← hR]
  have hR2 : pR.pixel_depth = (parse_header hdr).pixel_depth := by rw [← hR]
  have hR3 : pR.map_entry_size = (parse_header hdr).map_entry_size := by rw [← hR]
  have hR4 : pR.image_width = (parse_header hdr).image_width := by rw [← hR]
  have hR5 : pR.image_height = (parse_header hdr).image_height := by rw [← hR]
  have hR6 : pR.map_type = (parse_header hdr).map_type := by rw [← hR]
  have hR7 : pR.id_length = (parse_header hdr).id_length := by rw [← hR]
  have hR8 : pR.map_first_entry = (parse_header hdr).map_first_entry := by rw [← hR]
  have hR9 : pR.map_length = (parse_header hdr).map_length := by rw [← hR]
  have hR10 : pR.image_descriptor = (parse_header hdr).image_descriptor := by rw [← hR]
  have hresR : resolver_table pR.image_type pR.pixel_depth pR.map_entry_size = some f := by
    rw [hR1, hR2, hR3, resolver_table_rle _ _ _ ht, ← htU, hres]
  have ht3 : hdr.getD 2 0 = 1 ∨ hdr.getD 2 0 = 2 ∨ hdr.getD 2 0 = 3 := by
    simpa using ht
  have hcmR : IS_COLOR_MAPPED pR = IS_COLOR_MAPPED (parse_header hdr) := by
    simp only [IS_COLOR_MAPPED, hR1, htU]
    rcases ht3 with h | h | h <;> rw [h] <;> rfl
  have hrleR : IS_RLE pR = true := by
    simp only [IS_RLE, hR1]
    rcases ht3 with h | h | h <;> rw [h] <;> rfl
  have hrleU : IS_RLE (parse_header hdr) = false := by
    simp only [IS_RLE, htU]
    rcases ht3 with h | h | h <;> rw [h] <;> rfl
  have hcmU : IS_COLOR_MAPPED (parse_header hdr) = true ↔
      ((parse_header hdr).image_type = 1 ∨ (parse_header hdr).image_type = 9) := by
    simp [IS_COLOR_MAPPED]
  -- both headers are accepted
  have hlenU : 18 ≤ (hdr ++ mid ++ (packets.flatMap rle_packet.expand).flatten ++ tail).length := by
    simp only [List.length_append, hl]; omega
  have hlenR : 18 ≤ (hdr.set 2 (hdr.getD 2 0 + 8) ++ mid ++
      packets.flatMap rle_packet.encode ++ tail).length := by
    simp only [List.length_append, hl']; omega
  have hvU : header_verdict (hdr ++ mid ++ (packets.flatMap rle_packet.expand).flatten ++ tail)
      = none := by
    rw [header_verdict_congr _ hdr hlenU (by omega) hpU, hv]
  have hvR : header_verdict (hdr.set 2 (hdr.getD 2 0 + 8) ++ mid ++
      packets.flatMap rle_packet.encode ++ tail) = none := by
    rw [header_verdict_eq, hpR]
    have hty' : pR.image_type ∈ [1, 2, 3, 9, 10, 11] := by
      rw [hR1]
      rcases ht3 with h | h | h <;> rw [h] <;> decide
    have hty0 : pR.image_type ≠ 0 := by rw [hR1]; omega
    simp only [not_lt.mpr hlenR, if_false, hR6, not_lt.mpr hmt, gt_iff_lt, hty0, hty',
      not_true_eq_false, hR4, hR5, hw0, hh0, or_self, hresR]
    simp
  -- the color map and the offsets
  obtain ⟨hmapeq, hblock⟩ := file_color_map_block (parse_header hdr) pR hdr
    (hdr.set 2 (hdr.getD 2 0 + 8)) mid ((packets.flatMap rle_packet.expand).flatten ++ tail)
    (packets.flatMap rle_packet.encode ++ tail) hl hl' hcmR hR8 hR9 hR3 hR7 hR6 hmid
  simp only [← List.append_assoc] at hmapeq
  have hoffU : data_offset (parse_header hdr) = 18 + mid.length := by
    unfold data_offset; omega
  have hoffR : data_offset pR = 18 + mid.length := by
    unfold data_offset; rw [hR7, hblock]; omega
  have hinfo : header_info img pR = header_info img (parse_header hdr) := by
    unfold header_info
    rw [hR4, hR5, hresR, hres]
  have hfmt : (header_info img (parse_header hdr)).pixel_format = f := by
    unfold header_info
    rw [hres]
    rfl
  rw [load_complete strict img _ hvR (by rw [hpR, hoffR]; simp only [List.length_append, hl']; omega),
    load_complete strict img _ hvU (by rw [hpU, hoffU]; simp only [List.length_append, hl]; omega),
    hpR, hpU, hinfo, hR10, hmapeq, hoffR, hoffU]
  congr 1
  -- the decoders
  obtain ⟨a1, a2, a3, a4, a5⟩ := accepted_sizes hres
  have hsR : stream_at ⟨hdr.set 2 (hdr.getD 2 0 + 8) ++ mid ++ packets.flatMap rle_packet.encode ++
      tail, 18 + mid.length, false⟩ (packets.flatMap rle_packet.encode ++ tail) := by
    refine ⟨rfl, ?_⟩
    show List.drop (18 + mid.length) _ = _
    rw [List.append_assoc, List.append_assoc, ← List.append_assoc _ mid, List.drop_left']
    rw [List.length_append, hl']
  have hsU : stream_at ⟨hdr ++ mid ++ (packets.flatMap rle_packet.expand).flatten ++ tail,
      18 + mid.length, false⟩ ((packets.flatMap rle_packet.expand).flatten ++ tail) := by
    refine ⟨rfl, ?_⟩
    show List.drop (18 + mid.length) _ = _
    rw [List.append_assoc, List.append_assoc, ← List.append_assoc _ mid, List.drop_left']
    rw [List.length_append, hl]
  unfold Image.load_decode
  simp only [hrleR, hrleU, if_true, Bool.false_eq_true, if_false, hcmR, hR2, hR4, hR5]
  refine decode_rle_eq_raw _ _ _ _ _ packets tail _ _ hsR hsU (by rw [hdU]; exact hwf)
    (by rw [hcount]; rfl) a1 (by rw [hfmt]; exact a2) ?_ ?_ ?_
  · intro hc
    have hc' := hcmU.mp hc
    obtain ⟨b1, b2⟩ := a4 hc'
    rw [hfmt]
    constructor
    · rw [b1]
      simp only [file_color_map, hc, if_true, b2]
      exact a3
    · simp only [file_color_map, hc, if_true, b2]
  · intro hc
    have hc' : ¬((parse_header hdr).image_type = 1 ∨ (parse_header hdr).image_type = 9) := by
      intro h
      rw [hcmU.mpr h] at hc
      cases hc
    rw [hfmt]
    exact a5 hc'
  · rw [vector_resize_length]
    rfl

/-! ## Truncated files: the decoders -/

theorem read_succeeded {s : ifstream} {k : Nat} (hs : s.failbit = false)
    (h : (s.read k).1.length = k) :
    s.read k = ((s.bytes.drop s.pos).take k, s.advance k) ∧ k ≤ s.bytes.length - s.pos := by
  obtain ⟨b, pos, fb⟩ := s
  simp only at hs
  subst hs
  have hk : k ≤ b.length - pos := by
    simp only [ifstream.read, Bool.false_eq_true, if_false] at h
    split_ifs at h with h1
    · simpa using h1
    · exact absurd h h1
  exact ⟨by rw [read_of_avail b pos k hk]; rfl, hk⟩

theorem read_truncate_same (s : ifstream) (k n : Nat) (hs : s.failbit = false)
    (h : (s.read k).1.length = k) (hn : s.pos + k ≤ n) :
    (s.truncate n).read k = ((s.read k).1, (s.read k).2.truncate n) := by
  obtain ⟨hr, hk⟩ := read_succeeded hs h
  obtain ⟨b, pos, fb⟩ := s
  simp only at hs hk hn
  subst hs
  rw [hr]
  by_cases hk0 : k = 0
  · subst hk0
    simp [ifstream.truncate, ifstream.read, ifstream.advance]
  · have hlen : pos + k ≤ b.length := by omega
    simp only [ifstream.truncate, ifstream.advance]
    rw [read_of_avail (b.take n) pos k (by rw [List.length_take]; omega)]
    congr 1
    rw [List.drop_take, List.take_take]
    congr 1
    omega

theorem read_truncate_short (s : ifstream) (k n : Nat) (hs : s.failbit = false)
    (hk1 : 1 ≤ k) (hn : n < s.pos + k) :
    ((s.truncate n).read k).1.length < k ∧ ((s.truncate n).read k).2.failbit = true := by
  obtain ⟨b, pos, fb⟩ := s
  simp only at hs hn
  subst hs
  have hl : ((List.take n b).drop pos).length < k := by
    rw [List.length_drop, List.length_take]
    omega
  have hl2 : (((List.take n b).drop pos).take k).length < k := by
    rw [List.length_take]
    omega
  simp only [ifstream.truncate, ifstream.read, Bool.false_eq_true, if_false, Nat.ne_of_lt hl2]
  exact ⟨hl2, trivial⟩

theorem mem_write_shorter {data src src' d : List Nat} {off : Nat}
    (h : mem_write data off src = some d) (hl : src'.length ≤ src.length) :
    ∃ d', mem_write data off src' = some d' := by
  unfold mem_write at h ⊢
  split_ifs at h with h1
  have h2 : off + src'.length ≤ data.length := by omega
  exact ⟨_, by rw [if_pos h2]⟩

theorem truncate_failbit (s : ifstream) (n : Nat) : (s.truncate n).failbit = s.failbit := rfl

theorem truncate_pos (s : ifstream) (n : Nat) : (s.truncate n).pos = s.pos := rfl

theorem advance_truncate (s : ifstream) (k n : Nat) :
    (s.advance k).truncate n = (s.truncate n).advance k := rfl

theorem decode_data_mapped_succ (ps : Nat) (map : color_map) (c : Nat) (data : List Nat)
    (off : Nat) (s : ifstream) :
    decode_data_mapped ps map (c + 1) data off s =
      match mem_write data off (s.read ps).1 with
      | none => none
      | some data1 =>
        if (s.read ps).1.length ≠ ps then some (TGA_ERROR_FILE_CANNOT_READ, data1, (s.read ps).2)
        else
          match pixel_to_map_index data1 off with
          | none => none
          | some index =>
            match try_get_color_from_map data1 off index map with
            | none => none
            | some (false, data2) =>
              some (TGA_ERROR_COLOR_MAP_INDEX_FAILED, data2, (s.read ps).2)
            | some (true, data2) =>
              decode_data_mapped ps map c data2 (off + map.bytes_per_entry) (s.read ps).2 := by
  rfl

theorem decode_data_mapped_truncate (ps : Nat) (map : color_map) (n : Nat) (h1 : 1 ≤ ps) :
    ∀ (count : Nat) (data : List Nat) (off : Nat) (s : ifstream), s.failbit = false →
      ∀ (d' : List Nat) (s' : ifstream),
        decode_data_mapped ps map count data off s = some (TGA_NO_ERROR, d', s') →
        s'.failbit = false ∧ s.pos ≤ s'.pos ∧
        (s'.pos ≤ n →
          decode_data_mapped ps map count data off (s.truncate n) =
            some (TGA_NO_ERROR, d', s'.truncate n)) ∧
        (s.pos ≤ n ∨ 1 ≤ count → n < s'.pos → ∃ d'' t',
          decode_data_mapped ps map count data off (s.truncate n) =
            some (TGA_ERROR_FILE_CANNOT_READ, d'', t')) := by
  intro count
  induction count with
  | zero =>
    intro data off s hs d' s' h
    simp only [decode_data_mapped, Option.some.injEq, Prod.mk.injEq, true_and] at h
    obtain ⟨rfl, rfl⟩ := h
    exact ⟨hs, Nat.le_refl _, fun _ => rfl, fun h1 h2 => by
      rcases h1 with h1 | h1 <;> omega⟩
  | succ c ih =>
    intro data off s hs d' s' h
    rw [decode_data_mapped_succ] at h
    cases hmw : mem_write data off (s.read ps).1 with
    | none => rw [hmw] at h; cases h
    | some data1 =>
      rw [hmw] at h
      simp only [] at h
      by_cases hlen : (s.read ps).1.length = ps
      · simp only [hlen, ne_eq, not_true_eq_false, if_false] at h
        obtain ⟨hr, hk⟩ := read_succeeded hs hlen
        have hs2 : (s.read ps).2.failbit = false := by rw [hr]; exact hs
        have hp2 : (s.read ps).2.pos = s.pos + ps := by rw [hr]; rfl
        cases hidx : pixel_to_map_index data1 off with
        | none => rw [hidx] at h; cases h
        | some index =>
          rw [hidx] at h
          simp only [] at h
          cases hget : try_get_color_from_map data1 off index map with
          | none => rw [hget] at h; cases h
          | some p =>
            obtain ⟨flag, data2⟩ := p
            rw [hget] at h
            cases flag with
            | false => cases h
            | true =>
              simp only [] at h
              obtain ⟨i1, i2, i3, i4⟩ := ih data2 (off + map.bytes_per_entry) (s.read ps).2 hs2 d' s' h
              have hstep : s.pos + ps ≤ n →
                  decode_data_mapped ps map (c + 1) data off (s.truncate n) =
                    decode_data_mapped ps map c data2 (off + map.bytes_per_entry)
                      ((s.read ps).2.truncate n) := by
                intro hle
                rw [decode_data_mapped_succ, read_truncate_same s ps n hs hlen hle]
                simp only [hmw, hlen, ne_eq, not_true_eq_false, if_false, hidx, hget]
              refine ⟨i1, by omega, ?_, ?_⟩
              · intro hle
                rw [hstep (by omega)]
                exact i3 hle
              · intro hsn hlt
                by_cases hle : s.pos + ps ≤ n
                · rw [hstep hle]
                  exact i4 (Or.inl (by omega)) hlt
                · obtain ⟨q1, q2⟩ := read_truncate_short s ps n hs h1 (by omega)
                  obtain ⟨dd, hdd⟩ := mem_write_shorter hmw (by omega :
                    ((s.truncate n).read ps).1.length ≤ (s.read ps).1.length)
                  refine ⟨dd, ((s.truncate n).read ps).2, ?_⟩
                  rw [decode_data_mapped_succ]
                  simp only [hdd, ne_eq, Nat.ne_of_lt q1, not_false_eq_true, if_true]
      · simp only [hlen, ne_eq, not_false_eq_true, if_true] at h
        cases h

theorem rle_packet_truncate (ps : Nat) (cm : Bool) (map : color_map) (pbuf : List Nat)
    (n : Nat) (h1 : 1 ≤ ps) (s : ifstream) (hs : s.failbit = false)
    (b1 : Bool) (pc1 : Nat) (pb1 : List Nat) (s1 : ifstream)
    (h : decode_data_rle_packet ps cm map pbuf s = some (.ok (b1, pc1, pb1), s1)) :
    s1.failbit = false ∧ s.pos ≤ s1.pos ∧
    (s1.pos ≤ n →
      decode_data_rle_packet ps cm map pbuf (s.truncate n) =
        some (.ok (b1, pc1, pb1), s1.truncate n)) ∧
    (n < s1.pos → ∃ t',
      decode_data_rle_packet ps cm map pbuf (s.truncate n) =
        some (.error TGA_ERROR_FILE_CANNOT_READ, t')) := by
  unfold decode_data_rle_packet at h
  simp only [] at h
  by_cases hlen : (s.read 1).1.length = 1
  · simp only [hlen, ne_eq, not_true_eq_false, if_false] at h
    obtain ⟨hr, hk⟩ := read_succeeded hs hlen
    have hs2 : (s.read 1).2.failbit = false := by rw [hr]; exact hs
    have hp2 : (s.read 1).2.pos = s.pos + 1 := by rw [hr]; rfl
    have hshort : n < s.pos + 1 → ∃ t',
        decode_data_rle_packet ps cm map pbuf (s.truncate n) =
          some (.error TGA_ERROR_FILE_CANNOT_READ, t') := by
      intro hlt
      obtain ⟨q1, _⟩ := read_truncate_short s 1 n hs (Nat.le_refl 1) hlt
      refine ⟨((s.truncate n).read 1).2, ?_⟩
      unfold decode_data_rle_packet
      simp only [ne_eq, Nat.ne_of_lt q1, not_false_eq_true, if_true]
    by_cases hrl : ((le8 (s.read 1).1 &&& 0x80) != 0) = true
    · simp only [hrl, if_true] at h
      cases hmw : mem_write pbuf 0 ((s.read 1).2.read ps).1 with
      | none => rw [hmw] at h; cases h
      | some pbuf1 =>
        rw [hmw] at h
        simp only [] at h
        by_cases hlen2 : ((s.read 1).2.read ps).1.length = ps
        · simp only [hlen2, ne_eq, not_true_eq_false, if_false] at h
          obtain ⟨hr2, hk2⟩ := read_succeeded hs2 hlen2
          have hs3 : ((s.read 1).2.read ps).2.failbit = false := by rw [hr2]; exact hs2
          have hp3 : ((s.read 1).2.read ps).2.pos = s.pos + 1 + ps := by rw [hr2, ← hp2]; rfl
          have hfin : ∀ r : List Nat,
              some ((Except.ok (true, (le8 (s.read 1).1 &&& 0x7F) + 1, r) :
                Except tga_error (Bool × Nat × List Nat)), ((s.read 1).2.read ps).2) =
                some (Except.ok (b1, pc1, pb1), s1) →
              s1 = ((s.read 1).2.read ps).2 := by
            intro r hh
            simp only [Option.some.injEq, Prod.mk.injEq] at hh
            exact hh.2.symm
          have hs1 : s1 = ((s.read 1).2.read ps).2 := by
            cases cm with
            | false =>
              simp only [Bool.false_eq_true, if_false] at h
              exact hfin _ h
            | true =>
              simp only [if_true] at h
              cases hidx : pixel_to_map_index pbuf1 0 with
              | none => rw [hidx] at h; cases h
              | some index =>
                rw [hidx] at h
                simp only [] at h
                cases hget : try_get_color_from_map pbuf1 0 index map with
                | none => rw [hget] at h; cases h
                | some p =>
                  obtain ⟨flag, pb2⟩ := p
                  rw [hget] at h
                  cases flag with
                  | false => cases h
                  | true => exact hfin _ h
          refine ⟨by rw [hs1]; exact hs3, by rw [hs1, hp3]; omega, ?_, ?_⟩
          · intro hle
            rw [hs1, hp3] at hle
            unfold decode_data_rle_packet
            simp only []
            rw [read_truncate_same s 1 n hs hlen (by omega)]
            simp only [hlen, ne_eq, not_true_eq_false, if_false, hrl, if_true]
            rw [read_truncate_same (s.read 1).2 ps n hs2 hlen2 (by omega)]
            simp only [hmw, hlen2, ne_eq, not_true_eq_false, if_false]
            rw [← hs1] at h ⊢
            cases cm with
            | false =>
              simp only [Bool.false_eq_true, if_false, Option.some.injEq, Prod.mk.injEq,
                and_true] at h ⊢
              exact h
            | true =>
              simp only [if_true] at h ⊢
              generalize pixel_to_map_index pbuf1 0 = oi at h ⊢
              cases oi with
              | none => cases h
              | some index =>
                simp only [] at h ⊢
                generalize try_get_color_from_map pbuf1 0 index map = og at h ⊢
                cases og with
                | none => cases h
                | some p =>
                  obtain ⟨flag, pb2⟩ := p
                  cases flag with
                  | false => cases h
                  | true =>
                    simp only [Option.some.injEq, Prod.mk.injEq, and_true] at h ⊢
                    exact h
          · intro hlt
            rw [hs1, hp3] at hlt
            by_cases hle : s.pos + 1 ≤ n
            · obtain ⟨q1, _⟩ := read_truncate_short (s.read 1).2 ps n hs2 h1 (by omega)
              obtain ⟨dd, hdd⟩ := mem_write_shorter hmw (by omega :
                (((s.read 1).2.truncate n).read ps).1.length ≤ ((s.read 1).2.read ps).1.length)
              refine ⟨(((s.read 1).2.truncate n).read ps).2, ?_⟩
              unfold decode_data_rle_packet
              simp only []
              rw [read_truncate_same s 1 n hs hlen hle]
              simp only [hlen, ne_eq, not_true_eq_false, if_false, hrl, if_true, hdd,
                Nat.ne_of_lt q1, not_false_eq_true]
            · exact hshort (by omega)
        · simp only [hlen2, ne_eq, not_false_eq_true, if_true] at h
          cases h
    · simp only [hrl, Bool.false_eq_true, if_false, Option.some.injEq, Prod.mk.injEq] at h
      obtain ⟨_, hs1⟩ := h
      refine ⟨by rw [← hs1]; exact hs2, by rw [← hs1, hp2]; omega, ?_, fun hlt => hshort (by
        rw [← hs1, hp2] at hlt; exact hlt)⟩
      intro hle
      rw [← hs1, hp2] at hle
      unfold decode_data_rle_packet
      simp only []
      rw [read_truncate_same s 1 n hs hlen hle]
      simp only [hlen, ne_eq, not_true_eq_false, if_false, hrl, Bool.false_eq_true]
      rename_i hh
      rw [← hs1]
      simp only [Option.some.injEq, Prod.mk.injEq, and_true]
      exact hh
  · simp only [hlen, ne_eq, not_false_eq_true, if_true] at h
    cases h

theorem rle_pixel_truncate_run (ps des : Nat) (cm : Bool) (map : color_map)
    (pbuf data : List Nat) (off n : Nat) (s : ifstream) (e : tga_error) (d1 : List Nat)
    (s1 : ifstream)
    (h : decode_data_rle_pixel ps des cm map true pbuf data off s = some (e, d1, s1)) :
    s1 = s ∧
      decode_data_rle_pixel ps des cm map true pbuf data off (s.truncate n) =
        some (e, d1, s.truncate n) := by
  unfold decode_data_rle_pixel at h ⊢
  simp only [if_true] at h ⊢
  generalize mem_read pbuf 0 des = om at h ⊢
  cases om with
  | none => cases h
  | some px =>
    simp only [] at h ⊢
    generalize mem_write data off px = ow at h ⊢
    cases ow with
    | none => cases h
    | some d =>
      simp only [Option.some.injEq, Prod.mk.injEq] at h ⊢
      obtain ⟨rfl, rfl, rfl⟩ := h
      simp

theorem rle_pixel_truncate_raw (ps des : Nat) (cm : Bool) (map : color_map)
    (pbuf data : List Nat) (off n : Nat) (h1 : 1 ≤ ps) (s : ifstream) (hs : s.failbit = false)
    (d1 : List Nat) (s1 : ifstream)
    (h : decode_data_rle_pixel ps des cm map false pbuf data off s =
      some (TGA_NO_ERROR, d1, s1)) :
    s1.failbit = false ∧ s.pos ≤ s1.pos ∧
    (s1.pos ≤ n →
      decode_data_rle_pixel ps des cm map false pbuf data off (s.truncate n) =
        some (TGA_NO_ERROR, d1, s1.truncate n)) ∧
    (n < s1.pos → ∃ d'' t',
      decode_data_rle_pixel ps des cm map false pbuf data off (s.truncate n) =
        some (TGA_ERROR_FILE_CANNOT_READ, d'', t')) := by
  unfold decode_data_rle_pixel at h
  simp only [Bool.false_eq_true, if_false] at h
  cases hmw : mem_write data off (s.read ps).1 with
  | none => rw [hmw] at h; cases h
  | some data1 =>
    rw [hmw] at h
    simp only [] at h
    by_cases hlen : (s.read ps).1.length = ps
    · simp only [hlen, ne_eq, not_true_eq_false, if_false] at h
      obtain ⟨hr, hk⟩ := read_succeeded hs hlen
      have hs2 : (s.read ps).2.failbit = false := by rw [hr]; exact hs
      have hp2 : (s.read ps).2.pos = s.pos + ps := by rw [hr]; rfl
      have hs1 : s1 = (s.read ps).2 := by
        cases cm with
        | false =>
          simp only [Bool.false_eq_true, if_false, Option.some.injEq, Prod.mk.injEq] at h
          exact h.2.2.symm
        | true =>
          simp only [if_true] at h
          generalize pixel_to_map_index data1 off = oi at h
          cases oi with
          | none => cases h
          | some index =>
            simp only [] at h
            generalize try_get_color_from_map data1 off index map = og at h
            cases og with
            | none => cases h
            | some p =>
              obtain ⟨flag, pb2⟩ := p
              cases flag with
              | false => cases h
              | true =>
                simp only [Option.some.injEq, Prod.mk.injEq] at h
                exact h.2.2.symm
      refine ⟨by rw [hs1]; exact hs2, by rw [hs1, hp2]; omega, ?_, ?_⟩
      · intro hle
        rw [hs1, hp2] at hle
        unfold decode_data_rle_pixel
        simp only [Bool.false_eq_true, if_false]
        rw [read_truncate_same s ps n hs hlen hle]
        simp only [hmw, hlen, ne_eq, not_true_eq_false, if_false]
        rw [← hs1] at h ⊢
        cases cm with
        | false =>
          simp only [Bool.false_eq_true, if_false, Option.some.injEq, Prod.mk.injEq,
            and_true] at h ⊢
          exact h
        | true =>
          simp only [if_true] at h ⊢
          generalize pixel_to_map_index data1 off = oi at h ⊢
          cases oi with
          | none => cases h
          | some index =>
            simp only [] at h ⊢
            generalize try_get_color_from_map data1 off index map = og at h ⊢
            cases og with
            | none => cases h
            | some p =>
              obtain ⟨flag, pb2⟩ := p
              cases flag with
              | false => cases h
              | true =>
                simp only [Option.some.injEq, Prod.mk.injEq, and_true] at h ⊢
                exact h
      · intro hlt
        rw [hs1, hp2] at hlt
        obtain ⟨q1, _⟩ := read_truncate_short s ps n hs h1 hlt
        obtain ⟨dd, hdd⟩ := mem_write_shorter hmw (by omega :
          ((s.truncate n).read ps).1.length ≤ (s.read ps).1.length)
        refine ⟨dd, ((s.truncate n).read ps).2, ?_⟩
        unfold decode_data_rle_pixel
        simp only [Bool.false_eq_true, if_false, hdd, ne_eq, Nat.ne_of_lt q1, not_false_eq_true,
          if_true]
    · simp only [hlen, ne_eq, not_false_eq_true, if_true] at h
      cases h

theorem rle_loop_succ (ps des : Nat) (cm : Bool) (map : color_map) (c : Nat) (b : Bool)
    (pc : Nat) (pbuf data : List Nat) (off : Nat) (s : ifstream) :
    decode_data_rle_loop ps des cm map (c + 1) b pc pbuf data off s =
      match (if pc = 0 then decode_data_rle_packet ps cm map pbuf s
        else some (.ok (b, pc, pbuf), s)) with
      | none => none
      | some (.error e, s1) => some (e, data, s1)
      | some (.ok (b1, pc1, pb1), s1) =>
        match decode_data_rle_pixel ps des cm map b1 pb1 data off s1 with
        | none => none
        | some (e, d1, s2) =>
          if e ≠ TGA_NO_ERROR then some (e, d1, s2)
          else decode_data_rle_loop ps des cm map c b1 ((pc1 + 255) % 256) pb1 d1 (off + des) s2 := by
  rfl

theorem rle_packet_error_ne (ps : Nat) (cm : Bool) (map : color_map) (pbuf : List Nat)
    (s s1 : ifstream) (e : tga_error)
    (h : decode_data_rle_packet ps cm map pbuf s = some (.error e, s1)) : e ≠ TGA_NO_ERROR := by
  unfold decode_data_rle_packet at h
  simp only [] at h
  by_cases hlen : (s.read 1).1.length = 1
  · simp only [hlen, ne_eq, not_true_eq_false, if_false] at h
    by_cases hrl : ((le8 (s.read 1).1 &&& 0x80) != 0) = true
    · simp only [hrl, if_true] at h
      generalize mem_write pbuf 0 ((s.read 1).2.read ps).1 = ow at h
      cases ow with
      | none => cases h
      | some pb1 =>
        simp only [] at h
        by_cases hlen2 : ((s.read 1).2.read ps).1.length = ps
        · simp only [hlen2, ne_eq, not_true_eq_false, if_false] at h
          cases cm with
          | false => simp at h
          | true =>
            simp only [if_true] at h
            generalize pixel_to_map_index pb1 0 = oi at h
            cases oi with
            | none => cases h
            | some index =>
              simp only [] at h
              generalize try_get_color_from_map pb1 0 index map = og at h
              cases og with
              | none => cases h
              | some p =>
                obtain ⟨flag, pb2⟩ := p
                cases flag with
                | false =>
                  simp only [Option.some.injEq, Prod.mk.injEq, Except.error.injEq] at h
                  rw [← h.1]; decide
                | true => simp at h
        · simp only [hlen2, ne_eq, not_false_eq_true, if_true, Option.some.injEq, Prod.mk.injEq,
            Except.error.injEq] at h
          rw [← h.1]; decide
    · simp [hrl] at h
  · simp only [hlen, ne_eq, not_false_eq_true, if_true, Option.some.injEq, Prod.mk.injEq,
      Except.error.injEq] at h
    rw [← h.1]; decide

theorem rle_loop_truncate (ps des : Nat) (cm : Bool) (map : color_map) (n : Nat) (h1 : 1 ≤ ps) :
    ∀ (count : Nat) (b : Bool) (pc : Nat) (pbuf data : List Nat) (off : Nat) (s : ifstream),
      s.failbit = false → ∀ (d' : List Nat) (s' : ifstream),
        decode_data_rle_loop ps des cm map count b pc pbuf data off s =
          some (TGA_NO_ERROR, d', s') →
        s'.failbit = false ∧ s.pos ≤ s'.pos ∧
        (s'.pos ≤ n →
          decode_data_rle_loop ps des cm map count b pc pbuf data off (s.truncate n) =
            some (TGA_NO_ERROR, d', s'.truncate n)) ∧
        (s.pos ≤ n ∨ (1 ≤ count ∧ pc = 0) → n < s'.pos → ∃ d'' t',
          decode_data_rle_loop ps des cm map count b pc pbuf data off (s.truncate n) =
            some (TGA_ERROR_FILE_CANNOT_READ, d'', t')) := by
  intro count
  induction count with
  | zero =>
    intro b pc pbuf data off s hs d' s' h
    simp only [decode_data_rle_loop, Option.some.injEq, Prod.mk.injEq, true_and] at h
    obtain ⟨rfl, rfl⟩ := h
    exact ⟨hs, Nat.le_refl _, fun _ => rfl, fun h1 h2 => by
      rcases h1 with h1 | h1 <;> omega⟩
  | succ c ih =>
    intro b pc pbuf data off s hs d' s' h
    rw [rle_loop_succ] at h
    -- the packet header step
    have hA : ∃ b1 pc1 pb1 s1,
        (if pc = 0 then decode_data_rle_packet ps cm map pbuf s
          else some (.ok (b, pc, pbuf), s)) = some (.ok (b1, pc1, pb1), s1) ∧
        s1.failbit = false ∧ s.pos ≤ s1.pos ∧
        (s1.pos ≤ n →
          (if pc = 0 then decode_data_rle_packet ps cm map pbuf (s.truncate n)
            else some (.ok (b, pc, pbuf), s.truncate n)) =
            some (.ok (b1, pc1, pb1), s1.truncate n)) ∧
        (s.pos ≤ n ∨ pc = 0 → n < s1.pos → ∃ t',
          (if pc = 0 then decode_data_rle_packet ps cm map pbuf (s.truncate n)
            else some (.ok (b, pc, pbuf), s.truncate n)) =
            some (.error TGA_ERROR_FILE_CANNOT_READ, t')) := by
      by_cases hpc : pc = 0
      · simp only [hpc, if_true] at h ⊢
        cases hp : decode_data_rle_packet ps cm map pbuf s with
        | none => rw [hp] at h; cases h
        | some r =>
          obtain ⟨x, s1⟩ := r
          cases x with
          | error e =>
            rw [hp] at h
            simp only [Option.some.injEq, Prod.mk.injEq] at h
            exact absurd h.1 (rle_packet_error_ne ps cm map pbuf s s1 e hp)
          | ok t =>
            obtain ⟨b1, pc1, pb1⟩ := t
            obtain ⟨q1, q2, q3, q4⟩ := rle_packet_truncate ps cm map pbuf n h1 s hs b1 pc1 pb1 s1 hp
            exact ⟨b1, pc1, pb1, s1, rfl, q1, q2, q3, fun _ hlt => q4 hlt⟩
      · simp only [hpc, if_false]
        exact ⟨b, pc, pbuf, s, rfl, hs, Nat.le_refl _, fun _ => rfl,
          fun h1 h2 => absurd (h1.resolve_right id) (by omega)⟩
    obtain ⟨b1, pc1, pb1, s1, hAeq, hs1, hp1, hAm, hAf⟩ := hA
    rw [hAeq] at h
    simp only [] at h
    -- the pixel step
    cases hpx : decode_data_rle_pixel ps des cm map b1 pb1 data off s1 with
    | none => rw [hpx] at h; cases h
    | some r =>
      obtain ⟨e, d1, s2⟩ := r
      rw [hpx] at h
      simp only [] at h
      by_cases he : e = TGA_NO_ERROR
      · subst he
        simp only [ne_eq, not_true_eq_false, if_false] at h
        have hP : s2.failbit = false ∧ s1.pos ≤ s2.pos ∧
            (s2.pos ≤ n →
              decode_data_rle_pixel ps des cm map b1 pb1 data off (s1.truncate n) =
                some (TGA_NO_ERROR, d1, s2.truncate n)) ∧
            (s1.pos ≤ n → n < s2.pos → ∃ d'' t',
              decode_data_rle_pixel ps des cm map b1 pb1 data off (s1.truncate n) =
                some (TGA_ERROR_FILE_CANNOT_READ, d'', t')) := by
          cases b1 with
          | true =>
            obtain ⟨q1, q2⟩ := rle_pixel_truncate_run ps des cm map pb1 data off n s1 _ d1 s2 hpx
            subst q1
            exact ⟨hs1, Nat.le_refl _, fun _ => q2, fun h1 h2 => absurd h1 (by omega)⟩
          | false =>
            obtain ⟨q1, q2, q3, q4⟩ := rle_pixel_truncate_raw ps des cm map pb1 data off n h1 s1 hs1
              d1 s2 hpx
            exact ⟨q1, q2, q3, fun _ hlt => q4 hlt⟩
        obtain ⟨hs2, hp2, hPm, hPf⟩ := hP
        obtain ⟨i1, i2, i3, i4⟩ := ih b1 ((pc1 + 255) % 256) pb1 d1 (off + des) s2 hs2 d' s' h
        refine ⟨i1, by omega, ?_, ?_⟩
        · intro hle
          rw [rle_loop_succ, hAm (by omega)]
          simp only []
          rw [hPm (by omega)]
          simp only [ne_eq, not_true_eq_false, if_false]
          exact i3 hle
        · intro hsn hlt
          by_cases hle1 : s1.pos ≤ n
          · by_cases hle2 : s2.pos ≤ n
            · obtain ⟨dd, tt, hdd⟩ := i4 (Or.inl hle2) hlt
              refine ⟨dd, tt, ?_⟩
              rw [rle_loop_succ, hAm hle1]
              simp only []
              rw [hPm hle2]
              simp only [ne_eq, not_true_eq_false, if_false]
              exact hdd
            · obtain ⟨dd, tt, hdd⟩ := hPf hle1 (by omega)
              refine ⟨dd, tt, ?_⟩
              rw [rle_loop_succ, hAm hle1]
              simp only []
              rw [hdd]
              simp
          · obtain ⟨tt, htt⟩ := hAf (hsn.imp id (fun x => x.2)) (by omega)
            refine ⟨data, tt, ?_⟩
            rw [rle_loop_succ, htt]
      · simp only [ne_eq, he, not_false_eq_true, if_true, Option.some.injEq, Prod.mk.injEq] at h
        exact h.1.elim

/-! ## Truncated files: the stages of load -/

theorem load_decode_truncate (img : Image) (header : tga_header) (cmap : color_map)
    (s : ifstream) (n : Nat) (hs : s.failbit = false)
    (hwh : 1 ≤ img.img_info.width * img.img_info.height)
    (hps : 1 ≤ (BITS_TO_BYTES header.pixel_depth % 256).toNat)
    (d' : List Nat) (s' : ifstream)
    (h : img.load_decode header cmap s = some (TGA_NO_ERROR, d', s')) (hn : n < s'.pos) :
    ∃ d'' t', img.load_decode header cmap (s.truncate n) =
      some (TGA_ERROR_FILE_CANNOT_READ, d'', t') := by
  unfold Image.load_decode at h ⊢
  simp only [] at h ⊢
  by_cases hrle : IS_RLE header = true
  · simp only [hrle, if_true] at h ⊢
    unfold decode_data_rle at h ⊢
    simp only [] at h ⊢
    obtain ⟨_, _, _, q⟩ := rle_loop_truncate _ _ _ _ n hps _ _ _ _ _ _ s hs d' s' h
    exact q (Or.inr ⟨hwh, rfl⟩) hn
  · simp only [hrle, Bool.false_eq_true, if_false] at h ⊢
    unfold decode_data at h ⊢
    simp only [] at h ⊢
    by_cases hcm : IS_COLOR_MAPPED header = true
    · simp only [hcm, if_true] at h ⊢
      obtain ⟨_, _, _, q⟩ := decode_data_mapped_truncate _ _ n hps _ _ _ s hs d' s' h
      exact q (Or.inr hwh) hn
    · simp only [hcm, Bool.false_eq_true, if_false] at h ⊢
      generalize hk : img.img_info.width * img.img_info.height *
        (BITS_TO_BYTES header.pixel_depth % 256).toNat = k at h ⊢
      have hk1 : 1 ≤ k := by
        rw [← hk]
        exact Nat.mul_le_mul hwh hps
      cases hmw : mem_write (vector_resize img.data (header.image_width * header.image_height *
          (pixel_format_to_pixel_size img.img_info.pixel_format).toNat)) 0 (s.read k).1 with
      | none => rw [hmw] at h; cases h
      | some data1 =>
        rw [hmw] at h
        simp only [] at h
        by_cases hlen : (s.read k).1.length = k
        · simp only [hlen, ne_eq, not_true_eq_false, if_false, Option.some.injEq,
            Prod.mk.injEq, true_and] at h
          obtain ⟨hr, _⟩ := read_succeeded hs hlen
          have hp : s'.pos = s.pos + k := by rw [← h.2, hr]; rfl
          obtain ⟨q1, _⟩ := read_truncate_short s k n hs hk1 (by omega)
          obtain ⟨dd, hdd⟩ := mem_write_shorter hmw (by omega :
            ((s.truncate n).read k).1.length ≤ (s.read k).1.length)
          exact ⟨dd, ((s.truncate n).read k).2, by
            simp only [hdd, ne_eq, Nat.ne_of_lt q1, not_false_eq_true, if_true]⟩
        · simp only [hlen, ne_eq, not_false_eq_true, if_true] at h
          cases h

theorem seekg_truncate (strict : Bool) (s : ifstream) (k n : Nat)
    (h : (s.seekg strict k).failbit = false) :
    s.failbit = false ∧ (s.seekg strict k).pos = s.pos + k ∧
    (((s.truncate n).seekg strict k).failbit = true ∨
      (s.truncate n).seekg strict k = (s.seekg strict k).truncate n) := by
  obtain ⟨b, pos, fb⟩ := s
  cases fb with
  | true => simp [ifstream.seekg] at h
  | false =>
    simp only [ifstream.seekg, Bool.false_eq_true, if_false] at h ⊢
    by_cases h1 : (strict && decide (b.length < pos + k)) = true
    · simp [h1] at h
    · simp only [h1, Bool.false_eq_true, if_false, ifstream.truncate, true_and]
      by_cases h2 : (strict && decide ((List.take n b).length < pos + k)) = true
      · left
        rw [if_pos h2]
      · right
        rw [if_neg h2]

theorem load_color_map_truncate (strict : Bool) (header : tga_header) (s : ifstream) (n : Nat)
    (hs : s.failbit = false) (cmap : color_map) (s1 : ifstream)
    (h : load_color_map strict header s = some (some cmap, s1)) :
    s1.failbit = false ∧
    ((∃ t', load_color_map strict header (s.truncate n) = some (none, t')) ∨
      load_color_map strict header (s.truncate n) = some (some cmap, s1.truncate n)) := by
  unfold load_color_map at h ⊢
  simp only [] at h ⊢
  by_cases hcm : IS_COLOR_MAPPED header = true
  · simp only [hcm, if_true] at h ⊢
    generalize ((header.map_length : Int) * BITS_TO_BYTES header.map_entry_size).toNat = k at h ⊢
    cases hmw : mem_write (vector_resize [] k) 0 (s.read k).1 with
    | none => rw [hmw] at h; cases h
    | some pixels =>
      rw [hmw] at h
      simp only [] at h
      by_cases hlen : (s.read k).1.length = k
      · simp only [hlen, ne_eq, not_true_eq_false, if_false, Option.some.injEq,
          Prod.mk.injEq] at h
        obtain ⟨hc, hs1⟩ := h
        obtain ⟨hr, _⟩ := read_succeeded hs hlen
        refine ⟨by rw [← hs1, hr]; exact hs, ?_⟩
        by_cases hle : s.pos + k ≤ n ∨ k = 0
        · right
          have hsame : (s.truncate n).read k = ((s.read k).1, (s.read k).2.truncate n) := by
            rcases hle with hle | hle
            · exact read_truncate_same s k n hs hlen hle
            · subst hle
              obtain ⟨b, pos, fb⟩ := s
              simp only at hs
              subst hs
              simp [ifstream.read, ifstream.truncate]
          rw [hsame]
          simp only [hmw, hlen, ne_eq, not_true_eq_false, if_false, hs1]
          rw [← hc]
        · left
          obtain ⟨q1, _⟩ := read_truncate_short s k n hs (by omega) (by omega)
          obtain ⟨dd, hdd⟩ := mem_write_shorter hmw (by omega :
            ((s.truncate n).read k).1.length ≤ (s.read k).1.length)
          exact ⟨((s.truncate n).read k).2, by
            simp only [hdd, ne_eq, Nat.ne_of_lt q1, not_false_eq_true, if_true]⟩
      · simp only [hlen, ne_eq, not_false_eq_true, if_true] at h
        cases h
  · simp only [hcm, Bool.false_eq_true, if_false] at h ⊢
    by_cases hmt : header.map_type = 1
    · simp only [hmt, if_true] at h ⊢
      generalize ((header.map_length : Int) * BITS_TO_BYTES header.map_entry_size).toNat = k at h ⊢
      by_cases hf : (s.seekg strict k).failbit = true
      · simp [hf] at h
      · simp only [hf, Bool.false_eq_true, if_false, Option.some.injEq, Prod.mk.injEq] at h
        obtain ⟨hc, hs1⟩ := h
        have hf' : (s.seekg strict k).failbit = false := by simpa using hf
        obtain ⟨_, _, q⟩ := seekg_truncate strict s k n hf'
        refine ⟨by rw [← hs1]; exact hf', ?_⟩
        rcases q with q | q
        · left
          exact ⟨_, by rw [if_pos q]⟩
        · right
          have : ¬ ((s.truncate n).seekg strict k).failbit = true := by
            rw [q, truncate_failbit, hf']
            simp
          rw [if_neg this, q, hs1, hc]
    · simp only [hmt, if_false, Option.some.injEq, Prod.mk.injEq] at h ⊢
      obtain ⟨hc, hs1⟩ := h
      exact ⟨by rw [← hs1]; exact hs, Or.inr ⟨hc, by rw [hs1]⟩⟩

theorem load_checks_accept (strict : Bool) (img : Image) (header : tga_header) (s : ifstream)
    (hp : header_passes img header) :
    Image.load_checks strict img header s =
      if (s.seekg strict header.id_length).failbit = true then
        some ({ img.with_header header with err := TGA_ERROR_FILE_CANNOT_READ }, false,
          s.seekg strict header.id_length)
      else Image.load_body strict (img.with_header header) header
        (s.seekg strict header.id_length) := by
  obtain ⟨h1, h2, h3, h4, h5⟩ := hp
  unfold Image.load_checks
  simp only [h1, h2, h3, h4, h5, if_false, Bool.not_true, Bool.false_eq_true]
  rfl

theorem load_body_flag (strict : Bool) (img : Image) (header : tga_header) (s : ifstream)
    (img' : Image) (s' : ifstream)
    (h : Image.load_body strict img header s = some (img', true, s')) :
    ∃ cmap s1 d1, load_color_map strict header s = some (some cmap, s1) ∧
      img.load_decode header cmap s1 = some (TGA_NO_ERROR, d1, s') := by
  unfold Image.load_body at h
  cases hm : load_color_map strict header s with
  | none => rw [hm] at h; cases h
  | some p =>
    obtain ⟨m, s1⟩ := p
    rw [hm] at h
    cases m with
    | none => simp at h
    | some cmap =>
      simp only [] at h
      cases hd : img.load_decode header cmap s1 with
      | none => rw [hd] at h; cases h
      | some q =>
        obtain ⟨e, d1, s2⟩ := q
        rw [hd] at h
        simp only [] at h
        by_cases he : e = TGA_NO_ERROR
        · subst he
          simp only [ne_eq, not_true_eq_false, if_false] at h
          cases hf : Image.load_flips ⟨d1, img.img_info, TGA_NO_ERROR⟩ header.image_descriptor with
          | none => rw [hf] at h; cases h
          | some img2 =>
            rw [hf] at h
            simp only [Option.some.injEq, Prod.mk.injEq, true_and] at h
            exact ⟨cmap, s1, d1, rfl, by rw [← h.2]; exact hd⟩
        · simp [he] at h

theorem load_checks_flag (strict : Bool) (img : Image) (header : tga_header) (s : ifstream)
    (img' : Image) (s' : ifstream)
    (h : Image.load_checks strict img header s = some (img', true, s')) :
    header_passes img header ∧ (s.seekg strict header.id_length).failbit = false ∧
      Image.load_body strict (img.with_header header) header (s.seekg strict header.id_length) =
        some (img', true, s') := by
  have hp : header_passes img header := by
    unfold Image.load_checks at h
    unfold header_passes
    by_cases h1 : header.map_type > 1
    · rw [if_pos h1] at h
      simp at h
    rw [if_neg h1] at h
    by_cases h2 : header.image_type = TGA_TYPE_NO_DATA
    · rw [if_pos h2] at h
      simp at h
    rw [if_neg h2] at h
    by_cases h3 : IS_SUPPORTED_IMAGE_TYPE header = true
    · simp only [h3, Bool.not_true, Bool.false_eq_true, if_false] at h
      by_cases h4 : header.image_width ≤ 0 ∨ header.image_height ≤ 0
      · rw [if_pos h4] at h
        simp at h
      · rw [if_neg h4] at h
        by_cases h5 : (set_pixel_format img.img_info.pixel_format header).2 = true
        · exact ⟨h1, h2, h3, h4, h5⟩
        · have h5' : (set_pixel_format img.img_info.pixel_format header).2 = false := by
            simpa using h5
          simp only [h5', Bool.not_false, if_true] at h
          simp at h
    · have h3' : IS_SUPPORTED_IMAGE_TYPE header = false := by simpa using h3
      simp only [h3', Bool.not_false, if_true] at h
      simp at h
  refine ⟨hp, ?_⟩
  rw [load_checks_accept strict img header s hp] at h
  by_cases hf : (s.seekg strict header.id_length).failbit = true
  · simp [hf] at h
  · rw [if_neg hf] at h
    exact ⟨by simpa using hf, h⟩

theorem parse_header_take (b : List Nat) (n : Nat) (hn : 18 ≤ n) :
    parse_header (b.take n) = parse_header b := by
  have key : ∀ i, i < 18 → (b.take n).getD i 0 = b.getD i 0 := by
    intro i hi
    simp only [List.getD_eq_getElem?_getD, List.getElem?_take]
    rw [if_pos (by omega)]
  unfold parse_header
  rw [key 0 (by omega), key 1 (by omega), key 2 (by omega), key 3 (by omega), key 4 (by omega),
    key 5 (by omega), key 6 (by omega), key 7 (by omega), key 8 (by omega), key 9 (by omega),
    key 10 (by omega), key 11 (by omega), key 12 (by omega), key 13 (by omega),
    key 14 (by omega), key 15 (by omega), key 16 (by omega), key 17 (by omega)]

theorem set_pixel_format_depth (format : tga_pixel_format) (header : tga_header)
    (h : (set_pixel_format format header).2 = true) :
    1 ≤ (BITS_TO_BYTES header.pixel_depth % 256).toNat := by
  unfold set_pixel_format at h
  split_ifs at h <;>
    first
    | (simp at h; done)
    | (simp only [*]; decide)

/-- C9. When `load` succeeds on a file, every prefix of the file that ends before the
position at which `load` stopped reading (the end of the image data block; the prefix may
end inside the header, the ID field, the color map or the raw or run-length pixel stream)
makes `load` return `false` with `TGA_ERROR_FILE_CANNOT_READ`. -/
theorem C9_truncation_detected (strict : Bool) (img img' : Image) (bytes : List Nat)
    (s' : ifstream) (n : Nat)
    (h : Image.load_stream strict img ⟨bytes, 0, false⟩ = some (img', true, s'))
    (hn : n < s'.pos) :
    Image.load strict img (some bytes) = some (img', true) ∧
    ∃ imgT : Image, Image.load strict img (some (bytes.take n)) = some (imgT, false) ∧
      imgT.err = TGA_ERROR_FILE_CANNOT_READ := by
  refine ⟨by simp only [Image.load, h, Option.map_some'], ?_⟩
  have h18 : 18 ≤ bytes.length := by
    by_contra hlt
    have := read_header_short bytes (by omega)
    simp only [Image.load_stream, this, if_true, Option.some.injEq, Prod.mk.injEq] at h
    simp at h
  by_cases hn18 : n < 18
  · exact ⟨_, load_short strict img (bytes.take n) (by rw [List.length_take]; omega), rfl⟩
  have hn18' : 18 ≤ n := by omega
  have hlenT : 18 ≤ (bytes.take n).length := by rw [List.length_take]; omega
  simp only [Image.load_stream, read_header_full bytes h18, Bool.false_eq_true, if_false] at h
  obtain ⟨hpass, hseek, hbody⟩ := load_checks_flag strict img _ _ img' s' h
  obtain ⟨cmap, s1, d1, hmap, hdec⟩ := load_body_flag strict _ _ _ img' s' hbody
  have hTload : Image.load strict img (some (bytes.take n)) =
      (Image.load_checks strict img (parse_header bytes)
        (ifstream.truncate ⟨bytes, 18, false⟩ n)).map (fun r => (r.1, r.2.1)) := by
    simp only [Image.load, Image.load_stream, read_header_full _ hlenT, Bool.false_eq_true,
      if_false, parse_header_take bytes n hn18']
    rfl
  rw [hTload, load_checks_accept strict img _ _ hpass]
  obtain ⟨_, _, hsk⟩ := seekg_truncate strict ⟨bytes, 18, false⟩ (parse_header bytes).id_length n hseek
  rcases hsk with hsk | hsk
  · rw [if_pos hsk]
    exact ⟨_, rfl, rfl⟩
  · have hnf : ¬ ((ifstream.truncate ⟨bytes, 18, false⟩ n).seekg strict
        (parse_header bytes).id_length).failbit = true := by
      rw [hsk, truncate_failbit, hseek]
      simp
    rw [if_neg hnf, hsk]
    unfold Image.load_body
    obtain ⟨hs1, hcm⟩ := load_color_map_truncate strict _ _ n hseek cmap s1 hmap
    rcases hcm with ⟨t', hcm⟩ | hcm
    · rw [hcm]
      exact ⟨_, rfl, rfl⟩
    · rw [hcm]
      simp only []
      obtain ⟨_, _, _, hw, hpf⟩ := hpass
      have hwh : 1 ≤ (img.with_header (parse_header bytes)).img_info.width *
          (img.with_header (parse_header bytes)).img_info.height := by
        show 1 ≤ (parse_header bytes).image_width * (parse_header bytes).image_height
        have : 1 ≤ (parse_header bytes).image_width ∧ 1 ≤ (parse_header bytes).image_height := by
          omega
        exact Nat.mul_le_mul this.1 this.2
      obtain ⟨dd, tt, hdd⟩ := load_decode_truncate _ _ cmap s1 n hs1 hwh
        (set_pixel_format_depth _ _ hpf) d1 s' hdec hn
      rw [hdd]
      exact ⟨_, rfl, rfl⟩

/-- C9, at an uncompressed 2 x 2 grayscale file cut one byte short. -/
theorem C9_truncation_detected_witness :
    Image.load false ⟨[], ⟨0, 0, 0⟩, TGA_NO_ERROR⟩
        (some [0, 0, 3, 0, 0, 0, 0, 0, 0, 0, 0, 0, 2, 0, 2, 0, 8, 0x20, 1, 2, 3, 4]) =
      some (⟨[1, 2, 3, 4], ⟨2, 2, TGA_PIXEL_BW8⟩, TGA_NO_ERROR⟩, true) ∧
    ∃ imgT : Image,
      Image.load false ⟨[], ⟨0, 0, 0⟩, TGA_NO_ERROR⟩
          (some ([0, 0, 3, 0, 0, 0, 0, 0, 0, 0, 0, 0, 2, 0, 2, 0, 8, 0x20, 1, 2, 3, 4].take 21)) =
        some (imgT, false) ∧
      imgT.err = TGA_ERROR_FILE_CANNOT_READ :=
  C9_truncation_detected false ⟨[], ⟨0, 0, 0⟩, TGA_NO_ERROR⟩
    ⟨[1, 2, 3, 4], ⟨2, 2, TGA_PIXEL_BW8⟩, TGA_NO_ERROR⟩
    [0, 0, 3, 0, 0, 0, 0, 0, 0, 0, 0, 0, 2, 0, 2, 0, 8, 0x20, 1, 2, 3, 4]
    ⟨[0, 0, 3, 0, 0, 0, 0, 0, 0, 0, 0, 0, 2, 0, 2, 0, 8, 0x20, 1, 2, 3, 4], 22, false⟩ 21
    (by decide) (by decide)

/-! ## C5: the flips and the orientation of the loaded buffer -/

theorem mem_write_length {buf src buf' : List Nat} {off : Nat}
    (h : mem_write buf off src = some buf') : buf'.length = buf.length := by
  unfold mem_write at h
  split_ifs at h with hle
  simp only [Option.some.injEq] at h
  subst h
  simp only [List.length_append, List.length_take, List.length_drop]
  omega

theorem mem_write_get {buf src buf' : List Nat} {off : Nat}
    (h : mem_write buf off src = some buf') (t : Nat) :
    buf'[t]? = if off ≤ t ∧ t < off + src.length then src[t - off]? else buf[t]? := by
  unfold mem_write at h
  split_ifs at h with hle
  simp only [Option.some.injEq] at h
  subst h
  have hto : (buf.take off).length = off := by rw [List.length_take]; omega
  by_cases h1 : t < off
  · rw [if_neg (by omega), List.append_assoc, List.getElem?_append_left (by omega),
      List.getElem?_take_of_lt h1]
  · by_cases h2 : t < off + src.length
    · rw [if_pos ⟨by omega, h2⟩, List.append_assoc, List.getElem?_append_right (by omega), hto,
        List.getElem?_append_left (by omega)]
    · rw [if_neg (by omega), List.getElem?_append_right
        (by rw [List.length_append, hto]; omega), List.length_append, hto, List.getElem?_drop]
      congr 1
      omega

theorem mem_read_get {buf out : List Nat} {off n : Nat}
    (h : mem_read buf off n = some out) (t : Nat) :
    out[t]? = if t < n then buf[off + t]? else none := by
  unfold mem_read at h
  split_ifs at h with hle
  simp only [Option.some.injEq] at h
  subst h
  by_cases h1 : t < n
  · rw [if_pos h1, List.getElem?_take_of_lt h1, List.getElem?_drop]
  · rw [if_neg h1, List.getElem?_eq_none]
    rw [List.length_take]
    omega

theorem swap_pixels_bytes {d d' : List Nat} {p1 p2 : Int} {ps : Nat}
    (h : swap_pixels d p1 p2 ps = some d') :
    0 ≤ p1 ∧ 0 ≤ p2 ∧ p1.toNat + ps ≤ d.length ∧ p2.toNat + ps ≤ d.length ∧
    d'.length = d.length ∧
    ∀ t, d'[t]? =
      if p2.toNat ≤ t ∧ t < p2.toNat + ps then d[p1.toNat + (t - p2.toNat)]?
      else if p1.toNat ≤ t ∧ t < p1.toNat + ps then d[p2.toNat + (t - p1.toNat)]?
      else d[t]? := by
  unfold swap_pixels at h
  split_ifs at h with hneg
  cases h1 : mem_read d p1.toNat ps with
  | none => rw [h1] at h; simp at h
  | some temp =>
    rw [h1] at h
    simp only [] at h
    cases h2 : mem_read d p2.toNat ps with
    | none => rw [h2] at h; simp at h
    | some pixel2 =>
      rw [h2] at h
      simp only [] at h
      cases h3 : mem_write d p1.toNat pixel2 with
      | none => rw [h3] at h; simp at h
      | some data1 =>
        rw [h3] at h
        simp only [] at h
        have hl1 := mem_read_length h1
        have hl2 := mem_read_length h2
        have hr1 : p1.toNat + ps ≤ d.length := by
          unfold mem_read at h1
          split_ifs at h1 with hh
          exact hh
        have hr2 : p2.toNat + ps ≤ d.length := by
          unfold mem_read at h2
          split_ifs at h2 with hh
          exact hh
        refine ⟨by omega, by omega, hr1, hr2, ?_, ?_⟩
        · rw [mem_write_length h, mem_write_length h3]
        · intro t
          rw [mem_write_get h t, hl1]
          by_cases c2 : p2.toNat ≤ t ∧ t < p2.toNat + ps
          · rw [if_pos c2, if_pos c2, mem_read_get h1, if_pos (by omega)]
          · rw [if_neg c2, if_neg c2, mem_write_get h3 t, hl2]
            by_cases c1 : p1.toNat ≤ t ∧ t < p1.toNat + ps
            · rw [if_pos c1, if_pos c1, mem_read_get h2, if_pos (by omega)]
            · rw [if_neg c1, if_neg c1]

theorem foldlM_steps {α : Type} (f : List Nat → α → Option (List Nat)) (L : Nat)
    (hlen : ∀ d a d', d.length = L → f d a = some d' → d'.length = L) :
    ∀ (l : List α) (d0 d' : List Nat), d0.length = L → l.foldlM f d0 = some d' →
      d'.length = L ∧ ∀ a ∈ l, ∃ d d1, d.length = L ∧ f d a = some d1 := by
  intro l
  induction l with
  | nil =>
    intro d0 d' h0 h
    simp only [List.foldlM_nil, pure, Option.some.injEq] at h
    subst h
    exact ⟨h0, by simp⟩
  | cons a l ih =>
    intro d0 d' h0 h
    rw [List.foldlM_cons] at h
    cases hfa : f d0 a with
    | none => rw [hfa] at h; simp [bind] at h
    | some d1 =>
      rw [hfa] at h
      simp only [bind, Option.bind] at h
      obtain ⟨hl, hall⟩ := ih d1 d' (hlen d0 a d1 h0 hfa) h
      refine ⟨hl, ?_⟩
      intro b hb
      rcases List.mem_cons.mp hb with rfl | hb
      · exact ⟨d0, d1, h0, hfa⟩
      · exact hall b hb

theorem foldlM_range_succ (f : List Nat → Nat → Option (List Nat)) (n : Nat) (d0 d' : List Nat)
    (h : (List.range (n + 1)).foldlM f d0 = some d') :
    ∃ dn, (List.range n).foldlM f d0 = some dn ∧ f dn n = some d' := by
  rw [List.range_succ, List.foldlM_append] at h
  cases hn : (List.range n).foldlM f d0 with
  | none => rw [hn] at h; simp [bind] at h
  | some dn =>
    rw [hn] at h
    simp only [bind, Option.bind, List.foldlM_cons, List.foldlM_nil] at h
    refine ⟨dn, rfl, ?_⟩
    cases hf : f dn n with
    | none => rw [hf] at h; simp at h
    | some d1 =>
      rw [hf] at h
      simp only [pure] at h
      exact h

theorem foldlM_range_perm (ps L : Nat) (f : List Nat → Nat → Option (List Nat))
    (σ : Nat → Nat → Nat) (m : Nat)
    (hstep : ∀ d i d', i < m → d.length = L → f d i = some d' →
      d'.length = L ∧ ∀ k r, r < ps → d'[k * ps + r]? = d[σ i k * ps + r]?) :
    ∀ n, n ≤ m → ∀ d0 dn, d0.length = L → (List.range n).foldlM f d0 = some dn →
      dn.length = L ∧ ∀ k r, r < ps → dn[k * ps + r]? = d0[comp_perm σ n k * ps + r]? := by
  intro n
  induction n with
  | zero =>
    intro _ d0 dn h0 h
    simp only [List.range_zero, List.foldlM_nil, pure, Option.some.injEq] at h
    subst h
    exact ⟨h0, fun k r _ => rfl⟩
  | succ n ih =>
    intro hn d0 d' h0 h
    obtain ⟨dn, hdn, hf⟩ := foldlM_range_succ f n d0 d' h
    obtain ⟨hln, hget⟩ := ih (by omega) d0 dn h0 hdn
    obtain ⟨hl', hget'⟩ := hstep dn n d' (by omega) hln hf
    refine ⟨hl', ?_⟩
    intro k r hr
    rw [hget' k r hr, hget _ r hr]
    rfl

theorem wrap_int_small (o : Nat) (h : o < 2 ^ 31) : wrap_int (o : Int) = (o : Int) := by
  unfold wrap_int
  omega

theorem wrap_int_nonneg (o : Nat) (h : o < 2 ^ 32) (hw : 0 ≤ wrap_int (o : Int)) :
    o < 2 ^ 31 := by
  unfold wrap_int at hw
  omega

theorem get_pixel_wrap (img : Image) (x y ps : Nat) (hx : x < img.img_info.width)
    (hy : y < img.img_info.height)
    (hps : pixel_format_to_pixel_size img.img_info.pixel_format = (ps : Int))
    (h4 : ps ≤ 4) :
    img.get_pixel (x : Int) (y : Int) =
      wrap_int (((y * img.img_info.width + x) * ps : Nat) : Int) := by
  unfold Image.get_pixel
  simp only [hps]
  rw [if_neg (by omega), if_neg (by omega), if_neg (by omega), if_neg (by omega)]
  push_cast
  generalize (y : Int) * (img.img_info.width : Int) = Y
  unfold wrap_int
  interval_cases ps <;> omega

theorem idx_inj (w x y x2 y2 : Nat) (hx : x < w) (hx2 : x2 < w) :
    y * w + x = y2 * w + x2 ↔ y = y2 ∧ x = x2 := by
  constructor
  · intro h
    have hy : y = y2 := by
      rcases Nat.lt_trichotomy y y2 with hlt | heq | hgt
      · have := Nat.mul_le_mul_right w (Nat.succ_le_of_lt hlt)
        rw [Nat.succ_mul] at this
        omega
      · exact heq
      · have := Nat.mul_le_mul_right w (Nat.succ_le_of_lt hgt)
        rw [Nat.succ_mul] at this
        omega
    subst hy
    exact ⟨rfl, by omega⟩
  · rintro ⟨rfl, rfl⟩
    rfl

theorem comp_inner_h (w i : Nat) (hi : i < w / 2) (n x y : Nat) (hx : x < w) :
    comp_perm (fun j => swap_idx (j * w + i) (j * w + (w - 1 - i))) n (y * w + x) =
      y * w + (if y < n ∧ (x = i ∨ x = w - 1 - i) then w - 1 - x else x) := by
  induction n generalizing x y with
  | zero => simp [comp_perm]
  | succ n ih =>
    simp only [comp_perm, swap_idx]
    have e1 := idx_inj w x y (w - 1 - i) n hx (by omega)
    have e2 := idx_inj w x y i n hx (by omega)
    by_cases c1 : y * w + x = n * w + (w - 1 - i)
    · rw [if_pos c1, ih i n (by omega)]
      obtain ⟨rfl, rfl⟩ := e1.mp c1
      rw [if_neg (by omega), if_pos ⟨by omega, Or.inr rfl⟩]
      congr 1
      omega
    · rw [if_neg c1]
      by_cases c2 : y * w + x = n * w + i
      · rw [if_pos c2, ih (w - 1 - i) n (by omega)]
        obtain ⟨rfl, rfl⟩ := e2.mp c2
        rw [if_neg (by omega), if_pos ⟨by omega, Or.inl rfl⟩]
      · rw [if_neg c2, ih x y hx]
        have n1 : ¬ (y = n ∧ x = w - 1 - i) := fun hh => c1 (e1.mpr hh)
        have n2 : ¬ (y = n ∧ x = i) := fun hh => c2 (e2.mpr hh)
        by_cases c3 : y < n ∧ (x = i ∨ x = w - 1 - i)
        · rw [if_pos c3, if_pos ⟨by omega, c3.2⟩]
        · rw [if_neg c3, if_neg]
          rintro ⟨h1, h2⟩
          apply c3
          refine ⟨?_, h2⟩
          rcases h2 with h2 | h2
          · have : y ≠ n := fun hh => n2 ⟨hh, h2⟩
            omega
          · have : y ≠ n := fun hh => n1 ⟨hh, h2⟩
            omega

theorem comp_outer_h (w h : Nat) (n x y : Nat) (hn : n ≤ w / 2) (hx : x < w) :
    comp_perm (fun i => comp_perm (fun j => swap_idx (j * w + i) (j * w + (w - 1 - i))) h) n
        (y * w + x) =
      y * w + (if y < h ∧ (x < n ∨ w ≤ x + n) then w - 1 - x else x) := by
  induction n generalizing x y with
  | zero =>
    simp only [comp_perm]
    rw [if_neg (by omega)]
  | succ n ih =>
    simp only [comp_perm]
    rw [comp_inner_h w n (by omega) h x y hx]
    by_cases c : y < h ∧ (x = n ∨ x = w - 1 - n)
    · rw [if_pos c, ih (w - 1 - x) y (by omega) (by omega), if_neg (by omega), if_pos ⟨c.1, by omega⟩]
    · rw [if_neg c, ih x y (by omega) hx]
      by_cases c3 : y < h ∧ (x < n ∨ w ≤ x + n)
      · rw [if_pos c3, if_pos ⟨c3.1, by omega⟩]
      · rw [if_neg c3, if_neg]
        rintro ⟨h1, h2⟩
        have : ¬ (x = n ∨ x = w - 1 - n) := fun hh => c ⟨h1, hh⟩
        apply c3
        refine ⟨h1, ?_⟩
        omega

theorem comp_inner_v (w h i : Nat) (hi : i < h / 2) (n x y : Nat) (hn : n ≤ w) (hx : x < w) :
    comp_perm (fun j => swap_idx (i * w + j) ((h - 1 - i) * w + j)) n (y * w + x) =
      (if x < n ∧ (y = i ∨ y = h - 1 - i) then h - 1 - y else y) * w + x := by
  induction n generalizing x y with
  | zero => simp [comp_perm]
  | succ n ih =>
    simp only [comp_perm, swap_idx]
    have hnw : n < w := by omega
    have e1 := idx_inj w x y n (h - 1 - i) hx hnw
    have e2 := idx_inj w x y n i hx hnw
    by_cases c1 : y * w + x = (h - 1 - i) * w + n
    · rw [if_pos c1, ih n i (by omega) hnw]
      obtain ⟨rfl, rfl⟩ := e1.mp c1
      rw [if_neg (by omega), if_pos ⟨by omega, Or.inr rfl⟩]
      congr 2
      omega
    · rw [if_neg c1]
      by_cases c2 : y * w + x = i * w + n
      · rw [if_pos c2, ih n (h - 1 - i) (by omega) hnw]
        obtain ⟨rfl, rfl⟩ := e2.mp c2
        rw [if_neg (by omega), if_pos ⟨by omega, Or.inl rfl⟩]
      · rw [if_neg c2, ih x y (by omega) hx]
        have n1 : ¬ (y = h - 1 - i ∧ x = n) := fun hh => c1 (e1.mpr hh)
        have n2 : ¬ (y = i ∧ x = n) := fun hh => c2 (e2.mpr hh)
        by_cases c3 : x < n ∧ (y = i ∨ y = h - 1 - i)
        · rw [if_pos c3, if_pos ⟨by omega, c3.2⟩]
        · rw [if_neg c3, if_neg]
          rintro ⟨h1, h2⟩
          apply c3
          refine ⟨?_, h2⟩
          rcases h2 with h2 | h2
          · have : x ≠ n := fun hh => n2 ⟨h2, hh⟩
            omega
          · have : x ≠ n := fun hh => n1 ⟨h2, hh⟩
            omega

theorem comp_outer_v (w h : Nat) (n x y : Nat) (hn : n ≤ h / 2) (hx : x < w) :
    comp_perm (fun i => comp_perm (fun j => swap_idx (i * w + j) ((h - 1 - i) * w + j)) w) n
        (y * w + x) =
      (if y < n ∨ (h ≤ y + n ∧ y < h) then h - 1 - y else y) * w + x := by
  induction n generalizing x y with
  | zero =>
    simp only [comp_perm]
    rw [if_neg (by omega)]
  | succ n ih =>
    simp only [comp_perm]
    rw [comp_inner_v w h n (by omega) w x y (Nat.le_refl w) hx]
    by_cases c : x < w ∧ (y = n ∨ y = h - 1 - n)
    · rw [if_pos c, ih x (h - 1 - y) (by omega) hx, if_neg (by omega), if_pos (by omega)]
    · rw [if_neg c, ih x y (by omega) hx]
      have : ¬ (y = n ∨ y = h - 1 - n) := fun hh => c ⟨hx, hh⟩
      by_cases c3 : y < n ∨ (h ≤ y + n ∧ y < h)
      · rw [if_pos c3, if_pos (by omega)]
      · rw [if_neg c3, if_neg (by omega)]

theorem pix_in (k b ps r : Nat) (hr : r < ps) :
    (b * ps ≤ k * ps + r ∧ k * ps + r < b * ps + ps) ↔ k = b := by
  constructor
  · rintro ⟨h1, h2⟩
    rcases Nat.lt_trichotomy k b with hlt | heq | hgt
    · have := Nat.mul_le_mul_right ps (Nat.succ_le_of_lt hlt)
      rw [Nat.succ_mul] at this
      omega
    · exact heq
    · have := Nat.mul_le_mul_right ps (Nat.succ_le_of_lt hgt)
      rw [Nat.succ_mul] at this
      omega
  · rintro rfl
    omega

theorem swap_pixels_pix {d d' : List Nat} {a b ps : Nat}
    (h : swap_pixels d ((a * ps : Nat) : Int) ((b * ps : Nat) : Int) ps = some d') :
    d'.length = d.length ∧
    ∀ k r, r < ps → d'[k * ps + r]? = d[swap_idx a b k * ps + r]? := by
  obtain ⟨_, _, _, _, hl, hget⟩ := swap_pixels_bytes h
  refine ⟨hl, ?_⟩
  intro k r hr
  rw [hget, Int.toNat_ofNat, Int.toNat_ofNat]
  unfold swap_idx
  by_cases c2 : k = b
  · rw [if_pos ((pix_in k b ps r hr).mpr c2), if_pos c2]
    subst c2
    congr 1
    omega
  · rw [if_neg (fun hh => c2 ((pix_in k b ps r hr).mp hh)), if_neg c2]
    by_cases c1 : k = a
    · rw [if_pos ((pix_in k a ps r hr).mpr c1), if_pos c1]
      subst c1
      congr 1
      omega
    · rw [if_neg (fun hh => c1 ((pix_in k a ps r hr).mp hh)), if_neg c1]

theorem offset_le (w h ps x y : Nat) (hx : x < w) (hy : y < h) :
    (y * w + x) * ps ≤ ((h - 1) * w + (w - 1)) * ps := by
  apply Nat.mul_le_mul_right
  exact Nat.add_le_add (Nat.mul_le_mul_right w (by omega)) (by omega)

theorem gradual (ps : Nat) (hps : ps ≤ 4) (a b : Nat) (ha : a * ps < 2 ^ 32)
    (hacc : ∀ k, a ≤ k → k < b → 0 ≤ wrap_int ((k * ps : Nat) : Int)) :
    ∀ k, a ≤ k → k < b → k * ps < 2 ^ 31 := by
  intro k hak
  induction k, hak using Nat.le_induction with
  | base =>
    intro hb
    exact wrap_int_nonneg _ ha (hacc a (Nat.le_refl a) hb)
  | succ k hk ih =>
    intro hb
    have := ih (by omega)
    apply wrap_int_nonneg _ _ (hacc (k + 1) (by omega) hb)
    rw [Nat.succ_mul]
    omega

theorem column_no_overflow (w h ps : Nat) (hw : w < 65536) (hps : ps ≤ 4)
    (hcol : ∀ j, j < h → 0 ≤ wrap_int (((j * w + (w - 1)) * ps : Nat) : Int)) :
    ∀ j, j < h → (j * w + (w - 1)) * ps < 2 ^ 31 := by
  have hwp : w * ps ≤ 65536 * 4 := Nat.mul_le_mul (by omega) hps
  have hwp1 : (w - 1) * ps ≤ 65536 * 4 := Nat.mul_le_mul (by omega) hps
  intro j
  induction j with
  | zero =>
    intro _
    rw [Nat.zero_mul, Nat.zero_add]
    omega
  | succ j ih =>
    intro hj
    have := ih (by omega)
    apply wrap_int_nonneg _ _ (hcol (j + 1) hj)
    rw [Nat.succ_mul, Nat.add_mul] at *
    rw [Nat.add_mul]
    omega

theorem rows_no_overflow (w h ps : Nat) (hw : w < 65536) (hw1 : 0 < w) (hps : ps ≤ 4)
    (h2 : 0 < h / 2)
    (hacc : ∀ i, i < h / 2 → ∀ j, j < w →
      0 ≤ wrap_int (((i * w + j) * ps : Nat) : Int) ∧
      0 ≤ wrap_int ((((h - 1 - i) * w + j) * ps : Nat) : Int)) :
    ((h - 1) * w + (w - 1)) * ps < 2 ^ 31 := by
  have hlow : ∀ k, 0 ≤ k → k < h / 2 * w → 0 ≤ wrap_int ((k * ps : Nat) : Int) := by
    intro k _ hk
    have hi : k / w < h / 2 := Nat.div_lt_of_lt_mul (by rw [Nat.mul_comm]; exact hk)
    have := (hacc (k / w) hi (k % w) (Nat.mod_lt _ hw1)).1
    rwa [Nat.mul_comm (k / w) w, Nat.div_add_mod] at this
  have hup : ∀ k, (h - h / 2) * w ≤ k → k < h * w → 0 ≤ wrap_int ((k * ps : Nat) : Int) := by
    intro k hk1 hk2
    have hy1 : h - h / 2 ≤ k / w := (Nat.le_div_iff_mul_le hw1).mpr hk1
    have hy2 : k / w < h := Nat.div_lt_of_lt_mul (by rw [Nat.mul_comm]; exact hk2)
    have := (hacc (h - 1 - k / w) (by omega) (k % w) (Nat.mod_lt _ hw1)).2
    rwa [show h - 1 - (h - 1 - k / w) = k / w by omega, Nat.mul_comm (k / w) w,
      Nat.div_add_mod] at this
  have glow := gradual ps hps 0 (h / 2 * w) (by omega) hlow
  have hA : 1 ≤ h / 2 * w := Nat.mul_le_mul h2 hw1
  have g1 := glow (h / 2 * w - 1) (by omega) (by omega)
  have hwp : w * ps ≤ 65536 * 4 := Nat.mul_le_mul (by omega) hps
  have hS : (h - h / 2) * w ≤ h / 2 * w + w := by
    have := Nat.mul_le_mul_right w (show h - h / 2 ≤ h / 2 + 1 by omega)
    rwa [Nat.add_mul, Nat.one_mul] at this
  have hSp : (h - h / 2) * w * ps ≤ (h / 2 * w - 1) * ps + ps + w * ps := by
    have := Nat.mul_le_mul_right ps hS
    have e : h / 2 * w + w = (h / 2 * w - 1) + 1 + w := by omega
    rw [e, Nat.add_mul, Nat.add_mul, Nat.one_mul] at this
    exact this
  have gup := gradual ps hps ((h - h / 2) * w) (h * w) (by omega) hup
  have hT : (h - 1) * w + (w - 1) = h * w - 1 := by
    have : h = (h - 1) + 1 := by omega
    rw [this, Nat.add_mul, Nat.one_mul]
    simp
    omega
  have hST : (h - h / 2) * w ≤ h * w - 1 := by
    have := Nat.mul_le_mul_right w (show h - h / 2 ≤ h - 1 by omega)
    rw [← hT]
    omega
  rw [hT]
  have hTpos : 1 ≤ h * w := Nat.mul_le_mul (show 1 ≤ h by omega) hw1
  exact gup (h * w - 1) hST (by omega)

theorem cast_mirror (w i : Nat) (hi : i < w) :
    (w : Int) - 1 - (i : Int) = ((w - 1 - i : Nat) : Int) := by
  omega

theorem swap_pixels_length {d d' : List Nat} {p1 p2 : Int} {ps : Nat}
    (h : swap_pixels d p1 p2 ps = some d') : d'.length = d.length :=
  (swap_pixels_bytes h).2.2.2.2.1

theorem flip_h_fold (img : Image) (ps : Nat) (data' : List Nat)
    (hps : pixel_format_to_pixel_size img.img_info.pixel_format = (ps : Int))
    (h4 : ps ≤ 4) (hw : img.img_info.width < 65536)
    (h : (List.range (img.img_info.width / 2)).foldlM (fun data (i : Nat) =>
        (List.range img.img_info.height).foldlM (fun data (j : Nat) =>
          swap_pixels data (img.get_pixel i j)
            (img.get_pixel ((img.img_info.width : Int) - 1 - i) j) ps) data)
        img.data = some data') :
    data'.length = img.data.length ∧
    ∀ x y r, x < img.img_info.width → y < img.img_info.height → r < ps →
      data'[(y * img.img_info.width + x) * ps + r]? =
        img.data[(y * img.img_info.width + (img.img_info.width - 1 - x)) * ps + r]? := by
  generalize hwd : img.img_info.width = w at *
  generalize hhd : img.img_info.height = ht at *
  have hinner : ∀ (i : Nat) (d d' : List Nat), d.length = img.data.length →
      (List.range ht).foldlM (fun data (j : Nat) =>
          swap_pixels data (img.get_pixel i j) (img.get_pixel ((w : Int) - 1 - i) j) ps) d
        = some d' → d'.length = img.data.length ∧ ∀ j ∈ List.range ht, ∃ d2 d3,
          d2.length = img.data.length ∧
          swap_pixels d2 (img.get_pixel i j) (img.get_pixel ((w : Int) - 1 - i) j) ps = some d3 :=
    fun i d d' hd hf => foldlM_steps _ img.data.length
      (fun d a d' hl hs => by rw [swap_pixels_length hs, hl]) _ d d' hd hf
  have houter := foldlM_steps _ img.data.length
    (fun d i d' hl hs => (hinner i d d' hl hs).1) _ img.data data' rfl h
  -- no `int` overflow happened
  have hno : 0 < w / 2 → ∀ x y, x < w → y < ht → (y * w + x) * ps < 2 ^ 31 := by
    intro hw2 x y hx hy
    obtain ⟨d, d1, hd, hfd⟩ := houter.2 0 (List.mem_range.mpr hw2)
    have hcol : ∀ j, j < ht → 0 ≤ wrap_int (((j * w + (w - 1)) * ps : Nat) : Int) := by
      intro j hj
      obtain ⟨d2, d3, _, hs⟩ := (hinner 0 d d1 hd hfd).2 j (List.mem_range.mpr hj)
      have hp2 := (swap_pixels_bytes hs).2.1
      rw [cast_mirror w 0 (by omega)] at hp2
      have e := get_pixel_wrap img (w - 1 - 0) j ps (by rw [hwd]; omega) (by rw [hhd]; omega)
        hps h4
      rw [hwd] at e
      rw [e] at hp2
      exact hp2
    have := column_no_overflow w ht ps hw h4 hcol y hy
    have hle : (y * w + x) * ps ≤ (y * w + (w - 1)) * ps :=
      Nat.mul_le_mul_right ps (by omega)
    omega
  have hstep : ∀ (i : Nat), i < w / 2 → ∀ (d : List Nat) (j : Nat) (d' : List Nat), j < ht →
      d.length = img.data.length →
      swap_pixels d (img.get_pixel i j) (img.get_pixel ((w : Int) - 1 - i) j) ps = some d' →
      d'.length = img.data.length ∧ ∀ k r, r < ps →
        d'[k * ps + r]? = d[swap_idx (j * w + i) (j * w + (w - 1 - i)) k * ps + r]? := by
    intro i hi d j d' hj hl hs
    have e1 := get_pixel_wrap img i j ps (by rw [hwd]; omega) (by rw [hhd]; omega) hps h4
    have e2 := get_pixel_wrap img (w - 1 - i) j ps (by rw [hwd]; omega) (by rw [hhd]; omega)
      hps h4
    rw [hwd] at e1 e2
    rw [wrap_int_small _ (hno (by omega) i j (by omega) hj)] at e1
    rw [wrap_int_small _ (hno (by omega) (w - 1 - i) j (by omega) hj)] at e2
    rw [cast_mirror w i (by omega), e1, e2] at hs
    obtain ⟨hl', hg⟩ := swap_pixels_pix hs
    exact ⟨by rw [hl', hl], hg⟩
  have hcol : ∀ (i : Nat), i < w / 2 → ∀ (d d' : List Nat), d.length = img.data.length →
      (List.range ht).foldlM (fun data (j : Nat) =>
          swap_pixels data (img.get_pixel i j) (img.get_pixel ((w : Int) - 1 - i) j) ps) d
        = some d' → d'.length = img.data.length ∧ ∀ k r, r < ps →
          d'[k * ps + r]? =
            d[comp_perm (fun j => swap_idx (j * w + i) (j * w + (w - 1 - i))) ht k * ps + r]? :=
    fun i hi d d' hl hf => foldlM_range_perm ps img.data.length _ _ ht
      (fun d j d' hj hl hs => hstep i hi d j d' hj hl hs) ht (Nat.le_refl ht) d d' hl hf
  obtain ⟨hl, hg⟩ := foldlM_range_perm ps img.data.length _
    (fun i => comp_perm (fun j => swap_idx (j * w + i) (j * w + (w - 1 - i))) ht) (w / 2)
    (fun d i d' hi hl hs => hcol i hi d d' hl hs) (w / 2) (Nat.le_refl _) img.data data' rfl h
  refine ⟨hl, ?_⟩
  intro x y r hx hy hr
  rw [hg _ r hr, comp_outer_h w ht (w / 2) x y (Nat.le_refl _) hx]
  by_cases c : y < ht ∧ (x < w / 2 ∨ w ≤ x + w / 2)
  · rw [if_pos c]
  · rw [if_neg c]
    have : x = w - 1 - x := by omega
    rw [← this]

theorem flip_v_fold (img : Image) (ps : Nat) (data' : List Nat)
    (hps : pixel_format_to_pixel_size img.img_info.pixel_format = (ps : Int))
    (h4 : ps ≤ 4) (hw : img.img_info.width < 65536)
    (h : (List.range (img.img_info.height / 2)).foldlM (fun data (i : Nat) =>
        (List.range img.img_info.width).foldlM (fun data (j : Nat) =>
          swap_pixels data (img.get_pixel j i)
            (img.get_pixel j ((img.img_info.height : Int) - 1 - i)) ps) data)
        img.data = some data') :
    data'.length = img.data.length ∧
    ∀ x y r, x < img.img_info.width → y < img.img_info.height → r < ps →
      data'[(y * img.img_info.width + x) * ps + r]? =
        img.data[((img.img_info.height - 1 - y) * img.img_info.width + x) * ps + r]? := by
  generalize hwd : img.img_info.width = w at *
  generalize hhd : img.img_info.height = ht at *
  have hinner : ∀ (i : Nat) (d d' : List Nat), d.length = img.data.length →
      (List.range w).foldlM (fun data (j : Nat) =>
          swap_pixels data (img.get_pixel j i) (img.get_pixel j ((ht : Int) - 1 - i)) ps) d
        = some d' → d'.length = img.data.length ∧ ∀ j ∈ List.range w, ∃ d2 d3,
          d2.length = img.data.length ∧
          swap_pixels d2 (img.get_pixel j i) (img.get_pixel j ((ht : Int) - 1 - i)) ps = some d3 :=
    fun i d d' hd hf => foldlM_steps _ img.data.length
      (fun d a d' hl hs => by rw [swap_pixels_length hs, hl]) _ d d' hd hf
  have houter := foldlM_steps _ img.data.length
    (fun d i d' hl hs => (hinner i d d' hl hs).1) _ img.data data' rfl h
  -- no `int` overflow happened
  have hno : 0 < ht / 2 → ∀ x y, x < w → y < ht → (y * w + x) * ps < 2 ^ 31 := by
    intro hh2 x y hx hy
    have hacc : ∀ i, i < ht / 2 → ∀ j, j < w →
        0 ≤ wrap_int (((i * w + j) * ps : Nat) : Int) ∧
        0 ≤ wrap_int ((((ht - 1 - i) * w + j) * ps : Nat) : Int) := by
      intro i hi j hj
      obtain ⟨d, d1, hd, hfd⟩ := houter.2 i (List.mem_range.mpr hi)
      obtain ⟨d2, d3, _, hs⟩ := (hinner i d d1 hd hfd).2 j (List.mem_range.mpr hj)
      have hp1 := (swap_pixels_bytes hs).1
      have hp2 := (swap_pixels_bytes hs).2.1
      rw [cast_mirror ht i (by omega)] at hp2
      have e1 := get_pixel_wrap img j i ps (by rw [hwd]; omega) (by rw [hhd]; omega) hps h4
      have e2 := get_pixel_wrap img j (ht - 1 - i) ps (by rw [hwd]; omega) (by rw [hhd]; omega)
        hps h4
      rw [hwd] at e1 e2
      rw [e1] at hp1
      rw [e2] at hp2
      exact ⟨hp1, hp2⟩
    have := rows_no_overflow w ht ps hw (by omega) h4 hh2 hacc
    have hle := offset_le w ht ps x y hx hy
    omega
  have hstep : ∀ (i : Nat), i < ht / 2 → ∀ (d : List Nat) (j : Nat) (d' : List Nat), j < w →
      d.length = img.data.length →
      swap_pixels d (img.get_pixel j i) (img.get_pixel j ((ht : Int) - 1 - i)) ps = some d' →
      d'.length = img.data.length ∧ ∀ k r, r < ps →
        d'[k * ps + r]? = d[swap_idx (i * w + j) ((ht - 1 - i) * w + j) k * ps + r]? := by
    intro i hi d j d' hj hl hs
    have e1 := get_pixel_wrap img j i ps (by rw [hwd]; omega) (by rw [hhd]; omega) hps h4
    have e2 := get_pixel_wrap img j (ht - 1 - i) ps (by rw [hwd]; omega) (by rw [hhd]; omega)
      hps h4
    rw [hwd] at e1 e2
    rw [wrap_int_small _ (hno (by omega) j i hj (by omega))] at e1
    rw [wrap_int_small _ (hno (by omega) j (ht - 1 - i) hj (by omega))] at e2
    rw [cast_mirror ht i (by omega), e1, e2] at hs
    obtain ⟨hl', hg⟩ := swap_pixels_pix hs
    exact ⟨by rw [hl', hl], hg⟩
  have hrow : ∀ (i : Nat), i < ht / 2 → ∀ (d d' : List Nat), d.length = img.data.length →
      (List.range w).foldlM (fun data (j : Nat) =>
          swap_pixels data (img.get_pixel j i) (img.get_pixel j ((ht : Int) - 1 - i)) ps) d
        = some d' → d'.length = img.data.length ∧ ∀ k r, r < ps →
          d'[k * ps + r]? =
            d[comp_perm (fun j => swap_idx (i * w + j) ((ht - 1 - i) * w + j)) w k * ps + r]? :=
    fun i hi d d' hl hf => foldlM_range_perm ps img.data.length _ _ w
      (fun d j d' hj hl hs => hstep i hi d j d' hj hl hs) w (Nat.le_refl w) d d' hl hf
  obtain ⟨hl, hg⟩ := foldlM_range_perm ps img.data.length _
    (fun i => comp_perm (fun j => swap_idx (i * w + j) ((ht - 1 - i) * w + j)) w) (ht / 2)
    (fun d i d' hi hl hs => hrow i hi d d' hl hs) (ht / 2) (Nat.le_refl _) img.data data' rfl h
  refine ⟨hl, ?_⟩
  intro x y r hx hy hr
  rw [hg _ r hr, comp_outer_v w ht (ht / 2) x y (Nat.le_refl _) hx]
  by_cases c : y < ht / 2 ∨ (ht ≤ y + ht / 2 ∧ y < ht)
  · rw [if_pos c]
  · rw [if_neg c]
    have : y = ht - 1 - y := by omega
    rw [← this]

theorem getElem?_nil_eq (a b : Nat) : ([] : List Nat)[a]? = ([] : List Nat)[b]? := by
  simp

theorem flip_h_pixels (img img' : Image) (ps : Nat)
    (hps : pixel_format_to_pixel_size img.img_info.pixel_format = (ps : Int))
    (h4 : ps ≤ 4) (hw : img.img_info.width < 65536) (h : img.flip_h = some img') :
    img'.img_info = img.img_info ∧ img'.err = img.err ∧ img'.data.length = img.data.length ∧
    ∀ x y r, x < img.img_info.width → y < img.img_info.height → r < ps →
      img'.data[(y * img.img_info.width + x) * ps + r]? =
        img.data[(y * img.img_info.width + (img.img_info.width - 1 - x)) * ps + r]? := by
  unfold Image.flip_h at h
  by_cases he : img.data.isEmpty = true
  · rw [if_pos he] at h
    cases h
    refine ⟨rfl, rfl, rfl, ?_⟩
    intro x y r _ _ _
    rw [List.isEmpty_iff.mp he]
    exact getElem?_nil_eq _ _
  · rw [if_neg he] at h
    simp only [hps, Int.toNat_ofNat] at h
    rw [if_neg (by omega)] at h
    obtain ⟨data', hf, rfl⟩ := Option.map_eq_some'.mp h
    obtain ⟨hl, hg⟩ := flip_h_fold img ps data' hps h4 hw hf
    exact ⟨rfl, rfl, hl, hg⟩

theorem flip_v_pixels (img img' : Image) (ps : Nat)
    (hps : pixel_format_to_pixel_size img.img_info.pixel_format = (ps : Int))
    (h4 : ps ≤ 4) (hw : img.img_info.width < 65536) (h : img.flip_v = some img') :
    img'.img_info = img.img_info ∧ img'.err = img.err ∧ img'.data.length = img.data.length ∧
    ∀ x y r, x < img.img_info.width → y < img.img_info.height → r < ps →
      img'.data[(y * img.img_info.width + x) * ps + r]? =
        img.data[((img.img_info.height - 1 - y) * img.img_info.width + x) * ps + r]? := by
  unfold Image.flip_v at h
  by_cases he : img.data.isEmpty = true
  · rw [if_pos he] at h
    cases h
    refine ⟨rfl, rfl, rfl, ?_⟩
    intro x y r _ _ _
    rw [List.isEmpty_iff.mp he]
    exact getElem?_nil_eq _ _
  · rw [if_neg he] at h
    simp only [hps, Int.toNat_ofNat] at h
    rw [if_neg (by omega)] at h
    obtain ⟨data', hf, rfl⟩ := Option.map_eq_some'.mp h
    obtain ⟨hl, hg⟩ := flip_v_fold img ps data' hps h4 hw hf
    exact ⟨rfl, rfl, hl, hg⟩

theorem try_get_color_from_map_length {mem mem' : List Nat} {off index : Nat} {map : color_map}
    {b : Bool} (h : try_get_color_from_map mem off index map = some (b, mem')) :
    mem'.length = mem.length := by
  unfold try_get_color_from_map at h
  simp only [] at h
  split_ifs at h with hc
  · simp only [Option.some.injEq, Prod.mk.injEq] at h
    rw [← h.2]
  · generalize mem_read map.pixels _ _ = o at h
    cases o with
    | none => simp at h
    | some entry =>
      simp only [] at h
      cases hw : mem_write mem off entry with
      | none => rw [hw] at h; simp at h
      | some mem1 =>
        rw [hw] at h
        simp only [Option.some.injEq, Prod.mk.injEq] at h
        rw [← h.2]
        exact mem_write_length hw

theorem decode_data_mapped_length (ps : Nat) (map : color_map) :
    ∀ (c : Nat) (data : List Nat) (off : Nat) (s : ifstream) (e : tga_error) (d' : List Nat)
      (s' : ifstream), decode_data_mapped ps map c data off s = some (e, d', s') →
      d'.length = data.length := by
  intro c
  induction c with
  | zero =>
    intro data off s e d' s' h
    simp only [decode_data_mapped, Option.some.injEq, Prod.mk.injEq] at h
    rw [← h.2.1]
  | succ c ih =>
    intro data off s e d' s' h
    simp only [decode_data_mapped] at h
    cases hw : mem_write data off (s.read ps).1 with
    | none => rw [hw] at h; simp at h
    | some data1 =>
      rw [hw] at h
      simp only [] at h
      have hl1 := mem_write_length hw
      split_ifs at h with hc
      · simp only [Option.some.injEq, Prod.mk.injEq] at h
        rw [← h.2.1, hl1]
      · generalize pixel_to_map_index data1 off = o at h
        cases o with
        | none => simp at h
        | some index =>
          simp only [] at h
          cases ht : try_get_color_from_map data1 off index map with
          | none => rw [ht] at h; simp at h
          | some r =>
            obtain ⟨b, data2⟩ := r
            have hl2 := try_get_color_from_map_length ht
            rw [ht] at h
            cases b with
            | false =>
              simp only [Option.some.injEq, Prod.mk.injEq] at h
              rw [← h.2.1, hl2, hl1]
            | true =>
              simp only [] at h
              rw [ih _ _ _ _ _ _ h, hl2, hl1]

theorem decode_data_length {data : List Nat} {info : tga_info} {ps : Nat} {cm : Bool}
    {map : color_map} {s s' : ifstream} {e : tga_error} {d' : List Nat}
    (h : decode_data data info ps cm map s = some (e, d', s')) : d'.length = data.length := by
  unfold decode_data at h
  simp only [] at h
  by_cases hc : cm = true
  · rw [if_pos hc] at h
    exact decode_data_mapped_length ps map _ _ _ _ _ _ _ h
  · rw [if_neg hc] at h
    cases hw : mem_write data 0 (s.read (info.width * info.height * ps)).1 with
    | none => rw [hw] at h; simp at h
    | some data1 =>
      rw [hw] at h
      simp only [] at h
      have hl1 := mem_write_length hw
      split_ifs at h with hc2
      · simp only [Option.some.injEq, Prod.mk.injEq] at h
        rw [← h.2.1, hl1]
      · simp only [Option.some.injEq, Prod.mk.injEq] at h
        rw [← h.2.1, hl1]

theorem decode_data_rle_pixel_length {ps des : Nat} {cm : Bool} {map : color_map} {b : Bool}
    {pbuf data : List Nat} {off : Nat} {s s' : ifstream} {e : tga_error} {d' : List Nat}
    (h : decode_data_rle_pixel ps des cm map b pbuf data off s = some (e, d', s')) :
    d'.length = data.length := by
  unfold decode_data_rle_pixel at h
  cases b with
  | true =>
    simp only [if_true] at h
    generalize mem_read pbuf 0 des = o at h
    cases o with
    | none => simp at h
    | some pixel =>
      simp only [] at h
      cases hw : mem_write data off pixel with
      | none => rw [hw] at h; simp at h
      | some data1 =>
        rw [hw] at h
        simp only [Option.some.injEq, Prod.mk.injEq] at h
        rw [← h.2.1]
        exact mem_write_length hw
  | false =>
    simp only [Bool.false_eq_true, if_false] at h
    cases hw : mem_write data off (s.read ps).1 with
    | none => rw [hw] at h; simp at h
    | some data1 =>
      rw [hw] at h
      simp only [] at h
      have hl1 := mem_write_length hw
      split_ifs at h with hc hcm
      · simp only [Option.some.injEq, Prod.mk.injEq] at h
        rw [← h.2.1, hl1]
      · generalize pixel_to_map_index data1 off = o at h
        cases o with
        | none => simp at h
        | some index =>
          simp only [] at h
          cases ht : try_get_color_from_map data1 off index map with
          | none => rw [ht] at h; simp at h
          | some r =>
            obtain ⟨b, data2⟩ := r
            have hl2 := try_get_color_from_map_length ht
            rw [ht] at h
            cases b <;>
              (simp only [Option.some.injEq, Prod.mk.injEq] at h
               rw [← h.2.1, hl2, hl1])
      · simp only [Option.some.injEq, Prod.mk.injEq] at h
        rw [← h.2.1, hl1]

theorem decode_data_rle_loop_length (ps des : Nat) (cm : Bool) (map : color_map) :
    ∀ (c : Nat) (b : Bool) (pc : Nat) (pbuf data : List Nat) (off : Nat) (s : ifstream)
      (e : tga_error) (d' : List Nat) (s' : ifstream),
      decode_data_rle_loop ps des cm map c b pc pbuf data off s = some (e, d', s') →
      d'.length = data.length := by
  intro c
  induction c with
  | zero =>
    intro b pc pbuf data off s e d' s' h
    simp only [decode_data_rle_loop, Option.some.injEq, Prod.mk.injEq] at h
    rw [← h.2.1]
  | succ c ih =>
    intro b pc pbuf data off s e d' s' h
    simp only [decode_data_rle_loop] at h
    generalize (if pc = 0 then decode_data_rle_packet ps cm map pbuf s
      else some (Except.ok (b, pc, pbuf), s)) = o at h
    cases o with
    | none => simp at h
    | some r =>
      obtain ⟨r1, s1⟩ := r
      cases r1 with
      | error e1 =>
        simp only [Option.some.injEq, Prod.mk.injEq] at h
        rw [← h.2.1]
      | ok v =>
        obtain ⟨b1, pc1, pbuf1⟩ := v
        simp only [] at h
        cases hp : decode_data_rle_pixel ps des cm map b1 pbuf1 data off s1 with
        | none => rw [hp] at h; simp at h
        | some r2 =>
          obtain ⟨e2, data1, s2⟩ := r2
          have hl1 := decode_data_rle_pixel_length hp
          rw [hp] at h
          simp only [] at h
          split_ifs at h with hc
          · simp only [Option.some.injEq, Prod.mk.injEq] at h
            rw [← h.2.1, hl1]
          · rw [ih _ _ _ _ _ _ _ _ _ h, hl1]

theorem load_decode_length {img : Image} {header : tga_header} {cmap : color_map}
    {s s' : ifstream} {e : tga_error} {d' : List Nat}
    (h : img.load_decode header cmap s = some (e, d', s')) :
    d'.length = header.image_width * header.image_height *
      (pixel_format_to_pixel_size img.img_info.pixel_format).toNat := by
  unfold Image.load_decode at h
  simp only [] at h
  split_ifs at h with hc
  · unfold decode_data_rle at h
    rw [decode_data_rle_loop_length _ _ _ _ _ _ _ _ _ _ _ _ _ _ h, vector_resize_length]
  · rw [decode_data_length h, vector_resize_length]

theorem load_flips_pixels (img img' : Image) (d ps : Nat)
    (hps : pixel_format_to_pixel_size img.img_info.pixel_format = (ps : Int))
    (h4 : ps ≤ 4) (hw : img.img_info.width < 65536) (h : img.load_flips d = some img') :
    img'.img_info = img.img_info ∧ img'.err = img.err ∧ img'.data.length = img.data.length ∧
    ∀ x y r, x < img.img_info.width → y < img.img_info.height → r < ps →
      img'.data[(y * img.img_info.width + x) * ps + r]? =
        img.data[((if d &&& 0x20 ≠ 0 then y else img.img_info.height - 1 - y) *
            img.img_info.width +
          (if d &&& 0x10 ≠ 0 then img.img_info.width - 1 - x else x)) * ps + r]? := by
  unfold Image.load_flips at h
  simp only [] at h
  have s1 : ∃ img1, (if ((d &&& 0x10) != 0) = true then img.flip_h else some img) = some img1 ∧
      (if (!((d &&& 0x20) != 0)) = true then img1.flip_v else some img1) = some img' := by
    cases h1 : (if ((d &&& 0x10) != 0) = true then img.flip_h else some img) with
    | none => rw [h1] at h; simp at h
    | some img1 =>
      rw [h1] at h
      exact ⟨img1, rfl, h⟩
  obtain ⟨img1, h1, h2⟩ := s1
  have a1 : img1.img_info = img.img_info ∧ img1.err = img.err ∧
      img1.data.length = img.data.length ∧
      ∀ x y r, x < img.img_info.width → y < img.img_info.height → r < ps →
        img1.data[(y * img.img_info.width + x) * ps + r]? =
          img.data[(y * img.img_info.width +
            (if d &&& 0x10 ≠ 0 then img.img_info.width - 1 - x else x)) * ps + r]? := by
    by_cases c : d &&& 0x10 ≠ 0
    · rw [if_pos (by simpa using c)] at h1
      obtain ⟨i1, i2, i3, i4⟩ := flip_h_pixels img img1 ps hps h4 hw h1
      refine ⟨i1, i2, i3, ?_⟩
      intro x y r hx hy hr
      rw [if_pos c]
      exact i4 x y r hx hy hr
    · rw [if_neg (by simpa using c)] at h1
      cases h1
      refine ⟨rfl, rfl, rfl, ?_⟩
      intro x y r _ _ _
      rw [if_neg c]
  obtain ⟨i1, i2, i3, i4⟩ := a1
  by_cases c : d &&& 0x20 ≠ 0
  · rw [if_neg (by simpa using c)] at h2
    cases h2
    refine ⟨i1, i2, i3, ?_⟩
    intro x y r hx hy hr
    rw [if_pos c]
    exact i4 x y r hx hy hr
  · rw [if_pos (by simpa using c)] at h2
    obtain ⟨j1, j2, j3, j4⟩ := flip_v_pixels img1 img' ps (by rw [i1]; exact hps) h4
      (by rw [i1]; exact hw) h2
    refine ⟨j1.trans i1, j2.trans i2, j3.trans i3, ?_⟩
    intro x y r hx hy hr
    rw [if_neg c]
    rw [i1] at j4
    rw [j4 x y r hx hy hr]
    exact i4 x _ r hx (by omega) hr

theorem load_body_true (strict : Bool) (img : Image) (header : tga_header) (s : ifstream)
    (img' : Image) (s' : ifstream)
    (h : Image.load_body strict img header s = some (img', true, s')) :
    ∃ cmap s1 d1, load_color_map strict header s = some (some cmap, s1) ∧
      img.load_decode header cmap s1 = some (TGA_NO_ERROR, d1, s') ∧
      Image.load_flips ⟨d1, img.img_info, TGA_NO_ERROR⟩ header.image_descriptor = some img' := by
  unfold Image.load_body at h
  cases hm : load_color_map strict header s with
  | none => rw [hm] at h; cases h
  | some p =>
    obtain ⟨m, s1⟩ := p
    rw [hm] at h
    cases m with
    | none => simp at h
    | some cmap =>
      simp only [] at h
      cases hd : img.load_decode header cmap s1 with
      | none => rw [hd] at h; cases h
      | some q =>
        obtain ⟨e, d1, s2⟩ := q
        rw [hd] at h
        simp only [] at h
        by_cases he : e = TGA_NO_ERROR
        · subst he
          simp only [ne_eq, not_true_eq_false, if_false] at h
          cases hf : Image.load_flips ⟨d1, img.img_info, TGA_NO_ERROR⟩ header.image_descriptor with
          | none => rw [hf] at h; cases h
          | some img2 =>
            rw [hf] at h
            simp only [Option.some.injEq, Prod.mk.injEq, true_and] at h
            exact ⟨cmap, s1, d1, rfl, by rw [← h.2]; exact hd, by rw [← h.1]; exact hf⟩
        · simp [he] at h

theorem getD_lt_256 (bytes : List Nat) (hb : ∀ b ∈ bytes, b < 256) (i : Nat) :
    bytes.getD i 0 < 256 := by
  rw [List.getD_eq_getElem?_getD]
  cases hi : bytes[i]? with
  | none => simp
  | some b =>
    simp only [Option.getD_some]
    exact hb b (List.getElem?_mem hi)

theorem set_pixel_format_range (format : tga_pixel_format) (header : tga_header)
    (h : (set_pixel_format format header).2 = true) : (set_pixel_format format header).1 ≤ 4 := by
  unfold set_pixel_format at h ⊢
  split_ifs at h ⊢ <;> first | (simp at h; done) | decide

theorem pixel_at_of_bytes (a b : List Nat) (oa ob ps : Nat)
    (h : ∀ r, r < ps → a[oa + r]? = b[ob + r]?) :
    (a.drop oa).take ps = (b.drop ob).take ps := by
  apply List.ext_getElem?
  intro r
  by_cases hr : r < ps
  · rw [List.getElem?_take_of_lt hr, List.getElem?_take_of_lt hr, List.getElem?_drop,
      List.getElem?_drop]
    exact h r hr
  · rw [List.getElem?_eq_none (by rw [List.length_take]; omega),
      List.getElem?_eq_none (by rw [List.length_take]; omega)]

/-- C5. Orientation normalisation: whenever `load` succeeds on a file with descriptor byte
`d`, the pixel at column `x` and row `y` of the returned buffer is the stored (decoded,
pre-flip) pixel at column `x'` and row `y'`, where `x' = width - 1 - x` if `d & 0x10` is set
and `x' = x` otherwise, and `y' = y` if `d & 0x20` is set and `y' = height - 1 - y` otherwise;
both buffers hold `width * height` whole pixels. -/
theorem C5_orientation_normalisation (strict : Bool) (img img' : Image) (bytes : List Nat)
    (hb : ∀ b ∈ bytes, b < 256)
    (h : Image.load strict img (some bytes) = some (img', true)) :
    ∃ stored : List Nat, Image.load_stored strict img bytes = some stored ∧
      img'.img_info.width = (parse_header bytes).image_width ∧
      img'.img_info.height = (parse_header bytes).image_height ∧
      1 ≤ (pixel_format_to_pixel_size img'.img_info.pixel_format).toNat ∧
      stored.length = img'.img_info.width * img'.img_info.height *
        (pixel_format_to_pixel_size img'.img_info.pixel_format).toNat ∧
      img'.data.length = stored.length ∧
      ∀ x y, x < img'.img_info.width → y < img'.img_info.height →
        pixel_at img'.data img'.img_info.width
            (pixel_format_to_pixel_size img'.img_info.pixel_format).toNat x y =
          pixel_at stored img'.img_info.width
            (pixel_format_to_pixel_size img'.img_info.pixel_format).toNat
            (if (parse_header bytes).image_descriptor &&& 0x10 ≠ 0 then
              img'.img_info.width - 1 - x else x)
            (if (parse_header bytes).image_descriptor &&& 0x20 ≠ 0 then y
              else img'.img_info.height - 1 - y) := by
  have hs : ∃ s', Image.load_stream strict img ⟨bytes, 0, false⟩ = some (img', true, s') := by
    unfold Image.load at h
    simp only [] at h
    obtain ⟨r, hr, he⟩ := Option.map_eq_some'.mp h
    obtain ⟨a, b, c⟩ := r
    simp only [Prod.mk.injEq] at he
    obtain ⟨rfl, rfl⟩ := he
    exact ⟨c, hr⟩
  obtain ⟨s', hs⟩ := hs
  have h18 : 18 ≤ bytes.length := by
    by_contra hlt
    have := read_header_short bytes (by omega)
    simp only [Image.load_stream, this, if_true, Option.some.injEq, Prod.mk.injEq] at hs
    simp at hs
  simp only [Image.load_stream, read_header_full bytes h18, Bool.false_eq_true, if_false] at hs
  obtain ⟨hpass, hseek, hbody⟩ := load_checks_flag strict img _ _ img' s' hs
  obtain ⟨cmap, s1, d1, hmap, hdec, hflip⟩ := load_body_true strict _ _ _ img' s' hbody
  have hlen := load_decode_length hdec
  obtain ⟨_, _, _, _, hpf⟩ := hpass
  have hfmt := set_pixel_format_range _ _ hpf
  have hwlt : (parse_header bytes).image_width < 65536 := by
    have a := getD_lt_256 bytes hb 12
    have b := getD_lt_256 bytes hb 13
    show bytes.getD 12 0 + 256 * bytes.getD 13 0 < 65536
    omega
  have hps : ∃ ps : Nat, 1 ≤ ps ∧ ps ≤ 4 ∧
      pixel_format_to_pixel_size (img.with_header (parse_header bytes)).img_info.pixel_format
        = (ps : Int) := by
    rcases pixel_size_cases hfmt with e | e | e | e
    · exact ⟨1, by omega, by omega, e⟩
    · exact ⟨2, by omega, by omega, e⟩
    · exact ⟨3, by omega, by omega, e⟩
    · exact ⟨4, by omega, by omega, e⟩
  obtain ⟨ps, hp1, hp4, hps⟩ := hps
  obtain ⟨i1, _, i3, i4⟩ := load_flips_pixels
    ⟨d1, (img.with_header (parse_header bytes)).img_info, TGA_NO_ERROR⟩ img'
    (parse_header bytes).image_descriptor ps hps hp4 hwlt hflip
  have hstored : Image.load_stored strict img bytes = some d1 := by
    unfold Image.load_stored
    simp only [hmap, hdec, if_true]
  rw [hps, Int.toNat_ofNat] at hlen
  refine ⟨d1, hstored, ?_⟩
  rw [i1]
  simp only [hps, Int.toNat_ofNat]
  refine ⟨rfl, rfl, hp1, hlen, i3, ?_⟩
  intro x y hx hy
  unfold pixel_at
  apply pixel_at_of_bytes
  intro r hr
  exact i4 x y r hx hy hr

/-- C5, at a 2 x 2 grayscale file stored right-to-left and bottom-up. -/
theorem C5_orientation_normalisation_witness :
    Image.load false ⟨[], ⟨0, 0, 0⟩, TGA_NO_ERROR⟩
        (some [0, 0, 3, 0, 0, 0, 0, 0, 0, 0, 0, 0, 2, 0, 2, 0, 8, 0x10, 1, 2, 3, 4]) =
      some (⟨[4, 3, 2, 1], ⟨2, 2, TGA_PIXEL_BW8⟩, TGA_NO_ERROR⟩, true) ∧
    ∃ stored : List Nat,
      Image.load_stored false ⟨[], ⟨0, 0, 0⟩, TGA_NO_ERROR⟩
        [0, 0, 3, 0, 0, 0, 0, 0, 0, 0, 0, 0, 2, 0, 2, 0, 8, 0x10, 1, 2, 3, 4] = some stored ∧
      stored.length = 2 * 2 * 1 ∧
      ∀ x y, x < 2 → y < 2 →
        pixel_at [4, 3, 2, 1] 2 1 x y = pixel_at stored 2 1 (2 - 1 - x) (2 - 1 - y) := by
  obtain ⟨stored, a, _, _, _, b, _, c⟩ :=
    C5_orientation_normalisation false ⟨[], ⟨0, 0, 0⟩, TGA_NO_ERROR⟩
      ⟨[4, 3, 2, 1], ⟨2, 2, TGA_PIXEL_BW8⟩, TGA_NO_ERROR⟩
      [0, 0, 3, 0, 0, 0, 0, 0, 0, 0, 0, 0, 2, 0, 2, 0, 8, 0x10, 1, 2, 3, 4]
      (by decide) (by decide)
  exact ⟨by decide, stored, a, b, c⟩

/-! ## C11, C12, C13, C16: the constructor, and save on an empty buffer -/

theorem create_valid (width height : Nat) (format : tga_pixel_format)
    (hw : 1 ≤ width ∧ width ≤ 65535) (hh : 1 ≤ height ∧ height ≤ 65535) (hf : format ≤ 4) :
    Image.create width height format =
      some ⟨List.replicate (width * height * (pixel_format_to_pixel_size format).toNat) 0,
        ⟨width, height, format⟩, TGA_NO_ERROR⟩ := by
  unfold Image.create
  have hcd : check_dimensions (width : Int) (height : Int) = true := by
    simp only [check_dimensions, TGA_MAX_IMAGE_DIMENSIONS, Bool.not_eq_true', Bool.or_eq_false_iff,
      decide_eq_false_iff_not]
    omega
  simp only [hcd, Bool.not_true, Bool.false_eq_true, if_false]
  have hwh : width * height ≤ 65535 * 65535 := Nat.mul_le_mul hw.2 hh.2
  have key : ∀ ps : Nat, ps ≤ 4 →
      (((width : Int) * (height : Int) * (ps : Int)) % 2 ^ 64).toNat = width * height * ps := by
    intro ps hps
    have hb : width * height * ps ≤ 65535 * 65535 * 4 := Nat.mul_le_mul hwh hps
    have := wrap64_small (width * height * ps) (by omega)
    push_cast at this
    exact this
  have hsz : (((width : Int) * (height : Int) * pixel_format_to_pixel_size format) % 2 ^ 64).toNat
      = width * height * (pixel_format_to_pixel_size format).toNat := by
    rcases toNat_pixel_size_cases hf with ⟨e, e'⟩ | ⟨e, e'⟩ | ⟨e, e'⟩ | ⟨e, e'⟩
    · rw [e', e]; exact key 1 (by omega)
    · rw [e', e]; exact key 2 (by omega)
    · rw [e', e]; exact key 3 (by omega)
    · rw [e', e]; exact key 4 (by omega)
  rw [hsz]
  have hle : ¬ width * height * (pixel_format_to_pixel_size format).toNat > vector_max_size := by
    rcases toNat_pixel_size_cases hf with ⟨e, e'⟩ | ⟨e, e'⟩ | ⟨e, e'⟩ | ⟨e, e'⟩ <;>
      (rw [e']; simp only [vector_max_size]; omega)
  rw [if_neg hle]
  have h1 : (width : Int) % 65536 = width := Int.emod_eq_of_lt (by omega) (by omega)
  have h2 : (height : Int) % 65536 = height := Int.emod_eq_of_lt (by omega) (by omega)
  simp only [h1, h2, Int.toNat_ofNat, vector_resize, List.take_nil, List.nil_append,
    List.length_nil, Nat.sub_zero]

/-- C11. Blank image construction: for width and height in [1, 65535] and each of the five
pixel formats, `Image(width, height, format)` returns with `last_error() == TGA_NO_ERROR`,
reports the width, height and format it was given and the pixel size of the format (1, 2, 2,
3, 4 for BW8, BW16, RGB555, RGB24, ARGB32), and holds `width * height * pixel_size` bytes,
all zero. -/
theorem C11_blank_image (width height : Int) (format : tga_pixel_format)
    (hw : 1 ≤ width ∧ width ≤ 65535) (hh : 1 ≤ height ∧ height ≤ 65535)
    (hf : format ∈
      [TGA_PIXEL_BW8, TGA_PIXEL_BW16, TGA_PIXEL_RGB555, TGA_PIXEL_RGB24, TGA_PIXEL_ARGB32]) :
    ∃ img : Image, Image.create width height format = some img ∧
      img.last_error = TGA_NO_ERROR ∧
      (img.get_width : Int) = width ∧ (img.get_height : Int) = height ∧
      img.get_pixel_format = format ∧
      img.get_pixel_size = [1, 2, 2, 3, 4].getD format 0 ∧
      img.data = List.replicate (width.toNat * height.toNat * [1, 2, 2, 3, 4].getD format 0) 0 := by
  obtain ⟨w, rfl⟩ := Int.eq_ofNat_of_zero_le (by omega : 0 ≤ width)
  obtain ⟨h, rfl⟩ := Int.eq_ofNat_of_zero_le (by omega : 0 ≤ height)
  have hf4 : format ≤ 4 := by
    simp only [List.mem_cons, List.mem_singleton, List.not_mem_nil, or_false] at hf
    rcases hf with h | h | h | h | h <;> rw [h]
    all_goals decide
  refine ⟨_, create_valid w h format (by omega) (by omega) hf4, rfl, rfl, rfl, rfl, ?_, ?_⟩
  · simp only [Image.get_pixel_size]
    interval_cases format <;> rfl
  · simp only [Int.toNat_ofNat]
    interval_cases format <;> rfl

/-- C11, at a 4 x 4 RGB24 image (the last case of `create_test`). -/
theorem C11_blank_image_witness :
    ∃ img : Image, Image.create 4 4 TGA_PIXEL_RGB24 = some img ∧
      img.last_error = TGA_NO_ERROR ∧
      (img.get_width : Int) = 4 ∧ (img.get_height : Int) = 4 ∧
      img.get_pixel_format = TGA_PIXEL_RGB24 ∧
      img.get_pixel_size = 3 ∧
      img.data = List.replicate (4 * 4 * 3) 0 :=
  C11_blank_image 4 4 TGA_PIXEL_RGB24 (by decide) (by decide) (by decide)

/-- C12. Dimension rejection: for any pixel format and all integers `width` and `height` with
`width < 1`, `width > 65535`, `height < 1` or `height > 65535`, `Image(width, height, format)`
returns with `last_error() == TGA_ERROR_INVALID_IMAGE_DIMENSIONS` and an empty buffer. -/
theorem C12_dimension_rejection (width height : Int) (format : tga_pixel_format)
    (hd : width < 1 ∨ width > 65535 ∨ height < 1 ∨ height > 65535) :
    ∃ img : Image, Image.create width height format = some img ∧
      img.last_error = TGA_ERROR_INVALID_IMAGE_DIMENSIONS ∧ img.data = [] := by
  unfold Image.create
  have hcd : check_dimensions width height = false := by
    simp only [check_dimensions, TGA_MAX_IMAGE_DIMENSIONS, Bool.not_eq_false', Bool.or_eq_true,
      decide_eq_true_eq]
    omega
  simp only [hcd, Bool.not_false, if_true]
  exact ⟨_, rfl, rfl, rfl⟩

/-- C12, at the six calls of `create_test` and at all five formats for width 65536. -/
theorem C12_dimension_rejection_witness :
    (∀ p ∈ [((0 : Int), (4 : Int)), (4, 0), (-1, 4), (4, -1), (65536, 4), (4, 65536)],
      ∃ img : Image, Image.create p.1 p.2 TGA_PIXEL_RGB24 = some img ∧
        img.last_error = TGA_ERROR_INVALID_IMAGE_DIMENSIONS ∧ img.data = []) ∧
    ∃ img : Image, Image.create 65536 4 TGA_PIXEL_ARGB32 = some img ∧
      img.last_error = TGA_ERROR_INVALID_IMAGE_DIMENSIONS ∧ img.data = [] :=
  ⟨fun p hp => C12_dimension_rejection p.1 p.2 TGA_PIXEL_RGB24 (by
      simp only [List.mem_cons, List.mem_singleton, List.not_mem_nil, or_false] at hp
      rcases hp with h | h | h | h | h | h <;> rw [h] <;> decide),
   C12_dimension_rejection 65536 4 TGA_PIXEL_ARGB32 (by decide)⟩

theorem pixel_size_unsupported {format : Nat} (h : ¬ format ≤ 4) :
    pixel_format_to_pixel_size format = -1 := by
  have h0 : format ≠ 0 := by omega
  have h1 : format ≠ 1 := by omega
  have h2 : format ≠ 2 := by omega
  have h3 : format ≠ 3 := by omega
  have h4 : format ≠ 4 := by omega
  simp [pixel_format_to_pixel_size, h0, h1, h2, h3, h4]

theorem create_unsupported (width height : Int) (format : tga_pixel_format)
    (hw : 1 ≤ width ∧ width ≤ 65535) (hh : 1 ≤ height ∧ height ≤ 65535) (hf : ¬ format ≤ 4) :
    Image.create width height format = none := by
  obtain ⟨w, rfl⟩ := Int.eq_ofNat_of_zero_le (by omega : 0 ≤ width)
  obtain ⟨h, rfl⟩ := Int.eq_ofNat_of_zero_le (by omega : 0 ≤ height)
  unfold Image.create
  have hcd : check_dimensions (w : Int) (h : Int) = true := by
    simp only [check_dimensions, TGA_MAX_IMAGE_DIMENSIONS, Bool.not_eq_true', Bool.or_eq_false_iff,
      decide_eq_false_iff_not]
    omega
  simp only [hcd, Bool.not_true, Bool.false_eq_true, if_false, pixel_size_unsupported hf]
  have hwh : w * h ≤ 65535 * 65535 := Nat.mul_le_mul (by omega) (by omega)
  have hwh1 : 1 ≤ w * h := Nat.mul_le_mul (by omega : 1 ≤ w) (by omega : 1 ≤ h)
  rw [if_pos]
  simp only [vector_max_size]
  have e : ((w : Int) * (h : Int) * -1) % 2 ^ 64 = 2 ^ 64 - ((w * h : Nat) : Int) := by
    rw [show (w : Int) * (h : Int) = ((w * h : Nat) : Int) by push_cast; rfl]
    generalize w * h = p at *
    omega
  rw [e]
  omega

/-- C13 (defect of the code). After `err = TGA_ERROR_UNSUPPORTED_PIXEL_FORMAT` the
constructor does not return: it calls `data.resize` with the `size_t` value of
`width * height * -1`, which is beyond `max_size()`, so `resize` throws and no image is
constructed, where the claim (and `create_test`) wants `last_error()` to be
`TGA_ERROR_UNSUPPORTED_PIXEL_FORMAT`; no call of the constructor ends with that error. -/
theorem C13_unsupported_format_not_reported :
    (∀ (width height : Int) (format : tga_pixel_format),
      1 ≤ width ∧ width ≤ 65535 → 1 ≤ height ∧ height ≤ 65535 → ¬ format ≤ 4 →
      Image.create width height format = none) ∧
    Image.create 4 4 100 = none ∧
    (∀ (width height : Int) (format : tga_pixel_format) (img : Image),
      Image.create width height format = some img →
      img.last_error ≠ TGA_ERROR_UNSUPPORTED_PIXEL_FORMAT) := by
  refine ⟨create_unsupported, create_unsupported 4 4 100 (by decide) (by decide) (by decide), ?_⟩
  intro width height format img h
  unfold Image.create at h
  simp only [] at h
  split_ifs at h with h1 h2 <;>
    (simp only [Option.some.injEq] at h
     rw [← h]
     simp [Image.last_error])

/-- C16. Encoding an empty buffer fails: `save` on an image whose buffer is empty sets
`TGA_ERROR_NO_DATA` and returns `false` before it opens the output file, whatever the state
of the output device and the buffering of the stream, so no byte is written. -/
theorem C16_save_empty_buffer (flush : Nat → Nat → Nat) (img : Image) (room : Option Nat)
    (h : img.data = []) :
    img.save flush room = some ({ img with err := TGA_ERROR_NO_DATA }, false, none) := by
  unfold Image.save
  rw [h]
  rfl

/-- C16, at the image that `Image(0, 4, TGA_PIXEL_RGB24)` leaves. -/
theorem C16_save_empty_buffer_witness :
    Image.create 0 4 TGA_PIXEL_RGB24 =
      some ⟨[], ⟨0, 4, TGA_PIXEL_RGB24⟩, TGA_ERROR_INVALID_IMAGE_DIMENSIONS⟩ ∧
    Image.save (fun p n => p + n)
        ⟨[], ⟨0, 4, TGA_PIXEL_RGB24⟩, TGA_ERROR_INVALID_IMAGE_DIMENSIONS⟩ (some 1000) =
      some (⟨[], ⟨0, 4, TGA_PIXEL_RGB24⟩, TGA_ERROR_NO_DATA⟩, false, none) :=
  ⟨by decide, C16_save_empty_buffer (fun p n => p + n)
    ⟨[], ⟨0, 4, TGA_PIXEL_RGB24⟩, TGA_ERROR_INVALID_IMAGE_DIMENSIONS⟩ (some 1000) rfl⟩

/-! ## C17, C18: the buffer after a failed load, and the buffer-length invariant -/

theorem flip_h_length {img img' : Image} (h : img.flip_h = some img') :
    img'.data.length = img.data.length := by
  unfold Image.flip_h at h
  by_cases he : img.data.isEmpty = true
  · rw [if_pos he] at h
    cases h
    rfl
  · rw [if_neg he] at h
    simp only [] at h
    by_cases hn : pixel_format_to_pixel_size img.img_info.pixel_format < 0
    · rw [if_pos hn] at h
      cases h
    · rw [if_neg hn] at h
      obtain ⟨data', hf, rfl⟩ := Option.map_eq_some'.mp h
      exact (foldlM_steps _ img.data.length
        (fun d i d' hl hs => (foldlM_steps _ img.data.length
          (fun d a d' hl hs => by rw [swap_pixels_length hs, hl]) _ d d' hl hs).1)
        _ img.data data' rfl hf).1

theorem flip_v_length {img img' : Image} (h : img.flip_v = some img') :
    img'.data.length = img.data.length := by
  unfold Image.flip_v at h
  by_cases he : img.data.isEmpty = true
  · rw [if_pos he] at h
    cases h
    rfl
  · rw [if_neg he] at h
    simp only [] at h
    by_cases hn : pixel_format_to_pixel_size img.img_info.pixel_format < 0
    · rw [if_pos hn] at h
      cases h
    · rw [if_neg hn] at h
      obtain ⟨data', hf, rfl⟩ := Option.map_eq_some'.mp h
      exact (foldlM_steps _ img.data.length
        (fun d i d' hl hs => (foldlM_steps _ img.data.length
          (fun d a d' hl hs => by rw [swap_pixels_length hs, hl]) _ d d' hl hs).1)
        _ img.data data' rfl hf).1

theorem load_flips_length {img img' : Image} {d : Nat} (h : img.load_flips d = some img') :
    img'.data.length = img.data.length := by
  unfold Image.load_flips at h
  simp only [] at h
  cases h1 : (if ((d &&& 0x10) != 0) = true then img.flip_h else some img) with
  | none => rw [h1] at h; simp at h
  | some img1 =>
    rw [h1] at h
    simp only [] at h
    have a1 : img1.data.length = img.data.length := by
      split_ifs at h1 with c
      · exact flip_h_length h1
      · cases h1; rfl
    have a2 : img'.data.length = img1.data.length := by
      split_ifs at h with c
      · exact flip_v_length h
      · cases h; rfl
    rw [a2, a1]

theorem set_pixel_format_rejected (format : tga_pixel_format) (header : tga_header)
    (h : (set_pixel_format format header).2 = false) :
    (set_pixel_format format header).1 = format := by
  unfold set_pixel_format at h ⊢
  split_ifs at h ⊢ <;> rfl

theorem load_outcome (strict : Bool) (img img' : Image) (bytes : List Nat) (ok : Bool)
    (h : Image.load strict img (some bytes) = some (img', ok)) :
    match Image.load_decoded strict img bytes with
    | none => ok = false ∧ img'.data = img.data ∧ img'.err ≠ TGA_NO_ERROR ∧
        (img'.img_info = img.img_info ∨
          (img'.err = TGA_ERROR_FILE_CANNOT_READ ∧ 18 ≤ bytes.length ∧
            header_passes img (parse_header bytes) ∧
            img'.img_info = (img.with_header (parse_header bytes)).img_info))
    | some (e, d) => img'.img_info = (img.with_header (parse_header bytes)).img_info ∧
        header_passes img (parse_header bytes) ∧ img'.err = e ∧
        img'.data.length = d.length ∧
        d.length = (parse_header bytes).image_width * (parse_header bytes).image_height *
          (pixel_format_to_pixel_size (img.with_header (parse_header bytes)).img_info.pixel_format).toNat ∧
        (e ≠ TGA_NO_ERROR → ok = false ∧ img'.data = d) ∧ (e = TGA_NO_ERROR → ok = true) := by
  by_cases h18 : bytes.length < 18
  · rw [load_short strict img bytes h18] at h
    simp only [Option.some.injEq, Prod.mk.injEq] at h
    obtain ⟨rfl, rfl⟩ := h
    have hdec : Image.load_decoded strict img bytes = none := by
      unfold Image.load_decoded
      simp only []
      rw [if_pos (Or.inl h18)]
    rw [hdec]
    exact ⟨rfl, rfl, by simp, Or.inl rfl⟩
  rw [load_eq_checks strict img bytes (by omega)] at h
  obtain ⟨r, hr, he⟩ := Option.map_eq_some'.mp h
  obtain ⟨a, b, s'⟩ := r
  simp only [Prod.mk.injEq] at he
  obtain ⟨rfl, rfl⟩ := he
  generalize hhd : parse_header bytes = header at *
  by_cases hp : header_passes img header
  · rw [load_checks_accept strict img header _ hp] at hr
    have hdec : Image.load_decoded strict img bytes =
        if (ifstream.seekg strict ⟨bytes, 18, false⟩ header.id_length).failbit = true then none
        else
          match load_color_map strict header
              (ifstream.seekg strict ⟨bytes, 18, false⟩ header.id_length) with
          | some (some color_map, inFile2) =>
            ((img.with_header header).load_decode header color_map inFile2).map
              (fun r => (r.1, r.2.1))
          | _ => none := by
      unfold Image.load_decoded
      simp only [hhd]
      rw [if_neg]
      obtain ⟨p1, p2, p3, p4, p5⟩ := hp
      rintro (c | c | c | c | c | c)
      · exact h18 c
      · exact p1 c
      · exact p2 c
      · rw [p3] at c; cases c
      · exact p4 c
      · rw [p5] at c; cases c
    rw [hdec]
    by_cases hsk : (ifstream.seekg strict ⟨bytes, 18, false⟩ header.id_length).failbit = true
    · rw [if_pos hsk] at hr ⊢
      simp only [Option.some.injEq, Prod.mk.injEq] at hr
      obtain ⟨rfl, rfl, _⟩ := hr
      exact ⟨rfl, rfl, by simp, Or.inr ⟨rfl, by omega, hp, rfl⟩⟩
    · rw [if_neg hsk] at hr ⊢
      unfold Image.load_body at hr
      cases hm : load_color_map strict header
          (ifstream.seekg strict ⟨bytes, 18, false⟩ header.id_length) with
      | none => rw [hm] at hr; cases hr
      | some p =>
        obtain ⟨m, s1⟩ := p
        rw [hm] at hr
        cases m with
        | none =>
          simp only [Option.some.injEq, Prod.mk.injEq] at hr
          obtain ⟨rfl, rfl, _⟩ := hr
          exact ⟨rfl, rfl, by simp, Or.inr ⟨rfl, by omega, hp, rfl⟩⟩
        | some cmap =>
          simp only [] at hr ⊢
          cases hd : (img.with_header header).load_decode header cmap s1 with
          | none => rw [hd] at hr; cases hr
          | some q =>
            obtain ⟨e, d1, s2⟩ := q
            rw [hd] at hr
            have hlen := load_decode_length hd
            simp only [Option.map_some'] at hr ⊢
            by_cases hee : e = TGA_NO_ERROR
            · subst hee
              simp only [ne_eq, not_true_eq_false, if_false] at hr
              cases hf : Image.load_flips ⟨d1, (img.with_header header).img_info, TGA_NO_ERROR⟩
                  header.image_descriptor with
              | none => rw [hf] at hr; cases hr
              | some img2 =>
                rw [hf] at hr
                simp only [Option.some.injEq, Prod.mk.injEq] at hr
                obtain ⟨rfl, rfl, _⟩ := hr
                obtain ⟨i1, i2⟩ := load_flips_info hf
                exact ⟨i1, hp, i2, load_flips_length hf, hlen, fun hne => (hne rfl).elim,
                  fun _ => rfl⟩
            · rw [if_pos hee] at hr
              simp only [Option.some.injEq, Prod.mk.injEq] at hr
              obtain ⟨rfl, rfl, _⟩ := hr
              exact ⟨rfl, hp, rfl, rfl, hlen, fun _ => ⟨rfl, rfl⟩, fun he => (hee he).elim⟩
  · have hdec : Image.load_decoded strict img bytes = none := by
      unfold Image.load_decoded
      simp only [hhd]
      rw [if_pos]
      unfold header_passes at hp
      by_contra hc
      simp only [not_or, Bool.not_eq_false] at hc
      exact hp ⟨hc.2.1, hc.2.2.1, hc.2.2.2.1, fun c => c.elim hc.2.2.2.2.1.1 hc.2.2.2.2.1.2,
        hc.2.2.2.2.2⟩
    rw [hdec]
    simp only []
    unfold header_passes at hp
    unfold Image.load_checks at hr
    by_cases c1 : header.map_type > 1
    · rw [if_pos c1] at hr
      simp only [Option.some.injEq, Prod.mk.injEq] at hr
      obtain ⟨rfl, rfl, _⟩ := hr
      exact ⟨rfl, rfl, by simp, Or.inl rfl⟩
    rw [if_neg c1] at hr
    by_cases c2 : header.image_type = TGA_TYPE_NO_DATA
    · rw [if_pos c2] at hr
      simp only [Option.some.injEq, Prod.mk.injEq] at hr
      obtain ⟨rfl, rfl, _⟩ := hr
      exact ⟨rfl, rfl, by simp, Or.inl rfl⟩
    rw [if_neg c2] at hr
    by_cases c3 : IS_SUPPORTED_IMAGE_TYPE header = true
    swap
    · rw [if_pos (by simpa using c3)] at hr
      simp only [Option.some.injEq, Prod.mk.injEq] at hr
      obtain ⟨rfl, rfl, _⟩ := hr
      exact ⟨rfl, rfl, by simp, Or.inl rfl⟩
    rw [if_neg (by simpa using c3)] at hr
    by_cases c4 : header.image_width ≤ 0 ∨ header.image_height ≤ 0
    · rw [if_pos c4] at hr
      simp only [Option.some.injEq, Prod.mk.injEq] at hr
      obtain ⟨rfl, rfl, _⟩ := hr
      exact ⟨rfl, rfl, by simp, Or.inl rfl⟩
    rw [if_neg c4] at hr
    have c5 : (set_pixel_format img.img_info.pixel_format header).2 = false := by
      by_contra hc
      exact hp ⟨c1, c2, c3, c4, by simpa using hc⟩
    simp only [c5, Bool.not_false, if_true, Option.some.injEq, Prod.mk.injEq] at hr
    obtain ⟨rfl, rfl, _⟩ := hr
    refine ⟨rfl, rfl, by simp, Or.inl ?_⟩
    simp only [set_pixel_format_rejected _ _ c5]

theorem get_pixel_size_valid {img : Image} (h : img.img_info.pixel_format ≤ 4) :
    img.get_pixel_size = (pixel_format_to_pixel_size img.img_info.pixel_format).toNat ∧
      1 ≤ img.get_pixel_size := by
  unfold Image.get_pixel_size
  rcases toNat_pixel_size_cases h with ⟨e, e'⟩ | ⟨e, e'⟩ | ⟨e, e'⟩ | ⟨e, e'⟩ <;>
    (rw [e', e]; decide)

/-- C17 (as amended). When the constructor `Image(filepath)` ends with an error, the buffer
is empty if `load` returned before it called the decoder (file not opened, short or rejected
header, ID field or color map not readable); if the decoder itself returned the error, in
the middle of the pixel stream, the buffer is what the decoder left: the `width * height *
pixel_size` bytes it was resized to, which is not empty. -/
theorem C17_failed_load_buffer (strict : Bool) (img_info : tga_info)
    (file : Option (List Nat)) (img : Image)
    (h : Image.from_file strict img_info file = some img)
    (he : img.last_error ≠ TGA_NO_ERROR) :
    match file.bind (Image.load_decoded strict ⟨[], img_info, TGA_NO_ERROR⟩) with
    | none => img.data = []
    | some (e, d) => e ≠ TGA_NO_ERROR ∧ img.last_error = e ∧ img.data = d ∧
        img.data.length = img.get_width * img.get_height * img.get_pixel_size ∧
        img.data ≠ [] := by
  unfold Image.from_file at h
  obtain ⟨r, hr, rfl⟩ := Option.map_eq_some'.mp h
  obtain ⟨img', ok⟩ := r
  simp only [Image.last_error] at he ⊢
  cases file with
  | none =>
    simp only [Image.load, Option.some.injEq, Prod.mk.injEq] at hr
    rw [← hr.1]
    rfl
  | some bytes =>
    have ho := load_outcome strict _ img' bytes ok hr
    simp only [Option.some_bind]
    cases hd : Image.load_decoded strict ⟨[], img_info, TGA_NO_ERROR⟩ bytes with
    | none =>
      rw [hd] at ho
      exact ho.2.1
    | some p =>
      obtain ⟨e, d⟩ := p
      rw [hd] at ho
      obtain ⟨i1, hp, i2, i3, i4, i5, _⟩ := ho
      have hne : e ≠ TGA_NO_ERROR := by rw [← i2]; exact he
      obtain ⟨_, i6⟩ := i5 hne
      obtain ⟨_, _, _, hwh, hpf⟩ := hp
      have hfmt : img'.img_info.pixel_format ≤ 4 := by
        rw [i1]
        exact set_pixel_format_range _ _ hpf
      obtain ⟨g1, g2⟩ := get_pixel_size_valid hfmt
      have hlen : img'.data.length =
          img'.get_width * img'.get_height * img'.get_pixel_size := by
        rw [g1, i3, i4]
        simp only [Image.get_width, Image.get_height, i1]
        rfl
      refine ⟨hne, i2, i6, hlen, ?_⟩
      intro hnil
      rw [hnil] at hlen
      simp only [List.length_nil] at hlen
      have hw1 : 1 ≤ img'.get_width := by
        simp only [Image.get_width, i1]
        show 1 ≤ (parse_header bytes).image_width
        omega
      have hh1 : 1 ≤ img'.get_height := by
        simp only [Image.get_height, i1]
        show 1 ≤ (parse_header bytes).image_height
        omega
      have := Nat.mul_le_mul (Nat.mul_le_mul hw1 hh1) g2
      omega

/-- C17, at the header of a 2 x 2 grayscale image with no pixel data behind it. -/
theorem C17_failed_load_buffer_witness :
    Image.from_file false ⟨0, 0, 0⟩
        (some [0, 0, 3, 0, 0, 0, 0, 0, 0, 0, 0, 0, 2, 0, 2, 0, 8, 0x20]) =
      some ⟨[0, 0, 0, 0], ⟨2, 2, TGA_PIXEL_BW8⟩, TGA_ERROR_FILE_CANNOT_READ⟩ ∧
    (TGA_ERROR_FILE_CANNOT_READ ≠ TGA_NO_ERROR ∧
      Image.last_error ⟨[0, 0, 0, 0], ⟨2, 2, TGA_PIXEL_BW8⟩, TGA_ERROR_FILE_CANNOT_READ⟩ =
        TGA_ERROR_FILE_CANNOT_READ ∧
      [0, 0, 0, 0] = [0, 0, 0, 0] ∧ [0, 0, 0, 0].length = 2 * 2 * 1 ∧ [0, 0, 0, 0] ≠ []) :=
  ⟨by decide, C17_failed_load_buffer false ⟨0, 0, 0⟩
    (some [0, 0, 3, 0, 0, 0, 0, 0, 0, 0, 0, 0, 2, 0, 2, 0, 8, 0x20])
    ⟨[0, 0, 0, 0], ⟨2, 2, TGA_PIXEL_BW8⟩, TGA_ERROR_FILE_CANNOT_READ⟩ (by decide) (by decide)⟩

/-- C17 as stated fails: the constructor on a 2 x 2 grayscale file that lacks its last pixel
ends with `TGA_ERROR_FILE_CANNOT_READ` and a buffer of four bytes, three of them read. -/
theorem C17_partial_buffer_counterexample :
    ∃ img : Image,
      Image.from_file false ⟨0, 0, 0⟩
        (some [0, 0, 3, 0, 0, 0, 0, 0, 0, 0, 0, 0, 2, 0, 2, 0, 8, 0x20, 1, 2, 3]) = some img ∧
      img.last_error = TGA_ERROR_FILE_CANNOT_READ ∧ img.data = [1, 2, 3, 0] ∧ img.data ≠ [] :=
  ⟨⟨[1, 2, 3, 0], ⟨2, 2, TGA_PIXEL_BW8⟩, TGA_ERROR_FILE_CANNOT_READ⟩, by decide, rfl, rfl,
    by decide⟩

theorem create_invariant (width height : Int) (format : tga_pixel_format) (img : Image)
    (h : Image.create width height format = some img) : buffer_invariant img := by
  by_cases hd : width < 1 ∨ width > 65535 ∨ height < 1 ∨ height > 65535
  · left
    unfold Image.create at h
    have hcd : check_dimensions width height = false := by
      simp only [check_dimensions, TGA_MAX_IMAGE_DIMENSIONS, Bool.not_eq_false', Bool.or_eq_true,
        decide_eq_true_eq]
      omega
    simp only [hcd, Bool.not_false, if_true, Option.some.injEq] at h
    rw [← h]
  · by_cases hf : format ≤ 4
    · obtain ⟨w, rfl⟩ := Int.eq_ofNat_of_zero_le (by omega : 0 ≤ width)
      obtain ⟨ht, rfl⟩ := Int.eq_ofNat_of_zero_le (by omega : 0 ≤ height)
      rw [create_valid w ht format (by omega) (by omega) hf] at h
      cases h
      right
      have g := (@get_pixel_size_valid
        ⟨List.replicate (w * ht * (pixel_format_to_pixel_size format).toNat) 0,
          ⟨w, ht, format⟩, TGA_NO_ERROR⟩ hf).1
      rw [g, List.length_replicate]
      rfl
    · rw [create_unsupported width height format (by omega) (by omega) hf] at h
      cases h

theorem load_preserves_invariant (strict : Bool) (img img' : Image) (file : Option (List Nat))
    (ok : Bool) (h : Image.load strict img file = some (img', ok))
    (hinv : buffer_invariant img) :
    buffer_invariant img' ∨ (img.data ≠ [] ∧ fails_before_decoder strict img file) := by
  cases file with
  | none =>
    simp only [Image.load, Option.some.injEq, Prod.mk.injEq] at h
    left
    rw [← h.1]
    exact hinv
  | some bytes =>
    have ho := load_outcome strict img img' bytes ok h
    cases hd : Image.load_decoded strict img bytes with
    | none =>
      rw [hd] at ho
      obtain ⟨_, i1, _, i2 | ⟨_, h18, hp, _⟩⟩ := ho
      · left
        unfold buffer_invariant Image.get_width Image.get_height Image.get_pixel_size at hinv ⊢
        rw [i1, i2]
        exact hinv
      · by_cases he : img.data = []
        · left
          left
          rw [i1, he]
        · right
          exact ⟨he, bytes, rfl, h18, hp, hd⟩
    | some p =>
      obtain ⟨e, d⟩ := p
      rw [hd] at ho
      obtain ⟨i1, hp, _, i3, i4, _, _⟩ := ho
      obtain ⟨_, _, _, _, hpf⟩ := hp
      have hfmt : img'.img_info.pixel_format ≤ 4 := by
        rw [i1]
        exact set_pixel_format_range _ _ hpf
      left
      right
      rw [(get_pixel_size_valid hfmt).1, i3, i4]
      simp only [Image.get_width, Image.get_height, i1]
      rfl

/-- C18 (as amended). After every sequence of operations on an image (blank construction,
construction from a file, `load` again whether it succeeds or fails, `flip_h`, `flip_v`) in
which no `load` fails between the header checks and the decoder, the buffer is empty or has
exactly `width * height * pixel_size` bytes for the width, height and format the image
reports. -/
theorem C18_buffer_length_invariant (img : Image) (h : reached false img) :
    buffer_invariant img := by
  induction h with
  | create width height format img hc => exact create_invariant width height format img hc
  | from_file strict img_info file img hf =>
    unfold Image.from_file at hf
    obtain ⟨r, hr, rfl⟩ := Option.map_eq_some'.mp hf
    rcases load_preserves_invariant strict _ r.1 file r.2 hr (Or.inl rfl) with h1 | ⟨h1, _⟩
    · exact h1
    · exact (h1 rfl).elim
  | load strict img file img' ok _ hl hc ih =>
    rcases load_preserves_invariant strict img img' file ok hl ih with h1 | ⟨_, h1⟩
    · exact h1
    · rcases hc with hc | hc
      · cases hc
      · exact (hc h1).elim
  | flip_h img img' _ hf ih =>
    unfold buffer_invariant Image.get_width Image.get_height Image.get_pixel_size at ih ⊢
    rw [(flip_h_info hf).1, flip_h_length hf]
    rcases ih with ih | ih
    · left
      exact List.eq_nil_of_length_eq_zero (by rw [flip_h_length hf, ih]; rfl)
    · right
      exact ih
  | flip_v img img' _ hf ih =>
    unfold buffer_invariant Image.get_width Image.get_height Image.get_pixel_size at ih ⊢
    rw [(flip_v_info hf).1, flip_v_length hf]
    rcases ih with ih | ih
    · left
      exact List.eq_nil_of_length_eq_zero (by rw [flip_v_length hf, ih]; rfl)
    · right
      exact ih

/-- C18, at the sequence: blank 2 x 2 grayscale image, successful `load` of a 2 x 2 file,
`flip_h`, then a `load` of a 3 x 1 file that fails in the pixel stream. -/
theorem C18_buffer_length_invariant_witness :
    reached false ⟨[9, 1, 4], ⟨3, 1, TGA_PIXEL_BW8⟩, TGA_ERROR_FILE_CANNOT_READ⟩ ∧
    buffer_invariant ⟨[9, 1, 4], ⟨3, 1, TGA_PIXEL_BW8⟩, TGA_ERROR_FILE_CANNOT_READ⟩ := by
  have h0 : reached false ⟨[0, 0, 0, 0], ⟨2, 2, TGA_PIXEL_BW8⟩, TGA_NO_ERROR⟩ :=
    reached.create 2 2 TGA_PIXEL_BW8 _ (by decide)
  have h1 : reached false ⟨[1, 2, 3, 4], ⟨2, 2, TGA_PIXEL_BW8⟩, TGA_NO_ERROR⟩ :=
    reached.load false _
      (some [0, 0, 3, 0, 0, 0, 0, 0, 0, 0, 0, 0, 2, 0, 2, 0, 8, 0x20, 1, 2, 3, 4]) _ true h0
      (by decide) (Or.inr (fun ⟨b, hb, _, _, hd⟩ => by cases hb; exact absurd hd (by decide)))
  have h2 : reached false ⟨[2, 1, 4, 3], ⟨2, 2, TGA_PIXEL_BW8⟩, TGA_NO_ERROR⟩ :=
    reached.flip_h _ _ h1 (by decide)
  have h3 : reached false ⟨[9, 1, 4], ⟨3, 1, TGA_PIXEL_BW8⟩, TGA_ERROR_FILE_CANNOT_READ⟩ :=
    reached.load false _
      (some [0, 0, 3, 0, 0, 0, 0, 0, 0, 0, 0, 0, 3, 0, 1, 0, 8, 0x20, 9]) _ false h2
      (by decide) (Or.inr (fun ⟨b, hb, _, _, hd⟩ => by cases hb; exact absurd hd (by decide)))
  exact ⟨h3, C18_buffer_length_invariant _ h3⟩

/-- C18 as stated fails: a blank 2 x 2 grayscale image on which `load` is called with a file
whose header announces a 3 x 3 color-mapped image and whose color map is missing keeps its
four bytes, while it reports width 3, height 3 and 3 bytes per pixel. -/
theorem C18_failed_reload_counterexample :
    ∃ img : Image, reached true img ∧
      img.data = [0, 0, 0, 0] ∧ img.get_width = 3 ∧ img.get_height = 3 ∧
      img.get_pixel_size = 3 ∧ ¬ buffer_invariant img := by
  refine ⟨⟨[0, 0, 0, 0], ⟨3, 3, TGA_PIXEL_RGB24⟩, TGA_ERROR_FILE_CANNOT_READ⟩,
    reached.load false ⟨[0, 0, 0, 0], ⟨2, 2, TGA_PIXEL_BW8⟩, TGA_NO_ERROR⟩
      (some [0, 1, 1, 0, 0, 1, 0, 24, 0, 0, 0, 0, 3, 0, 3, 0, 8, 0x20]) _ false
      (reached.create 2 2 TGA_PIXEL_BW8 _ (by decide)) (by decide) (Or.inl rfl),
    rfl, rfl, rfl, rfl, ?_⟩
  unfold buffer_invariant
  decide

/-! ## C19: the skip of an unused color map -/

theorem bits_to_bytes_nat (e : Nat) :
    BITS_TO_BYTES (e : Int) = ((if e = 0 then 1 else (e + 7) / 8 : Nat) : Int) := by
  unfold BITS_TO_BYTES
  by_cases h : e = 0
  · subst h
    decide
  · rw [if_neg h]
    obtain ⟨k, rfl⟩ : ∃ k, e = k + 1 := ⟨e - 1, by omega⟩
    have : ((k + 1 : Nat) : Int) - 1 = (k : Int) := by push_cast; omega
    rw [this, Int.tdiv_eq_ediv (by omega)] <;> omega

theorem header_map_size_eq (header : tga_header) :
    header_map_size header =
      header.map_length * (if header.map_entry_size = 0 then 1
        else (header.map_entry_size + 7) / 8) := by
  unfold header_map_size
  rw [bits_to_bytes_nat, ← Int.natCast_mul, Int.toNat_ofNat]

/-- C19 (defect of the code). For a file of type 2, 3, 10 or 11 with `color_map_type` 1
whose header is accepted, `load` skips `map_length * BITS_TO_BYTES(map_entry_size)` bytes
after the ID field and decodes from there.  `BITS_TO_BYTES(n)` is `ceil(n / 8)` for `n >= 1`
but 1 for `n = 0`, so with `map_entry_size = 0` and `map_length = 1` the image data are read
from offset 19, not from offset 18 as the claim has it: the byte at offset 18 is skipped, and
the file that ends where the claim says it ends is reported unreadable. -/
theorem C19_unused_color_map_skip :
    (∀ (strict : Bool) (img : Image) (bytes : List Nat),
      header_verdict bytes = none → (parse_header bytes).image_type ∈ [2, 3, 10, 11] →
      (parse_header bytes).map_type = 1 →
      data_offset (parse_header bytes) ≤ bytes.length →
      data_offset (parse_header bytes) =
        18 + (parse_header bytes).id_length + (parse_header bytes).map_length *
          (if (parse_header bytes).map_entry_size = 0 then 1
            else ((parse_header bytes).map_entry_size + 7) / 8) ∧
      Image.load strict img (some bytes) =
        load_finish (header_info img (parse_header bytes)) (parse_header bytes).image_descriptor
          ((Image.load_decode { img with img_info := header_info img (parse_header bytes) }
            (parse_header bytes) ⟨0, 0, 0, []⟩
            ⟨bytes, data_offset (parse_header bytes), false⟩).map (fun r => (r.1, r.2.1)))) ∧
    (∀ strict : Bool, Image.load strict ⟨[], ⟨0, 0, 0⟩, TGA_NO_ERROR⟩
      (some [0, 1, 2, 0, 0, 1, 0, 0, 0, 0, 0, 0, 1, 0, 1, 0, 24, 0x20, 9, 1, 2, 3]) =
        some (⟨[1, 2, 3], ⟨1, 1, TGA_PIXEL_RGB24⟩, TGA_NO_ERROR⟩, true)) ∧
    (∀ strict : Bool, Image.load strict ⟨[], ⟨0, 0, 0⟩, TGA_NO_ERROR⟩
      (some [0, 1, 2, 0, 0, 1, 0, 0, 0, 0, 0, 0, 1, 0, 1, 0, 24, 0x20, 1, 2, 3]) =
        some (⟨[2, 3, 0], ⟨1, 1, TGA_PIXEL_RGB24⟩, TGA_ERROR_FILE_CANNOT_READ⟩, false)) := by
  refine ⟨?_, by decide, by decide⟩
  intro strict img bytes hv ht hm hlen
  have hcm : IS_COLOR_MAPPED (parse_header bytes) = false := by
    simp only [IS_COLOR_MAPPED, TGA_TYPE_COLOR_MAPPED, TGA_TYPE_RLE_COLOR_MAPPED]
    simp only [List.mem_cons, List.mem_singleton, List.not_mem_nil, or_false] at ht
    rcases ht with h | h | h | h <;> rw [h] <;> decide
  constructor
  · unfold data_offset color_map_block
    rw [if_pos (Or.inr hm), header_map_size_eq]
  · rw [load_complete strict img bytes hv hlen]
    unfold file_color_map
    rw [if_neg (by rw [hcm]; decide)]

/-! ## C20: bytes after the image data -/

theorem flip_h_fold_bound (img : Image) (ps : Nat) (data' : List Nat)
    (hps : pixel_format_to_pixel_size img.img_info.pixel_format = (ps : Int))
    (h4 : ps ≤ 4) (hw : img.img_info.width < 65536) (hw2 : 0 < img.img_info.width / 2)
    (h : (List.range (img.img_info.width / 2)).foldlM (fun data (i : Nat) =>
        (List.range img.img_info.height).foldlM (fun data (j : Nat) =>
          swap_pixels data (img.get_pixel i j)
            (img.get_pixel ((img.img_info.width : Int) - 1 - i) j) ps) data)
        img.data = some data') :
    ∀ x y, x < img.img_info.width → y < img.img_info.height →
      (y * img.img_info.width + x) * ps < 2 ^ 31 := by
  generalize hwd : img.img_info.width = w at *
  generalize hhd : img.img_info.height = ht at *
  have hinner : ∀ (i : Nat) (d d' : List Nat), d.length = img.data.length →
      (List.range ht).foldlM (fun data (j : Nat) =>
          swap_pixels data (img.get_pixel i j) (img.get_pixel ((w : Int) - 1 - i) j) ps) d
        = some d' → d'.length = img.data.length ∧ ∀ j ∈ List.range ht, ∃ d2 d3,
          d2.length = img.data.length ∧
          swap_pixels d2 (img.get_pixel i j) (img.get_pixel ((w : Int) - 1 - i) j) ps = some d3 :=
    fun i d d' hd hf => foldlM_steps _ img.data.length
      (fun d a d' hl hs => by rw [swap_pixels_length hs, hl]) _ d d' hd hf
  have houter := foldlM_steps _ img.data.length
    (fun d i d' hl hs => (hinner i d d' hl hs).1) _ img.data data' rfl h
  intro x y hx hy
  obtain ⟨d, d1, hd, hfd⟩ := houter.2 0 (List.mem_range.mpr hw2)
  have hcol : ∀ j, j < ht → 0 ≤ wrap_int (((j * w + (w - 1)) * ps : Nat) : Int) := by
    intro j hj
    obtain ⟨d2, d3, _, hs⟩ := (hinner 0 d d1 hd hfd).2 j (List.mem_range.mpr hj)
    have hp2 := (swap_pixels_bytes hs).2.1
    rw [cast_mirror w 0 (by omega)] at hp2
    have e := get_pixel_wrap img (w - 1 - 0) j ps (by rw [hwd]; omega) (by rw [hhd]; omega)
      hps h4
    rw [hwd] at e
    rw [e] at hp2
    exact hp2
  have := column_no_overflow w ht ps hw h4 hcol y hy
  have hle : (y * w + x) * ps ≤ (y * w + (w - 1)) * ps :=
    Nat.mul_le_mul_right ps (by omega)
  omega

theorem flip_v_fold_bound (img : Image) (ps : Nat) (data' : List Nat)
    (hps : pixel_format_to_pixel_size img.img_info.pixel_format = (ps : Int))
    (h4 : ps ≤ 4) (hw : img.img_info.width < 65536) (hh2 : 0 < img.img_info.height / 2)
    (h : (List.range (img.img_info.height / 2)).foldlM (fun data (i : Nat) =>
        (List.range img.img_info.width).foldlM (fun data (j : Nat) =>
          swap_pixels data (img.get_pixel j i)
            (img.get_pixel j ((img.img_info.height : Int) - 1 - i)) ps) data)
        img.data = some data') :
    ∀ x y, x < img.img_info.width → y < img.img_info.height →
      (y * img.img_info.width + x) * ps < 2 ^ 31 := by
  generalize hwd : img.img_info.width = w at *
  generalize hhd : img.img_info.height = ht at *
  have hinner : ∀ (i : Nat) (d d' : List Nat), d.length = img.data.length →
      (List.range w).foldlM (fun data (j : Nat) =>
          swap_pixels data (img.get_pixel j i) (img.get_pixel j ((ht : Int) - 1 - i)) ps) d
        = some d' → d'.length = img.data.length ∧ ∀ j ∈ List.range w, ∃ d2 d3,
          d2.length = img.data.length ∧
          swap_pixels d2 (img.get_pixel j i) (img.get_pixel j ((ht : Int) - 1 - i)) ps = some d3 :=
    fun i d d' hd hf => foldlM_steps _ img.data.length
      (fun d a d' hl hs => by rw [swap_pixels_length hs, hl]) _ d d' hd hf
  have houter := foldlM_steps _ img.data.length
    (fun d i d' hl hs => (hinner i d d' hl hs).1) _ img.data data' rfl h
  intro x y hx hy
  have hacc : ∀ i, i < ht / 2 → ∀ j, j < w →
      0 ≤ wrap_int (((i * w + j) * ps : Nat) : Int) ∧
      0 ≤ wrap_int ((((ht - 1 - i) * w + j) * ps : Nat) : Int) := by
    intro i hi j hj
    obtain ⟨d, d1, hd, hfd⟩ := houter.2 i (List.mem_range.mpr hi)
    obtain ⟨d2, d3, _, hs⟩ := (hinner i d d1 hd hfd).2 j (List.mem_range.mpr hj)
    have hp1 := (swap_pixels_bytes hs).1
    have hp2 := (swap_pixels_bytes hs).2.1
    rw [cast_mirror ht i (by omega)] at hp2
    have e1 := get_pixel_wrap img j i ps (by rw [hwd]; omega) (by rw [hhd]; omega) hps h4
    have e2 := get_pixel_wrap img j (ht - 1 - i) ps (by rw [hwd]; omega) (by rw [hhd]; omega)
      hps h4
    rw [hwd] at e1 e2
    rw [e1] at hp1
    rw [e2] at hp2
    exact ⟨hp1, hp2⟩
  have := rows_no_overflow w ht ps hw (by omega) h4 hh2 hacc
  have hle := offset_le w ht ps x y hx hy
  omega

theorem flip_h_overflow (img : Image) (ps : Nat)
    (hps : pixel_format_to_pixel_size img.img_info.pixel_format = (ps : Int))
    (h4 : ps ≤ 4) (hw : img.img_info.width < 65536) (hw2 : 2 ≤ img.img_info.width)
    (hh : 1 ≤ img.img_info.height) (hne : img.data ≠ [])
    (hov : 2 ^ 31 ≤ ((img.img_info.height - 1) * img.img_info.width +
      (img.img_info.width - 1)) * ps) :
    img.flip_h = none := by
  cases hf : img.flip_h with
  | none => rfl
  | some img' =>
    exfalso
    unfold Image.flip_h at hf
    rw [if_neg (by simpa [List.isEmpty_iff] using hne)] at hf
    simp only [hps, Int.toNat_ofNat] at hf
    rw [if_neg (by omega)] at hf
    obtain ⟨data', hfold, _⟩ := Option.map_eq_some'.mp hf
    have := flip_h_fold_bound img ps data' hps h4 hw (by omega) hfold
      (img.img_info.width - 1) (img.img_info.height - 1) (by omega) (by omega)
    omega

theorem flip_v_overflow (img : Image) (ps : Nat)
    (hps : pixel_format_to_pixel_size img.img_info.pixel_format = (ps : Int))
    (h4 : ps ≤ 4) (hw : img.img_info.width < 65536) (hw1 : 1 ≤ img.img_info.width)
    (hh : 2 ≤ img.img_info.height) (hne : img.data ≠ [])
    (hov : 2 ^ 31 ≤ ((img.img_info.height - 1) * img.img_info.width +
      (img.img_info.width - 1)) * ps) :
    img.flip_v = none := by
  cases hf : img.flip_v with
  | none => rfl
  | some img' =>
    exfalso
    unfold Image.flip_v at hf
    rw [if_neg (by simpa [List.isEmpty_iff] using hne)] at hf
    simp only [hps, Int.toNat_ofNat] at hf
    rw [if_neg (by omega)] at hf
    obtain ⟨data', hfold, _⟩ := Option.map_eq_some'.mp hf
    have := flip_v_fold_bound img ps data' hps h4 hw (by omega) hfold
      (img.img_info.width - 1) (img.img_info.height - 1) (by omega) (by omega)
    omega

theorem foldlM_total {α : Type} (f : List Nat → α → Option (List Nat)) (L : Nat) (l : List α)
    (hstep : ∀ d a, a ∈ l → d.length = L → ∃ d', f d a = some d' ∧ d'.length = L) :
    ∀ d0 : List Nat, d0.length = L → ∃ d', l.foldlM f d0 = some d' ∧ d'.length = L := by
  induction l with
  | nil =>
    intro d0 h0
    exact ⟨d0, rfl, h0⟩
  | cons a l ih =>
    intro d0 h0
    obtain ⟨d1, h1, hl1⟩ := hstep d0 a (List.mem_cons_self a l) h0
    obtain ⟨d', h', hl'⟩ := ih (fun d b hb hd => hstep d b (List.mem_cons_of_mem a hb) hd) d1 hl1
    refine ⟨d', ?_, hl'⟩
    rw [List.foldlM_cons, h1]
    exact h'

theorem swap_pixels_total (d : List Nat) (p1 p2 ps : Nat) (h1 : p1 + ps ≤ d.length)
    (h2 : p2 + ps ≤ d.length) :
    ∃ d', swap_pixels d (p1 : Int) (p2 : Int) ps = some d' ∧ d'.length = d.length := by
  unfold swap_pixels
  rw [if_neg (by omega)]
  simp only [Int.toNat_ofNat, mem_read, if_pos h1, if_pos h2]
  have hl2 : ((d.drop p2).take ps).length = ps := by
    rw [List.length_take, List.length_drop]; omega
  have hl1 : ((d.drop p1).take ps).length = ps := by
    rw [List.length_take, List.length_drop]; omega
  cases hw : mem_write d p1 ((d.drop p2).take ps) with
  | none =>
    unfold mem_write at hw
    rw [if_pos (by rw [hl2]; exact h1)] at hw
    cases hw
  | some data1 =>
    have hd1 := mem_write_length hw
    simp only []
    cases hw2 : mem_write data1 p2 ((d.drop p1).take ps) with
    | none =>
      unfold mem_write at hw2
      rw [if_pos (by rw [hl1, hd1]; exact h2)] at hw2
      cases hw2
    | some data2 =>
      exact ⟨data2, rfl, by rw [mem_write_length hw2, hd1]⟩

theorem idx_lt (w h x y : Nat) (hx : x < w) (hy : y < h) : y * w + x + 1 ≤ w * h := by
  have := Nat.mul_le_mul_right w (Nat.succ_le_of_lt hy)
  rw [Nat.succ_mul, Nat.mul_comm h w] at this
  omega

theorem offset_in_buffer (w h ps x y : Nat) (hx : x < w) (hy : y < h) :
    (y * w + x) * ps + ps ≤ w * h * ps := by
  have := Nat.mul_le_mul_right ps (idx_lt w h x y hx hy)
  rw [Nat.add_mul, Nat.one_mul] at this
  exact this

theorem get_pixel_exact (img : Image) (x y ps : Nat) (hx : x < img.img_info.width)
    (hy : y < img.img_info.height)
    (hps : pixel_format_to_pixel_size img.img_info.pixel_format = (ps : Int))
    (h1 : 1 ≤ ps) (h4 : ps ≤ 4)
    (hno : img.img_info.width * img.img_info.height * ps ≤ 2 ^ 31) :
    img.get_pixel (x : Int) (y : Int) = (((y * img.img_info.width + x) * ps : Nat) : Int) := by
  rw [get_pixel_wrap img x y ps hx hy hps h4]
  have := offset_in_buffer img.img_info.width img.img_info.height ps x y hx hy
  exact wrap_int_small _ (by omega)

theorem flip_h_total (img : Image) (ps : Nat)
    (hps : pixel_format_to_pixel_size img.img_info.pixel_format = (ps : Int))
    (h1 : 1 ≤ ps) (h4 : ps ≤ 4)
    (hlen : img.data.length = img.img_info.width * img.img_info.height * ps)
    (hno : img.img_info.width * img.img_info.height * ps ≤ 2 ^ 31) :
    ∃ img', img.flip_h = some img' := by
  unfold Image.flip_h
  by_cases he : img.data.isEmpty = true
  · rw [if_pos he]
    exact ⟨img, rfl⟩
  rw [if_neg he]
  simp only [hps, Int.toNat_ofNat]
  rw [if_neg (by omega)]
  obtain ⟨d', hd', _⟩ := foldlM_total
    (fun data (i : Nat) =>
      (List.range img.img_info.height).foldlM (fun data (j : Nat) =>
        swap_pixels data (img.get_pixel i j)
          (img.get_pixel ((img.img_info.width : Int) - 1 - i) j) ps) data)
    img.data.length (List.range (img.img_info.width / 2))
    (fun d i hi hd => foldlM_total _ img.data.length (List.range img.img_info.height)
      (fun d2 j hj hd2 => by
        have hi' := List.mem_range.mp hi
        have hj' := List.mem_range.mp hj
        rw [get_pixel_exact img i j ps (by omega) hj' hps h1 h4 hno,
          cast_mirror _ i (by omega),
          get_pixel_exact img (img.img_info.width - 1 - i) j ps (by omega) hj' hps h1 h4 hno]
        obtain ⟨d3, h3, hl3⟩ := swap_pixels_total d2 _ _ ps
          (by rw [hd2, hlen]; exact offset_in_buffer _ _ ps i j (by omega) hj')
          (by rw [hd2, hlen]
              exact offset_in_buffer _ _ ps (img.img_info.width - 1 - i) j (by omega) hj')
        exact ⟨d3, h3, by rw [hl3, hd2]⟩) d hd)
    img.data rfl
  exact ⟨_, by rw [hd']; rfl⟩

theorem flip_v_total (img : Image) (ps : Nat)
    (hps : pixel_format_to_pixel_size img.img_info.pixel_format = (ps : Int))
    (h1 : 1 ≤ ps) (h4 : ps ≤ 4)
    (hlen : img.data.length = img.img_info.width * img.img_info.height * ps)
    (hno : img.img_info.width * img.img_info.height * ps ≤ 2 ^ 31) :
    ∃ img', img.flip_v = some img' := by
  unfold Image.flip_v
  by_cases he : img.data.isEmpty = true
  · rw [if_pos he]
    exact ⟨img, rfl⟩
  rw [if_neg he]
  simp only [hps, Int.toNat_ofNat]
  rw [if_neg (by omega)]
  obtain ⟨d', hd', _⟩ := foldlM_total
    (fun data (i : Nat) =>
      (List.range img.img_info.width).foldlM (fun data (j : Nat) =>
        swap_pixels data (img.get_pixel j i)
          (img.get_pixel j ((img.img_info.height : Int) - 1 - i)) ps) data)
    img.data.length (List.range (img.img_info.height / 2))
    (fun d i hi hd => foldlM_total _ img.data.length (List.range img.img_info.width)
      (fun d2 j hj hd2 => by
        have hi' := List.mem_range.mp hi
        have hj' := List.mem_range.mp hj
        rw [get_pixel_exact img j i ps hj' (by omega) hps h1 h4 hno,
          cast_mirror _ i (by omega),
          get_pixel_exact img j (img.img_info.height - 1 - i) ps hj' (by omega) hps h1 h4 hno]
        obtain ⟨d3, h3, hl3⟩ := swap_pixels_total d2 _ _ ps
          (by rw [hd2, hlen]; exact offset_in_buffer _ _ ps j i hj' (by omega))
          (by rw [hd2, hlen]
              exact offset_in_buffer _ _ ps j (img.img_info.height - 1 - i) hj' (by omega))
        exact ⟨d3, h3, by rw [hl3, hd2]⟩) d hd)
    img.data rfl
  exact ⟨_, by rw [hd']; rfl⟩

theorem bytes_ext (a b : List Nat) (w h ps : Nat) (hps : 0 < ps) (hw : 0 < w)
    (hla : a.length = w * h * ps) (hlb : b.length = w * h * ps)
    (hpx : ∀ x y r, x < w → y < h → r < ps →
      a[(y * w + x) * ps + r]? = b[(y * w + x) * ps + r]?) : a = b := by
  apply List.ext_getElem?
  intro t
  by_cases ht : t < w * h * ps
  · have hk : t / ps < w * h := Nat.div_lt_of_lt_mul (by rw [Nat.mul_comm]; exact ht)
    have hy : t / ps / w < h := Nat.div_lt_of_lt_mul hk
    have e1 : w * (t / ps / w) + t / ps % w = t / ps := Nat.div_add_mod _ _
    have e2 : ps * (t / ps) + t % ps = t := Nat.div_add_mod _ _
    have := hpx (t / ps % w) (t / ps / w) (t % ps) (Nat.mod_lt _ hw) hy (Nat.mod_lt _ hps)
    rw [Nat.mul_comm (t / ps / w) w, e1, Nat.mul_comm (t / ps) ps, e2] at this
    exact this
  · rw [List.getElem?_eq_none (by omega), List.getElem?_eq_none (by omega)]

theorem valid_pixel_size {img : Image}
    (hf : img.img_info.pixel_format ∈
      [TGA_PIXEL_BW8, TGA_PIXEL_BW16, TGA_PIXEL_RGB555, TGA_PIXEL_RGB24, TGA_PIXEL_ARGB32]) :
    pixel_format_to_pixel_size img.img_info.pixel_format = (img.get_pixel_size : Int) ∧
      1 ≤ img.get_pixel_size ∧ img.get_pixel_size ≤ 4 := by
  unfold Image.get_pixel_size
  simp only [List.mem_cons, List.mem_singleton, List.not_mem_nil, or_false] at hf
  rcases hf with h | h | h | h | h <;> rw [h] <;> decide

theorem image_eq {a b : Image} (h1 : a.data = b.data) (h2 : a.img_info = b.img_info)
    (h3 : a.err = b.err) : a = b := by
  cases a
  cases b
  simp only [] at h1 h2 h3
  rw [h1, h2, h3]

theorem flip_h_twice (img : Image) (ps : Nat)
    (hps : pixel_format_to_pixel_size img.img_info.pixel_format = (ps : Int))
    (h1 : 1 ≤ ps) (h4 : ps ≤ 4) (hw : img.img_info.width < 65536)
    (hw1 : 1 ≤ img.img_info.width)
    (hlen : img.data.length = img.img_info.width * img.img_info.height * ps)
    (hno : img.img_info.width * img.img_info.height * ps ≤ 2 ^ 31) :
    ∃ img1, img.flip_h = some img1 ∧ img1.flip_h = some img := by
  obtain ⟨img1, hf1⟩ := flip_h_total img ps hps h1 h4 hlen hno
  obtain ⟨i1, e1, l1, p1⟩ := flip_h_pixels img img1 ps hps h4 hw hf1
  obtain ⟨img2, hf2⟩ := flip_h_total img1 ps (by rw [i1]; exact hps) h1 h4
    (by rw [i1, l1]; exact hlen) (by rw [i1]; exact hno)
  obtain ⟨i2, e2, l2, p2⟩ := flip_h_pixels img1 img2 ps (by rw [i1]; exact hps) h4
    (by rw [i1]; exact hw) hf2
  refine ⟨img1, hf1, ?_⟩
  rw [hf2]
  congr 1
  apply image_eq _ (i2.trans i1) (e2.trans e1)
  apply bytes_ext _ _ img.img_info.width img.img_info.height ps (by omega) (by omega)
    (by rw [l2, l1]; exact hlen) hlen
  intro x y r hx hy hr
  rw [i1] at p2
  rw [p2 x y r hx hy hr, p1 _ y r (by omega) hy hr]
  have e : img.img_info.width - 1 - (img.img_info.width - 1 - x) = x := by omega
  rw [e]

theorem flip_v_twice (img : Image) (ps : Nat)
    (hps : pixel_format_to_pixel_size img.img_info.pixel_format = (ps : Int))
    (h1 : 1 ≤ ps) (h4 : ps ≤ 4) (hw : img.img_info.width < 65536)
    (hw1 : 1 ≤ img.img_info.width)
    (hlen : img.data.length = img.img_info.width * img.img_info.height * ps)
    (hno : img.img_info.width * img.img_info.height * ps ≤ 2 ^ 31) :
    ∃ img1, img.flip_v = some img1 ∧ img1.flip_v = some img := by
  obtain ⟨img1, hf1⟩ := flip_v_total img ps hps h1 h4 hlen hno
  obtain ⟨i1, e1, l1, p1⟩ := flip_v_pixels img img1 ps hps h4 hw hf1
  obtain ⟨img2, hf2⟩ := flip_v_total img1 ps (by rw [i1]; exact hps) h1 h4
    (by rw [i1, l1]; exact hlen) (by rw [i1]; exact hno)
  obtain ⟨i2, e2, l2, p2⟩ := flip_v_pixels img1 img2 ps (by rw [i1]; exact hps) h4
    (by rw [i1]; exact hw) hf2
  refine ⟨img1, hf1, ?_⟩
  rw [hf2]
  congr 1
  apply image_eq _ (i2.trans i1) (e2.trans e1)
  apply bytes_ext _ _ img.img_info.width img.img_info.height ps (by omega) (by omega)
    (by rw [l2, l1]; exact hlen) hlen
  intro x y r hx hy hr
  rw [i1] at p2
  rw [p2 x y r hx hy hr, p1 x _ r hx (by omega) hr]
  have e : img.img_info.height - 1 - (img.img_info.height - 1 - y) = y := by omega
  rw [e]

/-- C14 (defect of the code). `flip_h` and `flip_v` address the pixels through `get_pixel`,
which computes the byte offset in `int`.  While `width * height * pixel_size` is at most
2^31 both flips return and are involutions: twice `flip_h`, or twice `flip_v`, gives the image
back.  For a larger buffer, which the constructor accepts (32768 x 32768 RGB24 is 3 GiB),
the offset leaves the `int` range, the `memcpy` calls leave the buffer, and neither flip
has a defined result. -/
theorem C14_flip_twice :
    (∀ img : Image,
      img.img_info.pixel_format ∈
        [TGA_PIXEL_BW8, TGA_PIXEL_BW16, TGA_PIXEL_RGB555, TGA_PIXEL_RGB24, TGA_PIXEL_ARGB32] →
      1 ≤ img.get_width ∧ img.get_width ≤ 65535 →
      1 ≤ img.get_height ∧ img.get_height ≤ 65535 →
      img.data.length = img.get_width * img.get_height * img.get_pixel_size →
      img.get_width * img.get_height * img.get_pixel_size ≤ 2 ^ 31 →
      (∃ img1, img.flip_h = some img1 ∧ img1.flip_h = some img) ∧
      (∃ img1, img.flip_v = some img1 ∧ img1.flip_v = some img)) ∧
    (∀ img : Image, img.img_info = ⟨32768, 32768, TGA_PIXEL_RGB24⟩ →
      img.data.length = 32768 * 32768 * 3 → img.flip_h = none ∧ img.flip_v = none) ∧
    (Image.flip_h ⟨[1, 2, 3, 4, 5, 6], ⟨3, 2, TGA_PIXEL_BW8⟩, TGA_NO_ERROR⟩ =
        some ⟨[3, 2, 1, 6, 5, 4], ⟨3, 2, TGA_PIXEL_BW8⟩, TGA_NO_ERROR⟩ ∧
      Image.flip_h ⟨[3, 2, 1, 6, 5, 4], ⟨3, 2, TGA_PIXEL_BW8⟩, TGA_NO_ERROR⟩ =
        some ⟨[1, 2, 3, 4, 5, 6], ⟨3, 2, TGA_PIXEL_BW8⟩, TGA_NO_ERROR⟩) := by
  refine ⟨?_, ?_, by decide, by decide⟩
  · intro img hf hw hh hlen hno
    obtain ⟨hps, h1, h4⟩ := valid_pixel_size hf
    exact ⟨flip_h_twice img _ hps h1 h4 (Nat.lt_succ_of_le hw.2) hw.1 hlen hno,
      flip_v_twice img _ hps h1 h4 (Nat.lt_succ_of_le hw.2) hw.1 hlen hno⟩
  · intro img hi hlen
    have hne : img.data ≠ [] := by
      intro hnil
      rw [hnil] at hlen
      simp at hlen
    have hps : pixel_format_to_pixel_size img.img_info.pixel_format = ((3 : Nat) : Int) := by
      rw [hi]
      decide
    constructor
    · apply flip_h_overflow img 3 hps (by omega) _ _ _ hne
      all_goals (rw [hi]; decide)
    · apply flip_v_overflow img 3 hps (by omega) _ _ _ hne
      all_goals (rw [hi]; decide)

/-- C15 (defect of the code). While `width * height * pixel_size` is at most 2^31, `flip_h`
returns with the pixel that was at `(width - 1 - x, y)` at `(x, y)` and `flip_v` with the
pixel that was at `(x, height - 1 - y)`, every pixel a group of `pixel_size` bytes, width,
height and format unchanged; a flip of an empty buffer changes nothing.  For a larger buffer
(65535 x 65535 ARGB32, the largest image the constructor accepts) `get_pixel` leaves the
`int` range and neither flip has a defined result. -/
theorem C15_flip_mirror :
    (∀ img : Image,
      img.img_info.pixel_format ∈
        [TGA_PIXEL_BW8, TGA_PIXEL_BW16, TGA_PIXEL_RGB555, TGA_PIXEL_RGB24, TGA_PIXEL_ARGB32] →
      img.get_width ≤ 65535 →
      img.data.length = img.get_width * img.get_height * img.get_pixel_size →
      img.get_width * img.get_height * img.get_pixel_size ≤ 2 ^ 31 →
      (∃ img1, img.flip_h = some img1 ∧ img1.img_info = img.img_info ∧
        img1.data.length = img.data.length ∧
        ∀ x y, x < img.get_width → y < img.get_height →
          pixel_at img1.data img.get_width img.get_pixel_size x y =
            pixel_at img.data img.get_width img.get_pixel_size (img.get_width - 1 - x) y) ∧
      (∃ img1, img.flip_v = some img1 ∧ img1.img_info = img.img_info ∧
        img1.data.length = img.data.length ∧
        ∀ x y, x < img.get_width → y < img.get_height →
          pixel_at img1.data img.get_width img.get_pixel_size x y =
            pixel_at img.data img.get_width img.get_pixel_size x (img.get_height - 1 - y))) ∧
    (∀ img : Image, img.data = [] → img.flip_h = some img ∧ img.flip_v = some img) ∧
    (∀ img : Image, img.img_info = ⟨65535, 65535, TGA_PIXEL_ARGB32⟩ →
      img.data.length = 65535 * 65535 * 4 → img.flip_h = none ∧ img.flip_v = none) ∧
    Image.flip_v ⟨[1, 2, 3, 4, 5, 6], ⟨1, 3, TGA_PIXEL_BW16⟩, TGA_NO_ERROR⟩ =
      some ⟨[5, 6, 3, 4, 1, 2], ⟨1, 3, TGA_PIXEL_BW16⟩, TGA_NO_ERROR⟩ := by
  refine ⟨?_, ?_, ?_, by decide⟩
  · intro img hf hw hlen hno
    obtain ⟨hps, h1, h4⟩ := valid_pixel_size hf
    obtain ⟨a, ha⟩ := flip_h_total img _ hps h1 h4 hlen hno
    obtain ⟨b, hb⟩ := flip_v_total img _ hps h1 h4 hlen hno
    obtain ⟨a1, _, a3, a4⟩ := flip_h_pixels img a _ hps h4 (Nat.lt_succ_of_le hw) ha
    obtain ⟨b1, _, b3, b4⟩ := flip_v_pixels img b _ hps h4 (Nat.lt_succ_of_le hw) hb
    refine ⟨⟨a, ha, a1, a3, ?_⟩, ⟨b, hb, b1, b3, ?_⟩⟩
    · intro x y hx hy
      exact pixel_at_of_bytes _ _ _ _ _ (fun r hr => a4 x y r hx hy hr)
    · intro x y hx hy
      exact pixel_at_of_bytes _ _ _ _ _ (fun r hr => b4 x y r hx hy hr)
  · intro img he
    simp only [Image.flip_h, Image.flip_v, he, List.isEmpty_nil, if_true, and_self]
  · intro img hi hlen
    have hne : img.data ≠ [] := by
      intro hnil
      rw [hnil] at hlen
      simp at hlen
    have hps : pixel_format_to_pixel_size img.img_info.pixel_format = ((4 : Nat) : Int) := by
      rw [hi]
      decide
    constructor
    · apply flip_h_overflow img 4 hps (by omega) _ _ _ hne
      all_goals (rw [hi]; decide)
    · apply flip_v_overflow img 4 hps (by omega) _ _ _ hne
      all_goals (rw [hi]; decide)

/-! ## C22, C24, C25, C26: get_pixel, the returned flag, rejected headers, commuting flips -/

/-- C25. A reload rejected at the header leaves the image intact: when the header of the
file fails a check (fewer than 18 bytes, `color_map_type > 1`, `image_type` 0 or not one of
1, 2, 3, 9, 10, 11, zero width or height, or a combination the pixel format resolver
rejects), `load` returns `false` and changes only the error status, to the error of that
check; width, height, pixel format and pixel buffer are what they were before the call. -/
theorem C25_rejected_header_keeps_image (strict : Bool) (img : Image) (bytes : List Nat)
    (e : tga_error) (h : header_verdict bytes = some e) :
    Image.load strict img (some bytes) = some ({ img with err := e }, false) ∧
    e ≠ TGA_NO_ERROR := by
  constructor
  · by_cases h18 : bytes.length < 18
    · rw [load_short strict img bytes h18]
      rw [header_verdict_eq, if_pos h18] at h
      cases h
      rfl
    · rw [load_eq_checks strict img bytes (by omega), load_checks_eq strict img bytes (by omega),
        h]
  · rw [header_verdict_eq] at h
    split_ifs at h <;> (cases h; decide)

/-- C25, at a blank 2 x 2 image reloaded from a true-color header with pixel depth 8, which
the resolver rejects. -/
theorem C25_rejected_header_keeps_image_witness :
    header_verdict [0, 0, 2, 0, 0, 0, 0, 0, 0, 0, 0, 0, 3, 0, 3, 0, 8, 0x20, 1, 2, 3] =
      some TGA_ERROR_UNSUPPORTED_PIXEL_FORMAT ∧
    (Image.load false ⟨[0, 0, 0, 0], ⟨2, 2, TGA_PIXEL_BW8⟩, TGA_NO_ERROR⟩
        (some [0, 0, 2, 0, 0, 0, 0, 0, 0, 0, 0, 0, 3, 0, 3, 0, 8, 0x20, 1, 2, 3]) =
      some (⟨[0, 0, 0, 0], ⟨2, 2, TGA_PIXEL_BW8⟩, TGA_ERROR_UNSUPPORTED_PIXEL_FORMAT⟩, false) ∧
     TGA_ERROR_UNSUPPORTED_PIXEL_FORMAT ≠ TGA_NO_ERROR) :=
  ⟨by decide, C25_rejected_header_keeps_image false
    ⟨[0, 0, 0, 0], ⟨2, 2, TGA_PIXEL_BW8⟩, TGA_NO_ERROR⟩
    [0, 0, 2, 0, 0, 0, 0, 0, 0, 0, 0, 0, 3, 0, 3, 0, 8, 0x20, 1, 2, 3]
    TGA_ERROR_UNSUPPORTED_PIXEL_FORMAT (by decide)⟩

theorem load_flag_iff (strict : Bool) (img img' : Image) (file : Option (List Nat)) (ok : Bool)
    (h : Image.load strict img file = some (img', ok)) :
    ok = true ↔ img'.last_error = TGA_NO_ERROR := by
  unfold Image.last_error
  cases file with
  | none =>
    simp only [Image.load, Option.some.injEq, Prod.mk.injEq] at h
    rw [← h.1, ← h.2]
    simp
  | some bytes =>
    have ho := load_outcome strict img img' bytes ok h
    cases hd : Image.load_decoded strict img bytes with
    | none =>
      rw [hd] at ho
      obtain ⟨h1, _, h3, _⟩ := ho
      rw [h1]
      constructor
      · intro hc; cases hc
      · intro hc; exact (h3 hc).elim
    | some p =>
      obtain ⟨e, d⟩ := p
      rw [hd] at ho
      obtain ⟨_, _, i2, _, _, i5, i6⟩ := ho
      rw [i2]
      constructor
      · intro hok
        by_contra hne
        rw [(i5 hne).1] at hok
        cases hok
      · exact i6

theorem save_open_true (flush : Nat → Nat → Nat) (img img' : Image) (r : Nat) (ok : Bool)
    (left : Option (List Nat)) (hne : img.data ≠ [])
    (h : img.save flush (some r) = some (img', ok, left)) : ok = true := by
  unfold Image.save at h
  rw [if_neg (by simpa [List.isEmpty_iff] using hne)] at h
  simp only [] at h
  cases hs : save_image flush img.data img.img_info ⟨[], [], r, false⟩ with
  | none => rw [hs] at h; cases h
  | some p =>
    rw [hs] at h
    simp only [Option.some.injEq, Prod.mk.injEq] at h
    exact h.2.1.symm

/-- A pixel write that the stream passes to a device without room for the file fails at the
call: `save` leaves `TGA_ERROR_FILE_CANNOT_WRITE`, removes the file and returns `true`.  The
stream buffers a request shorter than `chunk` bytes and passes a longer one, with what it
has buffered, to the device at once. -/
theorem save_write_fails (chunk : Nat) (img : Image) (room : Nat)
    (hf : img.img_info.pixel_format ≤ 4)
    (hw : img.img_info.width < 65536) (hh : img.img_info.height < 65536)
    (hlen : img.data.length = img.img_info.width * img.img_info.height *
      (pixel_format_to_pixel_size img.img_info.pixel_format).toNat)
    (h18 : 18 < chunk) (hbig : chunk ≤ img.data.length)
    (hroom : room < 18 + img.data.length) :
    img.save (fun p n => if chunk ≤ n then p + n else 0) (some room) =
      some ({ img with err := TGA_ERROR_FILE_CANNOT_WRITE }, true, none) := by
  have hl18 : (encoder_header img.img_info).length = 18 := rfl
  have hne : img.data.isEmpty = false := by
    cases hd : img.data with
    | nil => rw [hd] at hbig; simp at hbig; omega
    | cons a l => rfl
  unfold Image.save
  rw [hne]
  simp only [Bool.false_eq_true, if_false]
  unfold save_image
  simp only [save_image_header_eq img.img_info hf hw hh, data_size_eq img.img_info hf hw hh]
  rw [← hlen, mem_read_all]
  have e1 : ofstream.write (fun p n => if chunk ≤ n then p + n else 0) ⟨[], [], room, false⟩
      (encoder_header img.img_info) = ⟨[], encoder_header img.img_info, room, false⟩ := by
    unfold ofstream.write
    simp only [Bool.false_eq_true, if_false, List.nil_append, List.length_nil, hl18,
      if_neg (Nat.not_le.mpr h18), List.take_zero, Nat.zero_le, if_true, List.append_nil,
      List.drop_zero, Nat.sub_zero]
  have e2 : (ofstream.write (fun p n => if chunk ≤ n then p + n else 0)
      ⟨[], encoder_header img.img_info, room, false⟩ img.data).failbit = true := by
    unfold ofstream.write
    simp only [Bool.false_eq_true, if_false, hl18, if_pos hbig]
    rw [if_neg]
    rw [List.length_take, List.length_append, hl18]
    omega
  rw [e1]
  simp only [Bool.false_eq_true, if_false, e2, if_true]
  simp

/-- C24 (defect of the code). `load` returns `true` exactly when it leaves `TGA_NO_ERROR`.
`save` returns `false` for an empty buffer and for a file it cannot open, but once the file
is open it ends in `return true` whatever `save_image` reported: when a write fails at the
call it leaves `TGA_ERROR_FILE_CANNOT_WRITE`, removes the file, and returns `true`.  A write
fails at the call when the stream passes it to a device that does not take it: a stream that
passes requests of 1024 bytes or more to the device at once does so for the 16384 pixel
bytes of a 64 x 64 image in `TGA_PIXEL_ARGB32` on a full device.  The 22 bytes of a 2 x 2
grayscale image stay in the buffer of that stream: on a device that takes 10 bytes `save`
returns `true` with `TGA_NO_ERROR`, the failure of `close` going unnoticed. -/
theorem C24_flag_and_error :
    (∀ (strict : Bool) (img img' : Image) (file : Option (List Nat)) (ok : Bool),
      Image.load strict img file = some (img', ok) →
      (ok = true ↔ img'.last_error = TGA_NO_ERROR)) ∧
    (∀ (flush : Nat → Nat → Nat) (img img' : Image) (room : Option Nat) (ok : Bool)
      (left : Option (List Nat)),
      img.save flush room = some (img', ok, left) → img'.last_error = TGA_NO_ERROR →
      ok = true) ∧
    (∀ (flush : Nat → Nat → Nat) (img img' : Image) (r : Nat) (ok : Bool)
      (left : Option (List Nat)),
      img.data ≠ [] → img.save flush (some r) = some (img', ok, left) → ok = true) ∧
    (∀ (chunk : Nat) (img : Image) (room : Nat),
      img.img_info.pixel_format ≤ 4 → img.img_info.width < 65536 →
      img.img_info.height < 65536 →
      img.data.length = img.img_info.width * img.img_info.height *
        (pixel_format_to_pixel_size img.img_info.pixel_format).toNat →
      18 < chunk → chunk ≤ img.data.length → room < 18 + img.data.length →
      img.save (fun p n => if chunk ≤ n then p + n else 0) (some room) =
        some ({ img with err := TGA_ERROR_FILE_CANNOT_WRITE }, true, none)) ∧
    Image.save (fun p n => if 1024 ≤ n then p + n else 0)
        ⟨List.replicate 16384 0, ⟨64, 64, TGA_PIXEL_ARGB32⟩, TGA_NO_ERROR⟩ (some 0) =
      some (⟨List.replicate 16384 0, ⟨64, 64, TGA_PIXEL_ARGB32⟩, TGA_ERROR_FILE_CANNOT_WRITE⟩,
        true, none) ∧
    Image.save (fun p n => if 1024 ≤ n then p + n else 0)
        ⟨[1, 2, 3, 4], ⟨2, 2, TGA_PIXEL_BW8⟩, TGA_NO_ERROR⟩ (some 10) =
      some (⟨[1, 2, 3, 4], ⟨2, 2, TGA_PIXEL_BW8⟩, TGA_NO_ERROR⟩, true,
        some [0, 0, 3, 0, 0, 0, 0, 0, 0, 0]) := by
  refine ⟨load_flag_iff, ?_, save_open_true, save_write_fails, ?_, by decide⟩
  · intro flush img img' room ok left h he
    unfold Image.save at h
    unfold Image.last_error at he
    split_ifs at h with h1
    · simp only [Option.some.injEq, Prod.mk.injEq] at h
      rw [← h.1] at he
      cases he
    · cases room with
      | none =>
        simp only [Option.some.injEq, Prod.mk.injEq] at h
        rw [← h.1] at he
        cases he
      | some r =>
        simp only [] at h
        cases hs : save_image flush img.data img.img_info ⟨[], [], r, false⟩ with
        | none => rw [hs] at h; cases h
        | some p =>
          rw [hs] at h
          simp only [Option.some.injEq, Prod.mk.injEq] at h
          exact h.2.1.symm
  · exact save_write_fails 1024 ⟨List.replicate 16384 0, ⟨64, 64, TGA_PIXEL_ARGB32⟩, TGA_NO_ERROR⟩
      0 (by decide) (by decide) (by decide) (by rw [List.length_replicate]; decide)
      (by decide) (by rw [List.length_replicate]; decide)
      (by rw [List.length_replicate]; decide)

theorem get_pixel_clamped (img : Image) (x y : Int) (ps : Nat)
    (hps : pixel_format_to_pixel_size img.img_info.pixel_format = (ps : Int)) (h4 : ps ≤ 4)
    (hw : 1 ≤ img.img_info.width) (hh : 1 ≤ img.img_info.height) :
    img.get_pixel x y =
      wrap_int ((min (max y 0) ((img.img_info.height : Int) - 1) * (img.img_info.width : Int) +
        min (max x 0) ((img.img_info.width : Int) - 1)) * (ps : Int)) := by
  have hx : (if x < 0 then 0 else if x ≥ (img.img_info.width : Int) then
      (img.img_info.width : Int) - 1 else x) = min (max x 0) ((img.img_info.width : Int) - 1) := by
    split_ifs <;> omega
  have hy : (if y < 0 then 0 else if y ≥ (img.img_info.height : Int) then
      (img.img_info.height : Int) - 1 else y) =
      min (max y 0) ((img.img_info.height : Int) - 1) := by
    split_ifs <;> omega
  unfold Image.get_pixel
  simp only [hps, hx, hy]
  generalize min (max x 0) ((img.img_info.width : Int) - 1) = cx
  generalize min (max y 0) ((img.img_info.height : Int) - 1) * (img.img_info.width : Int) = a
  unfold wrap_int
  interval_cases ps <;> omega

theorem get_pixel_in_bounds (img : Image) (x y : Int) (ps : Nat)
    (hps : pixel_format_to_pixel_size img.img_info.pixel_format = (ps : Int))
    (h1 : 1 ≤ ps) (h4 : ps ≤ 4)
    (hw : 1 ≤ img.img_info.width) (hh : 1 ≤ img.img_info.height)
    (hlen : img.data.length = img.img_info.width * img.img_info.height * ps)
    (hno : img.img_info.width * img.img_info.height * ps ≤ 2 ^ 31) :
    img.get_pixel x y =
      (min (max y 0) ((img.img_info.height : Int) - 1) * (img.img_info.width : Int) +
        min (max x 0) ((img.img_info.width : Int) - 1)) * (ps : Int) ∧
    0 ≤ img.get_pixel x y ∧ img.get_pixel x y + (ps : Int) ≤ (img.data.length : Int) := by
  obtain ⟨cx, hcx⟩ := Int.eq_ofNat_of_zero_le
    (show 0 ≤ min (max x 0) ((img.img_info.width : Int) - 1) by omega)
  obtain ⟨cy, hcy⟩ := Int.eq_ofNat_of_zero_le
    (show 0 ≤ min (max y 0) ((img.img_info.height : Int) - 1) by omega)
  have hcxw : cx < img.img_info.width := by omega
  have hcyh : cy < img.img_info.height := by omega
  have hb := offset_in_buffer img.img_info.width img.img_info.height ps cx cy hcxw hcyh
  rw [get_pixel_clamped img x y ps hps h4 hw hh, hcx, hcy]
  have e : ((cy : Int) * (img.img_info.width : Int) + (cx : Int)) * (ps : Int) =
      (((cy * img.img_info.width + cx) * ps : Nat) : Int) := by push_cast; rfl
  rw [e, wrap_int_small _ (by omega), hlen]
  refine ⟨rfl, by omega, ?_⟩
  have : (((cy * img.img_info.width + cx) * ps + ps : Nat) : Int) ≤
      ((img.img_info.width * img.img_info.height * ps : Nat) : Int) := by
    exact_mod_cast hb
  push_cast at this ⊢
  exact this

/-- C22 (defect of the code). `get_pixel(x, y)` clamps `x` to `[0, width - 1]` and `y` to
`[0, height - 1]` and returns `(cy * width + cx) * pixel_size`, computed in 32-bit `int`.
While `width * height * pixel_size` is at most 2^31 this is the position of the pixel, it is
not negative and the pixel ends inside the buffer.  For a larger buffer the `int` overflows:
in the 32768 x 32768 RGB24 image `get_pixel(32767, 21845)` is `-2147418115`, a position
before the start of the buffer. -/
theorem C22_get_pixel_position :
    (∀ (img : Image) (x y : Int),
      img.img_info.pixel_format ∈
        [TGA_PIXEL_BW8, TGA_PIXEL_BW16, TGA_PIXEL_RGB555, TGA_PIXEL_RGB24, TGA_PIXEL_ARGB32] →
      1 ≤ img.get_width ∧ img.get_width ≤ 65535 →
      1 ≤ img.get_height ∧ img.get_height ≤ 65535 →
      img.data.length = img.get_width * img.get_height * img.get_pixel_size →
      img.get_pixel x y =
        wrap_int ((min (max y 0) ((img.get_height : Int) - 1) * (img.get_width : Int) +
          min (max x 0) ((img.get_width : Int) - 1)) * (img.get_pixel_size : Int)) ∧
      (img.get_width * img.get_height * img.get_pixel_size ≤ 2 ^ 31 →
        img.get_pixel x y =
          (min (max y 0) ((img.get_height : Int) - 1) * (img.get_width : Int) +
            min (max x 0) ((img.get_width : Int) - 1)) * (img.get_pixel_size : Int) ∧
        0 ≤ img.get_pixel x y ∧
        img.get_pixel x y + (img.get_pixel_size : Int) ≤ (img.data.length : Int))) ∧
    (∀ (data : List Nat) (err : tga_error),
      Image.get_pixel ⟨data, ⟨32768, 32768, TGA_PIXEL_RGB24⟩, err⟩ 32767 21845 =
        -2147418115) := by
  refine ⟨?_, fun data err => by
    simp only [Image.get_pixel]
    decide⟩
  intro img x y hf hw hh hlen
  obtain ⟨hps, h1, h4⟩ := valid_pixel_size hf
  exact ⟨get_pixel_clamped img x y _ hps h4 hw.1 hh.1,
    fun hno => get_pixel_in_bounds img x y _ hps h1 h4 hw.1 hh.1 hlen hno⟩

theorem flips_commute (img : Image) (ps : Nat)
    (hps : pixel_format_to_pixel_size img.img_info.pixel_format = (ps : Int))
    (h1 : 1 ≤ ps) (h4 : ps ≤ 4) (hw : img.img_info.width < 65536)
    (hlen : img.data.length = img.img_info.width * img.img_info.height * ps)
    (hno : img.img_info.width * img.img_info.height * ps ≤ 2 ^ 31) :
    ∃ a b c, img.flip_h = some a ∧ a.flip_v = some c ∧ img.flip_v = some b ∧
      b.flip_h = some c ∧
      (a.img_info = img.img_info ∧ a.err = img.err ∧ a.data.length = img.data.length) ∧
      (b.img_info = img.img_info ∧ b.err = img.err ∧ b.data.length = img.data.length) := by
  by_cases he : img.data = []
  · refine ⟨img, img, img, ?_, ?_, ?_, ?_, ⟨rfl, rfl, rfl⟩, ⟨rfl, rfl, rfl⟩⟩ <;>
      simp only [Image.flip_h, Image.flip_v, he, List.isEmpty_nil, if_true]
  have hw1 : 1 ≤ img.img_info.width := by
    rcases Nat.eq_zero_or_pos img.img_info.width with h0 | h0
    · rw [h0] at hlen
      simp only [Nat.zero_mul] at hlen
      exact (he (List.eq_nil_of_length_eq_zero hlen)).elim
    · exact h0
  obtain ⟨a, ha⟩ := flip_h_total img ps hps h1 h4 hlen hno
  obtain ⟨a1, a2, a3, a4⟩ := flip_h_pixels img a ps hps h4 hw ha
  obtain ⟨b, hb⟩ := flip_v_total img ps hps h1 h4 hlen hno
  obtain ⟨b1, b2, b3, b4⟩ := flip_v_pixels img b ps hps h4 hw hb
  obtain ⟨c, hc⟩ := flip_v_total a ps (by rw [a1]; exact hps) h1 h4
    (by rw [a1, a3]; exact hlen) (by rw [a1]; exact hno)
  obtain ⟨c1, c2, c3, c4⟩ := flip_v_pixels a c ps (by rw [a1]; exact hps) h4
    (by rw [a1]; exact hw) hc
  obtain ⟨d, hd⟩ := flip_h_total b ps (by rw [b1]; exact hps) h1 h4
    (by rw [b1, b3]; exact hlen) (by rw [b1]; exact hno)
  obtain ⟨d1, d2, d3, d4⟩ := flip_h_pixels b d ps (by rw [b1]; exact hps) h4
    (by rw [b1]; exact hw) hd
  have hcd : d = c := by
    apply image_eq _ ((d1.trans b1).trans (c1.trans a1).symm)
      ((d2.trans b2).trans (c2.trans a2).symm)
    apply bytes_ext _ _ img.img_info.width img.img_info.height ps (by omega) hw1
      (by rw [d3, b3]; exact hlen) (by rw [c3, a3]; exact hlen)
    intro x y r hx hy hr
    rw [a1] at c4
    rw [b1] at d4
    rw [d4 x y r hx hy hr, b4 _ y r (by omega) hy hr, c4 x y r hx hy hr,
      a4 x _ r hx (by omega) hr]
  exact ⟨a, b, c, ha, hc, hb, by rw [hd, hcd], ⟨a1, a2, a3⟩, ⟨b1, b2, b3⟩⟩

/-- C26 (defect of the code). While `width * height * pixel_size` is at most 2^31, `flip_h`
followed by `flip_v` leaves the same image as `flip_v` followed by `flip_h`, and each flip
leaves width, height, pixel format, error status and buffer length unchanged.  For a larger
buffer (46341 x 46341 grayscale, just over 2 GiB) `get_pixel` leaves the `int` range and
neither flip has a defined result. -/
theorem C26_flips_commute :
    (∀ img : Image,
      img.img_info.pixel_format ∈
        [TGA_PIXEL_BW8, TGA_PIXEL_BW16, TGA_PIXEL_RGB555, TGA_PIXEL_RGB24, TGA_PIXEL_ARGB32] →
      img.get_width ≤ 65535 →
      img.data.length = img.get_width * img.get_height * img.get_pixel_size →
      img.get_width * img.get_height * img.get_pixel_size ≤ 2 ^ 31 →
      ∃ a b c, img.flip_h = some a ∧ a.flip_v = some c ∧ img.flip_v = some b ∧
        b.flip_h = some c ∧
        (a.img_info = img.img_info ∧ a.err = img.err ∧ a.data.length = img.data.length) ∧
        (b.img_info = img.img_info ∧ b.err = img.err ∧ b.data.length = img.data.length)) ∧
    (∀ img : Image, img.img_info = ⟨46341, 46341, TGA_PIXEL_BW8⟩ →
      img.data.length = 46341 * 46341 * 1 → img.flip_h = none ∧ img.flip_v = none) ∧
    (Image.flip_h ⟨[1, 2, 3, 4, 5, 6], ⟨3, 2, TGA_PIXEL_BW8⟩, TGA_NO_ERROR⟩ =
        some ⟨[3, 2, 1, 6, 5, 4], ⟨3, 2, TGA_PIXEL_BW8⟩, TGA_NO_ERROR⟩ ∧
      Image.flip_v ⟨[3, 2, 1, 6, 5, 4], ⟨3, 2, TGA_PIXEL_BW8⟩, TGA_NO_ERROR⟩ =
        some ⟨[6, 5, 4, 3, 2, 1], ⟨3, 2, TGA_PIXEL_BW8⟩, TGA_NO_ERROR⟩ ∧
      Image.flip_v ⟨[1, 2, 3, 4, 5, 6], ⟨3, 2, TGA_PIXEL_BW8⟩, TGA_NO_ERROR⟩ =
        some ⟨[4, 5, 6, 1, 2, 3], ⟨3, 2, TGA_PIXEL_BW8⟩, TGA_NO_ERROR⟩ ∧
      Image.flip_h ⟨[4, 5, 6, 1, 2, 3], ⟨3, 2, TGA_PIXEL_BW8⟩, TGA_NO_ERROR⟩ =
        some ⟨[6, 5, 4, 3, 2, 1], ⟨3, 2, TGA_PIXEL_BW8⟩, TGA_NO_ERROR⟩) := by
  refine ⟨?_, ?_, by decide, by decide, by decide, by decide⟩
  · intro img hf hw hlen hno
    obtain ⟨hps, h1, h4⟩ := valid_pixel_size hf
    exact flips_commute img _ hps h1 h4 (Nat.lt_succ_of_le hw) hlen hno
  · intro img hi hlen
    have hne : img.data ≠ [] := by
      intro hnil
      rw [hnil] at hlen
      simp at hlen
    have hps : pixel_format_to_pixel_size img.img_info.pixel_format = ((1 : Nat) : Int) := by
      rw [hi]
      decide
    constructor
    · apply flip_h_overflow img 1 hps (by omega) _ _ _ hne
      all_goals (rw [hi]; decide)
    · apply flip_v_overflow img 1 hps (by omega) _ _ _ hne
      all_goals (rw [hi]; decide)

/-! ## C21: the ID field -/

theorem read_length_le (s : ifstream) (n : Nat) : (s.read n).1.length ≤ n := by
  unfold ifstream.read
  by_cases hf : s.failbit = true
  · rw [if_pos hf]
    exact Nat.zero_le _
  · rw [if_neg hf]
    by_cases hg : ((s.bytes.drop s.pos).take n).length = n
    · simp only [if_pos hg]
      exact List.length_take_le _ _
    · simp only [if_neg hg]
      exact List.length_take_le _ _

theorem read_keeps_bytes (s : ifstream) (n : Nat) : (s.read n).2.bytes = s.bytes := by
  unfold ifstream.read
  by_cases hf : s.failbit = true
  · rw [if_pos hf]
  · rw [if_neg hf]
    by_cases hg : ((s.bytes.drop s.pos).take n).length = n
    · simp only [if_pos hg]
    · simp only [if_neg hg]

theorem mem_write_some (buf src : List Nat) (off : Nat) (h : off + src.length ≤ buf.length) :
    ∃ b', mem_write buf off src = some b' ∧ b'.length = buf.length := by
  cases hw : mem_write buf off src with
  | none =>
    unfold mem_write at hw
    rw [if_pos h] at hw
    cases hw
  | some b' => exact ⟨b', rfl, mem_write_length hw⟩

theorem index_after_write {buf src buf' : List Nat} {off : Nat}
    (h : mem_write buf off src = some buf') (h1 : 1 ≤ src.length) :
    pixel_to_map_index buf' off = some (src.getD 0 0) := by
  have hl := mem_write_length h
  have hb : off + src.length ≤ buf.length := by
    unfold mem_write at h
    by_cases c : off + src.length ≤ buf.length
    · exact c
    · rw [if_neg c] at h
      cases h
  have hg := mem_write_get h off
  rw [if_pos ⟨Nat.le_refl _, by omega⟩, Nat.sub_self] at hg
  unfold pixel_to_map_index mem_read
  rw [if_pos (by omega)]
  simp only [Option.map_some', Option.some.injEq, le8]
  have e0 : src[0]? = some (src.getD 0 0) := by
    cases src with
    | nil => simp at h1
    | cons a t => simp
  rw [e0] at hg
  have e1 : (List.take 1 (List.drop off buf'))[0]? = some (src.getD 0 0) := by
    rw [List.getElem?_take_of_lt (by omega), List.getElem?_drop, Nat.add_zero]
    exact hg
  cases hd : List.take 1 (List.drop off buf') with
  | nil => rw [hd] at e1; cases e1
  | cons a t =>
    rw [hd] at e1
    simp only [List.getElem?_cons_zero, Option.some.injEq] at e1
    simp only [List.getD_cons_zero]
    exact e1

/-- The lookup either returns `true` with a vector of the same length, or it has no result
because the entry it reads lies outside the color map: the write side never fails. -/
theorem try_get_color_outcome (mem : List Nat) (off index : Nat) (map : color_map)
    (hoff : off + map.bytes_per_entry ≤ mem.length) :
    (∃ mem', try_get_color_from_map mem off index map = some (true, mem') ∧
      mem'.length = mem.length) ∨ map.leaves index := by
  unfold try_get_color_from_map color_map.leaves
  simp only []
  rw [if_neg (by omega)]
  cases hr : mem_read map.pixels (map.bytes_per_entry *
      (((index : Int) - (map.first_index : Int)) % 65536).toNat) map.bytes_per_entry with
  | none => exact Or.inr rfl
  | some entry =>
    left
    simp only []
    obtain ⟨m', hm', hl'⟩ := mem_write_some mem entry off (by rw [mem_read_length hr]; exact hoff)
    rw [hm']
    exact ⟨m', rfl, hl'⟩

theorem stops_lift {α : Type} (run run' : ifstream → Option α) (map : color_map)
    (s s' : ifstream) (hb : s'.bytes = s.bytes) (hp : s.pos ≤ s'.pos)
    (hq : ∀ q, s'.pos ≤ q → run (s.truncate q) = run' (s'.truncate q))
    (h : stops_at_lookup run' map s') : stops_at_lookup run map s := by
  obtain ⟨p, h1, h2, h3, h4, r, h5⟩ := h
  refine ⟨p, by omega, by rw [← hb]; exact h2, by rw [← hb]; exact h3, ?_, r, ?_⟩
  · rw [hq (p + 1) (by omega)]
    exact h4
  · rw [hq p h1]
    exact h5

theorem read_full_good (s : ifstream) (k : Nat) (hk : 1 ≤ k) (h : (s.read k).1.length = k) :
    s.failbit = false ∧ (s.read k).2.failbit = false ∧ (s.read k).2.pos = s.pos + k ∧
      (s.read k).2.bytes = s.bytes ∧ s.pos + k ≤ s.bytes.length ∧
      (s.read k).1.getD 0 0 = s.bytes.getD s.pos 0 := by
  have hf : s.failbit = false := by
    cases hs : s.failbit with
    | false => rfl
    | true =>
      rw [read_of_failbit s k hs] at h
      simp at h
      omega
  obtain ⟨hr, hle⟩ := read_succeeded hf h
  have hpos : s.pos < s.bytes.length := by
    by_contra c
    omega
  rw [hr]
  refine ⟨hf, hf, rfl, rfl, by omega, ?_⟩
  simp only [List.getD_eq_getElem?_getD, List.getElem?_take, List.getElem?_drop, Nat.add_zero]
  rw [if_pos (by omega)]

theorem mapped_stops (map : color_map) (h1 : 1 ≤ map.bytes_per_entry) :
    ∀ (c : Nat) (data : List Nat) (off : Nat) (s : ifstream),
      off + c * map.bytes_per_entry ≤ data.length →
      (∃ e d t, decode_data_mapped 1 map c data off s = some (e, d, t)) ∨
        stops_at_lookup (fun t => decode_data_mapped 1 map c data off t) map s := by
  intro c
  induction c with
  | zero =>
    intro data off s _
    exact Or.inl ⟨_, _, _, rfl⟩
  | succ c ih =>
    intro data off s hroom
    rw [Nat.succ_mul] at hroom
    have hl := read_length_le s 1
    obtain ⟨data1, hw, hl1⟩ := mem_write_some data (s.read 1).1 off (by omega)
    by_cases hc : (s.read 1).1.length ≠ 1
    · left
      rw [decode_data_mapped_succ, hw]
      simp only []
      rw [if_pos hc]
      exact ⟨_, _, _, rfl⟩
    have hc1 : (s.read 1).1.length = 1 := not_not.mp hc
    obtain ⟨g1, g2, g3, g4, g5, g6⟩ := read_full_good s 1 (Nat.le_refl 1) hc1
    have hidx := index_after_write hw (by omega)
    -- the run on a stream cut at `q` behind the byte
    have hcut : ∀ q, s.pos + 1 ≤ q →
        decode_data_mapped 1 map (c + 1) data off (s.truncate q) =
          match try_get_color_from_map data1 off ((s.read 1).1.getD 0 0) map with
          | none => none
          | some (false, data2) =>
            some (TGA_ERROR_COLOR_MAP_INDEX_FAILED, data2, (s.read 1).2.truncate q)
          | some (true, data2) =>
            decode_data_mapped 1 map c data2 (off + map.bytes_per_entry)
              ((s.read 1).2.truncate q) := by
      intro q hq
      rw [decode_data_mapped_succ, read_truncate_same s 1 q g1 hc1 hq]
      simp only [hw, hc1, ne_eq, not_true_eq_false, if_false, hidx]
    rcases try_get_color_outcome data1 off ((s.read 1).1.getD 0 0) map (by omega) with
      ⟨data2, ht, hl2⟩ | hbad
    · rcases ih data2 (off + map.bytes_per_entry) (s.read 1).2 (by omega) with h | h
      · left
        rw [decode_data_mapped_succ, hw]
        simp only []
        rw [if_neg hc, hidx]
        simp only []
        rw [ht]
        exact h
      · right
        refine stops_lift _ _ map s (s.read 1).2 g4 (by omega) ?_ h
        intro q hq
        rw [hcut q (by omega), ht]
    · right
      have hnone : try_get_color_from_map data1 off ((s.read 1).1.getD 0 0) map = none := by
        rw [try_get_color_from_map_eq]
        unfold color_map.leaves at hbad
        rw [hbad]
      refine ⟨s.pos, Nat.le_refl _, by omega, by rw [← g6]; exact hbad, ?_, ?_⟩
      · show decode_data_mapped 1 map (c + 1) data off (s.truncate (s.pos + 1)) = none
        rw [hcut (s.pos + 1) (Nat.le_refl _), hnone]
      · show ∃ r, decode_data_mapped 1 map (c + 1) data off (s.truncate s.pos) = some r
        obtain ⟨q1, _⟩ := read_truncate_short s 1 s.pos g1 (Nat.le_refl 1) (by omega)
        obtain ⟨d', hd'⟩ := @mem_write_shorter data (s.read 1).1 ((s.truncate s.pos).read 1).1
          data1 off hw (by rw [hc1]; exact Nat.le_of_lt q1)
        rw [decode_data_mapped_succ, hd']
        simp only []
        rw [if_pos (Nat.ne_of_lt q1)]
        exact ⟨_, rfl⟩

theorem lookup_none_of_leaves (mem : List Nat) (off index : Nat) (map : color_map)
    (h : map.leaves index) : try_get_color_from_map mem off index map = none := by
  rw [try_get_color_from_map_eq]
  unfold color_map.leaves at h
  rw [h]

theorem rle_packet_ok_good (ps : Nat) (cm : Bool) (map : color_map) (pbuf : List Nat)
    (s s1 : ifstream) (v : Bool × Nat × List Nat)
    (h : decode_data_rle_packet ps cm map pbuf s = some (.ok v, s1)) :
    s.failbit = false ∧ s1.bytes = s.bytes := by
  unfold decode_data_rle_packet at h
  simp only [] at h
  by_cases h1 : (s.read 1).1.length ≠ 1
  · rw [if_pos h1] at h
    cases h
  rw [if_neg h1] at h
  obtain ⟨g1, _, _, g4, _, _⟩ := read_full_good s 1 (Nat.le_refl 1) (not_not.mp h1)
  refine ⟨g1, ?_⟩
  by_cases hr : ((le8 (s.read 1).1 &&& 0x80) != 0) = true
  swap
  · rw [if_neg hr] at h
    simp only [Option.some.injEq, Prod.mk.injEq] at h
    rw [← h.2, g4]
  rw [if_pos hr] at h
  have hk := read_keeps_bytes (s.read 1).2 ps
  cases hw : mem_write pbuf 0 ((s.read 1).2.read ps).1 with
  | none => rw [hw] at h; cases h
  | some pb1 =>
    rw [hw] at h
    simp only [] at h
    by_cases h2 : ((s.read 1).2.read ps).1.length ≠ ps
    · rw [if_pos h2] at h
      cases h
    rw [if_neg h2] at h
    by_cases hc : cm = true
    · rw [if_pos hc] at h
      cases hi : pixel_to_map_index pb1 0 with
      | none => rw [hi] at h; cases h
      | some i =>
        rw [hi] at h
        simp only [] at h
        cases hg : try_get_color_from_map pb1 0 i map with
        | none => rw [hg] at h; cases h
        | some r =>
          obtain ⟨f, pb2⟩ := r
          rw [hg] at h
          cases f with
          | false => cases h
          | true =>
            simp only [Option.some.injEq, Prod.mk.injEq] at h
            rw [← h.2, hk, g4]
    · rw [if_neg hc] at h
      simp only [Option.some.injEq, Prod.mk.injEq] at h
      rw [← h.2, hk, g4]

/-- The packet step either returns, or it stops at the lookup of the pixel value of a
run-length packet: the byte behind the packet header. -/
theorem rle_packet_stops (cm : Bool) (ps : Nat) (map : color_map) (pbuf : List Nat)
    (s : ifstream) (hps : ps ≤ pbuf.length)
    (hcm : cm = true → ps = 1 ∧ pbuf.length = map.bytes_per_entry) :
    (∃ x t, decode_data_rle_packet ps cm map pbuf s = some (x, t) ∧
      ∀ b pc pb, x = .ok (b, pc, pb) → pb.length = pbuf.length) ∨
    (cm = true ∧ s.pos + 1 < s.bytes.length ∧ map.leaves (s.bytes.getD (s.pos + 1) 0) ∧
      decode_data_rle_packet ps cm map pbuf (s.truncate (s.pos + 2)) = none ∧
      ∃ t', decode_data_rle_packet ps cm map pbuf (s.truncate (s.pos + 1)) =
        some (.error TGA_ERROR_FILE_CANNOT_READ, t')) := by
  by_cases h1 : (s.read 1).1.length ≠ 1
  · left
    unfold decode_data_rle_packet
    simp only []
    rw [if_pos h1]
    exact ⟨_, _, rfl, fun b pc pb hx => by cases hx⟩
  have h1' : (s.read 1).1.length = 1 := not_not.mp h1
  obtain ⟨g1, g2, g3, g4, g5, g6⟩ := read_full_good s 1 (Nat.le_refl 1) h1'
  by_cases hr : ((le8 (s.read 1).1 &&& 0x80) != 0) = true
  swap
  · left
    unfold decode_data_rle_packet
    simp only []
    rw [if_neg h1, if_neg hr]
    refine ⟨_, _, rfl, fun b pc pb hx => ?_⟩
    simp only [Except.ok.injEq, Prod.mk.injEq] at hx
    rw [← hx.2.2]
  have hl := read_length_le (s.read 1).2 ps
  obtain ⟨pb1, hw, hl1⟩ := mem_write_some pbuf ((s.read 1).2.read ps).1 0 (by omega)
  by_cases h2 : ((s.read 1).2.read ps).1.length ≠ ps
  · left
    unfold decode_data_rle_packet
    simp only []
    rw [if_neg h1, if_pos hr, hw]
    simp only []
    rw [if_pos h2]
    exact ⟨_, _, rfl, fun b pc pb hx => by cases hx⟩
  have h2' : ((s.read 1).2.read ps).1.length = ps := not_not.mp h2
  by_cases hc : cm = true
  swap
  · left
    unfold decode_data_rle_packet
    simp only []
    rw [if_neg h1, if_pos hr, hw]
    simp only []
    rw [if_neg h2, if_neg hc]
    refine ⟨_, _, rfl, fun b pc pb hx => ?_⟩
    simp only [Except.ok.injEq, Prod.mk.injEq] at hx
    rw [← hx.2.2, hl1]
  obtain ⟨hp1, hpl⟩ := hcm hc
  subst hp1
  obtain ⟨k1, k2, k3, k4, k5, k6⟩ := read_full_good (s.read 1).2 1 (Nat.le_refl 1) h2'
  have hidx := index_after_write hw (by omega)
  rcases try_get_color_outcome pb1 0 (((s.read 1).2.read 1).1.getD 0 0) map (by omega) with
    ⟨pb2, ht, hl2⟩ | hbad
  · left
    unfold decode_data_rle_packet
    simp only []
    rw [if_neg h1, if_pos hr, hw]
    simp only []
    rw [if_neg h2, if_pos hc, hidx]
    simp only []
    rw [ht]
    refine ⟨_, _, rfl, fun b pc pb hx => ?_⟩
    simp only [Except.ok.injEq, Prod.mk.injEq] at hx
    rw [← hx.2.2, hl2, hl1]
  · right
    have e1 : (s.truncate (s.pos + 2)).read 1 = ((s.read 1).1, (s.read 1).2.truncate (s.pos + 2)) :=
      read_truncate_same s 1 (s.pos + 2) g1 h1' (by omega)
    have e2 : ((s.read 1).2.truncate (s.pos + 2)).read 1 =
        (((s.read 1).2.read 1).1, ((s.read 1).2.read 1).2.truncate (s.pos + 2)) :=
      read_truncate_same (s.read 1).2 1 (s.pos + 2) g2 h2' (by omega)
    have e3 : (s.truncate (s.pos + 1)).read 1 = ((s.read 1).1, (s.read 1).2.truncate (s.pos + 1)) :=
      read_truncate_same s 1 (s.pos + 1) g1 h1' (by omega)
    obtain ⟨q1, _⟩ := read_truncate_short (s.read 1).2 1 (s.pos + 1) g2 (Nat.le_refl 1) (by omega)
    obtain ⟨d', hd'⟩ := @mem_write_shorter pbuf ((s.read 1).2.read 1).1
      (((s.read 1).2.truncate (s.pos + 1)).read 1).1 pb1 0 hw (by rw [h2']; exact Nat.le_of_lt q1)
    refine ⟨hc, by rw [← g4, ← g3]; omega, ?_, ?_, ?_⟩
    · rw [← g3, ← g4, ← k6]
      exact hbad
    · unfold decode_data_rle_packet
      simp only [e1, e2, h1', ne_eq, not_true_eq_false, if_false, hr, if_true, hw, h2', hc, hidx,
        lookup_none_of_leaves pb1 0 _ map hbad]
    · unfold decode_data_rle_packet
      simp only [e3, h1', ne_eq, not_true_eq_false, if_false, hr, if_true, hd',
        Nat.ne_of_lt q1, not_false_eq_true]
      exact ⟨_, rfl⟩

theorem rle_pixel_raw_good (ps des : Nat) (cm : Bool) (map : color_map)
    (pbuf data : List Nat) (off : Nat) (h1 : 1 ≤ ps) (s : ifstream) (d1 : List Nat)
    (s1 : ifstream)
    (h : decode_data_rle_pixel ps des cm map false pbuf data off s =
      some (TGA_NO_ERROR, d1, s1)) :
    s.failbit = false ∧ s1.bytes = s.bytes := by
  unfold decode_data_rle_pixel at h
  simp only [Bool.false_eq_true, if_false] at h
  cases hw : mem_write data off (s.read ps).1 with
  | none => rw [hw] at h; cases h
  | some dd =>
    rw [hw] at h
    simp only [] at h
    by_cases h2 : (s.read ps).1.length ≠ ps
    · rw [if_pos h2] at h
      cases h
    rw [if_neg h2] at h
    obtain ⟨g1, _, _, g4, _, _⟩ := read_full_good s ps h1 (not_not.mp h2)
    refine ⟨g1, ?_⟩
    by_cases hc : cm = true
    · rw [if_pos hc] at h
      cases hi : pixel_to_map_index dd off with
      | none => rw [hi] at h; cases h
      | some i =>
        rw [hi] at h
        simp only [] at h
        cases hg : try_get_color_from_map dd off i map with
        | none => rw [hg] at h; cases h
        | some r =>
          obtain ⟨f, d2⟩ := r
          rw [hg] at h
          cases f with
          | false => cases h
          | true =>
            simp only [Option.some.injEq, Prod.mk.injEq] at h
            rw [← h.2.2, g4]
    · rw [if_neg hc] at h
      simp only [Option.some.injEq, Prod.mk.injEq] at h
      rw [← h.2.2, g4]

/-- The pixel step either returns, or it stops at the lookup of a literal pixel value: the
next byte of the stream. -/
theorem rle_pixel_stops (cm : Bool) (ps des : Nat) (map : color_map) (b : Bool)
    (pbuf data : List Nat) (off : Nat) (s : ifstream)
    (hpb : des ≤ pbuf.length) (hps : ps ≤ des) (hoff : off + des ≤ data.length)
    (hcm : cm = true → ps = 1 ∧ des = map.bytes_per_entry) :
    (∃ e d t, decode_data_rle_pixel ps des cm map b pbuf data off s = some (e, d, t) ∧
      d.length = data.length) ∨
    (cm = true ∧ b = false ∧ s.pos < s.bytes.length ∧ map.leaves (s.bytes.getD s.pos 0) ∧
      decode_data_rle_pixel ps des cm map b pbuf data off (s.truncate (s.pos + 1)) = none ∧
      ∃ d' t', decode_data_rle_pixel ps des cm map b pbuf data off (s.truncate s.pos) =
        some (TGA_ERROR_FILE_CANNOT_READ, d', t')) := by
  cases b with
  | true =>
    left
    unfold decode_data_rle_pixel
    simp only [if_true]
    cases hr : mem_read pbuf 0 des with
    | none =>
      unfold mem_read at hr
      rw [if_pos (by omega)] at hr
      cases hr
    | some pixel =>
      simp only []
      obtain ⟨d1, hw, hl1⟩ := mem_write_some data pixel off (by rw [mem_read_length hr]; exact hoff)
      rw [hw]
      exact ⟨_, _, _, rfl, hl1⟩
  | false =>
    have hl := read_length_le s ps
    obtain ⟨d1, hw, hl1⟩ := mem_write_some data (s.read ps).1 off (by omega)
    by_cases h2 : (s.read ps).1.length ≠ ps
    · left
      unfold decode_data_rle_pixel
      simp only [Bool.false_eq_true, if_false, hw]
      rw [if_pos h2]
      exact ⟨_, _, _, rfl, hl1⟩
    have h2' : (s.read ps).1.length = ps := not_not.mp h2
    by_cases hc : cm = true
    swap
    · left
      unfold decode_data_rle_pixel
      simp only [Bool.false_eq_true, if_false, hw]
      rw [if_neg h2, if_neg hc]
      exact ⟨_, _, _, rfl, hl1⟩
    obtain ⟨hp1, hde⟩ := hcm hc
    subst hp1
    obtain ⟨g1, g2, g3, g4, g5, g6⟩ := read_full_good s 1 (Nat.le_refl 1) h2'
    have hidx := index_after_write hw (by omega)
    rcases try_get_color_outcome d1 off ((s.read 1).1.getD 0 0) map (by omega) with
      ⟨d2, ht, hl2⟩ | hbad
    · left
      unfold decode_data_rle_pixel
      simp only [Bool.false_eq_true, if_false, hw]
      rw [if_neg h2, if_pos hc, hidx]
      simp only []
      rw [ht]
      exact ⟨_, _, _, rfl, by rw [hl2, hl1]⟩
    · right
      have e1 : (s.truncate (s.pos + 1)).read 1 =
          ((s.read 1).1, (s.read 1).2.truncate (s.pos + 1)) :=
        read_truncate_same s 1 (s.pos + 1) g1 h2' (Nat.le_refl _)
      obtain ⟨q1, _⟩ := read_truncate_short s 1 s.pos g1 (Nat.le_refl 1) (by omega)
      obtain ⟨d', hd'⟩ := @mem_write_shorter data (s.read 1).1 ((s.truncate s.pos).read 1).1
        d1 off hw (by rw [h2']; exact Nat.le_of_lt q1)
      refine ⟨hc, rfl, by omega, by rw [← g6]; exact hbad, ?_, ?_⟩
      · unfold decode_data_rle_pixel
        simp only [Bool.false_eq_true, if_false, e1, hw, h2', ne_eq, not_true_eq_false, hc,
          if_true, hidx, lookup_none_of_leaves d1 off _ map hbad]
      · unfold decode_data_rle_pixel
        simp only [Bool.false_eq_true, if_false, hd', ne_eq, Nat.ne_of_lt q1,
          not_false_eq_true, if_true]
        exact ⟨_, _, rfl⟩

theorem rle_loop_stops (cm : Bool) (ps des : Nat) (map : color_map) (pbl : Nat)
    (h1 : 1 ≤ ps) (hpb : des ≤ pbl) (hpp : ps ≤ pbl) (hps : ps ≤ des)
    (hcm : cm = true → ps = 1 ∧ pbl = map.bytes_per_entry ∧ des = map.bytes_per_entry) :
    ∀ (c : Nat) (b : Bool) (pc : Nat) (pbuf data : List Nat) (off : Nat) (s : ifstream),
      pbuf.length = pbl → off + c * des ≤ data.length →
      (∃ e d t, decode_data_rle_loop ps des cm map c b pc pbuf data off s = some (e, d, t)) ∨
      (cm = true ∧
        stops_at_lookup (fun t => decode_data_rle_loop ps des cm map c b pc pbuf data off t)
          map s) := by
  intro c
  induction c with
  | zero =>
    intro b pc pbuf data off s _ _
    exact Or.inl ⟨_, _, _, rfl⟩
  | succ c ih =>
    intro b pc pbuf data off s hpl hroom
    rw [Nat.succ_mul] at hroom
    -- the pixel step and the rest of the loop, once the packet step has returned
    have stage : ∀ (b1 : Bool) (pc1 : Nat) (pb1 : List Nat) (s1 : ifstream),
        s1.bytes = s.bytes → s.pos ≤ s1.pos → pb1.length = pbl →
        (if pc = 0 then decode_data_rle_packet ps cm map pbuf s
          else some (.ok (b, pc, pbuf), s)) = some (.ok (b1, pc1, pb1), s1) →
        (∀ q, s1.pos ≤ q →
          (if pc = 0 then decode_data_rle_packet ps cm map pbuf (s.truncate q)
            else some (.ok (b, pc, pbuf), s.truncate q)) =
            some (.ok (b1, pc1, pb1), s1.truncate q)) →
        (∃ e d t, decode_data_rle_loop ps des cm map (c + 1) b pc pbuf data off s =
          some (e, d, t)) ∨
        (cm = true ∧ stops_at_lookup
          (fun t => decode_data_rle_loop ps des cm map (c + 1) b pc pbuf data off t) map s) := by
      intro b1 pc1 pb1 s1 hb1 hp1 hpb1 K0 K1
      rcases rle_pixel_stops cm ps des map b1 pb1 data off s1 (by omega) hps (by omega)
        (fun h => ⟨(hcm h).1, (hcm h).2.2⟩) with ⟨e2, d2, s2, hp2, hl2⟩ | ⟨hc, hb, x1, x2, x3, x4⟩
      · by_cases he : e2 ≠ TGA_NO_ERROR
        · left
          rw [rle_loop_succ, K0]
          simp only []
          rw [hp2]
          simp only []
          rw [if_pos he]
          exact ⟨_, _, _, rfl⟩
        have he' : e2 = TGA_NO_ERROR := not_not.mp he
        subst he'
        -- the pixel step on a stream cut behind what it read
        have hcomm : s2.bytes = s1.bytes ∧ s1.pos ≤ s2.pos ∧ ∀ q, s2.pos ≤ q →
            decode_data_rle_pixel ps des cm map b1 pb1 data off (s1.truncate q) =
              some (TGA_NO_ERROR, d2, s2.truncate q) := by
          cases b1 with
          | true =>
            obtain ⟨e, _⟩ := rle_pixel_truncate_run ps des cm map pb1 data off 0 s1 _ d2 s2 hp2
            subst e
            exact ⟨rfl, Nat.le_refl _, fun q _ =>
              (rle_pixel_truncate_run ps des cm map pb1 data off q s2 _ d2 s2 hp2).2⟩
          | false =>
            obtain ⟨f1, f2⟩ := rle_pixel_raw_good ps des cm map pb1 data off h1 s1 d2 s2 hp2
            obtain ⟨_, f3, _⟩ := rle_pixel_truncate_raw ps des cm map pb1 data off 0 h1 s1 f1
              d2 s2 hp2
            exact ⟨f2, f3, fun q hq =>
              (rle_pixel_truncate_raw ps des cm map pb1 data off q h1 s1 f1 d2 s2 hp2).2.2.1 hq⟩
        obtain ⟨c1, c2, c3⟩ := hcomm
        rcases ih b1 ((pc1 + 255) % 256) pb1 d2 (off + des) s2 hpb1 (by omega) with h | ⟨hc, h⟩
        · left
          rw [rle_loop_succ, K0]
          simp only []
          rw [hp2]
          simp only []
          rw [if_neg he]
          exact h
        · right
          refine ⟨hc, ?_⟩
          refine stops_lift _ _ map s s2 (by rw [c1, hb1]) (by omega) ?_ h
          intro q hq
          rw [rle_loop_succ, K1 q (by omega)]
          simp only []
          rw [c3 q hq]
          simp only []
          rw [if_neg he]
      · right
        obtain ⟨d', t', x5⟩ := x4
        refine ⟨hc, s1.pos, hp1, by rw [← hb1]; exact x1, by rw [← hb1]; exact x2, ?_, ?_⟩
        · show decode_data_rle_loop ps des cm map (c + 1) b pc pbuf data off
            (s.truncate (s1.pos + 1)) = none
          rw [rle_loop_succ, K1 (s1.pos + 1) (by omega)]
          simp only []
          rw [x3]
        · show ∃ r, decode_data_rle_loop ps des cm map (c + 1) b pc pbuf data off
            (s.truncate s1.pos) = some r
          rw [rle_loop_succ, K1 s1.pos (Nat.le_refl _)]
          simp only []
          rw [x5]
          simp only []
          rw [if_pos (by decide)]
          exact ⟨_, rfl⟩
    by_cases h0 : pc = 0
    · rcases rle_packet_stops cm ps map pbuf s (by omega)
        (fun h => ⟨(hcm h).1, by rw [hpl]; exact (hcm h).2.1⟩) with
        ⟨x, t, hx, hlen⟩ | ⟨hc, x1, x2, x3, t', x4⟩
      · cases x with
        | error e =>
          left
          rw [rle_loop_succ, if_pos h0, hx]
          exact ⟨_, _, _, rfl⟩
        | ok v =>
          obtain ⟨b1, pc1, pb1⟩ := v
          obtain ⟨f1, f2⟩ := rle_packet_ok_good ps cm map pbuf s t _ hx
          obtain ⟨_, f3, f4, _⟩ := rle_packet_truncate ps cm map pbuf 0 h1 s f1 b1 pc1 pb1 t hx
          refine stage b1 pc1 pb1 t f2 f3 (by rw [hlen b1 pc1 pb1 rfl]; exact hpl)
            (by rw [if_pos h0]; exact hx) (fun q hq => ?_)
          rw [if_pos h0]
          exact (rle_packet_truncate ps cm map pbuf q h1 s f1 b1 pc1 pb1 t hx).2.2.1 hq
      · right
        refine ⟨hc, s.pos + 1, by omega, x1, x2, ?_, ?_⟩
        · show decode_data_rle_loop ps des cm map (c + 1) b pc pbuf data off
            (s.truncate (s.pos + 1 + 1)) = none
          rw [rle_loop_succ, if_pos h0, x3]
        · show ∃ r, decode_data_rle_loop ps des cm map (c + 1) b pc pbuf data off
            (s.truncate (s.pos + 1)) = some r
          rw [rle_loop_succ, if_pos h0, x4]
          exact ⟨_, rfl⟩
    · exact stage b pc pbuf s rfl (Nat.le_refl _) hpl (by rw [if_neg h0])
        (fun q _ => by rw [if_neg h0])

theorem passes_sizes {img : Image} {header : tga_header} (hp : header_passes img header) :
    1 ≤ (BITS_TO_BYTES header.pixel_depth % 256).toNat ∧
    (pixel_format_to_pixel_size (img.with_header header).img_info.pixel_format % 256).toNat =
      (pixel_format_to_pixel_size (img.with_header header).img_info.pixel_format).toNat ∧
    1 ≤ (pixel_format_to_pixel_size (img.with_header header).img_info.pixel_format).toNat ∧
    (IS_COLOR_MAPPED header = true →
      (BITS_TO_BYTES header.pixel_depth % 256).toNat = 1 ∧
      (BITS_TO_BYTES header.map_entry_size % 256).toNat =
        (pixel_format_to_pixel_size (img.with_header header).img_info.pixel_format).toNat) ∧
    (IS_COLOR_MAPPED header = false →
      (BITS_TO_BYTES header.pixel_depth % 256).toNat =
        (pixel_format_to_pixel_size (img.with_header header).img_info.pixel_format).toNat) := by
  obtain ⟨_, _, h3, _, h5⟩ := hp
  have ht : header.image_type ∈ [1, 2, 3, 9, 10, 11] := by
    unfold IS_SUPPORTED_IMAGE_TYPE at h3
    simp only [Bool.or_eq_true, beq_iff_eq] at h3
    simp only [List.mem_cons, List.mem_singleton, List.not_mem_nil, or_false]
    rcases h3 with ((((c | c) | c) | c) | c) | c <;> rw [c] <;> decide
  have e := set_pixel_format_eq_table img.img_info.pixel_format header ht
  cases hr : resolver_table header.image_type header.pixel_depth header.map_entry_size with
  | none =>
    rw [hr] at e
    rw [e] at h5
    cases h5
  | some f =>
    rw [hr] at e
    have ef : (img.with_header header).img_info.pixel_format = f := by
      unfold Image.with_header
      simp only [e]
    rw [ef]
    obtain ⟨a1, a2, a3, a4, a5⟩ := accepted_sizes hr
    refine ⟨a1, a2, a3, fun hc => a4 ?_, fun hc => a5 ?_⟩
    · unfold IS_COLOR_MAPPED at hc
      simp only [Bool.or_eq_true, beq_iff_eq] at hc
      exact hc
    · unfold IS_COLOR_MAPPED at hc
      simp only [Bool.or_eq_false_iff, beq_eq_false_iff_ne] at hc
      rintro (c | c)
      · exact hc.1 c
      · exact hc.2 c

theorem never_leaves (map : color_map)
    (h : 65536 * map.bytes_per_entry ≤ map.pixels.length) (b : Nat) : ¬ map.leaves b := by
  intro hb
  unfold color_map.leaves mem_read at hb
  have hi : (((b : Int) - (map.first_index : Int)) % 65536).toNat < 65536 := by omega
  have hin : map.bytes_per_entry *
      (((b : Int) - (map.first_index : Int)) % 65536).toNat + map.bytes_per_entry ≤
      map.pixels.length := by
    have := Nat.mul_le_mul_left map.bytes_per_entry (Nat.succ_le_of_lt hi)
    rw [Nat.mul_succ] at this
    rw [Nat.mul_comm 65536] at h
    omega
  rw [if_pos hin] at hb
  cases hb

/-- The decoder call of `load` either returns, or the image is color-mapped and the run
stops at the lookup of an index byte that reads outside the color map. -/
theorem load_decode_stops {img : Image} {header : tga_header} (hp : header_passes img header)
    (cmap : color_map) (s : ifstream)
    (hc : IS_COLOR_MAPPED header = true →
      cmap.bytes_per_entry = (BITS_TO_BYTES header.map_entry_size % 256).toNat) :
    (∃ e d t, (img.with_header header).load_decode header cmap s = some (e, d, t)) ∨
    (IS_COLOR_MAPPED header = true ∧
      stops_at_lookup (fun t => (img.with_header header).load_decode header cmap t) cmap s) := by
  obtain ⟨p1, p2, p3, p4, p5⟩ := passes_sizes hp
  generalize hfm : (img.with_header header).img_info.pixel_format = fmt at *
  have hw : (img.with_header header).img_info.width = header.image_width := rfl
  have hh : (img.with_header header).img_info.height = header.image_height := rfl
  have hdl : (vector_resize (img.with_header header).data (header.image_width *
      header.image_height * (pixel_format_to_pixel_size fmt).toNat)).length =
      header.image_width * header.image_height * (pixel_format_to_pixel_size fmt).toNat :=
    vector_resize_length _ _
  generalize hdata : vector_resize (img.with_header header).data
    (header.image_width * header.image_height * (pixel_format_to_pixel_size fmt).toNat) = data
    at hdl
  by_cases hr : IS_RLE header = true
  · have hrun : ∀ t : ifstream, (img.with_header header).load_decode header cmap t =
        decode_data_rle_loop (BITS_TO_BYTES header.pixel_depth % 256).toNat
          (pixel_format_to_pixel_size fmt).toNat (IS_COLOR_MAPPED header) cmap
          (header.image_width * header.image_height) false 0
          (List.replicate (if IS_COLOR_MAPPED header = true then cmap.bytes_per_entry
            else (BITS_TO_BYTES header.pixel_depth % 256).toNat) 0) data 0 t := by
      intro t
      unfold Image.load_decode
      simp only []
      rw [if_pos hr]
      unfold decode_data_rle
      simp only [hw, hh, hfm, p2, hdata]
    have hkey := rle_loop_stops (IS_COLOR_MAPPED header)
      (BITS_TO_BYTES header.pixel_depth % 256).toNat (pixel_format_to_pixel_size fmt).toNat cmap
      (if IS_COLOR_MAPPED header = true then cmap.bytes_per_entry
        else (BITS_TO_BYTES header.pixel_depth % 256).toNat) p1
      (by
        by_cases hm : IS_COLOR_MAPPED header = true
        · rw [if_pos hm, hc hm, (p4 hm).2]
        · rw [if_neg hm]
          have := p5 (by cases hx : IS_COLOR_MAPPED header <;> simp_all)
          omega)
      (by
        by_cases hm : IS_COLOR_MAPPED header = true
        · rw [if_pos hm, hc hm, (p4 hm).2, (p4 hm).1]
          exact p3
        · rw [if_neg hm])
      (by
        by_cases hm : IS_COLOR_MAPPED header = true
        · rw [(p4 hm).1]
          exact p3
        · have := p5 (by cases hx : IS_COLOR_MAPPED header <;> simp_all)
          omega)
      (fun hm => ⟨(p4 hm).1, by rw [if_pos hm], by rw [hc hm, (p4 hm).2]⟩)
      (header.image_width * header.image_height) false 0
      (List.replicate (if IS_COLOR_MAPPED header = true then cmap.bytes_per_entry
        else (BITS_TO_BYTES header.pixel_depth % 256).toNat) 0) data 0 s
      (List.length_replicate _ _) (by omega)
    rcases hkey with ⟨e, d, t, h⟩ | ⟨hm, h⟩
    · exact Or.inl ⟨e, d, t, by rw [hrun]; exact h⟩
    · exact Or.inr ⟨hm, stops_lift _ _ cmap s s rfl (Nat.le_refl _)
        (fun q _ => hrun (s.truncate q)) h⟩
  · by_cases hm : IS_COLOR_MAPPED header = true
    · obtain ⟨q1, q2⟩ := p4 hm
      have c1 := hc hm
      have hrun : ∀ t : ifstream, (img.with_header header).load_decode header cmap t =
          decode_data_mapped 1 cmap (header.image_width * header.image_height) data 0 t := by
        intro t
        unfold Image.load_decode
        simp only []
        rw [if_neg hr]
        unfold decode_data
        simp only [hw, hh, hfm, hdata, hm, if_true, q1]
      rcases mapped_stops cmap (by omega) (header.image_width * header.image_height) data 0 s
        (by rw [hdl, c1, q2]; omega) with ⟨e, d, t, h⟩ | h
      · exact Or.inl ⟨e, d, t, by rw [hrun]; exact h⟩
      · exact Or.inr ⟨hm, stops_lift _ _ cmap s s rfl (Nat.le_refl _)
          (fun q _ => hrun (s.truncate q)) h⟩
    · left
      have hm' : IS_COLOR_MAPPED header = false := by
        cases hx : IS_COLOR_MAPPED header <;> simp_all
      have q := p5 hm'
      unfold Image.load_decode
      simp only []
      rw [if_neg hr]
      unfold decode_data
      simp only [hw, hh, hfm, hdata]
      rw [if_neg hm]
      have hl := read_length_le s
        (header.image_width * header.image_height * (BITS_TO_BYTES header.pixel_depth % 256).toNat)
      obtain ⟨d1, hw1, _⟩ := mem_write_some data (s.read (header.image_width *
        header.image_height * (BITS_TO_BYTES header.pixel_depth % 256).toNat)).1 0
        (by rw [hdl, ← q]; omega)
      rw [hw1]
      simp only []
      by_cases hx : (s.read (header.image_width *
        header.image_height * (BITS_TO_BYTES header.pixel_depth % 256).toNat)).1.length ≠
        header.image_width * header.image_height * (BITS_TO_BYTES header.pixel_depth % 256).toNat
      · rw [if_pos hx]
        exact ⟨_, _, _, rfl⟩
      · rw [if_neg hx]
        exact ⟨_, _, _, rfl⟩

theorem mem_read_followed {l x : List Nat} {off n : Nat} (heap : List Nat)
    (h : mem_read l off n = some x) : mem_read (l ++ heap) off n = some x := by
  unfold mem_read at h ⊢
  by_cases c : off + n ≤ l.length
  · rw [if_pos c] at h
    rw [if_pos (by rw [List.length_append]; omega)]
    rw [← h, List.drop_append_of_le_length (by omega),
      List.take_append_of_le_length (by rw [List.length_drop]; omega)]
  · rw [if_neg c] at h
    cases h

theorem try_get_color_followed {mem : List Nat} {off index : Nat} {map : color_map}
    {r : Bool × List Nat} (heap : List Nat)
    (h : try_get_color_from_map mem off index map = some r) :
    try_get_color_from_map mem off index (map.followed_by heap) = some r := by
  rw [try_get_color_from_map_eq] at h ⊢
  cases hr : mem_read map.pixels (map.bytes_per_entry *
      (((index : Int) - (map.first_index : Int)) % 65536).toNat) map.bytes_per_entry with
  | none => rw [hr] at h; cases h
  | some entry =>
    rw [hr] at h
    have := mem_read_followed heap hr
    simp only [color_map.followed_by]
    rw [this]
    exact h

theorem decode_data_mapped_followed (ps : Nat) (map : color_map) (heap : List Nat) :
    ∀ (c : Nat) (data : List Nat) (off : Nat) (s : ifstream) (r : tga_error × List Nat × ifstream),
      decode_data_mapped ps map c data off s = some r →
      decode_data_mapped ps (map.followed_by heap) c data off s = some r := by
  intro c
  induction c with
  | zero =>
    intro data off s r h
    exact h
  | succ c ih =>
    intro data off s r h
    rw [decode_data_mapped_succ] at h ⊢
    cases hw : mem_write data off (s.read ps).1 with
    | none => rw [hw] at h; cases h
    | some data1 =>
      rw [hw] at h
      simp only [] at h ⊢
      by_cases hc : (s.read ps).1.length ≠ ps
      · rw [if_pos hc] at h ⊢
        exact h
      rw [if_neg hc] at h ⊢
      cases hi : pixel_to_map_index data1 off with
      | none => rw [hi] at h; cases h
      | some i =>
        rw [hi] at h
        simp only [] at h ⊢
        cases hg : try_get_color_from_map data1 off i map with
        | none => rw [hg] at h; cases h
        | some x =>
          rw [hg] at h
          rw [try_get_color_followed heap hg]
          obtain ⟨f, data2⟩ := x
          cases f with
          | false => exact h
          | true => exact ih _ _ _ _ h

theorem rle_packet_followed (ps : Nat) (cm : Bool) (map : color_map) (heap pbuf : List Nat)
    (s : ifstream) (r : Except tga_error (Bool × Nat × List Nat) × ifstream)
    (h : decode_data_rle_packet ps cm map pbuf s = some r) :
    decode_data_rle_packet ps cm (map.followed_by heap) pbuf s = some r := by
  unfold decode_data_rle_packet at h ⊢
  simp only [] at h ⊢
  by_cases h1 : (s.read 1).1.length ≠ 1
  · rw [if_pos h1] at h ⊢
    exact h
  rw [if_neg h1] at h ⊢
  by_cases hr : ((le8 (s.read 1).1 &&& 0x80) != 0) = true
  swap
  · rw [if_neg hr] at h ⊢
    exact h
  rw [if_pos hr] at h ⊢
  cases hw : mem_write pbuf 0 ((s.read 1).2.read ps).1 with
  | none => rw [hw] at h; cases h
  | some pb1 =>
    rw [hw] at h
    simp only [] at h ⊢
    by_cases h2 : ((s.read 1).2.read ps).1.length ≠ ps
    · rw [if_pos h2] at h ⊢
      exact h
    rw [if_neg h2] at h ⊢
    by_cases hc : cm = true
    · rw [if_pos hc] at h ⊢
      cases hi : pixel_to_map_index pb1 0 with
      | none => rw [hi] at h; cases h
      | some i =>
        rw [hi] at h
        simp only [] at h ⊢
        cases hg : try_get_color_from_map pb1 0 i map with
        | none => rw [hg] at h; cases h
        | some x =>
          rw [hg] at h
          rw [try_get_color_followed heap hg]
          exact h
    · rw [if_neg hc] at h ⊢
      exact h

theorem rle_pixel_followed (ps des : Nat) (cm : Bool) (map : color_map) (heap : List Nat)
    (b : Bool) (pbuf data : List Nat) (off : Nat) (s : ifstream)
    (r : tga_error × List Nat × ifstream)
    (h : decode_data_rle_pixel ps des cm map b pbuf data off s = some r) :
    decode_data_rle_pixel ps des cm (map.followed_by heap) b pbuf data off s = some r := by
  unfold decode_data_rle_pixel at h ⊢
  cases b with
  | true => exact h
  | false =>
    simp only [Bool.false_eq_true, if_false] at h ⊢
    cases hw : mem_write data off (s.read ps).1 with
    | none => rw [hw] at h; cases h
    | some d1 =>
      rw [hw] at h
      simp only [] at h ⊢
      by_cases h2 : (s.read ps).1.length ≠ ps
      · rw [if_pos h2] at h ⊢
        exact h
      rw [if_neg h2] at h ⊢
      by_cases hc : cm = true
      · rw [if_pos hc] at h ⊢
        cases hi : pixel_to_map_index d1 off with
        | none => rw [hi] at h; cases h
        | some i =>
          rw [hi] at h
          simp only [] at h ⊢
          cases hg : try_get_color_from_map d1 off i map with
          | none => rw [hg] at h; cases h
          | some x =>
            rw [hg] at h
            rw [try_get_color_followed heap hg]
            exact h
      · rw [if_neg hc] at h ⊢
        exact h

theorem rle_loop_followed (ps des : Nat) (cm : Bool) (map : color_map) (heap : List Nat) :
    ∀ (c : Nat) (b : Bool) (pc : Nat) (pbuf data : List Nat) (off : Nat) (s : ifstream)
      (r : tga_error × List Nat × ifstream),
      decode_data_rle_loop ps des cm map c b pc pbuf data off s = some r →
      decode_data_rle_loop ps des cm (map.followed_by heap) c b pc pbuf data off s = some r := by
  intro c
  induction c with
  | zero =>
    intro b pc pbuf data off s r h
    exact h
  | succ c ih =>
    intro b pc pbuf data off s r h
    rw [rle_loop_succ] at h ⊢
    have hpk : ∀ x, (if pc = 0 then decode_data_rle_packet ps cm map pbuf s
        else some (.ok (b, pc, pbuf), s)) = some x →
        (if pc = 0 then decode_data_rle_packet ps cm (map.followed_by heap) pbuf s
          else some (.ok (b, pc, pbuf), s)) = some x := by
      intro x hx
      by_cases h0 : pc = 0
      · rw [if_pos h0] at hx ⊢
        exact rle_packet_followed ps cm map heap pbuf s x hx
      · rw [if_neg h0] at hx ⊢
        exact hx
    cases hp : (if pc = 0 then decode_data_rle_packet ps cm map pbuf s
        else some (.ok (b, pc, pbuf), s)) with
    | none => rw [hp] at h; cases h
    | some x =>
      rw [hp] at h
      rw [hpk x hp]
      obtain ⟨y, s1⟩ := x
      cases y with
      | error e => exact h
      | ok v =>
        obtain ⟨b1, pc1, pb1⟩ := v
        simp only [] at h ⊢
        cases hq : decode_data_rle_pixel ps des cm map b1 pb1 data off s1 with
        | none => rw [hq] at h; cases h
        | some z =>
          rw [hq] at h
          rw [rle_pixel_followed ps des cm map heap b1 pb1 data off s1 z hq]
          obtain ⟨e, d1, s2⟩ := z
          simp only [] at h ⊢
          by_cases he : e ≠ TGA_NO_ERROR
          · rw [if_pos he] at h ⊢
            exact h
          · rw [if_neg he] at h ⊢
            exact ih _ _ _ _ _ _ _ h

theorem load_decode_followed (img : Image) (header : tga_header) (cmap : color_map)
    (heap : List Nat) (s : ifstream) (r : tga_error × List Nat × ifstream)
    (h : img.load_decode header cmap s = some r) :
    img.load_decode header (cmap.followed_by heap) s = some r := by
  unfold Image.load_decode at h ⊢
  simp only [] at h ⊢
  by_cases hr : IS_RLE header = true
  · rw [if_pos hr] at h ⊢
    unfold decode_data_rle at h ⊢
    exact rle_loop_followed _ _ _ cmap heap _ _ _ _ _ _ _ r h
  · rw [if_neg hr] at h ⊢
    unfold decode_data at h ⊢
    simp only [] at h ⊢
    by_cases hm : IS_COLOR_MAPPED header = true
    · rw [if_pos hm] at h ⊢
      exact decode_data_mapped_followed _ cmap heap _ _ _ _ r h
    · rw [if_neg hm] at h ⊢
      exact h

/-- With the color map vector continued by the bytes `heap` that follow it in memory, far
enough for every 16-bit index, the decoder call of `load` returns. -/
theorem load_decode_padded {img : Image} {header : tga_header} (hp : header_passes img header)
    (cmap : color_map) (heap : List Nat) (s : ifstream)
    (hc : IS_COLOR_MAPPED header = true →
      cmap.bytes_per_entry = (BITS_TO_BYTES header.map_entry_size % 256).toNat)
    (hbig : 65536 * cmap.bytes_per_entry ≤ cmap.pixels.length + heap.length) :
    ∃ e d t, (img.with_header header).load_decode header (cmap.followed_by heap) s =
      some (e, d, t) := by
  rcases load_decode_stops hp (cmap.followed_by heap) s hc with h | ⟨_, p, _, _, hl, _⟩
  · exact h
  · exact absurd hl (never_leaves _
      (by simp only [color_map.followed_by, List.length_append]; exact hbig) _)

theorem take_of_take {d d' : List Nat} {n k : Nat} (h : d.take n = d'.take n) (hk : k ≤ n) :
    d.take k = d'.take k := by
  have e : ∀ l : List Nat, l.take k = (l.take n).take k := fun l => by
    rw [List.take_take, Nat.min_eq_left hk]
  rw [e d, e d', h]

theorem mem_write_take {buf src b : List Nat} {off : Nat}
    (h : mem_write buf off src = some b) :
    b.take (off + src.length) = buf.take off ++ src := by
  unfold mem_write at h
  by_cases c : off + src.length ≤ buf.length
  · rw [if_pos c] at h
    simp only [Option.some.injEq] at h
    rw [← h]
    apply List.take_left'
    rw [List.length_append, List.length_take]
    omega
  · rw [if_neg c] at h
    cases h

theorem mem_write_congr {d d' src b : List Nat} {off : Nat}
    (hl : d.length = d'.length) (ht : d.take off = d'.take off)
    (h : mem_write d off src = some b) :
    ∃ b', mem_write d' off src = some b' ∧ b'.length = b.length ∧
      b'.take (off + src.length) = b.take (off + src.length) := by
  have hb : off + src.length ≤ d.length := by
    unfold mem_write at h
    by_cases c : off + src.length ≤ d.length
    · exact c
    · rw [if_neg c] at h
      cases h
  obtain ⟨b', hw, hl'⟩ := mem_write_some d' src off (by omega)
  refine ⟨b', hw, ?_, ?_⟩
  · rw [hl', mem_write_length h, hl]
  · rw [mem_write_take hw, mem_write_take h, ht]

theorem try_get_color_congr {mem mem' m : List Nat} {off index : Nat} {map : color_map}
    (hl : mem.length = mem'.length) (ht : mem.take off = mem'.take off)
    (h : try_get_color_from_map mem off index map = some (true, m)) :
    ∃ m', try_get_color_from_map mem' off index map = some (true, m') ∧
      m'.length = m.length ∧
      m'.take (off + map.bytes_per_entry) = m.take (off + map.bytes_per_entry) := by
  unfold try_get_color_from_map at h ⊢
  simp only [] at h ⊢
  rw [if_neg (by omega)] at h ⊢
  cases hr : mem_read map.pixels (map.bytes_per_entry *
      (((index : Int) - (map.first_index : Int)) % 65536).toNat) map.bytes_per_entry with
  | none =>
    rw [hr] at h
    cases h
  | some entry =>
    rw [hr] at h
    simp only [] at h ⊢
    cases hw : mem_write mem off entry with
    | none =>
      rw [hw] at h
      cases h
    | some m1 =>
      rw [hw] at h
      simp only [Option.some.injEq, Prod.mk.injEq, true_and] at h
      subst h
      obtain ⟨m', hw', hl', ht'⟩ := mem_write_congr hl ht hw
      rw [hw']
      rw [mem_read_length hr] at ht'
      exact ⟨m', rfl, hl', ht'⟩

theorem decode_data_mapped_congr (ps : Nat) (map : color_map) (h1 : 1 ≤ ps) :
    ∀ (c : Nat) (data data' : List Nat) (off : Nat) (s t : ifstream) (d : List Nat),
      data.length = data'.length → data.take off = data'.take off →
      decode_data_mapped ps map c data off s = some (TGA_NO_ERROR, d, t) →
      ∃ d', decode_data_mapped ps map c data' off s = some (TGA_NO_ERROR, d', t) ∧
        d'.length = d.length ∧
        d'.take (off + c * map.bytes_per_entry) = d.take (off + c * map.bytes_per_entry) := by
  intro c
  induction c with
  | zero =>
    intro data data' off s t d hl ht h
    simp only [decode_data_mapped, Option.some.injEq, Prod.mk.injEq, true_and] at h
    rw [← h.1, ← h.2]
    refine ⟨data', rfl, hl.symm, ?_⟩
    rw [Nat.zero_mul, Nat.add_zero]
    exact ht.symm
  | succ c ih =>
    intro data data' off s t d hl ht h
    simp only [decode_data_mapped] at h ⊢
    cases hw : mem_write data off (s.read ps).1 with
    | none =>
      rw [hw] at h
      cases h
    | some data1 =>
      rw [hw] at h
      simp only [] at h
      obtain ⟨data1', hw', hl1, ht1⟩ := mem_write_congr hl ht hw
      rw [hw']
      simp only []
      by_cases hc : (s.read ps).1.length ≠ ps
      · rw [if_pos hc] at h
        cases h
      rw [if_neg hc] at h ⊢
      rw [index_after_write hw (by omega)] at h
      rw [index_after_write hw' (by omega)]
      simp only [] at h ⊢
      cases hg : try_get_color_from_map data1 off ((s.read ps).1.getD 0 0) map with
      | none =>
        rw [hg] at h
        cases h
      | some r =>
        obtain ⟨f, data2⟩ := r
        rw [hg] at h
        cases f with
        | false => cases h
        | true =>
          simp only [] at h
          obtain ⟨data2', hg', hl2, ht2⟩ :=
            try_get_color_congr hl1.symm (take_of_take ht1 (Nat.le_add_right _ _)).symm hg
          rw [hg']
          simp only []
          obtain ⟨d', hd', hdl, hdt⟩ := ih data2 data2' (off + map.bytes_per_entry)
            (s.read ps).2 t d hl2.symm ht2.symm h
          refine ⟨d', hd', hdl, ?_⟩
          rw [Nat.succ_mul, Nat.add_comm (c * map.bytes_per_entry), ← Nat.add_assoc]
          exact hdt

theorem rle_pixel_congr (ps des : Nat) (cm : Bool) (map : color_map) (b : Bool)
    (pbuf data data' : List Nat) (off : Nat) (s t : ifstream) (d : List Nat)
    (h1 : 1 ≤ ps) (hcm : cm = true → des = map.bytes_per_entry) (hnc : cm = false → ps = des)
    (hl : data.length = data'.length) (ht : data.take off = data'.take off)
    (h : decode_data_rle_pixel ps des cm map b pbuf data off s = some (TGA_NO_ERROR, d, t)) :
    ∃ d', decode_data_rle_pixel ps des cm map b pbuf data' off s = some (TGA_NO_ERROR, d', t) ∧
      d'.length = d.length ∧ d'.take (off + des) = d.take (off + des) := by
  unfold decode_data_rle_pixel at h ⊢
  cases b with
  | true =>
    simp only [if_true] at h ⊢
    cases hr : mem_read pbuf 0 des with
    | none =>
      rw [hr] at h
      cases h
    | some pixel =>
      rw [hr] at h
      simp only [] at h ⊢
      cases hw : mem_write data off pixel with
      | none =>
        rw [hw] at h
        cases h
      | some d1 =>
        rw [hw] at h
        simp only [Option.some.injEq, Prod.mk.injEq, true_and] at h
        obtain ⟨d1', hw', hl1, ht1⟩ := mem_write_congr hl ht hw
        rw [hw']
        rw [mem_read_length hr] at ht1
        rw [← h.1, ← h.2]
        exact ⟨d1', rfl, hl1, ht1⟩
  | false =>
    simp only [Bool.false_eq_true, if_false] at h ⊢
    cases hw : mem_write data off (s.read ps).1 with
    | none =>
      rw [hw] at h
      cases h
    | some d1 =>
      rw [hw] at h
      simp only [] at h
      obtain ⟨d1', hw', hl1, ht1⟩ := mem_write_congr hl ht hw
      rw [hw']
      simp only []
      by_cases h2 : (s.read ps).1.length ≠ ps
      · rw [if_pos h2] at h
        cases h
      rw [if_neg h2] at h ⊢
      by_cases hc : cm = true
      · rw [if_pos hc] at h ⊢
        rw [index_after_write hw (by omega)] at h
        rw [index_after_write hw' (by omega)]
        simp only [] at h ⊢
        cases hg : try_get_color_from_map d1 off ((s.read ps).1.getD 0 0) map with
        | none =>
          rw [hg] at h
          cases h
        | some r =>
          obtain ⟨f, d2⟩ := r
          rw [hg] at h
          cases f with
          | false => cases h
          | true =>
            simp only [Option.some.injEq, Prod.mk.injEq, true_and] at h
            obtain ⟨d2', hg', hl2, ht2⟩ :=
              try_get_color_congr hl1.symm (take_of_take ht1 (Nat.le_add_right _ _)).symm hg
            rw [hg']
            simp only []
            rw [← h.1, ← h.2, hcm hc]
            exact ⟨d2', rfl, hl2, ht2⟩
      · rw [if_neg hc] at h ⊢
        simp only [Option.some.injEq, Prod.mk.injEq, true_and] at h
        rw [← h.1, ← h.2]
        refine ⟨d1', rfl, hl1, ?_⟩
        have e : ps = des := hnc (by cases cm <;> simp_all)
        have e2 : (s.read ps).1.length = ps := by
          by_contra c
          exact h2 c
        rw [e2, e] at ht1
        exact ht1

theorem rle_loop_congr (ps des : Nat) (cm : Bool) (map : color_map)
    (h1 : 1 ≤ ps) (hcm : cm = true → des = map.bytes_per_entry) (hnc : cm = false → ps = des) :
    ∀ (c : Nat) (b : Bool) (pc : Nat) (pbuf data data' : List Nat) (off : Nat)
      (s t : ifstream) (d : List Nat),
      data.length = data'.length → data.take off = data'.take off →
      decode_data_rle_loop ps des cm map c b pc pbuf data off s = some (TGA_NO_ERROR, d, t) →
      ∃ d', decode_data_rle_loop ps des cm map c b pc pbuf data' off s =
          some (TGA_NO_ERROR, d', t) ∧
        d'.length = d.length ∧ d'.take (off + c * des) = d.take (off + c * des) := by
  intro c
  induction c with
  | zero =>
    intro b pc pbuf data data' off s t d hl ht h
    simp only [decode_data_rle_loop, Option.some.injEq, Prod.mk.injEq, true_and] at h
    rw [← h.1, ← h.2]
    refine ⟨data', rfl, hl.symm, ?_⟩
    rw [Nat.zero_mul, Nat.add_zero]
    exact ht.symm
  | succ c ih =>
    intro b pc pbuf data data' off s t d hl ht h
    simp only [decode_data_rle_loop] at h ⊢
    have hpk : ∀ e s1, (if pc = 0 then decode_data_rle_packet ps cm map pbuf s
        else some (.ok (b, pc, pbuf), s)) = some (.error e, s1) → e ≠ TGA_NO_ERROR := by
      intro e s1 hh
      by_cases h0 : pc = 0
      · rw [if_pos h0] at hh
        exact rle_packet_error_ne ps cm map pbuf s s1 e hh
      · rw [if_neg h0] at hh
        cases hh
    generalize (if pc = 0 then decode_data_rle_packet ps cm map pbuf s
      else some (.ok (b, pc, pbuf), s)) = pk at h hpk ⊢
    cases pk with
    | none => cases h
    | some r =>
      obtain ⟨x, s1⟩ := r
      cases x with
      | error e =>
        simp only [Option.some.injEq, Prod.mk.injEq] at h
        simp only []
        exact absurd h.1 (hpk e s1 rfl)
      | ok v =>
        obtain ⟨b1, pc1, pb1⟩ := v
        simp only [] at h ⊢
        cases hp : decode_data_rle_pixel ps des cm map b1 pb1 data off s1 with
        | none =>
          rw [hp] at h
          cases h
        | some r2 =>
          obtain ⟨e2, d2, s2⟩ := r2
          rw [hp] at h
          simp only [] at h
          by_cases he : e2 ≠ TGA_NO_ERROR
          · rw [if_pos he] at h
            simp only [Option.some.injEq, Prod.mk.injEq] at h
            exact absurd h.1 he
          rw [if_neg he] at h
          have he2 : e2 = TGA_NO_ERROR := by
            by_contra c2
            exact he c2
          subst he2
          obtain ⟨d2', hp', hl2, ht2⟩ := rle_pixel_congr ps des cm map b1 pb1 data data' off
            s1 s2 d2 h1 hcm hnc hl ht hp
          rw [hp']
          simp only []
          rw [if_neg he]
          obtain ⟨d', hd', hdl, hdt⟩ := ih b1 ((pc1 + 255) % 256) pb1 d2 d2' (off + des)
            s2 t d hl2.symm ht2.symm h
          refine ⟨d', hd', hdl, ?_⟩
          rw [Nat.succ_mul, Nat.add_comm (c * des), ← Nat.add_assoc]
          exact hdt

theorem eq_of_take_length {d d' : List Nat} {n : Nat} (hl : d'.length = d.length)
    (hn : d.length ≤ n) (ht : d'.take n = d.take n) : d' = d := by
  rw [List.take_of_length_le (by omega), List.take_of_length_le hn] at ht
  exact ht

theorem load_decode_congr {img : Image} {header : tga_header} (hp : header_passes img header)
    (cmap : color_map) (s t : ifstream) (d : List Nat)
    (hc : IS_COLOR_MAPPED header = true →
      cmap.bytes_per_entry = (BITS_TO_BYTES header.map_entry_size % 256).toNat)
    (h : (img.with_header header).load_decode header cmap s = some (TGA_NO_ERROR, d, t))
    (data' : List Nat) :
    (Image.with_header ⟨data', img.img_info, img.err⟩ header).load_decode header cmap s =
      some (TGA_NO_ERROR, d, t) := by
  obtain ⟨p1, p2, p3, p4, p5⟩ := passes_sizes hp
  have hlen := load_decode_length h
  unfold Image.load_decode at h ⊢
  simp only [] at h ⊢
  have hf : (Image.with_header ⟨data', img.img_info, img.err⟩ header).img_info =
      (img.with_header header).img_info := rfl
  rw [hf]
  generalize hfm : (img.with_header header).img_info.pixel_format = fmt at *
  have hw : (img.with_header header).img_info.width = header.image_width := rfl
  have hh : (img.with_header header).img_info.height = header.image_height := rfl
  generalize hdata : vector_resize (img.with_header header).data
    (header.image_width * header.image_height * (pixel_format_to_pixel_size fmt).toNat) = a at h
  generalize hdata' : vector_resize (Image.with_header ⟨data', img.img_info, img.err⟩ header).data
    (header.image_width * header.image_height * (pixel_format_to_pixel_size fmt).toNat) = a'
  have hal : a.length = a'.length := by
    rw [← hdata, ← hdata', vector_resize_length, vector_resize_length]
  have hat : a.take 0 = a'.take 0 := rfl
  by_cases hr : IS_RLE header = true
  · rw [if_pos hr] at h ⊢
    unfold decode_data_rle at h ⊢
    simp only [hw, hh, hfm, p2] at h ⊢
    obtain ⟨d', hd', hl', ht'⟩ := rle_loop_congr _ _ (IS_COLOR_MAPPED header) cmap p1
      (fun c => by rw [hc c]; exact ((p4 c).2).symm) p5 _ _ _ _ a a' 0 s t d hal hat h
    rw [hd', eq_of_take_length hl' (by omega) ht']
  · rw [if_neg hr] at h ⊢
    unfold decode_data at h ⊢
    simp only [hw, hh] at h ⊢
    by_cases hm : IS_COLOR_MAPPED header = true
    · obtain ⟨q1, q2⟩ := p4 hm
      rw [if_pos hm] at h ⊢
      obtain ⟨d', hd', hl', ht'⟩ := decode_data_mapped_congr _ cmap p1 _ a a' 0 s t d hal hat h
      rw [hd', eq_of_take_length hl' (by rw [hc hm, q2]; omega) ht']
    · have hm' : IS_COLOR_MAPPED header = false := by
        cases hx : IS_COLOR_MAPPED header
        · rfl
        · exact absurd hx hm
      have q := p5 hm'
      rw [if_neg hm] at h ⊢
      cases hw1 : mem_write a 0 (s.read (header.image_width *
        header.image_height * (BITS_TO_BYTES header.pixel_depth % 256).toNat)).1 with
      | none =>
        rw [hw1] at h
        cases h
      | some d1 =>
        rw [hw1] at h
        simp only [] at h
        obtain ⟨d1', hw1', hl1, ht1⟩ := mem_write_congr hal hat hw1
        rw [hw1']
        simp only []
        by_cases hx : (s.read (header.image_width *
          header.image_height * (BITS_TO_BYTES header.pixel_depth % 256).toNat)).1.length ≠
          header.image_width * header.image_height *
            (BITS_TO_BYTES header.pixel_depth % 256).toNat
        · rw [if_pos hx] at h
          cases h
        · rw [if_neg hx] at h ⊢
          simp only [Option.some.injEq, Prod.mk.injEq, true_and] at h
          have hx2 := not_not.mp hx
          rw [hx2, Nat.zero_add] at ht1
          rw [← h.1, ← h.2]
          rw [← h.1] at hlen
          rw [eq_of_take_length hl1 (by rw [q]; omega) ht1]

theorem decode_data_complete (data : List Nat) (info : tga_info) (ps des : Nat) (cm : Bool)
    (map : color_map) (s : ifstream) (pixels : List (List Nat)) (outs rest : List Nat)
    (h1 : 1 ≤ ps) (hcm : cm = true → ps ≤ map.bytes_per_entry ∧ map.bytes_per_entry = des)
    (hncm : cm = false → ps = des)
    (hpx : ∀ px ∈ pixels, px.length = ps)
    (hcount : pixels.length = info.width * info.height)
    (hout : stored_pixels_output cm map pixels = some outs)
    (hdata : data.length = info.width * info.height * des)
    (hs : stream_at s (pixels.flatten ++ rest)) :
    ∃ t, decode_data data info ps cm map s = some (TGA_NO_ERROR, outs, t) := by
  cases cm with
  | false =>
    have e := hncm rfl
    rw [stored_pixels_output_plain] at hout
    simp only [Option.some.injEq] at hout
    have hfl : pixels.flatten.length = info.width * info.height * ps := by
      rw [flatten_length_of_chunks _ ps hpx, hcount]
    rw [decode_data_raw_at data info ps map s _ rest hs hfl (by rw [hdata, e])]
    rw [List.drop_of_length_le (by rw [hdata, e]), List.append_nil, hout]
    exact ⟨_, rfl⟩
  | true =>
    obtain ⟨hb1, hb2⟩ := hcm rfl
    have hU := decode_data_mapped_pixels ps map h1 hb1 pixels [] data rest s hs hpx
      (by rw [hcount, hdata, hb2])
    simp only [List.nil_append, List.length_nil, hcount, hout] at hU
    simp only [decode_data, if_true]
    rw [hU, List.drop_of_length_le (by rw [hdata, hb2]), List.append_nil]
    exact ⟨_, rfl⟩

/-- On a stream that holds the `width * height` stored pixels (uncompressed types), or
well-formed packets that stand for them (run-length types), the decoder that `load` calls
returns `TGA_NO_ERROR` with the output bytes of the pixels as buffer, when every color-map
entry it needs lies inside the color map. -/
theorem load_decode_complete {img : Image} {header : tga_header}
    (hp : header_passes img header) (cmap : color_map) (s : ifstream)
    (hc : IS_COLOR_MAPPED header = true →
      cmap.bytes_per_entry = (BITS_TO_BYTES header.map_entry_size % 256).toNat)
    (pixels : List (List Nat)) (outs rest : List Nat)
    (hpx : ∀ px ∈ pixels, px.length = (BITS_TO_BYTES header.pixel_depth % 256).toNat)
    (hcount : pixels.length = header.image_width * header.image_height)
    (hout : stored_pixels_output (IS_COLOR_MAPPED header) cmap pixels = some outs) :
    outs.length = header.image_width * header.image_height *
      (pixel_format_to_pixel_size (img.with_header header).img_info.pixel_format).toNat ∧
    (IS_RLE header = false → stream_at s (pixels.flatten ++ rest) →
      ∃ t, (img.with_header header).load_decode header cmap s = some (TGA_NO_ERROR, outs, t)) ∧
    (IS_RLE header = true → ∀ packets : List rle_packet,
      (∀ p ∈ packets, p.wf (BITS_TO_BYTES header.pixel_depth % 256).toNat = true) →
      packets.flatMap rle_packet.expand = pixels →
      stream_at s (packets.flatMap rle_packet.encode ++ rest) →
      ∃ t, (img.with_header header).load_decode header cmap s = some (TGA_NO_ERROR, outs, t)) := by
  obtain ⟨p1, p2, p3, p4, p5⟩ := passes_sizes hp
  generalize hfm : (img.with_header header).img_info.pixel_format = fmt at *
  have hw : (img.with_header header).img_info.width = header.image_width := rfl
  have hh : (img.with_header header).img_info.height = header.image_height := rfl
  have hcmdes : IS_COLOR_MAPPED header = true →
      cmap.bytes_per_entry = (pixel_format_to_pixel_size fmt).toNat :=
    fun c => by rw [hc c]; exact (p4 c).2
  have hol : outs.length = header.image_width * header.image_height *
      (pixel_format_to_pixel_size fmt).toNat := by
    rw [stored_pixels_output_length (IS_COLOR_MAPPED header) cmap
      (pixel_format_to_pixel_size fmt).toNat hcmdes pixels outs
      (fun px hx c => by rw [hpx px hx]; exact p5 c) hout, hcount]
  have hdl : (vector_resize (img.with_header header).data (header.image_width *
      header.image_height * (pixel_format_to_pixel_size fmt).toNat)).length =
      header.image_width * header.image_height * (pixel_format_to_pixel_size fmt).toNat :=
    vector_resize_length _ _
  generalize hg : vector_resize (img.with_header header).data (header.image_width *
      header.image_height * (pixel_format_to_pixel_size fmt).toNat) = data at hdl
  have hcm2 : IS_COLOR_MAPPED header = true →
      (BITS_TO_BYTES header.pixel_depth % 256).toNat ≤ cmap.bytes_per_entry ∧
        cmap.bytes_per_entry = (pixel_format_to_pixel_size fmt).toNat := by
    intro c
    have e := hcmdes c
    have e1 := (p4 c).1
    exact ⟨by omega, e⟩
  have hraw : ∀ sU : ifstream, stream_at sU (pixels.flatten ++ rest) →
      ∃ t, decode_data data (img.with_header header).img_info
        (BITS_TO_BYTES header.pixel_depth % 256).toNat (IS_COLOR_MAPPED header) cmap sU =
        some (TGA_NO_ERROR, outs, t) :=
    fun sU hsU => decode_data_complete data _ _ (pixel_format_to_pixel_size fmt).toNat _ cmap sU
      pixels outs rest p1 hcm2 p5 hpx (by rw [hcount]; rfl) hout (by rw [hdl]; rfl) hsU
  refine ⟨hol, ?_, ?_⟩
  · intro hr hs
    unfold Image.load_decode
    simp only []
    rw [if_neg (by rw [hr]; simp), hfm, hg]
    exact hraw s hs
  · intro hr packets hwf hexp hs
    unfold Image.load_decode
    simp only []
    rw [if_pos hr, hfm, hg]
    obtain ⟨t, ht⟩ := hraw ⟨pixels.flatten ++ rest, 0, false⟩ ⟨rfl, rfl⟩
    have hinfo : (img.with_header header).img_info.pixel_format = fmt := hfm
    have heq := decode_rle_eq_raw data (img.with_header header).img_info
      (BITS_TO_BYTES header.pixel_depth % 256).toNat (IS_COLOR_MAPPED header) cmap packets rest
      s ⟨pixels.flatten ++ rest, 0, false⟩ hs (by rw [hexp]; exact ⟨rfl, rfl⟩) hwf
      (by rw [hexp, hcount]; rfl) p1 (by rw [hinfo]; exact p2) (by rw [hinfo]; exact hcm2)
      (by rw [hinfo]; exact p5) (by rw [hinfo]; exact hdl)
    rw [ht] at heq
    cases hd : decode_data_rle data (img.with_header header).img_info
        (BITS_TO_BYTES header.pixel_depth % 256).toNat (IS_COLOR_MAPPED header) cmap s with
    | none => rw [hd] at heq; cases heq
    | some r =>
      obtain ⟨e, d, t2⟩ := r
      rw [hd] at heq
      simp only [Option.map_some', Option.some.injEq, Prod.mk.injEq] at heq
      exact ⟨t2, by rw [heq.1, heq.2]⟩

theorem bits_to_bytes_ceil (n : Nat) (h1 : 1 ≤ n) (h2 : n ≤ 255) :
    (BITS_TO_BYTES n % 256).toNat = (n + 7) / 8 := by
  unfold BITS_TO_BYTES
  rw [Int.tdiv_eq_ediv] <;> omega

theorem set_pixel_format_bits (format : tga_pixel_format) (header : tga_header)
    (h : (set_pixel_format format header).2 = true) :
    (IS_COLOR_MAPPED header = true →
      1 ≤ header.map_entry_size ∧ header.map_entry_size ≤ 255) ∧
    (IS_COLOR_MAPPED header = false → 1 ≤ header.pixel_depth ∧ header.pixel_depth ≤ 255) := by
  unfold set_pixel_format at h
  split_ifs at h with a1 a2 a3 a4 a5 a6 a7 a8 a9 a10 a11 a12 <;>
    first
    | (simp at h; done)
    | (constructor <;> intro hc <;> simp_all <;> omega)

/-- C23. For a header that passes the checks of `load` and the pixel format resolver, the
number of bytes the decoders write per pixel equals `pixel_format_to_pixel_size` of the
resolved format: for a color-mapped type it is `BITS_TO_BYTES(map_entry_size)`, the
`bytes_per_entry` of the color map, which is `ceil(map_entry_size / 8)`; for the other types
it is `BITS_TO_BYTES(pixel_depth)`, which is `ceil(pixel_depth / 8)` (parts 1 and 2).

Hence no write of `decode_data` or `decode_data_rle` leaves the buffer of `width * height *
pixel_size` bytes that `load` allocated.  Part 3: for every color map, of any number of
entries, and every stream, the decoder call of `load` returns with a buffer of that length;
the one exception is a color-mapped image whose run stops at the lookup of an index byte
that reads outside the color map (the read side of the lookup): cut behind that byte the
stream gives no result, cut before it the decoder returns.  No run stops at a write.
Part 4: with the color map vector followed by whatever bytes lie behind it in memory, far
enough for every 16-bit index, the call returns with a buffer of that length, and with the
result of the run on the color map alone wherever that one is defined: the writes stay
inside the buffer also when a lookup reads beyond the color map.  Part 5: when the decoder
returns `TGA_NO_ERROR` the buffer does not depend on what it held before the call, each of
its bytes has been written.  Part 6: on a stream that holds the `width * height` stored
pixels, or well-formed packets for them, whose color-map entries lie inside the color map,
the decoder returns `TGA_NO_ERROR` and the buffer is the `width * height * pixel_size`
output bytes of the pixels. -/
theorem C23_decoder_write_width (img : Image) (header : tga_header)
    (hp : header_passes img header) :
    (IS_COLOR_MAPPED header = true →
      (BITS_TO_BYTES header.map_entry_size % 256).toNat = (header.map_entry_size + 7) / 8 ∧
      (BITS_TO_BYTES header.map_entry_size % 256).toNat =
        (pixel_format_to_pixel_size (img.with_header header).img_info.pixel_format).toNat) ∧
    (IS_COLOR_MAPPED header = false →
      (BITS_TO_BYTES header.pixel_depth % 256).toNat = (header.pixel_depth + 7) / 8 ∧
      (BITS_TO_BYTES header.pixel_depth % 256).toNat =
        (pixel_format_to_pixel_size (img.with_header header).img_info.pixel_format).toNat) ∧
    (∀ (cmap : color_map) (s : ifstream),
      (IS_COLOR_MAPPED header = true →
        cmap.bytes_per_entry = (BITS_TO_BYTES header.map_entry_size % 256).toNat) →
      (∃ e d t, (img.with_header header).load_decode header cmap s = some (e, d, t) ∧
        d.length = header.image_width * header.image_height *
          (pixel_format_to_pixel_size (img.with_header header).img_info.pixel_format).toNat) ∨
      (IS_COLOR_MAPPED header = true ∧
        stops_at_lookup (fun t => (img.with_header header).load_decode header cmap t)
          cmap s)) ∧
    (∀ (cmap : color_map) (heap : List Nat) (s : ifstream),
      (IS_COLOR_MAPPED header = true →
        cmap.bytes_per_entry = (BITS_TO_BYTES header.map_entry_size % 256).toNat) →
      65536 * cmap.bytes_per_entry ≤ cmap.pixels.length + heap.length →
      ∃ e d t,
        (img.with_header header).load_decode header (cmap.followed_by heap) s =
          some (e, d, t) ∧
        d.length = header.image_width * header.image_height *
          (pixel_format_to_pixel_size (img.with_header header).img_info.pixel_format).toNat ∧
        ∀ r, (img.with_header header).load_decode header cmap s = some r → r = (e, d, t)) ∧
    (∀ (cmap : color_map) (s t : ifstream) (d : List Nat),
      (IS_COLOR_MAPPED header = true →
        cmap.bytes_per_entry = (BITS_TO_BYTES header.map_entry_size % 256).toNat) →
      (img.with_header header).load_decode header cmap s = some (TGA_NO_ERROR, d, t) →
      ∀ data1 : List Nat,
        (Image.with_header ⟨data1, img.img_info, img.err⟩ header).load_decode header cmap s =
          some (TGA_NO_ERROR, d, t)) ∧
    (∀ (cmap : color_map) (s : ifstream) (pixels : List (List Nat)) (outs rest : List Nat),
      (IS_COLOR_MAPPED header = true →
        cmap.bytes_per_entry = (BITS_TO_BYTES header.map_entry_size % 256).toNat) →
      (∀ px ∈ pixels, px.length = (BITS_TO_BYTES header.pixel_depth % 256).toNat) →
      pixels.length = header.image_width * header.image_height →
      stored_pixels_output (IS_COLOR_MAPPED header) cmap pixels = some outs →
      outs.length = header.image_width * header.image_height *
        (pixel_format_to_pixel_size (img.with_header header).img_info.pixel_format).toNat ∧
      (IS_RLE header = false → stream_at s (pixels.flatten ++ rest) →
        ∃ t, (img.with_header header).load_decode header cmap s =
          some (TGA_NO_ERROR, outs, t)) ∧
      (IS_RLE header = true → ∀ packets : List rle_packet,
        (∀ p ∈ packets, p.wf (BITS_TO_BYTES header.pixel_depth % 256).toNat = true) →
        packets.flatMap rle_packet.expand = pixels →
        stream_at s (packets.flatMap rle_packet.encode ++ rest) →
        ∃ t, (img.with_header header).load_decode header cmap s =
          some (TGA_NO_ERROR, outs, t))) := by
  obtain ⟨_, _, _, p4, p5⟩ := passes_sizes hp
  obtain ⟨b1, b2⟩ := set_pixel_format_bits _ _ hp.2.2.2.2
  refine ⟨fun c => ⟨bits_to_bytes_ceil _ (b1 c).1 (b1 c).2, (p4 c).2⟩,
    fun c => ⟨bits_to_bytes_ceil _ (b2 c).1 (b2 c).2, p5 c⟩, ?_, ?_, ?_, ?_⟩
  · intro cmap s hc
    rcases load_decode_stops hp cmap s hc with ⟨e, d, t, h⟩ | h
    · exact Or.inl ⟨e, d, t, h, load_decode_length h⟩
    · exact Or.inr h
  · intro cmap heap s hc hbig
    obtain ⟨e, d, t, h⟩ := load_decode_padded hp cmap heap s hc hbig
    refine ⟨e, d, t, h, load_decode_length h, fun r hr => ?_⟩
    have := load_decode_followed _ header cmap heap s r hr
    rw [h] at this
    exact (Option.some.inj this).symm
  · intro cmap s t d hc h data1
    exact load_decode_congr hp cmap s t d hc h data1
  · intro cmap s pixels outs rest hc hpx hcount hout
    exact load_decode_complete hp cmap s hc pixels outs rest hpx hcount hout

/-- C23, at the header of a 2 x 2 color-mapped image with a two-entry 24-bit color map: the
decoder returns `TGA_NO_ERROR` on the index bytes 0, 1, 1, 0 with the 12 bytes of the four
entries as buffer. -/
theorem C23_decoder_write_width_witness :
    header_passes ⟨[], ⟨0, 0, 0⟩, TGA_NO_ERROR⟩ ⟨0, 1, 1, 0, 2, 24, 0, 0, 2, 2, 8, 0x20⟩ ∧
    (BITS_TO_BYTES 24 % 256).toNat = 3 ∧
    ∃ t,
      (Image.with_header ⟨[], ⟨0, 0, 0⟩, TGA_NO_ERROR⟩
          ⟨0, 1, 1, 0, 2, 24, 0, 0, 2, 2, 8, 0x20⟩).load_decode
        ⟨0, 1, 1, 0, 2, 24, 0, 0, 2, 2, 8, 0x20⟩ ⟨0, 2, 3, [10, 11, 12, 20, 21, 22]⟩
        ⟨[0, 1, 1, 0], 0, false⟩ =
      some (TGA_NO_ERROR, [10, 11, 12, 20, 21, 22, 20, 21, 22, 10, 11, 12], t) :=
  have hp : header_passes ⟨[], ⟨0, 0, 0⟩, TGA_NO_ERROR⟩
      ⟨0, 1, 1, 0, 2, 24, 0, 0, 2, 2, 8, 0x20⟩ := by
    unfold header_passes
    decide
  ⟨hp, by decide,
    ((C23_decoder_write_width ⟨[], ⟨0, 0, 0⟩, TGA_NO_ERROR⟩
      ⟨0, 1, 1, 0, 2, 24, 0, 0, 2, 2, 8, 0x20⟩ hp).2.2.2.2.2
      ⟨0, 2, 3, [10, 11, 12, 20, 21, 22]⟩ ⟨[0, 1, 1, 0], 0, false⟩ [[0], [1], [1], [0]]
      [10, 11, 12, 20, 21, 22, 20, 21, 22, 10, 11, 12] [] (fun _ => by decide) (by decide)
      (by decide) (by decide)).2.1 (by decide) ⟨rfl, rfl⟩⟩

/-! ## C3: both loads return -/

theorem load_flips_total (img : Image) (d ps : Nat)
    (hps : pixel_format_to_pixel_size img.img_info.pixel_format = (ps : Int))
    (h1 : 1 ≤ ps) (h4 : ps ≤ 4)
    (hlen : img.data.length = img.img_info.width * img.img_info.height * ps)
    (hno : img.img_info.width * img.img_info.height * ps ≤ 2 ^ 31) :
    ∃ img', img.load_flips d = some img' := by
  unfold Image.load_flips
  simp only []
  have s1 : ∃ img1, (if ((d &&& 0x10) != 0) = true then img.flip_h else some img) = some img1 ∧
      img1.img_info = img.img_info ∧ img1.data.length = img.data.length := by
    by_cases c : ((d &&& 0x10) != 0) = true
    · rw [if_pos c]
      obtain ⟨i1, hi1⟩ := flip_h_total img ps hps h1 h4 hlen hno
      exact ⟨i1, hi1, (flip_h_info hi1).1, flip_h_length hi1⟩
    · rw [if_neg c]
      exact ⟨img, rfl, rfl, rfl⟩
  obtain ⟨img1, e1, hinfo, hl1⟩ := s1
  rw [e1]
  simp only []
  by_cases c : (!((d &&& 0x20) != 0)) = true
  · rw [if_pos c]
    exact flip_v_total img1 ps (by rw [hinfo]; exact hps) h1 h4 (by rw [hl1, hinfo]; exact hlen)
      (by rw [hinfo]; exact hno)
  · rw [if_neg c]
    exact ⟨img1, rfl⟩

theorem resolver_entry_bits {t d m : Nat} {f : tga_pixel_format}
    (h : resolver_table t d m = some f) (ht : t = 1 ∨ t = 9) : 1 ≤ m ∧ m ≤ 255 := by
  unfold resolver_table at h
  split_ifs at h <;> omega

theorem stored_pixels_output_defined (cm : Bool) (map : color_map) (pxs : List (List Nat))
    (h : ∀ px ∈ pxs, ∃ out, stored_pixel_output cm map px = some out) :
    ∃ outs, stored_pixels_output cm map pxs = some outs := by
  induction pxs with
  | nil => exact ⟨[], rfl⟩
  | cons px pxs ih =>
    obtain ⟨out, ho⟩ := h px (List.mem_cons_self _ _)
    obtain ⟨outs, hos⟩ := ih (fun p hp => h p (List.mem_cons_of_mem _ hp))
    simp only [stored_pixels_output, ho, hos]
    exact ⟨_, rfl⟩

theorem stored_pixel_output_defined (map : color_map) (px : List Nat)
    (hmap : map.entry_count * map.bytes_per_entry ≤ map.pixels.length)
    (h1 : map.first_index ≤ px.getD 0 0)
    (h2 : px.getD 0 0 < map.first_index + map.entry_count) (h3 : px.getD 0 0 < 256) :
    ∃ out, stored_pixel_output true map px = some out := by
  have hj : ((((px.getD 0 0 : Nat) : Int) - (map.first_index : Int)) % 65536).toNat =
      px.getD 0 0 - map.first_index := by omega
  have hle : map.bytes_per_entry * (px.getD 0 0 - map.first_index) + map.bytes_per_entry ≤
      map.pixels.length := by
    have : (px.getD 0 0 - map.first_index) + 1 ≤ map.entry_count := by omega
    calc map.bytes_per_entry * (px.getD 0 0 - map.first_index) + map.bytes_per_entry
        = (px.getD 0 0 - map.first_index + 1) * map.bytes_per_entry := by ring
      _ ≤ map.entry_count * map.bytes_per_entry := Nat.mul_le_mul_right _ this
      _ ≤ map.pixels.length := hmap
  simp only [stored_pixel_output, if_true, hj, mem_read, hle]
  exact ⟨_, rfl⟩

/-- A complete uncompressed file whose stored indices select entries of its color map, and
whose buffer does not exceed `2^31` bytes, is loaded: `load` returns `true`. -/
theorem load_raw_returns (strict : Bool) (img : Image) (hdr mid tail : List Nat)
    (pixels : List (List Nat))
    (hl : hdr.length = 18)
    (ht : hdr.getD 2 0 ∈ [1, 2, 3])
    (hv : header_verdict hdr = none)
    (hmid : mid.length = (parse_header hdr).id_length + color_map_block (parse_header hdr))
    (hpx : ∀ px ∈ pixels, px.length = (BITS_TO_BYTES (hdr.getD 16 0) % 256).toNat)
    (hcount : pixels.length = (parse_header hdr).image_width * (parse_header hdr).image_height)
    (hin : IS_COLOR_MAPPED (parse_header hdr) = true → ∀ px ∈ pixels,
      (parse_header hdr).map_first_entry ≤ px.getD 0 0 ∧
      px.getD 0 0 < (parse_header hdr).map_first_entry + (parse_header hdr).map_length ∧
      px.getD 0 0 < 256)
    (hsize : (parse_header hdr).image_width * (parse_header hdr).image_height *
      (pixel_format_to_pixel_size (header_info img (parse_header hdr)).pixel_format).toNat ≤
        2 ^ 31) :
    ∃ img', Image.load strict img (some (hdr ++ mid ++ pixels.flatten ++ tail)) =
        some (img', true) ∧
      img'.err = TGA_NO_ERROR ∧ img'.img_info = header_info img (parse_header hdr) ∧
      img'.data.length = (parse_header hdr).image_width * (parse_header hdr).image_height *
        (pixel_format_to_pixel_size (header_info img (parse_header hdr)).pixel_format).toNat := by
  obtain ⟨_, hmt, hty, hw0, hh0, f, hres⟩ := header_verdict_none hv
  have htU : (parse_header hdr).image_type = hdr.getD 2 0 := rfl
  have hdU : (parse_header hdr).pixel_depth = hdr.getD 16 0 := rfl
  have hpU : parse_header (hdr ++ mid ++ pixels.flatten ++ tail) = parse_header hdr := by
    rw [List.append_assoc, List.append_assoc]
    exact parse_header_append hdr _ hl
  have ht3 : hdr.getD 2 0 = 1 ∨ hdr.getD 2 0 = 2 ∨ hdr.getD 2 0 = 3 := by
    simpa using ht
  have hrleU : IS_RLE (parse_header hdr) = false := by
    simp only [IS_RLE, htU]
    rcases ht3 with h | h | h <;> rw [h] <;> rfl
  have hcmU : IS_COLOR_MAPPED (parse_header hdr) = true ↔
      ((parse_header hdr).image_type = 1 ∨ (parse_header hdr).image_type = 9) := by
    simp [IS_COLOR_MAPPED]
  have hlenU : 18 ≤ (hdr ++ mid ++ pixels.flatten ++ tail).length := by
    simp only [List.length_append, hl]; omega
  have hvU : header_verdict (hdr ++ mid ++ pixels.flatten ++ tail) = none := by
    rw [header_verdict_congr _ hdr hlenU (by omega) hpU, hv]
  have hoffU : data_offset (parse_header hdr) = 18 + mid.length := by
    unfold data_offset; omega
  have hfmt : (header_info img (parse_header hdr)).pixel_format = f := by
    unfold header_info
    rw [hres]
    rfl
  rw [hfmt] at hsize ⊢
  obtain ⟨a1, a2, a3, a4, a5⟩ := accepted_sizes hres
  have hf4 : f ≤ 4 := by
    have := set_pixel_format_eq_table img.img_info.pixel_format (parse_header hdr) hty
    rw [hres] at this
    have h2 := set_pixel_format_range img.img_info.pixel_format (parse_header hdr)
      (by rw [this])
    rw [this] at h2
    exact h2
  have hsU : stream_at ⟨hdr ++ mid ++ pixels.flatten ++ tail, 18 + mid.length, false⟩
      (pixels.flatten ++ tail) := by
    refine ⟨rfl, ?_⟩
    show List.drop (18 + mid.length) _ = _
    rw [List.append_assoc, List.append_assoc, ← List.append_assoc _ mid, List.drop_left']
    rw [List.length_append, hl]
  -- the stored pixels have an output
  have hout : ∃ outs, stored_pixels_output (IS_COLOR_MAPPED (parse_header hdr))
      (file_color_map (parse_header hdr) (hdr ++ mid ++ pixels.flatten ++ tail)
        (18 + (parse_header hdr).id_length)) pixels = some outs := by
    cases hc : IS_COLOR_MAPPED (parse_header hdr) with
    | false => exact ⟨_, stored_pixels_output_plain _ _⟩
    | true =>
      apply stored_pixels_output_defined
      intro px hp
      obtain ⟨i1, i2, i3⟩ := hin hc px hp
      have hbits := resolver_entry_bits hres (hcmU.mp hc)
      have hblock : color_map_block (parse_header hdr) = header_map_size (parse_header hdr) := by
        unfold color_map_block
        simp [hc]
      have hms := header_map_size_eq (parse_header hdr)
      rw [if_neg (by omega)] at hms
      have hbpe := bits_to_bytes_ceil (parse_header hdr).map_entry_size hbits.1 hbits.2
      apply stored_pixel_output_defined
      · simp only [file_color_map, hc, if_true, hbpe]
        rw [List.length_take, List.length_drop, ← hms]
        simp only [List.length_append, hl]
        omega
      · simp only [file_color_map, hc, if_true]
        exact i1
      · simp only [file_color_map, hc, if_true]
        exact i2
      · exact i3
  obtain ⟨outs, hout⟩ := hout
  have hcm2 : IS_COLOR_MAPPED (parse_header hdr) = true →
      (BITS_TO_BYTES (parse_header hdr).pixel_depth % 256).toNat ≤
        (file_color_map (parse_header hdr) (hdr ++ mid ++ pixels.flatten ++ tail)
          (18 + (parse_header hdr).id_length)).bytes_per_entry ∧
      (file_color_map (parse_header hdr) (hdr ++ mid ++ pixels.flatten ++ tail)
          (18 + (parse_header hdr).id_length)).bytes_per_entry =
        (pixel_format_to_pixel_size f).toNat := by
    intro hc
    obtain ⟨b1, b2⟩ := a4 (hcmU.mp hc)
    simp only [file_color_map, hc, if_true, b2, b1]
    exact ⟨a3, trivial⟩
  have hncm : IS_COLOR_MAPPED (parse_header hdr) = false →
      (BITS_TO_BYTES (parse_header hdr).pixel_depth % 256).toNat =
        (pixel_format_to_pixel_size f).toNat := by
    intro hc
    apply a5
    intro h
    rw [hcmU.mpr h] at hc
    cases hc
  obtain ⟨t, hdec⟩ := decode_data_complete
    (vector_resize img.data ((parse_header hdr).image_width * (parse_header hdr).image_height *
      (pixel_format_to_pixel_size f).toNat))
    (header_info img (parse_header hdr)) (BITS_TO_BYTES (parse_header hdr).pixel_depth % 256).toNat
    (pixel_format_to_pixel_size f).toNat (IS_COLOR_MAPPED (parse_header hdr))
    (file_color_map (parse_header hdr) (hdr ++ mid ++ pixels.flatten ++ tail)
      (18 + (parse_header hdr).id_length))
    ⟨hdr ++ mid ++ pixels.flatten ++ tail, 18 + mid.length, false⟩ pixels outs tail a1
    hcm2 hncm (by rw [hdU]; exact hpx) (by rw [hcount]; rfl) hout
    (by rw [vector_resize_length]; rfl) hsU
  have hol : outs.length = (parse_header hdr).image_width * (parse_header hdr).image_height *
      (pixel_format_to_pixel_size f).toNat := by
    rw [stored_pixels_output_length _ _ (pixel_format_to_pixel_size f).toNat
      (fun c => (hcm2 c).2) pixels outs
      (fun px hp c => by rw [hpx px hp, ← hdU]; exact hncm c) hout, hcount]
  rw [load_complete strict img _ hvU
    (by rw [hpU, hoffU]; simp only [List.length_append, hl]; omega), hpU, hoffU]
  unfold Image.load_decode
  simp only [hrleU, Bool.false_eq_true, if_false, hfmt]
  rw [hdec]
  simp only [Option.map_some', load_finish, ne_eq, not_true_eq_false, if_false]
  obtain ⟨ps, hps1, hps2⟩ : ∃ ps : Nat, pixel_format_to_pixel_size f = (ps : Int) ∧
      (pixel_format_to_pixel_size f).toNat = ps := by
    rcases toNat_pixel_size_cases hf4 with h | h | h | h
    · exact ⟨1, h.1, h.2⟩
    · exact ⟨2, h.1, h.2⟩
    · exact ⟨3, h.1, h.2⟩
    · exact ⟨4, h.1, h.2⟩
  have hps4 : ps ≤ 4 := by
    rcases toNat_pixel_size_cases hf4 with h | h | h | h <;> omega
  obtain ⟨img2, hfl⟩ := load_flips_total
    ⟨outs, header_info img (parse_header hdr), TGA_NO_ERROR⟩
    (parse_header hdr).image_descriptor ps (by rw [hfmt]; exact hps1) (by omega) hps4
    (by rw [← hps2]; exact hol) (by rw [← hps2]; exact hsize)
  rw [hfl]
  obtain ⟨i1, i2⟩ := load_flips_info hfl
  have i3 := load_flips_length hfl
  exact ⟨img2, rfl, i2, i1, by rw [i3]; exact hol⟩

/-- C3 (defect of the code). For an uncompressed image type `t` in {1, 2, 3}, an accepted
18-byte header `hdr` of that type, the ID field and color map block `mid` it announces, and
any well-formed packets whose expansion is the `width * height` stored pixels (packets are
not tied to rows), `load` of the file of type `t + 8` that carries the packets and `load` of
the file of type `t` that carries the expanded pixels are the same result.  When every
stored index of a color-mapped image selects an entry of the color map and the buffer has at
most `2^31` bytes, both loads return `true` with `TGA_NO_ERROR` and the same width, height,
pixel format and pixel buffer.  Where a stored index lies outside the color map the lookup
does not fail but copies from beyond the color map, so neither load has a defined result and
the two need not agree: so it is for the 2 x 1 image with a two-entry color map, first index
1, and the stored indices 1 and 20, uncompressed and as one raw packet. -/
theorem C3_rle_raw_agree :
    (∀ (strict : Bool) (img : Image) (hdr mid tail : List Nat) (packets : List rle_packet),
      hdr.length = 18 → hdr.getD 2 0 ∈ [1, 2, 3] → header_verdict hdr = none →
      mid.length = (parse_header hdr).id_length + color_map_block (parse_header hdr) →
      (∀ p ∈ packets, p.wf (BITS_TO_BYTES (hdr.getD 16 0) % 256).toNat = true) →
      (packets.flatMap rle_packet.expand).length =
        (parse_header hdr).image_width * (parse_header hdr).image_height →
      Image.load strict img
          (some (hdr.set 2 (hdr.getD 2 0 + 8) ++ mid ++ packets.flatMap rle_packet.encode ++
            tail)) =
        Image.load strict img
          (some (hdr ++ mid ++ (packets.flatMap rle_packet.expand).flatten ++ tail)) ∧
      ((IS_COLOR_MAPPED (parse_header hdr) = true → ∀ px ∈ packets.flatMap rle_packet.expand,
          (parse_header hdr).map_first_entry ≤ px.getD 0 0 ∧
          px.getD 0 0 < (parse_header hdr).map_first_entry + (parse_header hdr).map_length ∧
          px.getD 0 0 < 256) →
        (parse_header hdr).image_width * (parse_header hdr).image_height *
          (pixel_format_to_pixel_size (header_info img (parse_header hdr)).pixel_format).toNat ≤
            2 ^ 31 →
        ∃ img',
          Image.load strict img
              (some (hdr.set 2 (hdr.getD 2 0 + 8) ++ mid ++
                packets.flatMap rle_packet.encode ++ tail)) = some (img', true) ∧
          Image.load strict img
              (some (hdr ++ mid ++ (packets.flatMap rle_packet.expand).flatten ++ tail)) =
            some (img', true) ∧
          img'.err = TGA_NO_ERROR ∧ img'.img_info = header_info img (parse_header hdr) ∧
          img'.data.length = (parse_header hdr).image_width * (parse_header hdr).image_height *
            (pixel_format_to_pixel_size
              (header_info img (parse_header hdr)).pixel_format).toNat)) ∧
    header_verdict [0, 1, 1, 1, 0, 2, 0, 24, 0, 0, 0, 0, 2, 0, 1, 0, 8, 0x20] = none ∧
    Image.load false ⟨[], ⟨0, 0, 0⟩, TGA_NO_ERROR⟩
      (some ([0, 1, 1, 1, 0, 2, 0, 24, 0, 0, 0, 0, 2, 0, 1, 0, 8, 0x20] ++
        [10, 11, 12, 20, 21, 22] ++ [1, 20])) = none ∧
    Image.load false ⟨[], ⟨0, 0, 0⟩, TGA_NO_ERROR⟩
      (some ([0, 1, 9, 1, 0, 2, 0, 24, 0, 0, 0, 0, 2, 0, 1, 0, 8, 0x20] ++
        [10, 11, 12, 20, 21, 22] ++ rle_packet.encode (.raw [[1], [20]]))) = none := by
  refine ⟨?_, by decide, by decide, by decide⟩
  intro strict img hdr mid tail packets hl ht hv hmid hwf hcount
  have heq := load_rle_eq_raw strict img hdr mid tail packets hl ht hv hmid hwf hcount
  refine ⟨heq, fun hin hsize => ?_⟩
  obtain ⟨img', h1, h2, h3, h4⟩ := load_raw_returns strict img hdr mid tail
    (packets.flatMap rle_packet.expand) hl ht hv hmid (expand_pixel_length hwf) hcount hin hsize
  exact ⟨img', by rw [heq, h1], h1, h2, h3, h4⟩

/-- C3, at a 2 x 2 color-mapped image (type 1 against type 9) with a two-entry 24-bit color
map, stored bottom-up, as a two-pixel raw packet and a two-pixel run crossing no row: both
files are loaded, with the same image. -/
theorem C3_rle_raw_agree_witness :
    ∃ img',
      Image.load false ⟨[], ⟨0, 0, 0⟩, TGA_NO_ERROR⟩
          (some ([0, 1, 1, 0, 0, 2, 0, 24, 0, 0, 0, 0, 2, 0, 2, 0, 8, 0].set 2 (1 + 8) ++
            [10, 11, 12, 20, 21, 22] ++
            ([rle_packet.raw [[0], [1]], rle_packet.run 2 [1]]).flatMap rle_packet.encode ++
            [])) = some (img', true) ∧
      Image.load false ⟨[], ⟨0, 0, 0⟩, TGA_NO_ERROR⟩
          (some ([0, 1, 1, 0, 0, 2, 0, 24, 0, 0, 0, 0, 2, 0, 2, 0, 8, 0] ++
            [10, 11, 12, 20, 21, 22] ++
            (([rle_packet.raw [[0], [1]], rle_packet.run 2 [1]]).flatMap
              rle_packet.expand).flatten ++ [])) = some (img', true) ∧
      img'.err = TGA_NO_ERROR ∧ img'.img_info = ⟨2, 2, TGA_PIXEL_RGB24⟩ ∧
      img'.data.length = 2 * 2 * 3 :=
  (C3_rle_raw_agree.1 false ⟨[], ⟨0, 0, 0⟩, TGA_NO_ERROR⟩
    [0, 1, 1, 0, 0, 2, 0, 24, 0, 0, 0, 0, 2, 0, 2, 0, 8, 0] [10, 11, 12, 20, 21, 22] []
    [rle_packet.raw [[0], [1]], rle_packet.run 2 [1]] (by decide) (by decide) (by decide)
    (by decide) (by decide) (by decide)).2 (by decide) (by decide)

end tga
